import Mathlib

/-!
# Simple C compiler: types, scopes, checker, parsers and code generators

A shallow embedding of the type model (`lab4/phase4/Type.cpp`,
`lab5/phase5/Type.cpp`), the scope chain (`lab3/phase3/Scope.cpp`), the
semantic checker (`lab4/phase4/checker.cpp`, `lab3/phase3/checker.cpp`), the
parsers of phases 2, 3 and 4 and parts of the code generators of phases 5 and 6
of the Simple C compiler, followed by theorems about them.

Modelling conventions.

* `class Type` has private fields and no mutators; a value is built by one of
  its four constructors and each constructor sets exactly the fields of its
  declarator kind.  A `Ty` is therefore one of four variants carrying the
  fields its constructor sets.  The accessors `specifier()` and
  `indirection()` read an indeterminate field on an error type; they are
  given the value `0` there (the zero-initialised storage of the static
  `error` object), and no checking rule depends on it.
* `unsigned` counters are natural numbers with explicit reduction modulo
  `2 ^ 32` wherever the source does arithmetic on them.
* `report(format, arg)` belongs to the scanner, which is an external
  collaborator.  The diagnostic sink is the ordered list of the
  `(format, arg)` pairs it has been called with.
* The trace lines that `declareFunction` and `declareVariable` write to
  standard output are not diagnostics and are not part of the state.
* A `Scope *` is an index into the list of allocated scopes.  The loop of
  `Scope::lookup` follows enclosing pointers; it is given as many iterations
  as there are scopes, which suffices for every chain that ends in `nullptr`.
* The recursive-descent parsers (`lab2/phase2/parser.cpp`,
  `lab3/phase3/parser.cpp`, `lab4/phase4/parser.cpp`) are functions from the
  state of the parser to an outcome `Res`:
  a return, a call of `exit`, a null dereference, or the end of
  the fuel that bounds the depth of the calls and the rounds of the loops.  A
  reference parameter `bool &lvalue` is an argument and a component of the
  result.  The scanner is a list of tokens still to be returned.
* The code generators (`lab5/phase5/generator.cpp`,
  `lab6/phase6/generator.cpp`) are modelled as far as the frame size, the
  labels and the order of the emitted lines go; `int` arithmetic is checked
  (`int32`) and `unsigned` arithmetic stored in an `int` wraps (`toInt`).
-/

namespace SimpleC

/-! ## Token codes -/

/-- Modelled from the spec: `tokens.h` is not part of the sources; the
specifier tokens `CHAR`, `INT` and `DOUBLE` are three distinct integer codes
(the values follow the keyword enumeration that starts at 256).  Only their
distinctness is used. -/
def CHAR : Int := 259

/-- Modelled from the spec: token code of the `double` specifier, see `CHAR`. -/
def DOUBLE : Int := 264

/-- Modelled from the spec: token code of the `int` specifier, see `CHAR`. -/
def INT : Int := 272

/-! ## Types (`Type.h`, `Type.cpp`) -/

/-- The anonymous enumeration `enum {ARRAY, ERROR, FUNCTION, SCALAR}` of `class Type`. -/
inductive Declarator where
  | ARRAY
  | ERROR
  | FUNCTION
  | SCALAR
  deriving DecidableEq, Repr

/-- A value of `class Type`: the variant names the constructor that built it.
`error` is `Type()`, `scalar s i` is `Type(s, i)`, `array s i n` is
`Type(s, i, n)` and `function s i v ps` is `Type(s, i, parameters)` with
`parameters->variadic = v` and `parameters->types = ps`. -/
inductive Ty where
  | error : Ty
  | scalar (specifier : Int) (indirection : Nat) : Ty
  | array (specifier : Int) (indirection : Nat) (length : Nat) : Ty
  | function (specifier : Int) (indirection : Nat) (variadic : Bool) (types : List Ty) : Ty
  deriving Repr

instance : Inhabited Ty := ⟨Ty.error⟩

/-- The record `struct Parameters`. -/
structure Parameters where
  variadic : Bool
  types : List Ty

namespace Ty

/-- The field `_declarator`. -/
def declarator : Ty → Declarator
  | error => Declarator.ERROR
  | scalar _ _ => Declarator.SCALAR
  | array _ _ _ => Declarator.ARRAY
  | function _ _ _ _ => Declarator.FUNCTION

/-- The accessor `Type::specifier`. -/
def specifier : Ty → Int
  | error => 0
  | scalar s _ => s
  | array s _ _ => s
  | function s _ _ _ => s

/-- The accessor `Type::indirection`. -/
def indirection : Ty → Nat
  | error => 0
  | scalar _ i => i
  | array _ i _ => i
  | function _ i _ _ => i

/-- The accessor `Type::length` (the field `_length`); the source asserts
that the receiver is an array type, other receivers get `0`. -/
def length : Ty → Nat
  | array _ _ n => n
  | _ => 0

/-- The accessor `Type::parameters`; the source asserts that the receiver is
a function type, other receivers get the empty list. -/
def parameters : Ty → Parameters
  | function _ _ v ps => ⟨v, ps⟩
  | _ => ⟨false, []⟩

mutual
/-- The comparison `Type::operator ==`. -/
def eq : Ty → Ty → Bool
  | error, error => true
  | scalar s i, scalar s' i' => s == s' && i == i'
  | array s i n, array s' i' n' => s == s' && i == i' && n == n'
  | function s i v ps, function s' i' v' ps' =>
      s == s' && i == i' && v == v' && eqTypes ps ps'
  | _, _ => false
/-- The comparison of two `std::vector<Type>`: equal sizes and pairwise `==`. -/
def eqTypes : List Ty → List Ty → Bool
  | [], [] => true
  | a :: as, b :: bs => eq a b && eqTypes as bs
  | _, _ => false
end

mutual
/-- Equality of type values is decidable. -/
def decEq : (a b : Ty) → Decidable (a = b)
  | error, error => isTrue rfl
  | scalar s i, scalar s' i' =>
      if h : s = s' ∧ i = i' then isTrue (by rw [h.1, h.2])
      else isFalse (fun e => by cases e; exact h ⟨rfl, rfl⟩)
  | array s i n, array s' i' n' =>
      if h : s = s' ∧ i = i' ∧ n = n' then isTrue (by rw [h.1, h.2.1, h.2.2])
      else isFalse (fun e => by cases e; exact h ⟨rfl, rfl, rfl⟩)
  | function s i v ps, function s' i' v' ps' =>
      if h : s = s' ∧ i = i' ∧ v = v' then
        match decEqList ps ps' with
        | isTrue hp => isTrue (by rw [h.1, h.2.1, h.2.2, hp])
        | isFalse hp => isFalse (fun e => by cases e; exact hp rfl)
      else isFalse (fun e => by cases e; exact h ⟨rfl, rfl, rfl⟩)
  | error, scalar _ _ => isFalse nofun
  | error, array _ _ _ => isFalse nofun
  | error, function _ _ _ _ => isFalse nofun
  | scalar _ _, error => isFalse nofun
  | scalar _ _, array _ _ _ => isFalse nofun
  | scalar _ _, function _ _ _ _ => isFalse nofun
  | array _ _ _, error => isFalse nofun
  | array _ _ _, scalar _ _ => isFalse nofun
  | array _ _ _, function _ _ _ _ => isFalse nofun
  | function _ _ _ _, error => isFalse nofun
  | function _ _ _ _, scalar _ _ => isFalse nofun
  | function _ _ _ _, array _ _ _ => isFalse nofun
/-- Equality of lists of type values is decidable. -/
def decEqList : (as bs : List Ty) → Decidable (as = bs)
  | [], [] => isTrue rfl
  | [], _ :: _ => isFalse nofun
  | _ :: _, [] => isFalse nofun
  | a :: as, b :: bs =>
      match decEq a b, decEqList as bs with
      | isTrue h, isTrue hs => isTrue (by rw [h, hs])
      | isFalse h, _ => isFalse (fun e => by cases e; exact h rfl)
      | _, isFalse hs => isFalse (fun e => by cases e; exact hs rfl)
end

instance : DecidableEq Ty := decEq

/-- The comparison `Type::operator !=`. -/
def ne (a b : Ty) : Bool := !(eq a b)

/-- The predicate `Type::isArray`. -/
def isArray (t : Ty) : Bool := t.declarator == Declarator.ARRAY

/-- The predicate `Type::isScalar`. -/
def isScalar (t : Ty) : Bool := t.declarator == Declarator.SCALAR

/-- The predicate `Type::isFunction`. -/
def isFunction (t : Ty) : Bool := t.declarator == Declarator.FUNCTION

/-- The predicate `Type::isError`. -/
def isError (t : Ty) : Bool := t.declarator == Declarator.ERROR

/-- The operation `Type::promote` of phase 4. -/
def promote (t : Ty) : Ty :=
  if t.specifier == CHAR && t.indirection == 0 && t.declarator == Declarator.SCALAR then
    scalar INT 0
  else if t.declarator == Declarator.ARRAY then
    scalar t.specifier ((t.indirection + 1) % 2 ^ 32)
  else
    t

/-- The predicate `Type::isPredicate` of phase 4. -/
def isPredicate (t : Ty) : Bool :=
  t.declarator != Declarator.FUNCTION && t.declarator != Declarator.ERROR

/-- The predicate `Type::isNumeric` of phase 4. -/
def isNumeric (t : Ty) : Bool :=
  t.indirection == 0 && t.declarator == Declarator.SCALAR &&
    (t.specifier == INT || t.specifier == DOUBLE)

/-- The predicate `Type::isPointer` of phase 4. -/
def isPointer (t : Ty) : Bool :=
  t.declarator == Declarator.SCALAR && decide (t.indirection > 0)

/-- The predicate `Type::isInteger` of phase 4. -/
def isInteger (t : Ty) : Bool :=
  t.declarator == Declarator.SCALAR && t.specifier == INT && t.indirection == 0

/-- The predicate `Type::isDouble` of phase 4. -/
def isDouble (t : Ty) : Bool :=
  t.declarator == Declarator.SCALAR && t.specifier == DOUBLE && t.indirection == 0

/-- The predicate `Type::isCompatibleWith` of phase 4. -/
def isCompatibleWith (t that : Ty) : Bool :=
  if t.isNumeric && that.isNumeric then true
  else t.isPredicate && eq t.promote that.promote

end Ty

/-! ## The type predicates of phase 5 (`lab5/phase5/Type.cpp`) -/

namespace Phase5

/-- The predicate `Type::isPointer` of phase 5. -/
def isPointer (t : Ty) : Bool :=
  (t.declarator == Declarator.SCALAR && decide (t.indirection > 0)) ||
    t.declarator == Declarator.ARRAY

/-- The predicate `Type::isNumeric` of phase 5. -/
def isNumeric (t : Ty) : Bool :=
  t.declarator == Declarator.SCALAR && t.indirection == 0

/-- The predicate `Type::isPredicate` of phase 5. -/
def isPredicate (t : Ty) : Bool := isNumeric t || isPointer t

/-- The operation `Type::promote` of phase 5. -/
def promote (t : Ty) : Ty :=
  if t.declarator == Declarator.SCALAR && t.indirection == 0 && t.specifier == CHAR then
    Ty.scalar INT 0
  else if t.declarator == Declarator.ARRAY then
    Ty.scalar t.specifier ((t.indirection + 1) % 2 ^ 32)
  else
    t

/-- The predicate `Type::isCompatibleWith` of phase 5. -/
def isCompatibleWith (t that : Ty) : Bool :=
  if isNumeric t && isNumeric that then true
  else isPredicate t && Ty.eq (promote t) (promote that)

/-- The operation `Type::size` of phase 5: `none` when one of the two
assertions fails, otherwise the `unsigned` result (products are reduced
modulo `2 ^ 32`). -/
def size (t : Ty) : Option Nat :=
  if t.declarator == Declarator.FUNCTION then none
  else if t.declarator == Declarator.ERROR then none
  else if t.declarator == Declarator.SCALAR then
    if t.indirection > 0 then some 4
    else if t.specifier == INT then some 4
    else if t.specifier == DOUBLE then some 8
    else some 1
  else
    if t.indirection > 0 then some 4
    else if t.specifier == INT then some ((4 * t.length) % 2 ^ 32)
    else if t.specifier == DOUBLE then some ((8 * t.length) % 2 ^ 32)
    else some t.length

end Phase5

/-! ## Diagnostics -/

/-- One call `report(format, arg)` of the diagnostic sink. -/
structure Diagnostic where
  format : String
  arg : String
  deriving DecidableEq, Repr

/-- The diagnostic sink: the calls of `report` so far, oldest first. -/
abbrev Log := List Diagnostic

/-- Modelled from the spec: `report(format, arg)` is defined by the scanner,
which is not part of the sources; it prints one message and returns.  Here it
appends the call to the sink. -/
def report (format : String) (arg : String) (log : Log) : Log :=
  log ++ [⟨format, arg⟩]

/-! The message formats of `checker.cpp`. -/

def redefined : String := "redefinition of '%s'"
def redeclared : String := "redeclaration of '%s'"
def conflicting : String := "conflicting types for '%s'"
def undeclared : String := "'%s' undeclared"
def breaking : String := "break statement not within loop"
def return_type : String := "invalid return type"
def type_expression : String := "invalid type for test expression"
def lvalue_expression : String := "lvalue required in expression"
def invalid_binary_operands : String := "invalid operands to binary %s"
def invalid_unary_operands : String := "invalid operand to unary %s"
def invalid_operand_sizeof : String := "invalid operand in sizeof expression"
def invalid_operand_cast : String := "invalid operand in cast expression"
def object_not_function : String := "called object is not a function"
def invalid_arguments : String := "invalid arguments to called function"

/-- The static `error` of `checker.cpp`, a default-constructed type. -/
def error : Ty := Ty.error

/-- The static `integer` of `checker.cpp`, `Type(INT)`. -/
def integer : Ty := Ty.scalar INT 0

/-! ## Expression checks (`lab4/phase4/checker.cpp`) -/

/-- The function `checkLogical`: the result type and the diagnostic sink after the call. -/
def checkLogical (left right : Ty) (op : String) (log : Log) : Ty × Log :=
  if left.isError || right.isError then (error, log)
  else
    let leftProm := left.promote
    let rightProm := right.promote
    if leftProm.isPredicate && rightProm.isPredicate then (integer, log)
    else (error, report invalid_binary_operands op log)

/-- The function `checkEquality`: the result type and the diagnostic sink after the call. -/
def checkEquality (left right : Ty) (op : String) (log : Log) : Ty × Log :=
  if left.isError || right.isError then (error, log)
  else
    let leftProm := left.promote
    let rightProm := right.promote
    if leftProm.isCompatibleWith rightProm then (integer, log)
    else (error, report invalid_binary_operands op log)

/-- The function `checkRelational`: the result type and the diagnostic sink after the call. -/
def checkRelational (left right : Ty) (op : String) (log : Log) : Ty × Log :=
  if left.isError || right.isError then (error, log)
  else
    let leftProm := left.promote
    let rightProm := right.promote
    if leftProm.isCompatibleWith rightProm then (integer, log)
    else (error, report invalid_binary_operands op log)

/-- The function `checkAdd`: the result type and the diagnostic sink after the call. -/
def checkAdd (left right : Ty) (log : Log) : Ty × Log :=
  if left.isError || right.isError then (error, log)
  else
    let leftProm := left.promote
    let rightProm := right.promote
    if leftProm.isNumeric && rightProm.isNumeric then
      if leftProm.isDouble || rightProm.isDouble then (Ty.scalar DOUBLE 0, log)
      else (integer, log)
    else if leftProm.isPointer && rightProm.isInteger then
      (Ty.scalar leftProm.specifier leftProm.indirection, log)
    else if leftProm.isInteger && rightProm.isPointer then
      (Ty.scalar rightProm.specifier rightProm.indirection, log)
    else (error, report invalid_binary_operands "+" log)

/-- The function `checkMinus`: the result type and the diagnostic sink after the call. -/
def checkMinus (left right : Ty) (log : Log) : Ty × Log :=
  if left.isError || right.isError then (error, log)
  else
    let leftProm := left.promote
    let rightProm := right.promote
    if leftProm.isNumeric && rightProm.isNumeric then
      if leftProm.isDouble || rightProm.isDouble then (Ty.scalar DOUBLE 0, log)
      else (integer, log)
    else if leftProm.isPointer && rightProm.isInteger then
      (Ty.scalar leftProm.specifier leftProm.indirection, log)
    else if leftProm.isPointer && Ty.eq leftProm rightProm then (integer, log)
    else (error, report invalid_binary_operands "-" log)

/-- The function `checkMultiply`: the result type and the diagnostic sink after the call. -/
def checkMultiply (left right : Ty) (log : Log) : Ty × Log :=
  if left.isError || right.isError then (error, log)
  else
    let leftProm := left.promote
    let rightProm := right.promote
    if leftProm.isNumeric && rightProm.isNumeric then
      if leftProm.isDouble || rightProm.isDouble then (Ty.scalar DOUBLE 0, log)
      else (integer, log)
    else (error, report invalid_binary_operands "*" log)

/-- The function `checkDivide`: the result type and the diagnostic sink after the call. -/
def checkDivide (left right : Ty) (log : Log) : Ty × Log :=
  if left.isError || right.isError then (error, log)
  else
    let leftProm := left.promote
    let rightProm := right.promote
    if leftProm.isNumeric && rightProm.isNumeric then
      if leftProm.isDouble || rightProm.isDouble then (Ty.scalar DOUBLE 0, log)
      else (integer, log)
    else (error, report invalid_binary_operands "/" log)

/-- The function `checkRemainder`: the result type and the diagnostic sink after the call. -/
def checkRemainder (left right : Ty) (log : Log) : Ty × Log :=
  if left.isError || right.isError then (error, log)
  else
    let leftProm := left.promote
    let rightProm := right.promote
    if leftProm.isInteger && rightProm.isInteger then (integer, log)
    else (error, report invalid_binary_operands "%" log)

/-- The function `checkNot`: the result type and the diagnostic sink after the call. -/
def checkNot (right : Ty) (log : Log) : Ty × Log :=
  if right.isError then (error, log)
  else if right.isPredicate then (integer, log)
  else (error, report invalid_unary_operands "!" log)

/-- The function `checkNegation`: the result type and the diagnostic sink after the call. -/
def checkNegation (right : Ty) (log : Log) : Ty × Log :=
  if right.isError then (error, log)
  else if right.isNumeric then
    if Ty.eq right right.promote then (Ty.scalar right.specifier 0, log)
    else (error, log)
  else (error, report invalid_unary_operands "-" log)

/-- The function `checkDereference`: the result type and the diagnostic sink after the call. -/
def checkDereference (right : Ty) (log : Log) : Ty × Log :=
  if right.isError then (error, log)
  else
    let rightProm := right.promote
    if rightProm.isPointer then
      (Ty.scalar rightProm.specifier ((rightProm.indirection + (2 ^ 32 - 1)) % 2 ^ 32), log)
    else (error, report invalid_unary_operands "*" log)

/-- The function `checkAddress`: the result type and the diagnostic sink after the call. -/
def checkAddress (right : Ty) (lvalue : Bool) (log : Log) : Ty × Log :=
  if right.isError then (error, log)
  else if lvalue == true then
    (Ty.scalar right.specifier ((right.indirection + 1) % 2 ^ 32), log)
  else (error, report lvalue_expression "" log)

/-- The function `checkSizeOf`: the result type and the diagnostic sink after the call. -/
def checkSizeOf (right : Ty) (log : Log) : Ty × Log :=
  if right.isError then (error, log)
  else if !right.isFunction then (integer, log)
  else (error, report invalid_operand_sizeof "" log)

/-- The function `checkCast`: the result type and the diagnostic sink after the call. -/
def checkCast (result operand : Ty) (log : Log) : Ty × Log :=
  if result.isError || operand.isError then (error, log)
  else if result.isNumeric && operand.isNumeric then (result, log)
  else if result.isPointer && operand.isPointer then (result, log)
  else if (result.isInteger && operand.isPointer) || (result.isPointer && operand.isInteger) then
    (result, log)
  else (error, report invalid_operand_cast "" log)

/-- The function `checkIndex`: the result type and the diagnostic sink after the call. -/
def checkIndex (left right : Ty) (log : Log) : Ty × Log :=
  if left.isError || right.isError then (error, log)
  else
    let leftProm := left.promote
    let rightProm := right.promote
    if leftProm.isPointer && rightProm.isInteger then
      (Ty.scalar leftProm.specifier ((leftProm.indirection + (2 ^ 32 - 1)) % 2 ^ 32), log)
    else (error, report invalid_binary_operands "[]" log)

/-- The function `checkIncrement`: the result type and the diagnostic sink after the call. -/
def checkIncrement (left : Ty) (lvalue : Bool) (log : Log) : Ty × Log :=
  if left.isError then (error, log)
  else if lvalue == true then (Ty.scalar left.specifier left.indirection, log)
  else (error, report lvalue_expression "" log)

/-- The function `checkDecrement`: the result type and the diagnostic sink after the call. -/
def checkDecrement (left : Ty) (lvalue : Bool) (log : Log) : Ty × Log :=
  if left.isError then (error, log)
  else if lvalue == true then (Ty.scalar left.specifier left.indirection, log)
  else (error, report lvalue_expression "" log)

/-- The argument loop `for (i = 0; i < parameters->types.size(); ++i)` of
`checkCall`, walking the parameter vector and the argument vector in step:
`false` as soon as a parameter is not compatible with its argument after
promotion (the source then reports and returns), `true` when the loop runs to
its end.  The caller has checked that there are at least as many arguments as
parameters, so `types[i]` is always in range. -/
def checkCallLoop : (parameters types : List Ty) → parameters.length ≤ types.length → Bool
  | [], _, _ => true
  | p :: ps, t :: ts, h =>
      let lprom := p.promote
      let rprom := t.promote
      if !lprom.isCompatibleWith rprom then false
      else checkCallLoop ps ts (Nat.le_of_succ_le_succ h)
  | _ :: _, [], h => absurd h (Nat.not_succ_le_zero _)

/-- The function `checkCall`: the result type and the diagnostic sink after the call. -/
def checkCall (left : Ty) (types : List Ty) (log : Log) : Ty × Log :=
  if left.isError then (error, log)
  else if left.isFunction then
    if left.parameters.variadic == true then
      if h : types.length ≥ left.parameters.types.length then
        if checkCallLoop left.parameters.types types h then
          (Ty.scalar left.specifier left.indirection, log)
        else (error, report invalid_arguments "" log)
      else (error, report invalid_arguments "" log)
    else
      if h : types.length = left.parameters.types.length then
        if checkCallLoop left.parameters.types types (Nat.le_of_eq h.symm) then
          (Ty.scalar left.specifier left.indirection, log)
        else (error, report invalid_arguments "" log)
      else (error, report invalid_arguments "" log)
  else (error, report object_not_function "" log)

/-- The function `checkAssignment`: the result type and the diagnostic sink after the call. -/
def checkAssignment (left right : Ty) (lvalue : Bool) (log : Log) : Ty × Log :=
  if left.isError || right.isError then (error, log)
  else if lvalue == false then (error, report lvalue_expression "" log)
  else
    let leftProm := left.promote
    let rightProm := right.promote
    if leftProm.isCompatibleWith rightProm then (left, log)
    else (error, report invalid_binary_operands "=" log)

/-- The function `checkWhileIfFor`.  The second `if` of the source has no
braces, so it governs the `report` call only and the `return error` after it
is always reached; the final `return some_condition` is dead code. -/
def checkWhileIfFor (some_condition : Ty) (log : Log) : Ty × Log :=
  if some_condition.isError then (error, log)
  else
    let log1 := if !some_condition.isPredicate then report type_expression "" log else log
    (error, log1)

/-- The function `checkBreak`: the diagnostic sink after the call. -/
def checkBreak (loopDepth : Int) (log : Log) : Log :=
  if loopDepth ≤ 0 then report breaking "" log else log

/-- The function `checkReturn`: the diagnostic sink after the call. -/
def checkReturn (returned function_type : Ty) (log : Log) : Log :=
  let returnedProm := returned.promote
  let function_type_prom := function_type.promote
  if !returnedProm.isCompatibleWith function_type_prom then report return_type "" log
  else log

/-- What a check may do to the sink `log`: return the error type with exactly
one more diagnostic, or return a type other than the error type and leave the
sink as it was. -/
def Diagnosed (log : Log) (r : Ty × Log) : Prop :=
  (r.1 = Ty.error ∧ ∃ d : Diagnostic, r.2 = log ++ [d]) ∨ (r.1 ≠ Ty.error ∧ r.2 = log)

/-! ## Symbols and scopes (`lab3/phase3/Symbol.h`, `lab3/phase3/Scope.cpp`) -/

/-- A `Symbol` object on the heap.  A symbol has no mutators, so a `Symbol *`
is the address of the object (`addr`, which gives pointer identity) together
with its contents. -/
structure Symbol where
  addr : Nat
  name : String
  type : Ty
  deriving DecidableEq, Repr

/-- A `Scope` object: the pointer to the enclosing scope (`none` is
`nullptr`, `some i` is the address of a scope) and the vector of symbols. -/
structure Scope where
  enclosing : Option Nat
  symbols : List Symbol
  deriving DecidableEq, Repr

namespace Scope

/-- The method `Scope::insert`: `_symbols.push_back(symbol)`. -/
def insert (scope : Scope) (symbol : Symbol) : Scope :=
  { scope with symbols := scope.symbols ++ [symbol] }

/-- The loop of `Scope::find` over a symbol vector: the first symbol with the
given name, or `nullptr`. -/
def findIn (name : String) : List Symbol → Option Symbol
  | [] => none
  | symbol :: rest => if symbol.name == name then some symbol else findIn name rest

/-- The method `Scope::find`. -/
def find (scope : Scope) (name : String) : Option Symbol :=
  findIn name scope.symbols

/-- The `while` loop of `Scope::lookup`, entered with `currentScope = p`,
where a `Scope *` is an index into `heap`.  The result is `some r` when the
loop returns the symbol pointer `r`, and `none` when the loop dereferences a
pointer that is not a scope of the heap or has not returned after `fuel`
iterations. -/
def lookupLoop (heap : List Scope) (name : String) : Nat → Option Nat → Option (Option Symbol)
  | _, none => some none
  | 0, some _ => none
  | fuel + 1, some i =>
      match heap[i]? with
      | none => none
      | some currentScope =>
          match currentScope.find name with
          | some found => some (some found)
          | none => lookupLoop heap name fuel currentScope.enclosing

/-- The method `Scope::lookup`, for a receiver whose enclosing pointer is
read in `heap`.  The loop gets as many iterations as the heap has scopes,
which is enough for every chain of enclosing scopes. -/
def lookup (scope : Scope) (heap : List Scope) (name : String) : Option (Option Symbol) :=
  match scope.find name with
  | some found => some (some found)
  | none => lookupLoop heap name heap.length scope.enclosing

end Scope

/-- The chain of scopes that starts at the pointer `p` in `heap`: the scope
at `p`, then the scope its enclosing pointer names, and so on until the
enclosing pointer is `nullptr`; innermost scope first. -/
inductive Chain (heap : List Scope) : Option Nat → List Scope → Prop where
  | nil : Chain heap none []
  | cons {i : Nat} {scope : Scope} {rest : List Scope} :
      heap[i]? = some scope → Chain heap scope.enclosing rest →
      Chain heap (some i) (scope :: rest)

/-! ## The checker state (`lab4/phase4/checker.cpp`) -/

/-- The state the declaration checker works on: the heap of `Scope` objects
(a `Scope *` is an index into `scopes`; scopes are never freed by the
checker), the number of `Symbol` objects allocated so far (the address of the
next one), the statics `defined`, `outermost` and `toplevel`, and the
diagnostic sink. -/
structure Checker where
  scopes : List Scope
  symbols : Nat
  defined : List String
  outermost : Option Nat
  toplevel : Option Nat
  log : Log
  deriving DecidableEq, Repr

namespace Checker

/-- The state at program start: no scope, no symbol, both scope pointers null. -/
def init : Checker := ⟨[], 0, [], none, none, []⟩

/-- Dereference a `Scope *`: `none` for a null (or dangling) pointer. -/
def scope (s : Checker) (p : Option Nat) : Option Scope :=
  match p with
  | none => none
  | some i => s.scopes[i]?

/-- Store `scope` at the address `p`. -/
def setScope (s : Checker) (p : Option Nat) (scope : Scope) : Checker :=
  match p with
  | none => s
  | some i => { s with scopes := s.scopes.set i scope }

end Checker

/-- The function `openScope`: the new scope is allocated at the end of the heap. -/
def openScope (s : Checker) : Option Nat × Checker :=
  let fresh := some s.scopes.length
  let s1 := { s with scopes := s.scopes ++ [Scope.mk s.toplevel []], toplevel := fresh }
  let s2 := if s1.outermost == none then { s1 with outermost := s1.toplevel } else s1
  (s2.toplevel, s2)

/-- The function `closeScope`; `none` when `toplevel` is null. -/
def closeScope (s : Checker) : Option (Option Nat × Checker) :=
  let old := s.toplevel
  match s.scope s.toplevel with
  | none => none
  | some scope => some (old, { s with toplevel := scope.enclosing })

/-- The function `declareFunction`; `none` when `outermost` is null.  The
result is the returned `Symbol *` and the new state. -/
def declareFunction (name : String) (type : Ty) (s : Checker) :
    Option (Option Symbol × Checker) :=
  match s.scope s.outermost with
  | none => none
  | some scope =>
    match scope.find name with
    | none =>
        let symbol : Symbol := ⟨s.symbols, name, type⟩
        let s1 := { s with symbols := s.symbols + 1 }
        some (some symbol, s1.setScope s1.outermost (scope.insert symbol))
    | some symbol =>
        if Ty.ne type symbol.type then
          some (some symbol, { s with log := report conflicting name s.log })
        else
          some (some symbol, s)

/-- The function `declareVariable`; `none` when `toplevel` is null. -/
def declareVariable (name : String) (type : Ty) (s : Checker) :
    Option (Option Symbol × Checker) :=
  match s.scope s.toplevel with
  | none => none
  | some scope =>
    match scope.find name with
    | none =>
        let symbol : Symbol := ⟨s.symbols, name, type⟩
        let s1 := { s with symbols := s.symbols + 1 }
        some (some symbol, s1.setScope s1.toplevel (scope.insert symbol))
    | some symbol =>
        if s.outermost != s.toplevel then
          some (some symbol, { s with log := report redeclared name s.log })
        else if Ty.ne type symbol.type then
          some (some symbol, { s with log := report conflicting name s.log })
        else
          some (some symbol, s)

/-- The function `defineFunction`; `none` when `outermost` is null. -/
def defineFunction (name : String) (type : Ty) (s : Checker) :
    Option (Option Symbol × Checker) :=
  if s.defined.count name > 0 then
    let s1 := { s with log := report redefined name s.log }
    match s1.scope s1.outermost with
    | none => none
    | some scope => some (scope.find name, s1)
  else
    declareFunction name type { s with defined := name :: s.defined }

/-- The function `checkIdentifier`; `none` when `toplevel` is null or the
lookup does not return. -/
def checkIdentifier (name : String) (s : Checker) : Option (Option Symbol × Checker) :=
  match s.scope s.toplevel with
  | none => none
  | some scope =>
    match scope.lookup s.scopes name with
    | none => none
    | some (some symbol) => some (some symbol, s)
    | some none =>
        let s1 := { s with log := report undeclared name s.log }
        let symbol : Symbol := ⟨s1.symbols, name, error⟩
        let s2 := { s1 with symbols := s1.symbols + 1 }
        some (some symbol, s2.setScope s2.toplevel (scope.insert symbol))

/-! ## Sequences of calls -/

/-- One call of the scope and declaration interface of `checker.cpp`. -/
inductive Call where
  | openScope : Call
  | closeScope : Call
  | declareVariable (name : String) (type : Ty) : Call
  | declareFunction (name : String) (type : Ty) : Call
  | defineFunction (name : String) (type : Ty) : Call
  | checkIdentifier (name : String) : Call
  deriving DecidableEq

/-- The state after one call; `none` when the call is undefined (it
dereferences a null scope pointer). -/
def Call.step (c : Call) (s : Checker) : Option Checker :=
  match c with
  | Call.openScope => some (SimpleC.openScope s).2
  | Call.closeScope => (SimpleC.closeScope s).map Prod.snd
  | Call.declareVariable name type => (SimpleC.declareVariable name type s).map Prod.snd
  | Call.declareFunction name type => (SimpleC.declareFunction name type s).map Prod.snd
  | Call.defineFunction name type => (SimpleC.defineFunction name type s).map Prod.snd
  | Call.checkIdentifier name => (SimpleC.checkIdentifier name s).map Prod.snd

/-- The state after a sequence of calls, the first call of the list first. -/
def runCalls : List Call → Checker → Option Checker
  | [], s => some s
  | c :: rest, s =>
      match c.step s with
      | none => none
      | some s1 => runCalls rest s1

/-- The invariant of the checker state: an enclosing pointer names a scope
allocated earlier, `toplevel` and `outermost` are null or name a scope of the
heap, and no scope holds two symbols of the same name. -/
structure Checker.Inv (s : Checker) : Prop where
  ordered : ∀ (i j : Nat) (sc : Scope), s.scopes[i]? = some sc → sc.enclosing = some j → j < i
  top_valid : ∀ i : Nat, s.toplevel = some i → i < s.scopes.length
  out_valid : ∀ i : Nat, s.outermost = some i → i < s.scopes.length
  unique : ∀ sc ∈ s.scopes, (sc.symbols.map Symbol.name).Nodup

/-! ## The declaration checker of phase 3 (`lab3/phase3/checker.cpp`)

The statics `globalScope` and `currentScope` are the fields `outermost` and
`toplevel` of the state, `definedFunctions` is `defined`. -/

namespace Phase3

/-- The function `openScope` of phase 3. -/
def openScope (s : Checker) : Option Nat × Checker :=
  let fresh := some s.scopes.length
  if s.outermost == none then
    let s1 := { s with scopes := s.scopes ++ [Scope.mk none []], outermost := fresh }
    (fresh, { s1 with toplevel := s1.outermost })
  else
    (fresh, { s with scopes := s.scopes ++ [Scope.mk s.toplevel []], toplevel := fresh })

/-- The function `closeScope` of phase 3; `none` when `currentScope` is null. -/
def closeScope (s : Checker) : Option (Option Nat × Checker) :=
  let freed := s.toplevel
  match s.scope s.toplevel with
  | none => none
  | some scope => some (freed, { s with toplevel := scope.enclosing })

/-- The function `declareFunction` of phase 3; `none` when `globalScope` is null. -/
def declareFunction (name : String) (type : Ty) (s : Checker) :
    Option (Option Symbol × Checker) :=
  match s.scope s.outermost with
  | none => none
  | some scope =>
    match scope.find name with
    | none =>
        let sym : Symbol := ⟨s.symbols, name, type⟩
        let s1 := { s with symbols := s.symbols + 1 }
        some (some sym, s1.setScope s1.outermost (scope.insert sym))
    | some sym =>
        if Ty.ne type sym.type then
          some (some sym, { s with log := report conflicting name s.log })
        else
          some (some sym, s)

/-- The function `declareVariable` of phase 3; `none` when `currentScope` is null. -/
def declareVariable (name : String) (type : Ty) (s : Checker) :
    Option (Option Symbol × Checker) :=
  match s.scope s.toplevel with
  | none => none
  | some scope =>
    match scope.find name with
    | none =>
        let sym : Symbol := ⟨s.symbols, name, type⟩
        let s1 := { s with symbols := s.symbols + 1 }
        some (some sym, s1.setScope s1.toplevel (scope.insert sym))
    | some sym =>
        if scope.enclosing != none then
          some (some sym, { s with log := report redeclared name s.log })
        else if Ty.ne type sym.type then
          some (some sym, { s with log := report conflicting name s.log })
        else
          some (some sym, s)

/-- The function `defineFunction` of phase 3; `none` when `globalScope` is null. -/
def defineFunction (name : String) (type : Ty) (s : Checker) :
    Option (Option Symbol × Checker) :=
  if s.defined.count name != 0 then
    let s1 := { s with log := report redefined name s.log }
    match s1.scope s1.outermost with
    | none => none
    | some scope => some (scope.find name, s1)
  else
    declareFunction name type { s with defined := name :: s.defined }

end Phase3

/-! ## Machine arithmetic of the code generators -/

/-- A result of type `int`: `none` when it is outside the range of `int`
(signed overflow, which is undefined). -/
def int32 (x : Int) : Option Int :=
  if -(2 ^ 31) ≤ x ∧ x < 2 ^ 31 then some x else none

/-- The value of type `int` that a result of `unsigned` arithmetic has when it
is stored in an `int`: the representative of `x` modulo `2 ^ 32` in the range
of `int`. -/
def toInt (x : Int) : Int :=
  (x + 2 ^ 31) % 2 ^ 32 - 2 ^ 31

/-- The operator `%` on `int`, which truncates toward zero: `none` for a zero
divisor and for the overflowing `INT_MIN % -1`. -/
def rem (a b : Int) : Option Int :=
  if b = 0 then none
  else if a = -(2 ^ 31) ∧ b = -1 then none
  else some (a.tmod b)

/-- The library function `abs` on `int`: `none` for `INT_MIN`, whose absolute
value is not representable. -/
def abs (x : Int) : Option Int :=
  int32 (x.natAbs : Int)

/-! ## The stack frame of phase 6 (`lab6/phase6/generator.cpp`)

The macros `STACK_ALIGNMENT` and `SIZEOF_REG` come from `machine.h`, which is
not part of the sources; they are parameters of the definitions that use them. -/

namespace Phase6

/-- The function `align`. -/
def align (STACK_ALIGNMENT : Int) (offset : Int) : Option Int := do
  let r ← rem offset STACK_ALIGNMENT
  if r = 0 then pure 0
  else do
    let a ← abs offset
    let m ← rem a STACK_ALIGNMENT
    int32 (STACK_ALIGNMENT - m)

/-- The end of `Function::generate`: the frame size printed in
`.set <name>.size, ...` from the value `offset` that the running offset has
after the body and the value `max_args` of the `unsigned` counter.  The
statement `offset -= max_args` is computed in `unsigned` and stored back in the
`int`; the other operations are on `int`. -/
def Function.generate (STACK_ALIGNMENT SIZEOF_REG : Int) (offset : Int) (max_args : Nat) :
    Option Int := do
  let offset := toInt (offset - (max_args : Int))
  let regs ← int32 (SIZEOF_REG * 2)
  let arg ← int32 (offset - regs)
  let pad ← align STACK_ALIGNMENT arg
  let offset ← int32 (offset - pad)
  int32 (-offset)

end Phase6

/-! ## The stack frame of phase 5 (`lab5/phase5/generator.cpp`) -/

namespace Phase5

/-- A node of the body of a function, as far as `generate` tells the nodes
apart: a `Call` with the types of its arguments, a `Block` with its
statements, and any other node, whose `generate` (`Assignment::generate`, which
only prints its operands, or the empty `Statement::generate`) changes no
variable of the generator. -/
inductive Stmt where
  | call (args : List Ty)
  | block (stmts : List Stmt)
  | other

/-- The loops `while (offset % m != r) offset += d;` of the generator, run for
at most `fuel` rounds: `none` if the test is still true after that, or if the
step overflows. -/
def whileRem (m r d : Int) : Nat → Int → Option Int
  | 0, offset => if offset.tmod m ≠ r then none else some offset
  | fuel + 1, offset =>
      if offset.tmod m ≠ r then (int32 (offset + d)).bind (whileRem m r d fuel)
      else some offset

/-- The loop `for (auto arg : _args)` of `Call::generate`: the local `offset`
after the loop. -/
def Call.arguments : List Ty → Int → Option Int
  | [], offset => some offset
  | arg :: args, offset => do
      let sz ← size arg
      let offset ← whileRem 4 0 1 4 (toInt (offset + (sz : Int)))
      Call.arguments args offset

/-- The function `Call::generate`: the global `caller_size` after the call. -/
def Call.generate (args : List Ty) (caller_size : Int) : Option Int := do
  let offset ← Call.arguments args 0
  pure (if caller_size < offset then offset else caller_size)

mutual

/-- The virtual function `generate` of a node of the body: the global
`caller_size` after the call. -/
def Stmt.generate : Stmt → Int → Option Int
  | Stmt.call args, caller_size => Call.generate args caller_size
  | Stmt.block stmts, caller_size => Block.generate stmts caller_size
  | Stmt.other, caller_size => some caller_size

/-- The function `Block::generate`: the global `caller_size` after the call. -/
def Block.generate : List Stmt → Int → Option Int
  | [], caller_size => some caller_size
  | stmt :: stmts, caller_size =>
      (Stmt.generate stmt caller_size).bind (Block.generate stmts)

end

/-- The first loop of `Function::generate`, over the parameters: the offsets
given to them, from the running `offset`. -/
def Function.parameters : List Ty → Int → Option (List Int)
  | [], _ => some []
  | t :: ts, offset => do
      let sz ← size t
      let next ← whileRem 4 0 1 4 (toInt (offset + (sz : Int)))
      let rest ← Function.parameters ts next
      pure (offset :: rest)

/-- The second loop of `Function::generate`, over the other symbols of the
scope of the body: the offsets given to them and the running `offset` after
the loop. -/
def Function.locals : List Ty → Int → Option (List Int × Int)
  | [], offset => some ([], offset)
  | t :: ts, offset => do
      let sz ← size t
      let here := toInt (offset - (sz : Int))
      let next ← whileRem 4 0 (-1) 4 here
      let (rest, last) ← Function.locals ts next
      pure (here :: rest, last)

/-- The function `Function::generate`, for a function with `parameter_size`
parameters whose body has the symbols `some_symbols` (their types, the
parameters first) and the statements `body`: the offsets given to the symbols
and the number printed in `.set <name>.size, ...`.  The result is `none` when
`some_symbols` is shorter than `parameter_size`, when a size is asked of a type
that has none, and on signed overflow. -/
def Function.generate (parameter_size : Nat) (some_symbols : List Ty) (body : List Stmt) :
    Option (List Int × Int) := do
  let caller_size : Int := 0
  if some_symbols.length < parameter_size then none
  else do
    let params ← Function.parameters (some_symbols.take parameter_size) 8
    let (locals, offset) ← Function.locals (some_symbols.drop parameter_size) 0
    let total_bytes_alloc ← int32 (0 - offset)
    let total_bytes_alloc ← whileRem 16 8 1 16 total_bytes_alloc
    let caller_size ← Block.generate body caller_size
    let frame ← int32 (total_bytes_alloc + caller_size)
    pure (params ++ locals, frame)

end Phase5

/-! ## Control flow in the code generator of phase 6 (`lab6/phase6/generator.cpp`) -/

namespace Phase6

/-- Modelled from the spec: the class `Label` is not part of the sources.  A
label is its number; constructing a `Label` takes the next number of a counter
that only grows, and a label prints as `.L<number>`. -/
abbrev Label := Nat

/-- A line of the output: a label definition `<label>:`, one of the three jumps
with a label as target, or any other line, given by its text. -/
inductive Line where
  | text (s : String)
  | label (l : Label)
  | jmp (l : Label)
  | je (l : Label)
  | jne (l : Label)
  deriving DecidableEq, Repr

/-- An expression node, as far as the control flow of its code goes.  A node of
a class other than `LogicalOr` and `LogicalAnd` is given by the lines `code`
that its `generate` writes and the number `labels` of `Label` objects it
constructs.  `operand` is the text that `operand()` writes for the node, and
`fp` is the value of `FP(node)`. -/
inductive Expr where
  | other (code : List Line) (labels : Nat) (operand : String) (fp : Bool)
  | logicalOr (left right : Expr) (operand : String) (fp : Bool)
  | logicalAnd (left right : Expr) (operand : String) (fp : Bool)
  deriving DecidableEq, Repr

/-- The text written by `ostr << expr`. -/
def Expr.operand : Expr → String
  | Expr.other _ _ operand _ => operand
  | Expr.logicalOr _ _ operand _ => operand
  | Expr.logicalAnd _ _ operand _ => operand

/-- The value of `FP(expr)`. -/
def Expr.FP : Expr → Bool
  | Expr.other _ _ _ fp => fp
  | Expr.logicalOr _ _ _ fp => fp
  | Expr.logicalAnd _ _ _ fp => fp

/-- The virtual function `generate` of an expression: the lines written and the
label counter after the call, from the label counter before it. -/
def Expr.generate : Expr → Nat → List Line × Nat
  | Expr.other code labels _ _, n => (code, n + labels)
  | Expr.logicalOr left right operand fp, n =>
      let (outLeft, n1) := left.generate n
      let (outRight, n2) := right.generate n1
      let firstLabel := n2
      let secondLabel := n2 + 1
      let out :=
        if fp then
          [Line.text ("\tfldl\t" ++ left.operand),
           Line.text "\tftst\t",
           Line.text "\tfnstsw\t%ax",
           Line.text "\tfstp\t%st(0)",
           Line.text "\tsahf",
           Line.jne firstLabel,
           Line.text "\tmovl\t$0, %eax",
           Line.text ("\tfldl\t" ++ right.operand),
           Line.text "\tftst\t",
           Line.text "\tfnstsw\t%ax",
           Line.text "\tfstp\t%st(0)",
           Line.text "\tsahf",
           Line.jne secondLabel,
           Line.label firstLabel,
           Line.text "\tmovl\t$1, %eax",
           Line.label secondLabel,
           Line.text ("\tmovl\t%eax, " ++ operand)]
        else
          [Line.text ("\tmovl\t" ++ left.operand ++ ", %eax"),
           Line.text "\tcmpl\t$0, %eax",
           Line.jne firstLabel,
           Line.text ("\tmovl\t" ++ right.operand ++ ", %eax"),
           Line.text "\tcmpl\t$0, %eax",
           Line.jne firstLabel,
           Line.text "\tmovl\t$0, %eax",
           Line.jmp secondLabel,
           Line.label firstLabel,
           Line.text "\tmovl\t$1, %eax",
           Line.label secondLabel,
           Line.text ("\tmovl\t%eax, " ++ operand)]
      (outLeft ++ outRight ++ [Line.text "#LogicalOrring"] ++ out, n2 + 2)
  | Expr.logicalAnd left right operand fp, n =>
      let (outLeft, n1) := left.generate n
      let (outRight, n2) := right.generate n1
      let firstLabel := n2
      let secondLabel := n2 + 1
      let out :=
        if fp then []
        else
          [Line.text "#LogicalAnding",
           Line.text ("\tmovl\t" ++ left.operand ++ ", %eax"),
           Line.text "\tcmpl\t$0, %eax",
           Line.je firstLabel,
           Line.text ("\tmovl\t" ++ right.operand ++ ", %eax"),
           Line.text "\tcmpl\t$0, %eax",
           Line.je firstLabel,
           Line.text "\tmovl\t$1, %eax",
           Line.jmp secondLabel,
           Line.label firstLabel,
           Line.text "\tmovl\t$0, %eax",
           Line.label secondLabel,
           Line.text ("\tmovl\t%eax, " ++ operand)]
      (outLeft ++ outRight ++ out, n2 + 2)

/-- The function `Expression::test`: the lines written and the label counter
after the call. -/
def Expr.test (expr : Expr) (label : Label) (ifTrue : Bool) (n : Nat) : List Line × Nat :=
  let (out, n1) := expr.generate n
  let cmp :=
    if expr.FP then
      [Line.text ("\tfldl\t" ++ expr.operand),
       Line.text "\tftst\t",
       Line.text "\tfnstsw\t%ax",
       Line.text "\tsahf"]
    else
      [Line.text ("\tmovl\t" ++ expr.operand ++ ", %eax"),
       Line.text "\tcmpl\t$0, %eax"]
  (out ++ cmp ++ [if ifTrue then Line.jne label else Line.je label], n1)

/-- A statement node, as far as the control flow of its code goes.  A node of a
class other than `Block`, `While`, `For`, `If` and `Break` is given by the lines
`code` that its `generate` writes and the number `labels` of `Label` objects it
constructs.  `If` stands for an `If` node whose `_elseStmt` is null. -/
inductive Stmt where
  | other (code : List Line) (labels : Nat)
  | Block (stmts : List Stmt)
  | While (expr : Expr) (stmt : Stmt)
  | For (init : Stmt) (expr : Expr) (stmt : Stmt) (incr : Stmt)
  | If (expr : Expr) (thenStmt : Stmt)
  | IfElse (expr : Expr) (thenStmt elseStmt : Stmt)
  | Break

/-- The variables of the generator that the statements use: the label counter
and the vector `breaks`, its back last. -/
structure Gen where
  labels : Nat
  breaks : List Label
  deriving DecidableEq, Repr

mutual

/-- The virtual function `generate` of a statement: the lines written and the
variables after the call; `none` when `Break::generate` finds `breaks` empty,
where `breaks.back()` is undefined. -/
def Stmt.generate : Stmt → Gen → Option (List Line × Gen)
  | Stmt.other code labels, g => some (code, { g with labels := g.labels + labels })
  | Stmt.Block stmts, g => Block.generate stmts g
  | Stmt.While expr stmt, g =>
      let loop := g.labels
      let exit := g.labels + 1
      let breaks := g.breaks ++ [exit]
      let (outTest, n) := expr.test exit false (g.labels + 2)
      match Stmt.generate stmt ⟨n, breaks⟩ with
      | none => none
      | some (outStmt, g1) =>
          some ([Line.label loop] ++ outTest ++ outStmt ++ [Line.jmp loop, Line.label exit], g1)
  | Stmt.For init expr stmt incr, g =>
      let loop := g.labels
      let exit := g.labels + 1
      let breaks := g.breaks ++ [exit]
      match Stmt.generate init ⟨g.labels + 2, breaks⟩ with
      | none => none
      | some (outInit, g1) =>
          let (outTest, n) := expr.test exit false g1.labels
          match Stmt.generate stmt ⟨n, g1.breaks⟩ with
          | none => none
          | some (outStmt, g2) =>
              match Stmt.generate incr g2 with
              | none => none
              | some (outIncr, g3) =>
                  some (outInit ++ [Line.label loop] ++ outTest ++ outStmt ++ outIncr ++
                    [Line.jmp loop, Line.label exit], g3)
  | Stmt.If expr thenStmt, g =>
      let skip := g.labels
      let (outTest, n) := expr.test skip false (g.labels + 1)
      match Stmt.generate thenStmt ⟨n, g.breaks⟩ with
      | none => none
      | some (outThen, g1) =>
          some ([Line.text "#If"] ++ outTest ++ outThen ++ [Line.label skip], g1)
  | Stmt.IfElse expr thenStmt elseStmt, g =>
      let skip := g.labels
      let (outTest, n) := expr.test skip false (g.labels + 1)
      match Stmt.generate thenStmt ⟨n, g.breaks⟩ with
      | none => none
      | some (outThen, g1) =>
          let exit := g1.labels
          match Stmt.generate elseStmt ⟨g1.labels + 1, g1.breaks⟩ with
          | none => none
          | some (outElse, g2) =>
              some ([Line.text "#If"] ++ outTest ++ outThen ++ [Line.jmp exit, Line.label skip] ++
                outElse ++ [Line.label exit], g2)
  | Stmt.Break, g =>
      match g.breaks.getLast? with
      | none => none
      | some back => some ([Line.jmp back], { g with breaks := g.breaks.dropLast })

/-- The function `Block::generate`. -/
def Block.generate : List Stmt → Gen → Option (List Line × Gen)
  | [], g => some ([], g)
  | stmt :: stmts, g =>
      match Stmt.generate stmt g with
      | none => none
      | some (out, g1) =>
          match Block.generate stmts g1 with
          | none => none
          | some (outs, g2) => some (out ++ outs, g2)

end

end Phase6

/-! ## Running the parsers

A function of a parser is run from a state.  It may return, it may end the
process through `exit`, it may dereference a null pointer, and its model may
use up the fuel that bounds the depth of its calls and the rounds of its
loops. -/

/-- The outcome of running a function from a state: it returns `a` in the state
`s`; it calls `exit(status)` when the diagnostics reported so far are `log`; it
dereferences a null pointer; or the fuel is used up. -/
inductive Res (σ α : Type) where
  | ok (a : α) (s : σ) : Res σ α
  | exit (status : Int) (log : Log) : Res σ α
  | undefined : Res σ α
  | timeout : Res σ α
  deriving DecidableEq, Repr

namespace Res

/-- Continue with `f` after an outcome that returned. -/
def bind {σ α β : Type} (r : Res σ α) (f : α → σ → Res σ β) : Res σ β :=
  match r with
  | ok a s => f a s
  | exit status log => exit status log
  | undefined => undefined
  | timeout => timeout

/-- Change the representation of the state of an outcome that returned. -/
def mapState {σ τ α : Type} (h : σ → τ) (r : Res σ α) : Res τ α :=
  match r with
  | ok a s => ok a (h s)
  | exit status log => exit status log
  | undefined => undefined
  | timeout => timeout

end Res

/-- A function of a parser whose variables are a state of type `σ`. -/
def PM (σ α : Type) : Type := σ → Res σ α

instance {σ : Type} : Monad (PM σ) where
  pure a := fun s => Res.ok a s
  bind x f := fun s => (x s).bind f

/-- The fuel is used up. -/
def outOfFuel {σ α : Type} : PM σ α := fun _ => Res.timeout

/-- The integer value of a character literal of the source. -/
def chr (c : Char) : Int := Int.ofNat c.toNat

/-- The macro `EXIT_SUCCESS` of the C library. -/
def EXIT_SUCCESS : Int := 0

/-- The macro `EXIT_FAILURE` of the C library. -/
def EXIT_FAILURE : Int := 1

/-- Modelled from the spec: the scanner is not part of the sources.  It yields
one token after the other, each an integer kind with its lexeme. -/
structure Token where
  kind : Int
  text : String
  deriving DecidableEq, Repr

/-! ## The parser of phase 4 (`lab4/phase4/parser.cpp`)

The lines that the parser writes to standard output (`inc`, `mul`, ...) are not
diagnostics and are not part of the state. -/

namespace Phase4

/-! Modelled from the spec: `tokens.h` is not part of the sources.  The token
codes other than the character literals are distinct integers above 255 (the
values follow the keyword enumeration that starts at 256, see `CHAR`), and
`DONE`, which the scanner returns at the end of the input, is `0`. -/

/-- Modelled from the spec: token code of the end of the input. -/
def DONE : Int := 0
/-- Modelled from the spec: token code of `break`. -/
def BREAK : Int := 257
/-- Modelled from the spec: token code of `else`. -/
def ELSE : Int := 265
/-- Modelled from the spec: token code of `for`. -/
def FOR : Int := 269
/-- Modelled from the spec: token code of `if`. -/
def IF : Int := 271
/-- Modelled from the spec: token code of `return`. -/
def RETURN : Int := 275
/-- Modelled from the spec: token code of `sizeof`. -/
def SIZEOF : Int := 278
/-- Modelled from the spec: token code of `void`. -/
def VOID : Int := 285
/-- Modelled from the spec: token code of `while`. -/
def WHILE : Int := 287
/-- Modelled from the spec: token code of `||`. -/
def OR : Int := 288
/-- Modelled from the spec: token code of `&&`. -/
def AND : Int := 289
/-- Modelled from the spec: token code of `==`. -/
def EQL : Int := 290
/-- Modelled from the spec: token code of `!=`. -/
def NEQ : Int := 291
/-- Modelled from the spec: token code of `<=`. -/
def LEQ : Int := 292
/-- Modelled from the spec: token code of `>=`. -/
def GEQ : Int := 293
/-- Modelled from the spec: token code of `++`. -/
def INC : Int := 294
/-- Modelled from the spec: token code of `--`. -/
def DEC : Int := 295
/-- Modelled from the spec: token code of `...`. -/
def ELLIPSIS : Int := 297
/-- Modelled from the spec: token code of an identifier. -/
def ID : Int := 298
/-- Modelled from the spec: token code of an integer literal. -/
def INTEGER : Int := 299
/-- Modelled from the spec: token code of a real literal. -/
def REAL : Int := 300
/-- Modelled from the spec: token code of a string literal. -/
def STRING : Int := 301
/-- Modelled from the spec: token code of a character literal. -/
def CHARACTER : Int := 302
/-- Modelled from the spec: token code that stands for no token. -/
def ERROR : Int := 303

/-- The variables that the parser shares with the scanner and the checker: the
tokens the scanner has not returned yet, the scanner's `yytext`, the statics
`lookahead`, `nexttoken`, `lexbuf` and `nextbuf`, the global `returnType`, and
the state of the checker. -/
structure Front where
  input : List Token
  yytext : String
  lookahead : Int
  nexttoken : Int
  lexbuf : String
  nextbuf : String
  returnType : Ty
  checker : Checker
  deriving DecidableEq, Repr

/-- The variables of the parser: those of `Front` and the global `loopDepth`,
which only `statement` reads and writes.  The counter is an integer; it cannot
leave the range of `int` on an input of fewer than `2 ^ 31` tokens. -/
structure Parser where
  front : Front
  loopDepth : Int
  deriving DecidableEq, Repr

/-- Read the state. -/
def getFront : PM Front Front := fun s => Res.ok s s

/-- Write the state. -/
def setFront (s : Front) : PM Front Unit := fun _ => Res.ok () s

/-- Read the state. -/
def getParser : PM Parser Parser := fun p => Res.ok p p

/-- Write the global `loopDepth`. -/
def setLoopDepth (loopDepth : Int) : PM Parser Unit :=
  fun p => Res.ok () { p with loopDepth := loopDepth }

/-- Run a function that does not use `loopDepth`. -/
def lift {α : Type} (x : PM Front α) : PM Parser α :=
  fun p => (x p.front).mapState (fun f => { p with front := f })

/-- Call a function of the declaration checker; a null dereference in it is
undefined. -/
def call {α : Type} (f : Checker → Option (α × Checker)) : PM Front α := fun s =>
  match f s.checker with
  | none => Res.undefined
  | some (a, c) => Res.ok a { s with checker := c }

/-- Call an expression check, which works on the diagnostic sink. -/
def check (f : Log → Ty × Log) : PM Front Ty := fun s =>
  Res.ok (f s.checker.log).1 { s with checker := { s.checker with log := (f s.checker.log).2 } }

/-- Call a statement check, which works on the diagnostic sink. -/
def checkOnly (f : Log → Log) : PM Front Unit := fun s =>
  Res.ok () { s with checker := { s.checker with log := f s.checker.log } }

/-- The library function `exit`. -/
def exit {α : Type} (status : Int) : PM Front α := fun s => Res.exit status s.checker.log

/-- Modelled from the spec: the scanner function `yylex` returns the kind of
the next token and leaves its lexeme in `yytext`; at the end of the input it
returns `DONE`, every time it is called. -/
def yylex : PM Front Int := fun s =>
  match s.input with
  | [] => Res.ok DONE { s with yytext := "" }
  | t :: rest => Res.ok t.kind { s with input := rest, yytext := t.text }

/-- The value of a digit of a number in base up to sixteen. -/
def digitValue (c : Char) : Option Nat :=
  if c.isDigit then some (c.toNat - 48)
  else if 97 ≤ c.toNat ∧ c.toNat ≤ 102 then some (c.toNat - 87)
  else if 65 ≤ c.toNat ∧ c.toNat ≤ 70 then some (c.toNat - 55)
  else none

/-- The value of the longest run of digits of the base at the start of a text. -/
def strtoulDigits (base : Nat) : List Char → Nat → Nat
  | [], acc => acc
  | c :: cs, acc =>
      match digitValue c with
      | some d => if d < base then strtoulDigits base cs (acc * base + d) else acc
      | none => acc

/-- Modelled from the spec: the C library function `strtoul(buf, NULL, 0)` on a
lexeme that starts with a digit: hexadecimal after `0x` or `0X`, octal after
another leading `0`, decimal otherwise, and `ULONG_MAX` of a 64-bit
`unsigned long` when the value does not fit. -/
def strtoul (buf : String) : Nat :=
  let value :=
    match buf.data with
    | '0' :: 'x' :: cs => strtoulDigits 16 cs 0
    | '0' :: 'X' :: cs => strtoulDigits 16 cs 0
    | '0' :: cs => strtoulDigits 8 cs 0
    | cs => strtoulDigits 10 cs 0
  min value (2 ^ 64 - 1)

/-- The function `error`. -/
def error {α : Type} : PM Front α := fun s =>
  let log :=
    if s.lookahead == DONE then report "syntax error at end of file" "" s.checker.log
    else report "syntax error at '%s'" s.yytext s.checker.log
  Res.exit EXIT_FAILURE log

/-- The function `peek`. -/
def peek : PM Front Int := do
  if (← getFront).nexttoken == 0 then
    let t ← yylex
    let s ← getFront
    setFront { s with nexttoken := t, nextbuf := s.yytext }
  pure (← getFront).nexttoken

/-- The function `match`. -/
def match_ (t : Int) : PM Front Unit := do
  if (← getFront).lookahead != t then
    error
  let s ← getFront
  if s.nexttoken != 0 then
    setFront { s with lookahead := s.nexttoken, lexbuf := s.nextbuf, nexttoken := 0 }
  else
    let t ← yylex
    let s ← getFront
    setFront { s with lookahead := t, lexbuf := s.yytext }

/-- The function `integer`; the `unsigned long` is returned as an `unsigned`. -/
def integer : PM Front Nat := do
  let buf := (← getFront).lexbuf
  match_ INTEGER
  pure (strtoul buf % 2 ^ 32)

/-- The function `identifier`. -/
def identifier : PM Front String := do
  let buf := (← getFront).lexbuf
  match_ ID
  pure buf

/-- The function `closeParamScope`; the objects it deletes are not referred to
afterwards. -/
def closeParamScope : PM Front Unit := do
  let _ ← call closeScope
  pure ()

/-- The function `isSpecifier`. -/
def isSpecifier (token : Int) : Bool :=
  token == CHAR || token == INT || token == DOUBLE

/-- The function `specifier`. -/
def specifier : PM Front Int := do
  let typespec := ERROR
  if isSpecifier (← getFront).lookahead then
    let typespec := (← getFront).lookahead
    match_ (← getFront).lookahead
    pure typespec
  else
    error
    pure typespec

/-- The loop of `pointers`, entered with the value `count`. -/
def pointersLoop : Nat → Nat → PM Front Nat
  | 0, _ => outOfFuel
  | fuel + 1, count => do
      if (← getFront).lookahead == chr '*' then
        match_ (chr '*')
        pointersLoop fuel ((count + 1) % 2 ^ 32)
      else
        pure count

/-- The function `pointers`. -/
def pointers (fuel : Nat) : PM Front Nat :=
  pointersLoop fuel 0

/-- The function `declarator`. -/
def declarator (fuel : Nat) (typespec : Int) : PM Front Unit := do
  let indirection ← pointers fuel
  let name ← identifier
  if (← getFront).lookahead == chr '[' then
    match_ (chr '[')
    let length ← integer
    let _ ← call (declareVariable name (Ty.array typespec indirection length))
    match_ (chr ']')
  else
    let _ ← call (declareVariable name (Ty.scalar typespec indirection))
    pure ()

/-- The loop of `declaration`. -/
def declarationLoop (typespec : Int) : Nat → PM Front Unit
  | 0 => outOfFuel
  | fuel + 1 => do
      if (← getFront).lookahead == chr ',' then
        match_ (chr ',')
        declarator fuel typespec
        declarationLoop typespec fuel
      else
        pure ()

/-- The function `declaration`. -/
def declaration (fuel : Nat) : PM Front Unit := do
  let typespec ← specifier
  declarator fuel typespec
  declarationLoop typespec fuel
  match_ (chr ';')

/-- The function `declarations`. -/
def declarations : Nat → PM Front Unit
  | 0 => outOfFuel
  | fuel + 1 => do
      if isSpecifier (← getFront).lookahead then
        declaration fuel
        declarations fuel
      else
        pure ()

/-- The test `lookahead == '(' && isSpecifier(peek())` of `prefixExpression`;
`peek` is called only when the first operand of `&&` is true. -/
def startsTypeName : PM Front Bool := do
  if (← getFront).lookahead == chr '(' then
    let t ← peek
    pure (isSpecifier t)
  else
    pure false

/-- The loop `while (lookahead == ',')` of `primaryExpression`, which parses
the arguments of a call after the first; `argument` is the function
`expression`. -/
def argumentsLoop (argument : Bool → PM Front (Ty × Bool)) :
    Nat → List Ty → Bool → PM Front (List Ty × Bool)
  | 0, _, _ => outOfFuel
  | fuel + 1, types, lvalue => do
      if (← getFront).lookahead == chr ',' then
        match_ (chr ',')
        let (type, lvalue) ← argument lvalue
        argumentsLoop argument fuel (types ++ [type]) lvalue
      else
        pure (types, lvalue)

/-- The loop of `postfixExpression`; `index` is the function `expression`. -/
def postfixLoop (index : Bool → PM Front (Ty × Bool)) :
    Nat → Ty → Bool → PM Front (Ty × Bool)
  | 0, _, _ => outOfFuel
  | fuel + 1, left, lvalue => do
      if (← getFront).lookahead == chr '[' then
        match_ (chr '[')
        let (right, _) ← index lvalue
        match_ (chr ']')
        let left ← check (checkIndex left right)
        postfixLoop index fuel left true
      else if (← getFront).lookahead == INC then
        match_ INC
        let left ← check (checkIncrement left lvalue)
        postfixLoop index fuel left false
      else if (← getFront).lookahead == DEC then
        match_ DEC
        let left ← check (checkDecrement left lvalue)
        postfixLoop index fuel left false
      else
        pure (left, lvalue)

/-- The loop of `multiplicativeExpression`; `operand` is the function
`prefixExpression`. -/
def multiplicativeLoop (operand : Bool → PM Front (Ty × Bool)) :
    Nat → Ty → Bool → PM Front (Ty × Bool)
  | 0, _, _ => outOfFuel
  | fuel + 1, left, lvalue => do
      if (← getFront).lookahead == chr '*' then
        match_ (chr '*')
        let (right, _) ← operand lvalue
        let left ← check (checkMultiply left right)
        multiplicativeLoop operand fuel left false
      else if (← getFront).lookahead == chr '/' then
        match_ (chr '/')
        let (right, _) ← operand lvalue
        let left ← check (checkDivide left right)
        multiplicativeLoop operand fuel left false
      else if (← getFront).lookahead == chr '%' then
        match_ (chr '%')
        let (right, _) ← operand lvalue
        let left ← check (checkRemainder left right)
        multiplicativeLoop operand fuel left false
      else
        pure (left, lvalue)

/-- The loop of `additiveExpression`; `operand` is the function
`multiplicativeExpression`. -/
def additiveLoop (operand : Bool → PM Front (Ty × Bool)) :
    Nat → Ty → Bool → PM Front (Ty × Bool)
  | 0, _, _ => outOfFuel
  | fuel + 1, left, lvalue => do
      if (← getFront).lookahead == chr '+' then
        match_ (chr '+')
        let (right, _) ← operand lvalue
        let left ← check (checkAdd left right)
        additiveLoop operand fuel left false
      else if (← getFront).lookahead == chr '-' then
        match_ (chr '-')
        let (right, _) ← operand lvalue
        let left ← check (checkMinus left right)
        additiveLoop operand fuel left false
      else
        pure (left, lvalue)

/-- The loop of `relationalExpression`; `operand` is the function
`additiveExpression`. -/
def relationalLoop (operand : Bool → PM Front (Ty × Bool)) :
    Nat → Ty → Bool → PM Front (Ty × Bool)
  | 0, _, _ => outOfFuel
  | fuel + 1, left, lvalue => do
      if (← getFront).lookahead == chr '<' then
        match_ (chr '<')
        let (right, _) ← operand lvalue
        let left ← check (checkRelational left right "<")
        relationalLoop operand fuel left false
      else if (← getFront).lookahead == chr '>' then
        match_ (chr '>')
        let (right, _) ← operand lvalue
        let left ← check (checkRelational left right ">")
        relationalLoop operand fuel left false
      else if (← getFront).lookahead == LEQ then
        match_ LEQ
        let (right, _) ← operand lvalue
        let left ← check (checkRelational left right "<=")
        relationalLoop operand fuel left false
      else if (← getFront).lookahead == GEQ then
        match_ GEQ
        let (right, _) ← operand lvalue
        let left ← check (checkRelational left right ">=")
        relationalLoop operand fuel left false
      else
        pure (left, lvalue)

/-- The loop of `equalityExpression`; `operand` is the function
`relationalExpression`. -/
def equalityLoop (operand : Bool → PM Front (Ty × Bool)) :
    Nat → Ty → Bool → PM Front (Ty × Bool)
  | 0, _, _ => outOfFuel
  | fuel + 1, left, lvalue => do
      if (← getFront).lookahead == EQL then
        match_ EQL
        let (right, _) ← operand lvalue
        let left ← check (checkEquality left right "==")
        equalityLoop operand fuel left false
      else if (← getFront).lookahead == NEQ then
        match_ NEQ
        let (right, _) ← operand lvalue
        let left ← check (checkEquality left right "!=")
        equalityLoop operand fuel left false
      else
        pure (left, lvalue)

/-- The loop of `logicalAndExpression`; `operand` is the function
`equalityExpression`. -/
def logicalAndLoop (operand : Bool → PM Front (Ty × Bool)) :
    Nat → Ty → Bool → PM Front (Ty × Bool)
  | 0, _, _ => outOfFuel
  | fuel + 1, left, lvalue => do
      if (← getFront).lookahead == AND then
        match_ AND
        let (right, _) ← operand lvalue
        let left ← check (checkLogical left right "&&")
        logicalAndLoop operand fuel left false
      else
        pure (left, lvalue)

/-- The loop of `expression`; `operand` is the function
`logicalAndExpression`. -/
def expressionLoop (operand : Bool → PM Front (Ty × Bool)) :
    Nat → Ty → Bool → PM Front (Ty × Bool)
  | 0, _, _ => outOfFuel
  | fuel + 1, left, lvalue => do
      if (← getFront).lookahead == OR then
        match_ OR
        let (right, _) ← operand lvalue
        let left ← check (checkLogical left right "||")
        expressionLoop operand fuel left false
      else
        pure (left, lvalue)

mutual

/-- The function `primaryExpression`: the argument is the value of the
reference parameter `lvalue` at the call, the result is the returned type with
the value of `lvalue` at the return. -/
def primaryExpression : Nat → Bool → PM Front (Ty × Bool)
  | 0, _ => outOfFuel
  | fuel + 1, _ => do
      let lvalue := false
      if (← getFront).lookahead == chr '(' then
        match_ (chr '(')
        let (left, lvalue) ← expression fuel lvalue
        match_ (chr ')')
        pure (left, lvalue)
      else if (← getFront).lookahead == CHARACTER then
        match_ CHARACTER
        pure (Ty.scalar INT 0, false)
      else if (← getFront).lookahead == STRING then
        match_ STRING
        let size := (← getFront).lexbuf.utf8ByteSize
        pure (Ty.array CHAR 0 ((size + (2 ^ 32 - 2)) % 2 ^ 32), false)
      else if (← getFront).lookahead == INTEGER then
        match_ INTEGER
        pure (Ty.scalar INT 0, false)
      else if (← getFront).lookahead == REAL then
        match_ REAL
        pure (Ty.scalar DOUBLE 0, false)
      else if (← getFront).lookahead == ID then
        let name ← identifier
        match ← call (checkIdentifier name) with
        | none => fun _ => Res.undefined
        | some symbol =>
            let left := symbol.type
            if (← getFront).lookahead == chr '(' then
              match_ (chr '(')
              let (types, _) ←
                if (← getFront).lookahead != chr ')' then do
                  let (type, lvalue) ← expression fuel lvalue
                  argumentsLoop (expression fuel) fuel [type] lvalue
                else
                  pure ([], lvalue)
              match_ (chr ')')
              let left ← check (checkCall left types)
              pure (left, false)
            else
              pure (left, left.isScalar)
      else
        error
        pure (Ty.error, lvalue)

/-- The function `postfixExpression`. -/
def postfixExpression : Nat → Bool → PM Front (Ty × Bool)
  | 0, _ => outOfFuel
  | fuel + 1, lvalue => do
      let (left, lvalue) ← primaryExpression fuel lvalue
      postfixLoop (expression fuel) fuel left lvalue

/-- The function `prefixExpression`. -/
def prefixExpression : Nat → Bool → PM Front (Ty × Bool)
  | 0, _ => outOfFuel
  | fuel + 1, lvalue => do
      if (← getFront).lookahead == chr '!' then
        match_ (chr '!')
        let (right, _) ← prefixExpression fuel lvalue
        let right ← check (checkNot right)
        pure (right, false)
      else if (← getFront).lookahead == chr '-' then
        match_ (chr '-')
        let (right, _) ← prefixExpression fuel lvalue
        let right ← check (checkNegation right)
        pure (right, false)
      else if (← getFront).lookahead == chr '*' then
        match_ (chr '*')
        let (right, _) ← prefixExpression fuel lvalue
        let right ← check (checkDereference right)
        pure (right, true)
      else if (← getFront).lookahead == chr '&' then
        match_ (chr '&')
        let (right, lvalue) ← prefixExpression fuel lvalue
        let right ← check (checkAddress right lvalue)
        pure (right, false)
      else if (← getFront).lookahead == SIZEOF then
        match_ SIZEOF
        if ← startsTypeName then
          match_ (chr '(')
          let _ ← specifier
          let _ ← pointers fuel
          match_ (chr ')')
          pure (Ty.scalar INT 0, lvalue)
        else
          let (right, _) ← prefixExpression fuel lvalue
          let right ← check (checkSizeOf right)
          pure (right, false)
      else if ← startsTypeName then
        match_ (chr '(')
        let typespec ← specifier
        let indirection ← pointers fuel
        let result := Ty.scalar typespec indirection
        match_ (chr ')')
        let (operand, _) ← prefixExpression fuel lvalue
        let operand ← check (checkCast result operand)
        pure (operand, false)
      else
        postfixExpression fuel lvalue

/-- The function `multiplicativeExpression`. -/
def multiplicativeExpression : Nat → Bool → PM Front (Ty × Bool)
  | 0, _ => outOfFuel
  | fuel + 1, lvalue => do
      let (left, lvalue) ← prefixExpression fuel lvalue
      multiplicativeLoop (prefixExpression fuel) fuel left lvalue

/-- The function `additiveExpression`. -/
def additiveExpression : Nat → Bool → PM Front (Ty × Bool)
  | 0, _ => outOfFuel
  | fuel + 1, lvalue => do
      let (left, lvalue) ← multiplicativeExpression fuel lvalue
      additiveLoop (multiplicativeExpression fuel) fuel left lvalue

/-- The function `relationalExpression`. -/
def relationalExpression : Nat → Bool → PM Front (Ty × Bool)
  | 0, _ => outOfFuel
  | fuel + 1, lvalue => do
      let (left, lvalue) ← additiveExpression fuel lvalue
      relationalLoop (additiveExpression fuel) fuel left lvalue

/-- The function `equalityExpression`. -/
def equalityExpression : Nat → Bool → PM Front (Ty × Bool)
  | 0, _ => outOfFuel
  | fuel + 1, lvalue => do
      let (left, lvalue) ← relationalExpression fuel lvalue
      equalityLoop (relationalExpression fuel) fuel left lvalue

/-- The function `logicalAndExpression`. -/
def logicalAndExpression : Nat → Bool → PM Front (Ty × Bool)
  | 0, _ => outOfFuel
  | fuel + 1, lvalue => do
      let (left, lvalue) ← equalityExpression fuel lvalue
      logicalAndLoop (equalityExpression fuel) fuel left lvalue

/-- The function `expression`. -/
def expression : Nat → Bool → PM Front (Ty × Bool)
  | 0, _ => outOfFuel
  | fuel + 1, lvalue => do
      let (left, lvalue) ← logicalAndExpression fuel lvalue
      expressionLoop (logicalAndExpression fuel) fuel left lvalue

end

end Phase4

namespace Phase4

/-- Call a function of the declaration checker that dereferences no pointer. -/
def callTotal {α : Type} (f : Checker → α × Checker) : PM Front α := fun s =>
  Res.ok (f s.checker).1 { s with checker := (f s.checker).2 }

/-- Read the global `loopDepth`. -/
def getLoopDepth : PM Parser Int := fun p => Res.ok p.loopDepth p

/-- The function `assignment`: the argument is the value of the reference
parameter `lvalue` at the call, the result is its value at the return. -/
def assignment (fuel : Nat) (lvalue : Bool) : PM Front Bool := do
  let left ← expression fuel lvalue
  if (← getFront).lookahead == chr '=' then
    match_ (chr '=')
    let someValue := left.2
    let right ← expression fuel left.2
    let _ ← check (checkAssignment left.1 right.1 someValue)
    pure right.2
  else
    pure left.2

mutual

/-- The function `statement`. -/
def statement : Nat → PM Parser Unit
  | 0 => outOfFuel
  | fuel + 1 => do
      let lvalue := false
      if (← lift getFront).lookahead == chr '{' then
        lift (match_ (chr '{'))
        let _ ← lift (callTotal openScope)
        lift (declarations fuel)
        statements fuel
        let _ ← lift (call closeScope)
        lift (match_ (chr '}'))
      else if (← lift getFront).lookahead == BREAK then
        let loopDepth ← getLoopDepth
        lift (checkOnly (checkBreak loopDepth))
        lift (match_ BREAK)
        lift (match_ (chr ';'))
      else if (← lift getFront).lookahead == RETURN then
        lift (match_ RETURN)
        let returned ← lift (expression fuel lvalue)
        let returnType := (← lift getFront).returnType
        lift (checkOnly (checkReturn returned.1 returnType))
        lift (match_ (chr ';'))
      else if (← lift getFront).lookahead == WHILE then
        lift (match_ WHILE)
        lift (match_ (chr '('))
        let whiled ← lift (expression fuel lvalue)
        let _ ← lift (check (checkWhileIfFor whiled.1))
        lift (match_ (chr ')'))
        setLoopDepth ((← getLoopDepth) + 1)
        statement fuel
        setLoopDepth ((← getLoopDepth) - 1)
      else if (← lift getFront).lookahead == FOR then
        let lvalue := false
        lift (match_ FOR)
        lift (match_ (chr '('))
        let lvalue ← lift (assignment fuel lvalue)
        lift (match_ (chr ';'))
        let some_condition ← lift (expression fuel lvalue)
        let _ ← lift (check (checkWhileIfFor some_condition.1))
        lift (match_ (chr ';'))
        let _ ← lift (assignment fuel some_condition.2)
        lift (match_ (chr ')'))
        setLoopDepth ((← getLoopDepth) + 1)
        statement fuel
        setLoopDepth ((← getLoopDepth) - 1)
      else if (← lift getFront).lookahead == IF then
        let lvalue := false
        lift (match_ IF)
        lift (match_ (chr '('))
        let some_condition ← lift (expression fuel lvalue)
        let _ ← lift (check (checkWhileIfFor some_condition.1))
        lift (match_ (chr ')'))
        statement fuel
        if (← lift getFront).lookahead == ELSE then
          lift (match_ ELSE)
          statement fuel
        else
          pure ()
      else
        let _ ← lift (assignment fuel lvalue)
        lift (match_ (chr ';'))

/-- The function `statements`. -/
def statements : Nat → PM Parser Unit
  | 0 => outOfFuel
  | fuel + 1 => do
      if (← lift getFront).lookahead != chr '}' then
        statement fuel
        statements fuel
      else
        pure ()

end

/-- The function `parameter`. -/
def parameter (fuel : Nat) : PM Front Ty := do
  let typespec ← specifier
  let indirection ← pointers fuel
  let name ← identifier
  let type := Ty.scalar typespec indirection
  let _ ← call (declareVariable name type)
  pure type

/-- The loop of `parameters`, entered with the value `params`. -/
def parametersLoop : Nat → Parameters → PM Front Parameters
  | 0, _ => outOfFuel
  | fuel + 1, params => do
      if (← getFront).lookahead == chr ',' then
        match_ (chr ',')
        if (← getFront).lookahead == ELLIPSIS then
          let params := { params with variadic := true }
          match_ ELLIPSIS
          pure params
        else
          let type ← parameter fuel
          parametersLoop fuel { params with types := params.types ++ [type] }
      else
        pure params

/-- The function `parameters`. -/
def parameters (fuel : Nat) : PM Front Parameters := do
  let _ ← callTotal openScope
  let params : Parameters := ⟨false, []⟩
  if (← getFront).lookahead == VOID then
    match_ VOID
    pure params
  else
    let type ← parameter fuel
    parametersLoop fuel { params with types := params.types ++ [type] }

/-- The function `globalDeclarator`. -/
def globalDeclarator (fuel : Nat) (typespec : Int) : PM Front Unit := do
  let indirection ← pointers fuel
  let name ← identifier
  if (← getFront).lookahead == chr '[' then
    match_ (chr '[')
    let length ← integer
    let _ ← call (declareVariable name (Ty.array typespec indirection length))
    match_ (chr ']')
  else if (← getFront).lookahead == chr '(' then
    match_ (chr '(')
    let params ← parameters fuel
    let _ ← call (declareFunction name
      (Ty.function typespec indirection params.variadic params.types))
    closeParamScope
    match_ (chr ')')
  else
    let _ ← call (declareVariable name (Ty.scalar typespec indirection))
    pure ()

/-- The loop of `remainingDeclarators`. -/
def remainingDeclaratorsLoop (typespec : Int) : Nat → PM Front Unit
  | 0 => outOfFuel
  | fuel + 1 => do
      if (← getFront).lookahead == chr ',' then
        match_ (chr ',')
        globalDeclarator fuel typespec
        remainingDeclaratorsLoop typespec fuel
      else
        pure ()

/-- The function `remainingDeclarators`. -/
def remainingDeclarators (fuel : Nat) (typespec : Int) : PM Front Unit := do
  remainingDeclaratorsLoop typespec fuel
  match_ (chr ';')

/-- The assignment `returnType = type`. -/
def setReturnType (type : Ty) : PM Front Unit :=
  fun s => Res.ok () { s with returnType := type }

/-- The function `topLevelDeclaration`. -/
def topLevelDeclaration (fuel : Nat) : PM Parser Unit := do
  let typespec ← lift specifier
  let indirection ← lift (pointers fuel)
  let name ← lift identifier
  if (← lift getFront).lookahead == chr '[' then
    lift (match_ (chr '['))
    let length ← lift integer
    let _ ← lift (call (declareVariable name (Ty.array typespec indirection length)))
    lift (match_ (chr ']'))
    lift (remainingDeclarators fuel typespec)
  else if (← lift getFront).lookahead == chr '(' then
    lift (match_ (chr '('))
    let params ← lift (parameters fuel)
    lift (match_ (chr ')'))
    if (← lift getFront).lookahead == chr '{' then
      lift (setReturnType (Ty.scalar typespec indirection))
      let _ ← lift (call (defineFunction name
        (Ty.function typespec indirection params.variadic params.types)))
      lift (match_ (chr '{'))
      lift (declarations fuel)
      statements fuel
      let _ ← lift (call closeScope)
      lift (match_ (chr '}'))
    else
      lift closeParamScope
      let _ ← lift (call (declareFunction name
        (Ty.function typespec indirection params.variadic params.types)))
      lift (remainingDeclarators fuel typespec)
  else
    let _ ← lift (call (declareVariable name (Ty.scalar typespec indirection)))
    lift (remainingDeclarators fuel typespec)

/-- The loop of `main`. -/
def mainLoop : Nat → PM Parser Unit
  | 0 => outOfFuel
  | fuel + 1 => do
      if (← lift getFront).lookahead != DONE then
        topLevelDeclaration fuel
        mainLoop fuel
      else
        pure ()

/-- The variables at the start of the program, when the scanner is about to
return the tokens `input`: the statics are zero, the strings are empty and
`returnType` is default-constructed. -/
def Front.init (input : List Token) : Front :=
  ⟨input, "", 0, 0, "", "", Ty.error, Checker.init⟩

/-- The function `main`, run on the tokens `input`. -/
def main (fuel : Nat) (input : List Token) : Res Parser Unit :=
  (do
    let _ ← lift (callTotal openScope)
    let t ← lift yylex
    lift (fun s => Res.ok () { s with lookahead := t })
    mainLoop fuel
    let _ ← lift (call closeScope)
    lift (exit EXIT_SUCCESS) : PM Parser Unit) ⟨Front.init input, 0⟩

/-! ### The statements with the loop nesting as a parameter

The same statements, written with the number `k` of `while` and `for` bodies
that enclose the statement as a parameter in place of the global `loopDepth`:
a `break` is diagnosed exactly when `k` is zero, the body of a loop is parsed
with `k + 1`, and the body of a function with `0`. -/

namespace Lexical

/-- The check of a `break` inside `k` loop bodies: the diagnostic is reported
exactly when there is no loop body around it. -/
def breakAt (k : Nat) (log : Log) : Log :=
  if k = 0 then report breaking "" log else log

mutual

/-- A statement inside `k` loop bodies. -/
def statementAt : Nat → Nat → PM Front Unit
  | _, 0 => outOfFuel
  | k, fuel + 1 => do
      let lvalue := false
      if (← getFront).lookahead == chr '{' then
        match_ (chr '{')
        let _ ← callTotal openScope
        declarations fuel
        statementsAt k fuel
        let _ ← call closeScope
        match_ (chr '}')
      else if (← getFront).lookahead == BREAK then
        checkOnly (breakAt k)
        match_ BREAK
        match_ (chr ';')
      else if (← getFront).lookahead == RETURN then
        match_ RETURN
        let returned ← expression fuel lvalue
        let returnType := (← getFront).returnType
        checkOnly (checkReturn returned.1 returnType)
        match_ (chr ';')
      else if (← getFront).lookahead == WHILE then
        match_ WHILE
        match_ (chr '(')
        let whiled ← expression fuel lvalue
        let _ ← check (checkWhileIfFor whiled.1)
        match_ (chr ')')
        statementAt (k + 1) fuel
      else if (← getFront).lookahead == FOR then
        let lvalue := false
        match_ FOR
        match_ (chr '(')
        let lvalue ← assignment fuel lvalue
        match_ (chr ';')
        let some_condition ← expression fuel lvalue
        let _ ← check (checkWhileIfFor some_condition.1)
        match_ (chr ';')
        let _ ← assignment fuel some_condition.2
        match_ (chr ')')
        statementAt (k + 1) fuel
      else if (← getFront).lookahead == IF then
        let lvalue := false
        match_ IF
        match_ (chr '(')
        let some_condition ← expression fuel lvalue
        let _ ← check (checkWhileIfFor some_condition.1)
        match_ (chr ')')
        statementAt k fuel
        if (← getFront).lookahead == ELSE then
          match_ ELSE
          statementAt k fuel
        else
          pure ()
      else
        let _ ← assignment fuel lvalue
        match_ (chr ';')

/-- A sequence of statements inside `k` loop bodies. -/
def statementsAt : Nat → Nat → PM Front Unit
  | _, 0 => outOfFuel
  | k, fuel + 1 => do
      if (← getFront).lookahead != chr '}' then
        statementAt k fuel
        statementsAt k fuel
      else
        pure ()

end

/-- A top-level declaration; the body of a function is inside no loop. -/
def topLevelDeclaration (fuel : Nat) : PM Front Unit := do
  let typespec ← specifier
  let indirection ← pointers fuel
  let name ← identifier
  if (← getFront).lookahead == chr '[' then
    match_ (chr '[')
    let length ← integer
    let _ ← call (declareVariable name (Ty.array typespec indirection length))
    match_ (chr ']')
    remainingDeclarators fuel typespec
  else if (← getFront).lookahead == chr '(' then
    match_ (chr '(')
    let params ← parameters fuel
    match_ (chr ')')
    if (← getFront).lookahead == chr '{' then
      setReturnType (Ty.scalar typespec indirection)
      let _ ← call (defineFunction name
        (Ty.function typespec indirection params.variadic params.types))
      match_ (chr '{')
      declarations fuel
      statementsAt 0 fuel
      let _ ← call closeScope
      match_ (chr '}')
    else
      closeParamScope
      let _ ← call (declareFunction name
        (Ty.function typespec indirection params.variadic params.types))
      remainingDeclarators fuel typespec
  else
    let _ ← call (declareVariable name (Ty.scalar typespec indirection))
    remainingDeclarators fuel typespec

/-- The sequence of the top-level declarations. -/
def mainLoop : Nat → PM Front Unit
  | 0 => outOfFuel
  | fuel + 1 => do
      if (← getFront).lookahead != DONE then
        topLevelDeclaration fuel
        mainLoop fuel
      else
        pure ()

/-- The whole program on the tokens `input`. -/
def main (fuel : Nat) (input : List Token) : Res Front Unit :=
  (do
    let _ ← callTotal openScope
    let t ← yylex
    (fun s => Res.ok () { s with lookahead := t } : PM Front Unit)
    mainLoop fuel
    let _ ← call closeScope
    exit EXIT_SUCCESS : PM Front Unit) (Front.init input)

end Lexical

end Phase4

/-! ## The parser of phase 2 (`lab2/phase2/parser.cpp`) -/

namespace Phase2

/-! Modelled from the spec: `tokens.h` is not part of the sources.  The tokens
that the parser names are distinct integers, the operators of one character
have the code of their character, and `DONE`, which the scanner returns at the
end of the input, is `0`. -/

/-- Modelled from the spec: token code of the end of the input. -/
def DONE : Int := 0
/-- Modelled from the spec: token code of `*`. -/
def STAR : Int := chr '*'
/-- Modelled from the spec: token code of `(`. -/
def LPAREN : Int := chr '('
/-- Modelled from the spec: token code of `)`. -/
def RPAREN : Int := chr ')'
/-- Modelled from the spec: token code of `[`. -/
def LBRACK : Int := chr '['
/-- Modelled from the spec: token code of `]`. -/
def RBRACK : Int := chr ']'
/-- Modelled from the spec: token code of the opening brace. -/
def LBRACE : Int := chr '{'
/-- Modelled from the spec: token code of the closing brace. -/
def RBRACE : Int := chr '}'
/-- Modelled from the spec: token code of `&`. -/
def ADDR : Int := chr '&'
/-- Modelled from the spec: token code of `!`. -/
def NOT : Int := chr '!'
/-- Modelled from the spec: token code of `-`. -/
def MINUS : Int := chr '-'
/-- Modelled from the spec: token code of `+`. -/
def PLUS : Int := chr '+'
/-- Modelled from the spec: token code of `/`. -/
def DIV : Int := chr '/'
/-- Modelled from the spec: token code of `%`. -/
def REM : Int := chr '%'
/-- Modelled from the spec: token code of `<`. -/
def LTN : Int := chr '<'
/-- Modelled from the spec: token code of `>`. -/
def GTN : Int := chr '>'
/-- Modelled from the spec: token code of `=`. -/
def ASSIGN : Int := chr '='
/-- Modelled from the spec: token code of `break`. -/
def BREAK : Int := 257
/-- Modelled from the spec: token code of `else`. -/
def ELSE : Int := 265
/-- Modelled from the spec: token code of `for`. -/
def FOR : Int := 269
/-- Modelled from the spec: token code of `if`. -/
def IF : Int := 271
/-- Modelled from the spec: token code of `return`. -/
def RETURN : Int := 275
/-- Modelled from the spec: token code of `sizeof`. -/
def SIZEOF : Int := 278
/-- Modelled from the spec: token code of `void`. -/
def VOID : Int := 285
/-- Modelled from the spec: token code of `while`. -/
def WHILE : Int := 287
/-- Modelled from the spec: token code of `||`. -/
def OR : Int := 288
/-- Modelled from the spec: token code of `&&`. -/
def AND : Int := 289
/-- Modelled from the spec: token code of `==`. -/
def EQL : Int := 290
/-- Modelled from the spec: token code of `!=`. -/
def NEQ : Int := 291
/-- Modelled from the spec: token code of `<=`. -/
def LEQ : Int := 292
/-- Modelled from the spec: token code of `>=`. -/
def GEQ : Int := 293
/-- Modelled from the spec: token code of `++`. -/
def INC : Int := 294
/-- Modelled from the spec: token code of `--`. -/
def DEC : Int := 295
/-- Modelled from the spec: token code of `...`. -/
def ELLIPSIS : Int := 297
/-- Modelled from the spec: token code of an identifier. -/
def ID : Int := 298
/-- Modelled from the spec: token code of an integer literal. -/
def INTEGER : Int := 299
/-- Modelled from the spec: token code of a real literal. -/
def REAL : Int := 300
/-- Modelled from the spec: token code of a string literal. -/
def STRING : Int := 301
/-- Modelled from the spec: token code of a character literal. -/
def CHARACTER : Int := 302

/-- The variables of the parser: the tokens the scanner has not returned yet,
the scanner's `yytext`, the globals `lookahead`, `nexttoken`, `lexbuf` and
`nextbuf`, the diagnostics reported so far, and the lines written to standard
output so far. -/
structure Parser where
  input : List Token
  yytext : String
  lookahead : Int
  nexttoken : Int
  lexbuf : String
  nextbuf : String
  log : Log
  output : List String
  deriving DecidableEq, Repr

/-- Read the state. -/
def getParser : PM Parser Parser := fun s => Res.ok s s

/-- Write the state. -/
def setParser (s : Parser) : PM Parser Unit := fun _ => Res.ok () s

/-- Modelled from the spec: the scanner function `yylex` returns the kind of
the next token and leaves its lexeme in `yytext`; at the end of the input it
returns `DONE`, every time it is called. -/
def yylex : PM Parser Int := fun s =>
  match s.input with
  | [] => Res.ok DONE { s with yytext := "" }
  | t :: rest => Res.ok t.kind { s with input := rest, yytext := t.text }

/-- The call `report(format, yytext)`. -/
def reportAt (format : String) : PM Parser Unit := fun s =>
  Res.ok () { s with log := report format s.yytext s.log }

/-- The statement `cout << line << endl`. -/
def print (line : String) : PM Parser Unit := fun s =>
  Res.ok () { s with output := s.output ++ [line] }

/-- The library function `exit`. -/
def exit {α : Type} (status : Int) : PM Parser α := fun s => Res.exit status s.log

/-- The function `peek`. -/
def peek : PM Parser Int := do
  if (← getParser).nexttoken == 0 then
    let t ← yylex
    let s ← getParser
    setParser { s with nexttoken := t, nextbuf := s.yytext }
  pure (← getParser).nexttoken

/-- The function `match`. -/
def match_ (t : Int) : PM Parser Unit := do
  if (← getParser).lookahead != t then
    reportAt "Does not match. Error at %s"
    exit 1
  let s ← getParser
  if s.nexttoken != 0 then
    setParser { s with lookahead := s.nexttoken, lexbuf := s.nextbuf, nexttoken := 0 }
  else
    let t ← yylex
    let s ← getParser
    setParser { s with lookahead := t, lexbuf := s.yytext }

/-- The function `isSpecifier`. -/
def isSpecifier (token : Int) : Bool :=
  token == CHAR || token == INT || token == DOUBLE

/-- The function `pointers`. -/
def pointers : Nat → PM Parser Unit
  | 0 => outOfFuel
  | fuel + 1 => do
      if (← getParser).lookahead == STAR then
        match_ STAR
        pointers fuel
      else
        pure ()

/-- The function `specifier`. -/
def specifier : PM Parser Unit := do
  if isSpecifier (← getParser).lookahead then
    match_ (← getParser).lookahead
  else
    reportAt "Is not a legal specifier. Error at %s"

/-- The function `expression_prime`; `logicalAndExpression` is its callee of
that name. -/
def expression_prime (logicalAndExpression : PM Parser Unit) : Nat → PM Parser Unit
  | 0 => outOfFuel
  | fuel + 1 => do
      if (← getParser).lookahead == OR then
        match_ OR
        logicalAndExpression
        print "or"
        expression_prime logicalAndExpression fuel
      else
        pure ()

/-- The function `logicalAndExpression_prime`; `equalityExpression` is its
callee of that name. -/
def logicalAndExpression_prime (equalityExpression : PM Parser Unit) : Nat → PM Parser Unit
  | 0 => outOfFuel
  | fuel + 1 => do
      if (← getParser).lookahead == AND then
        match_ AND
        equalityExpression
        print "and"
        logicalAndExpression_prime equalityExpression fuel
      else
        pure ()

/-- The function `equalityExpression_prime`; `relationalExpression` is its
callee of that name. -/
def equalityExpression_prime (relationalExpression : PM Parser Unit) : Nat → PM Parser Unit
  | 0 => outOfFuel
  | fuel + 1 => do
      if (← getParser).lookahead == EQL then
        match_ EQL
        relationalExpression
        print "eql"
        equalityExpression_prime relationalExpression fuel
      else if (← getParser).lookahead == NEQ then
        match_ NEQ
        relationalExpression
        print "neq"
        equalityExpression_prime relationalExpression fuel
      else
        pure ()

/-- The function `relationalExpression_prime`; `additiveExpression` is its
callee of that name. -/
def relationalExpression_prime (additiveExpression : PM Parser Unit) : Nat → PM Parser Unit
  | 0 => outOfFuel
  | fuel + 1 => do
      if (← getParser).lookahead == LTN then
        match_ LTN
        additiveExpression
        print "ltn"
        relationalExpression_prime additiveExpression fuel
      else if (← getParser).lookahead == GTN then
        match_ GTN
        additiveExpression
        print "gtn"
        relationalExpression_prime additiveExpression fuel
      else if (← getParser).lookahead == LEQ then
        match_ LEQ
        additiveExpression
        print "leq"
        relationalExpression_prime additiveExpression fuel
      else if (← getParser).lookahead == GEQ then
        match_ GEQ
        additiveExpression
        print "geq"
        relationalExpression_prime additiveExpression fuel
      else
        pure ()

/-- The function `additiveExpression_prime`; `multiplicativeExpression` is its
callee of that name. -/
def additiveExpression_prime (multiplicativeExpression : PM Parser Unit) :
    Nat → PM Parser Unit
  | 0 => outOfFuel
  | fuel + 1 => do
      if (← getParser).lookahead == PLUS then
        match_ PLUS
        multiplicativeExpression
        print "add"
        additiveExpression_prime multiplicativeExpression fuel
      else if (← getParser).lookahead == MINUS then
        match_ MINUS
        multiplicativeExpression
        print "sub"
        additiveExpression_prime multiplicativeExpression fuel
      else
        pure ()

/-- The function `multiplicativeExpression_prime`; `prefixExpression` is its
callee of that name. -/
def multiplicativeExpression_prime (prefixExpression : PM Parser Unit) : Nat → PM Parser Unit
  | 0 => outOfFuel
  | fuel + 1 => do
      if (← getParser).lookahead == STAR then
        match_ STAR
        prefixExpression
        print "mul"
        multiplicativeExpression_prime prefixExpression fuel
      else if (← getParser).lookahead == DIV then
        match_ DIV
        prefixExpression
        print "div"
        multiplicativeExpression_prime prefixExpression fuel
      else if (← getParser).lookahead == REM then
        match_ REM
        prefixExpression
        print "rem"
        multiplicativeExpression_prime prefixExpression fuel
      else
        pure ()

/-- The function `postfixExpression_prime`; `expression` is its callee of that
name. -/
def postfixExpression_prime (expression : PM Parser Unit) : Nat → PM Parser Unit
  | 0 => outOfFuel
  | fuel + 1 => do
      if (← getParser).lookahead == LBRACK then
        match_ LBRACK
        expression
        match_ RBRACK
        print "index"
        postfixExpression_prime expression fuel
      else if (← getParser).lookahead == INC then
        match_ INC
        print "inc"
        postfixExpression_prime expression fuel
      else if (← getParser).lookahead == DEC then
        match_ DEC
        print "dec"
        postfixExpression_prime expression fuel
      else
        pure ()

/-- The loop of `expressionList`; `expression` is its callee of that name. -/
def expressionListLoop (expression : PM Parser Unit) : Nat → PM Parser Unit
  | 0 => outOfFuel
  | fuel + 1 => do
      if (← getParser).lookahead == chr ',' then
        match_ (chr ',')
        expression
        expressionListLoop expression fuel
      else
        pure ()

/-- The test `lookahead==LPAREN && (peek()==CHAR||peek()==INT||peek()==DOUBLE)`
of `prefixExpression`, with the calls of `peek` that `&&` and `||` make. -/
def castAhead : PM Parser Bool := do
  if (← getParser).lookahead == LPAREN then
    if (← peek) == CHAR then pure true
    else if (← peek) == INT then pure true
    else if (← peek) == DOUBLE then pure true
    else pure false
  else
    pure false

mutual

/-- The function `expression`. -/
def expression : Nat → PM Parser Unit
  | 0 => outOfFuel
  | fuel + 1 => do
      logicalAndExpression fuel
      expression_prime (logicalAndExpression fuel) fuel

/-- The function `logicalAndExpression`. -/
def logicalAndExpression : Nat → PM Parser Unit
  | 0 => outOfFuel
  | fuel + 1 => do
      equalityExpression fuel
      logicalAndExpression_prime (equalityExpression fuel) fuel

/-- The function `equalityExpression`. -/
def equalityExpression : Nat → PM Parser Unit
  | 0 => outOfFuel
  | fuel + 1 => do
      relationalExpression fuel
      equalityExpression_prime (relationalExpression fuel) fuel

/-- The function `relationalExpression`. -/
def relationalExpression : Nat → PM Parser Unit
  | 0 => outOfFuel
  | fuel + 1 => do
      additiveExpression fuel
      relationalExpression_prime (additiveExpression fuel) fuel

/-- The function `additiveExpression`. -/
def additiveExpression : Nat → PM Parser Unit
  | 0 => outOfFuel
  | fuel + 1 => do
      multiplicativeExpression fuel
      additiveExpression_prime (multiplicativeExpression fuel) fuel

/-- The function `multiplicativeExpression`. -/
def multiplicativeExpression : Nat → PM Parser Unit
  | 0 => outOfFuel
  | fuel + 1 => do
      prefixExpression fuel
      multiplicativeExpression_prime (prefixExpression fuel) fuel

/-- The function `prefixExpression`. -/
def prefixExpression : Nat → PM Parser Unit
  | 0 => outOfFuel
  | fuel + 1 => do
      if (← getParser).lookahead == ADDR then
        match_ ADDR
        prefixExpression fuel
        print "addr"
      else if (← getParser).lookahead == STAR then
        match_ STAR
        prefixExpression fuel
        print "deref"
      else if (← getParser).lookahead == NOT then
        match_ NOT
        prefixExpression fuel
        print "not"
      else if ← castAhead then
        match_ LPAREN
        specifier
        pointers fuel
        match_ RPAREN
        prefixExpression fuel
        print "cast"
      else if (← getParser).lookahead == SIZEOF then
        match_ SIZEOF
        if (← getParser).lookahead != LPAREN then
          prefixExpression fuel
        else
          if isSpecifier (← peek) then
            match_ LPAREN
            specifier
            pointers fuel
            match_ RPAREN
          else
            match_ LPAREN
            expression fuel
            match_ RPAREN
        print "sizeof"
      else if (← getParser).lookahead == MINUS then
        match_ MINUS
        prefixExpression fuel
        print "neg"
      else
        postfixExpression fuel

/-- The function `postfixExpression`. -/
def postfixExpression : Nat → PM Parser Unit
  | 0 => outOfFuel
  | fuel + 1 => do
      primaryExpression fuel
      postfixExpression_prime (expression fuel) fuel

/-- The function `primaryExpression`. -/
def primaryExpression : Nat → PM Parser Unit
  | 0 => outOfFuel
  | fuel + 1 => do
      if (← getParser).lookahead == LPAREN then
        match_ LPAREN
        expression fuel
        match_ RPAREN
      else if (← getParser).lookahead == STRING then
        match_ STRING
      else if (← getParser).lookahead == ID then
        match_ ID
        if (← getParser).lookahead == LPAREN then
          match_ LPAREN
          if (← getParser).lookahead != RPAREN then
            expressionList fuel
          match_ RPAREN
      else if (← getParser).lookahead == INTEGER then
        match_ INTEGER
      else if (← getParser).lookahead == REAL then
        match_ REAL
      else if (← getParser).lookahead == CHARACTER then
        match_ CHARACTER
      else
        reportAt "Not one of the primary expressions. Error at %s"
        exit 1

/-- The function `expressionList`. -/
def expressionList : Nat → PM Parser Unit
  | 0 => outOfFuel
  | fuel + 1 => do
      expression fuel
      expressionListLoop (expression fuel) fuel

end

/-- The function `assignment`. -/
def assignment (fuel : Nat) : PM Parser Unit := do
  expression fuel
  if (← getParser).lookahead == ASSIGN then
    match_ ASSIGN
    expression fuel

/-- The function `declarator_prime`. -/
def declarator_prime : PM Parser Unit := do
  if (← getParser).lookahead == LBRACK then
    match_ LBRACK
    match_ INTEGER
    match_ RBRACK

/-- The function `declarator`. -/
def declarator (fuel : Nat) : PM Parser Unit := do
  pointers fuel
  match_ ID
  declarator_prime

/-- The loop of `declarator_list`. -/
def declarator_listLoop : Nat → PM Parser Unit
  | 0 => outOfFuel
  | fuel + 1 => do
      if (← getParser).lookahead == chr ',' then
        match_ (chr ',')
        declarator fuel
        declarator_listLoop fuel
      else
        pure ()

/-- The function `declarator_list`. -/
def declarator_list (fuel : Nat) : PM Parser Unit := do
  declarator fuel
  declarator_listLoop fuel

/-- The function `declaration`. -/
def declaration (fuel : Nat) : PM Parser Unit := do
  specifier
  declarator_list fuel
  match_ (chr ';')

/-- The function `declarations`. -/
def declarations : Nat → PM Parser Unit
  | 0 => outOfFuel
  | fuel + 1 => do
      if isSpecifier (← getParser).lookahead then
        declaration fuel
        declarations fuel
      else
        pure ()

mutual

/-- The function `statement`. -/
def statement : Nat → PM Parser Unit
  | 0 => outOfFuel
  | fuel + 1 => do
      if (← getParser).lookahead == LBRACE then
        match_ LBRACE
        declarations fuel
        statements fuel
        match_ RBRACE
      else if (← getParser).lookahead == BREAK then
        match_ BREAK
        match_ (chr ';')
      else if (← getParser).lookahead == RETURN then
        match_ RETURN
        expression fuel
        match_ (chr ';')
      else if (← getParser).lookahead == WHILE then
        match_ WHILE
        match_ LPAREN
        expression fuel
        match_ RPAREN
        statement fuel
      else if (← getParser).lookahead == FOR then
        match_ FOR
        match_ LPAREN
        assignment fuel
        match_ (chr ';')
        expression fuel
        match_ (chr ';')
        assignment fuel
        match_ RPAREN
        statement fuel
      else if (← getParser).lookahead == IF then
        match_ IF
        match_ LPAREN
        expression fuel
        match_ RPAREN
        statement fuel
        if (← getParser).lookahead == ELSE then
          match_ ELSE
          statement fuel
      else
        assignment fuel
        match_ (chr ';')

/-- The function `statements`. -/
def statements : Nat → PM Parser Unit
  | 0 => outOfFuel
  | fuel + 1 => do
      if (← getParser).lookahead != RBRACE then
        statement fuel
        statements fuel
      else
        pure ()

end

/-- The function `parameter`. -/
def parameter (fuel : Nat) : PM Parser Unit := do
  specifier
  pointers fuel
  match_ ID

/-- The test `lookahead==',' && peek()!=ELLIPSIS` of `parameter_list`; `peek`
is called only when the first operand of `&&` is true. -/
def anotherParameter : PM Parser Bool := do
  if (← getParser).lookahead == chr ',' then
    let t ← peek
    pure (t != ELLIPSIS)
  else
    pure false

/-- The loop of `parameter_list`. -/
def parameter_listLoop : Nat → PM Parser Unit
  | 0 => outOfFuel
  | fuel + 1 => do
      if ← anotherParameter then
        match_ (chr ',')
        parameter fuel
        parameter_listLoop fuel
      else
        pure ()

/-- The function `parameter_list`. -/
def parameter_list (fuel : Nat) : PM Parser Unit := do
  parameter fuel
  parameter_listLoop fuel

/-- The function `parameters`. -/
def parameters (fuel : Nat) : PM Parser Unit := do
  if (← getParser).lookahead == VOID then
    match_ VOID
  else
    parameter_list fuel
    if (← getParser).lookahead == chr ',' then
      match_ (chr ',')
      match_ ELLIPSIS

/-- The function `global_declarator`. -/
def global_declarator (fuel : Nat) : PM Parser Unit := do
  pointers fuel
  match_ ID
  if (← getParser).lookahead == LPAREN then
    match_ LPAREN
    parameters fuel
    match_ RPAREN
  else if (← getParser).lookahead == LBRACK then
    match_ LBRACK
    match_ INTEGER
    match_ RBRACK

/-- The function `remainingDecls`. -/
def remainingDecls : Nat → PM Parser Unit
  | 0 => outOfFuel
  | fuel + 1 => do
      if (← getParser).lookahead == chr ';' then
        match_ (chr ';')
      else if (← getParser).lookahead == chr ',' then
        match_ (chr ',')
        global_declarator fuel
        remainingDecls fuel
      else
        reportAt "remaingDecls. Error at %s"

/-- The function `functionOrGlobal`. -/
def functionOrGlobal (fuel : Nat) : PM Parser Unit := do
  specifier
  pointers fuel
  match_ ID
  if (← getParser).lookahead == LPAREN then
    match_ LPAREN
    parameters fuel
    match_ RPAREN
    if (← getParser).lookahead == LBRACE then
      match_ LBRACE
      declarations fuel
      statements fuel
      match_ RBRACE
    else
      remainingDecls fuel
  else if (← getParser).lookahead == LBRACK then
    match_ LBRACK
    match_ INTEGER
    match_ RBRACK
    remainingDecls fuel
  else
    remainingDecls fuel

/-- The loop of `main`. -/
def mainLoop : Nat → PM Parser Unit
  | 0 => outOfFuel
  | fuel + 1 => do
      if (← getParser).lookahead != DONE then
        functionOrGlobal fuel
        mainLoop fuel
      else
        pure ()

/-- The variables at the start of the program, when the scanner is about to
return the tokens `input`. -/
def Parser.init (input : List Token) : Parser :=
  ⟨input, "", 0, 0, "", "", [], []⟩

/-- The function `main`, run on the tokens `input`.  An outcome `Res.ok` is a
return from `main`, which ends the process with a success status. -/
def main (fuel : Nat) (input : List Token) : Res Parser Unit :=
  (do
    let t ← yylex
    let s ← getParser
    setParser { s with lookahead := t }
    mainLoop fuel : PM Parser Unit) (Parser.init input)

end Phase2

/-! ## Integer addition and subtraction in the code generator of phase 6 -/

namespace Phase6

/-- A register of the integer unit that the generator names. -/
inductive Reg where
  | eax
  | ecx
  | edx
  deriving DecidableEq, Repr

/-- An operand of an emitted instruction: a register, an immediate `$n`, or
the text that `operand()` writes for an expression node (a memory operand or a
literal, never a register). -/
inductive Opnd where
  | reg (r : Reg)
  | imm (n : Nat)
  | node (text : String)
  deriving DecidableEq, Repr

/-- An emitted line: a comment, or an instruction with its operands in the
order in which they are written (source first). -/
inductive Instr where
  | comment (text : String)
  | movl (src dst : Opnd)
  | imull (src dst : Opnd)
  | addl (src dst : Opnd)
  | subl (src dst : Opnd)
  | idivl (src : Opnd)
  | fldl (src : Opnd)
  | faddl (src : Opnd)
  | fsubl (src : Opnd)
  | fstpl (dst : Opnd)
  deriving DecidableEq, Repr

/-- The lines that `Add::generate` writes after it has generated its operands
and taken its temporary: `left`, `right` and `this` are the operand texts of
the two operands and of the node, `fp` is `FP(this)`. -/
def Add.emit (left right this : String) (fp : Bool) (scaleLeft scaleRight : Nat) : List Instr :=
  if fp then
    [Instr.fldl (Opnd.node left), Instr.faddl (Opnd.node right), Instr.fstpl (Opnd.node this)]
  else
    [Instr.movl (Opnd.node left) (Opnd.reg Reg.eax)] ++
    (if scaleLeft ≠ 0 then [Instr.imull (Opnd.imm scaleLeft) (Opnd.reg Reg.eax)] else []) ++
    [Instr.movl (Opnd.node right) (Opnd.reg Reg.ecx)] ++
    (if scaleRight ≠ 0 then [Instr.imull (Opnd.imm scaleRight) (Opnd.reg Reg.ecx)] else []) ++
    [Instr.addl (Opnd.reg Reg.ecx) (Opnd.reg Reg.eax),
     Instr.movl (Opnd.reg Reg.eax) (Opnd.node this)]

/-- The function `Add::generate`; `outLeft` and `outRight` are the lines that
generating the operands writes. -/
def Add.generate (outLeft outRight : List Instr) (left right this : String) (fp : Bool)
    (scaleLeft scaleRight : Nat) : List Instr :=
  [Instr.comment "#Adding"] ++ outLeft ++ outRight ++
    Add.emit left right this fp scaleLeft scaleRight

/-- The lines that `Subtract::generate` writes after it has generated its
operands and taken its temporary. -/
def Subtract.emit (left right this : String) (fp : Bool) (scaleRight scaleResult : Nat) :
    List Instr :=
  if fp then
    [Instr.fldl (Opnd.node left), Instr.fsubl (Opnd.node right), Instr.fstpl (Opnd.node this)]
  else
    [Instr.movl (Opnd.node left) (Opnd.reg Reg.eax)] ++
    (if scaleResult ≠ 0 then
      [Instr.subl (Opnd.node right) (Opnd.reg Reg.eax), Instr.idivl (Opnd.imm scaleResult)]
    else if scaleRight ≠ 0 then
      [Instr.imull (Opnd.imm scaleRight) (Opnd.reg Reg.ecx),
       Instr.subl (Opnd.reg Reg.ecx) (Opnd.reg Reg.eax)]
    else
      [Instr.subl (Opnd.node right) (Opnd.reg Reg.eax)]) ++
    [Instr.movl (Opnd.reg Reg.eax) (Opnd.node this)]

/-- The function `Subtract::generate`. -/
def Subtract.generate (outLeft outRight : List Instr) (left right this : String) (fp : Bool)
    (scaleRight scaleResult : Nat) : List Instr :=
  [Instr.comment "#Subtracting"] ++ outLeft ++ outRight ++
    Subtract.emit left right this fp scaleRight scaleResult

/-- The registers an operand names. -/
def Opnd.regs : Opnd → List Reg
  | Opnd.reg r => [r]
  | _ => []

/-- Modelled from the spec: the registers that an instruction of the IA-32
instruction set reads.  A two-operand arithmetic instruction reads both
operands, a move reads its source, `idivl` reads its operand and the pair
`%edx:%eax`. -/
def Instr.reads : Instr → List Reg
  | Instr.comment _ => []
  | Instr.movl src _ => src.regs
  | Instr.imull src dst => src.regs ++ dst.regs
  | Instr.addl src dst => src.regs ++ dst.regs
  | Instr.subl src dst => src.regs ++ dst.regs
  | Instr.idivl src => src.regs ++ [Reg.edx, Reg.eax]
  | Instr.fldl _ => []
  | Instr.faddl _ => []
  | Instr.fsubl _ => []
  | Instr.fstpl _ => []

/-- Modelled from the spec: the registers that an instruction of the IA-32
instruction set writes. -/
def Instr.writes : Instr → List Reg
  | Instr.comment _ => []
  | Instr.movl _ dst => dst.regs
  | Instr.imull _ dst => dst.regs
  | Instr.addl _ dst => dst.regs
  | Instr.subl _ dst => dst.regs
  | Instr.idivl _ => [Reg.eax, Reg.edx]
  | Instr.fldl _ => []
  | Instr.faddl _ => []
  | Instr.fsubl _ => []
  | Instr.fstpl _ => []

/-- The first register that a sequence of instructions reads before the
sequence has written it, when `written` are the registers written so far;
`none` when every register is written before it is read. -/
def readBeforeWritten (written : List Reg) : List Instr → Option Reg
  | [] => none
  | i :: rest =>
      match i.reads.find? (fun r => !written.contains r) with
      | some r => some r
      | none => readBeforeWritten (written ++ i.writes) rest

end Phase6

/-! ## The literal pools of the code generator of phase 6 -/

namespace Phase6

/-- The statics that the literal operands use: the label counter and the maps
`m1` (strings) and `m2` (reals) from a lexeme to its label.  A map is the list
of its entries in the order in which they were inserted; the order in which an
`unordered_map` is iterated is not specified, and nothing below depends on it. -/
structure Pools where
  labels : Nat
  m1 : List (String × Label)
  m2 : List (String × Label)
  deriving DecidableEq, Repr

/-- The call `m.find(value)`: the label of the entry with the key `value`, or
`none` for `m.end()`. -/
def findLabel (value : String) : List (String × Label) → Option Label
  | [] => none
  | entry :: rest => if entry.1 = value then some entry.2 else findLabel value rest

/-- The function `String::operand` for the literal with the lexeme `value`: the
number `n` of the label `.L<n>` that it writes, and the statics after the call.
The local `Label my_string` takes a number of the counter whether or not the
lexeme is found. -/
def String.operand (value : String) (p : Pools) : Label × Pools :=
  let my_string := p.labels
  let p1 := { p with labels := p.labels + 1 }
  match findLabel value p1.m1 with
  | some found => (found, p1)
  | none => (my_string, { p1 with m1 := p1.m1 ++ [(value, my_string)] })

/-- The function `Real::operand` for the literal with the lexeme `value`. -/
def Real.operand (value : String) (p : Pools) : Label × Pools :=
  let my_string := p.labels
  let p1 := { p with labels := p.labels + 1 }
  match findLabel value p1.m2 with
  | some found => (found, p1)
  | none => (my_string, { p1 with m2 := p1.m2 ++ [(value, my_string)] })

/-- An entry `.L<label>:\t.asciz\t"<text>"` (`real = false`) or
`.L<label>:\t.double\t<text>` (`real = true`) of the pool that
`generateGlobals` writes; `text` is the lexeme, which the source passes through
`escapeString` when it writes the line. -/
structure PoolEntry where
  label : Label
  real : Bool
  text : String
  deriving DecidableEq, Repr

/-- The two loops of `generateGlobals` over `m1` and `m2`: the entries
written. -/
def generateGlobals (p : Pools) : List PoolEntry :=
  p.m1.map (fun element => ⟨element.2, false, element.1⟩) ++
  p.m2.map (fun element => ⟨element.2, true, element.1⟩)

/-- A construction of a `Label` during a compilation: by the operand of a
string literal, by the operand of a real literal, or anywhere else in the
generator. -/
inductive Use where
  | string (value : String)
  | real (value : String)
  | other
  deriving DecidableEq, Repr

/-- Run a sequence of uses: the literal operands with the label each one
wrote, in order, and the statics after the last use. -/
def runUses : List Use → Pools → List (Use × Label) × Pools
  | [], p => ([], p)
  | Use.string value :: rest, p =>
      let r := String.operand value p
      let rs := runUses rest r.2
      ((Use.string value, r.1) :: rs.1, rs.2)
  | Use.real value :: rest, p =>
      let r := Real.operand value p
      let rs := runUses rest r.2
      ((Use.real value, r.1) :: rs.1, rs.2)
  | Use.other :: rest, p => runUses rest { p with labels := p.labels + 1 }

end Phase6

namespace Phase6

/-- The invariant of the literal pools, with the literal operands written so
far: the labels in the maps are below the counter, no map has two entries with
one key or with one label, no label is in both maps, and every operand written
so far has its entry, of its kind, in the maps. -/
structure PoolsInv (p : Pools) (written : List (Use × Label)) : Prop where
  bound1 : ∀ e ∈ p.m1, e.2 < p.labels
  bound2 : ∀ e ∈ p.m2, e.2 < p.labels
  keys1 : (p.m1.map Prod.fst).Nodup
  keys2 : (p.m2.map Prod.fst).Nodup
  labs1 : (p.m1.map Prod.snd).Nodup
  labs2 : (p.m2.map Prod.snd).Nodup
  apart : ∀ e1 ∈ p.m1, ∀ e2 ∈ p.m2, e1.2 ≠ e2.2
  mem1 : ∀ (v : String) (l : Label), (Use.string v, l) ∈ written → (v, l) ∈ p.m1
  mem2 : ∀ (v : String) (l : Label), (Use.real v, l) ∈ written → (v, l) ∈ p.m2
  literal : ∀ l : Label, (Use.other, l) ∉ written

end Phase6

/-! ## The parser of phase 3 (`lab3/phase3/parser.cpp`)

The token codes are those of `Phase4`.  The parser writes the name of an
operator to standard output when it has parsed the operator; the state keeps
the lines written. -/

namespace Phase3

open Phase4 (DONE BREAK ELSE FOR IF RETURN SIZEOF VOID WHILE OR AND EQL NEQ LEQ GEQ INC DEC
  ELLIPSIS ID INTEGER REAL STRING CHARACTER)

/-- The variables of the parser: the tokens the scanner has not returned yet,
the scanner's `yytext`, the statics `lookahead`, `nexttoken`, `lexbuf` and
`nextbuf`, the state of the checker, and the lines written to standard output
so far. -/
structure Parser where
  input : List Token
  yytext : String
  lookahead : Int
  nexttoken : Int
  lexbuf : String
  nextbuf : String
  checker : Checker
  output : List String
  deriving DecidableEq, Repr

/-- Read the state. -/
def getParser : PM Parser Parser := fun s => Res.ok s s

/-- Write the state. -/
def setParser (s : Parser) : PM Parser Unit := fun _ => Res.ok () s

/-- Call a function of the declaration checker; a null dereference in it is
undefined. -/
def call {α : Type} (f : Checker → Option (α × Checker)) : PM Parser α := fun s =>
  match f s.checker with
  | none => Res.undefined
  | some (a, c) => Res.ok a { s with checker := c }

/-- Call a function of the declaration checker that dereferences no pointer. -/
def callTotal {α : Type} (f : Checker → α × Checker) : PM Parser α := fun s =>
  Res.ok (f s.checker).1 { s with checker := (f s.checker).2 }

/-- The statement `cout << line << endl`. -/
def print (line : String) : PM Parser Unit := fun s =>
  Res.ok () { s with output := s.output ++ [line] }

/-- The library function `exit`. -/
def exit {α : Type} (status : Int) : PM Parser α := fun s => Res.exit status s.checker.log

/-- Modelled from the spec: the scanner function `yylex` returns the kind of
the next token and leaves its lexeme in `yytext`; at the end of the input it
returns `DONE`, every time it is called. -/
def yylex : PM Parser Int := fun s =>
  match s.input with
  | [] => Res.ok DONE { s with yytext := "" }
  | t :: rest => Res.ok t.kind { s with input := rest, yytext := t.text }

/-- The function `checkIdentifier` of phase 3 (`lab3/phase3/checker.cpp`);
`none` when `currentScope` is null or the lookup does not return. -/
def checkIdentifier (name : String) (s : Checker) : Option (Option Symbol × Checker) :=
  match s.scope s.toplevel with
  | none => none
  | some scope =>
    match scope.lookup s.scopes name with
    | none => none
    | some (some sym) => some (some sym, s)
    | some none =>
        let sym : Symbol := ⟨s.symbols, name, Ty.error⟩
        let s1 := { s with symbols := s.symbols + 1 }
        let s2 := s1.setScope s1.toplevel (scope.insert sym)
        some (some sym, { s2 with log := report undeclared name s2.log })

/-- The function `error`. -/
def error {α : Type} : PM Parser α := fun s =>
  let log :=
    if s.lookahead == DONE then report "syntax error at end of file" "" s.checker.log
    else report "syntax error at '%s'" s.yytext s.checker.log
  Res.exit EXIT_FAILURE log

/-- The function `peek`. -/
def peek : PM Parser Int := do
  if (← getParser).nexttoken == 0 then
    let t ← yylex
    let s ← getParser
    setParser { s with nexttoken := t, nextbuf := s.yytext }
  pure (← getParser).nexttoken

/-- The function `match`. -/
def match_ (t : Int) : PM Parser Unit := do
  if (← getParser).lookahead != t then
    error
  let s ← getParser
  if s.nexttoken != 0 then
    setParser { s with lookahead := s.nexttoken, lexbuf := s.nextbuf, nexttoken := 0 }
  else
    let t ← yylex
    let s ← getParser
    setParser { s with lookahead := t, lexbuf := s.yytext }

/-- The function `isSpecifier`. -/
def isSpecifier (token : Int) : Bool :=
  token == CHAR || token == INT || token == DOUBLE

/-- The function `specifier`. -/
def specifier : PM Parser Int := do
  let typespec := (← getParser).lookahead
  if isSpecifier (← getParser).lookahead then
    match_ (← getParser).lookahead
  else
    error
  pure typespec

/-- The function `identifier`. -/
def identifier : PM Parser String := do
  let iden := (← getParser).lexbuf
  match_ ID
  pure iden

/-- The value of the longest run of decimal digits at the start of a text. -/
def decimalDigits : List Char → Nat → Nat
  | [], acc => acc
  | c :: cs, acc => if c.isDigit then decimalDigits cs (acc * 10 + (c.toNat - 48)) else acc

/-- Modelled from the spec: the library function `std::stoi` on a lexeme, which
has neither leading white space nor a sign: the value of its leading decimal
digits; `none` when it throws, which it does for a text that starts with no
digit (`std::invalid_argument`) and for a value that is no `int`
(`std::out_of_range`). -/
def stoi (text : String) : Option Nat :=
  match text.data with
  | [] => none
  | c :: cs =>
      if c.isDigit then
        if decimalDigits (c :: cs) 0 < 2 ^ 31 then some (decimalDigits (c :: cs) 0) else none
      else none

/-- The function `integra`.  An exception of `stoi` is caught nowhere and ends
the process abnormally, which is the outcome `undefined`. -/
def integra : PM Parser Nat := do
  match stoi (← getParser).lexbuf with
  | none => fun _ => Res.undefined
  | some length =>
      match_ INTEGER
      pure length

/-- The loop of `pointers`, entered with the value `count`. -/
def pointersLoop : Nat → Nat → PM Parser Nat
  | 0, _ => outOfFuel
  | fuel + 1, count => do
      if (← getParser).lookahead == chr '*' then
        match_ (chr '*')
        pointersLoop fuel ((count + 1) % 2 ^ 32)
      else
        pure count

/-- The function `pointers`. -/
def pointers (fuel : Nat) : PM Parser Nat :=
  pointersLoop fuel 0

/-- The function `declarator`. -/
def declarator (fuel : Nat) (typespec : Int) : PM Parser Unit := do
  let indirection ← pointers fuel
  let iden ← identifier
  if (← getParser).lookahead == chr '[' then
    match_ (chr '[')
    let length ← integra
    match_ (chr ']')
    let _ ← call (declareVariable iden (Ty.array typespec indirection length))
    pure ()
  else
    let _ ← call (declareVariable iden (Ty.scalar typespec indirection))
    pure ()

/-- The loop of `declaration`. -/
def declarationLoop (typespec : Int) : Nat → PM Parser Unit
  | 0 => outOfFuel
  | fuel + 1 => do
      if (← getParser).lookahead == chr ',' then
        match_ (chr ',')
        declarator fuel typespec
        declarationLoop typespec fuel
      else
        pure ()

/-- The function `declaration`. -/
def declaration (fuel : Nat) : PM Parser Unit := do
  let typespec ← specifier
  declarator fuel typespec
  declarationLoop typespec fuel
  match_ (chr ';')

/-- The function `declarations`. -/
def declarations : Nat → PM Parser Unit
  | 0 => outOfFuel
  | fuel + 1 => do
      if isSpecifier (← getParser).lookahead then
        declaration fuel
        declarations fuel
      else
        pure ()

/-- The test `lookahead == '(' && isSpecifier(peek())` of `prefixExpression`;
`peek` is called only when the first operand of `&&` is true. -/
def startsTypeName : PM Parser Bool := do
  if (← getParser).lookahead == chr '(' then
    let t ← peek
    pure (isSpecifier t)
  else
    pure false

/-- The loop `while (lookahead == ',')` of `primaryExpression`; `expression` is
its callee of that name. -/
def argumentsLoop (expression : PM Parser Unit) : Nat → PM Parser Unit
  | 0 => outOfFuel
  | fuel + 1 => do
      if (← getParser).lookahead == chr ',' then
        match_ (chr ',')
        expression
        argumentsLoop expression fuel
      else
        pure ()

/-- The loop of `postfixExpression`; `expression` is its callee of that name. -/
def postfixLoop (expression : PM Parser Unit) : Nat → PM Parser Unit
  | 0 => outOfFuel
  | fuel + 1 => do
      if (← getParser).lookahead == chr '[' then
        match_ (chr '[')
        expression
        match_ (chr ']')
        print "index"
        postfixLoop expression fuel
      else if (← getParser).lookahead == INC then
        match_ INC
        print "inc"
        postfixLoop expression fuel
      else if (← getParser).lookahead == DEC then
        match_ DEC
        print "dec"
        postfixLoop expression fuel
      else
        pure ()

/-- The loop of `multiplicativeExpression`; `prefixExpression` is its callee of
that name. -/
def multiplicativeLoop (prefixExpression : PM Parser Unit) : Nat → PM Parser Unit
  | 0 => outOfFuel
  | fuel + 1 => do
      if (← getParser).lookahead == chr '*' then
        match_ (chr '*')
        prefixExpression
        print "mul"
        multiplicativeLoop prefixExpression fuel
      else if (← getParser).lookahead == chr '/' then
        match_ (chr '/')
        prefixExpression
        print "div"
        multiplicativeLoop prefixExpression fuel
      else if (← getParser).lookahead == chr '%' then
        match_ (chr '%')
        prefixExpression
        print "rem"
        multiplicativeLoop prefixExpression fuel
      else
        pure ()

/-- The loop of `additiveExpression`; `multiplicativeExpression` is its callee
of that name. -/
def additiveLoop (multiplicativeExpression : PM Parser Unit) : Nat → PM Parser Unit
  | 0 => outOfFuel
  | fuel + 1 => do
      if (← getParser).lookahead == chr '+' then
        match_ (chr '+')
        multiplicativeExpression
        print "add"
        additiveLoop multiplicativeExpression fuel
      else if (← getParser).lookahead == chr '-' then
        match_ (chr '-')
        multiplicativeExpression
        print "sub"
        additiveLoop multiplicativeExpression fuel
      else
        pure ()

/-- The loop of `relationalExpression`; `additiveExpression` is its callee of
that name. -/
def relationalLoop (additiveExpression : PM Parser Unit) : Nat → PM Parser Unit
  | 0 => outOfFuel
  | fuel + 1 => do
      if (← getParser).lookahead == chr '<' then
        match_ (chr '<')
        additiveExpression
        print "ltn"
        relationalLoop additiveExpression fuel
      else if (← getParser).lookahead == chr '>' then
        match_ (chr '>')
        additiveExpression
        print "gtn"
        relationalLoop additiveExpression fuel
      else if (← getParser).lookahead == LEQ then
        match_ LEQ
        additiveExpression
        print "leq"
        relationalLoop additiveExpression fuel
      else if (← getParser).lookahead == GEQ then
        match_ GEQ
        additiveExpression
        print "geq"
        relationalLoop additiveExpression fuel
      else
        pure ()

/-- The loop of `equalityExpression`; `relationalExpression` is its callee of
that name. -/
def equalityLoop (relationalExpression : PM Parser Unit) : Nat → PM Parser Unit
  | 0 => outOfFuel
  | fuel + 1 => do
      if (← getParser).lookahead == EQL then
        match_ EQL
        relationalExpression
        print "eql"
        equalityLoop relationalExpression fuel
      else if (← getParser).lookahead == NEQ then
        match_ NEQ
        relationalExpression
        print "neq"
        equalityLoop relationalExpression fuel
      else
        pure ()

/-- The loop of `logicalAndExpression`; `equalityExpression` is its callee of
that name. -/
def logicalAndLoop (equalityExpression : PM Parser Unit) : Nat → PM Parser Unit
  | 0 => outOfFuel
  | fuel + 1 => do
      if (← getParser).lookahead == AND then
        match_ AND
        equalityExpression
        print "and"
        logicalAndLoop equalityExpression fuel
      else
        pure ()

/-- The loop of `expression`; `logicalAndExpression` is its callee of that
name. -/
def expressionLoop (logicalAndExpression : PM Parser Unit) : Nat → PM Parser Unit
  | 0 => outOfFuel
  | fuel + 1 => do
      if (← getParser).lookahead == OR then
        match_ OR
        logicalAndExpression
        print "or"
        expressionLoop logicalAndExpression fuel
      else
        pure ()

mutual

/-- The function `primaryExpression`. -/
def primaryExpression : Nat → PM Parser Unit
  | 0 => outOfFuel
  | fuel + 1 => do
      if (← getParser).lookahead == chr '(' then
        match_ (chr '(')
        expression fuel
        match_ (chr ')')
      else if (← getParser).lookahead == CHARACTER then
        match_ CHARACTER
      else if (← getParser).lookahead == STRING then
        match_ STRING
      else if (← getParser).lookahead == INTEGER then
        match_ INTEGER
      else if (← getParser).lookahead == REAL then
        match_ REAL
      else if (← getParser).lookahead == ID then
        let name ← identifier
        let _ ← call (checkIdentifier name)
        if (← getParser).lookahead == chr '(' then
          match_ (chr '(')
          if (← getParser).lookahead != chr ')' then
            expression fuel
            argumentsLoop (expression fuel) fuel
          match_ (chr ')')
      else
        error

/-- The function `postfixExpression`. -/
def postfixExpression : Nat → PM Parser Unit
  | 0 => outOfFuel
  | fuel + 1 => do
      primaryExpression fuel
      postfixLoop (expression fuel) fuel

/-- The function `prefixExpression`. -/
def prefixExpression : Nat → PM Parser Unit
  | 0 => outOfFuel
  | fuel + 1 => do
      if (← getParser).lookahead == chr '!' then
        match_ (chr '!')
        prefixExpression fuel
        print "not"
      else if (← getParser).lookahead == chr '-' then
        match_ (chr '-')
        prefixExpression fuel
        print "neg"
      else if (← getParser).lookahead == chr '*' then
        match_ (chr '*')
        prefixExpression fuel
        print "deref"
      else if (← getParser).lookahead == chr '&' then
        match_ (chr '&')
        prefixExpression fuel
        print "addr"
      else if (← getParser).lookahead == SIZEOF then
        match_ SIZEOF
        if ← startsTypeName then
          match_ (chr '(')
          let _ ← specifier
          let _ ← pointers fuel
          match_ (chr ')')
        else
          prefixExpression fuel
        print "sizeof"
      else if ← startsTypeName then
        match_ (chr '(')
        let _ ← specifier
        let _ ← pointers fuel
        match_ (chr ')')
        prefixExpression fuel
        print "cast"
      else
        postfixExpression fuel

/-- The function `multiplicativeExpression`. -/
def multiplicativeExpression : Nat → PM Parser Unit
  | 0 => outOfFuel
  | fuel + 1 => do
      prefixExpression fuel
      multiplicativeLoop (prefixExpression fuel) fuel

/-- The function `additiveExpression`. -/
def additiveExpression : Nat → PM Parser Unit
  | 0 => outOfFuel
  | fuel + 1 => do
      multiplicativeExpression fuel
      additiveLoop (multiplicativeExpression fuel) fuel

/-- The function `relationalExpression`. -/
def relationalExpression : Nat → PM Parser Unit
  | 0 => outOfFuel
  | fuel + 1 => do
      additiveExpression fuel
      relationalLoop (additiveExpression fuel) fuel

/-- The function `equalityExpression`. -/
def equalityExpression : Nat → PM Parser Unit
  | 0 => outOfFuel
  | fuel + 1 => do
      relationalExpression fuel
      equalityLoop (relationalExpression fuel) fuel

/-- The function `logicalAndExpression`. -/
def logicalAndExpression : Nat → PM Parser Unit
  | 0 => outOfFuel
  | fuel + 1 => do
      equalityExpression fuel
      logicalAndLoop (equalityExpression fuel) fuel

/-- The function `expression`. -/
def expression : Nat → PM Parser Unit
  | 0 => outOfFuel
  | fuel + 1 => do
      logicalAndExpression fuel
      expressionLoop (logicalAndExpression fuel) fuel

end

/-- The function `assignment`. -/
def assignment (fuel : Nat) : PM Parser Unit := do
  expression fuel
  if (← getParser).lookahead == chr '=' then
    match_ (chr '=')
    expression fuel

mutual

/-- The function `statement`. -/
def statement : Nat → PM Parser Unit
  | 0 => outOfFuel
  | fuel + 1 => do
      if (← getParser).lookahead == chr '{' then
        match_ (chr '{')
        let _ ← callTotal openScope
        declarations fuel
        statements fuel
        let _ ← call closeScope
        match_ (chr '}')
      else if (← getParser).lookahead == BREAK then
        match_ BREAK
        match_ (chr ';')
      else if (← getParser).lookahead == RETURN then
        match_ RETURN
        expression fuel
        match_ (chr ';')
      else if (← getParser).lookahead == WHILE then
        match_ WHILE
        match_ (chr '(')
        expression fuel
        match_ (chr ')')
        statement fuel
      else if (← getParser).lookahead == FOR then
        match_ FOR
        match_ (chr '(')
        assignment fuel
        match_ (chr ';')
        expression fuel
        match_ (chr ';')
        assignment fuel
        match_ (chr ')')
        statement fuel
      else if (← getParser).lookahead == IF then
        match_ IF
        match_ (chr '(')
        expression fuel
        match_ (chr ')')
        statement fuel
        if (← getParser).lookahead == ELSE then
          match_ ELSE
          statement fuel
      else
        assignment fuel
        match_ (chr ';')

/-- The function `statements`. -/
def statements : Nat → PM Parser Unit
  | 0 => outOfFuel
  | fuel + 1 => do
      if (← getParser).lookahead != chr '}' then
        statement fuel
        statements fuel
      else
        pure ()

end

/-- The function `parameter`. -/
def parameter (fuel : Nat) : PM Parser Ty := do
  let typespec ← specifier
  let indirection ← pointers fuel
  let iden ← identifier
  let some_type := Ty.scalar typespec indirection
  let _ ← call (declareVariable iden some_type)
  pure some_type

/-- The loop of `parameters`, entered with the value `pp`. -/
def parametersLoop : Nat → Parameters → PM Parser Parameters
  | 0, _ => outOfFuel
  | fuel + 1, pp => do
      if (← getParser).lookahead == chr ',' then
        match_ (chr ',')
        if (← getParser).lookahead == ELLIPSIS then
          let pp := { pp with variadic := true }
          match_ ELLIPSIS
          pure pp
        else
          let type ← parameter fuel
          parametersLoop fuel { pp with types := pp.types ++ [type] }
      else
        pure pp

/-- The function `parameters`.  After `new Parameters` the field `variadic` is
indeterminate; it is given the value `false`, which the source assigns in every
branch but `void`. -/
def parameters (fuel : Nat) : PM Parser Parameters := do
  let pp : Parameters := ⟨false, []⟩
  if (← getParser).lookahead == VOID then
    match_ VOID
    pure pp
  else
    let pp := { pp with variadic := false }
    let type ← parameter fuel
    parametersLoop fuel { pp with types := pp.types ++ [type] }

/-- The function `globalDeclarator`. -/
def globalDeclarator (fuel : Nat) (typespec : Int) : PM Parser Unit := do
  let indirection ← pointers fuel
  let iden ← identifier
  if (← getParser).lookahead == chr '[' then
    match_ (chr '[')
    let length ← integra
    match_ (chr ']')
    let _ ← call (declareVariable iden (Ty.array typespec indirection length))
    pure ()
  else if (← getParser).lookahead == chr '(' then
    match_ (chr '(')
    let _ ← callTotal openScope
    let pars ← parameters fuel
    let _ ← call closeScope
    match_ (chr ')')
    let _ ← call (declareFunction iden
      (Ty.function typespec indirection pars.variadic pars.types))
    pure ()
  else
    let _ ← call (declareVariable iden (Ty.scalar typespec indirection))
    pure ()

/-- The loop of `remainingDeclarators`. -/
def remainingDeclaratorsLoop (typespec : Int) : Nat → PM Parser Unit
  | 0 => outOfFuel
  | fuel + 1 => do
      if (← getParser).lookahead == chr ',' then
        match_ (chr ',')
        globalDeclarator fuel typespec
        remainingDeclaratorsLoop typespec fuel
      else
        pure ()

/-- The function `remainingDeclarators`. -/
def remainingDeclarators (fuel : Nat) (typespec : Int) : PM Parser Unit := do
  remainingDeclaratorsLoop typespec fuel
  match_ (chr ';')

/-- The function `topLevelDeclaration`. -/
def topLevelDeclaration (fuel : Nat) : PM Parser Unit := do
  let typespec ← specifier
  let indirection ← pointers fuel
  let iden ← identifier
  if (← getParser).lookahead == chr '[' then
    match_ (chr '[')
    let length ← integra
    match_ (chr ']')
    let _ ← call (declareVariable iden (Ty.array typespec indirection length))
    remainingDeclarators fuel typespec
  else if (← getParser).lookahead == chr '(' then
    match_ (chr '(')
    let _ ← callTotal openScope
    let pars ← parameters fuel
    match_ (chr ')')
    if (← getParser).lookahead == chr '{' then
      let _ ← call (defineFunction iden
        (Ty.function typespec indirection pars.variadic pars.types))
      match_ (chr '{')
      declarations fuel
      statements fuel
      let _ ← call closeScope
      match_ (chr '}')
    else
      let _ ← call (declareFunction iden
        (Ty.function typespec indirection pars.variadic pars.types))
      let _ ← call closeScope
      remainingDeclarators fuel typespec
  else
    let _ ← call (declareVariable iden (Ty.scalar typespec indirection))
    remainingDeclarators fuel typespec

/-- The loop of `main`. -/
def mainLoop : Nat → PM Parser Unit
  | 0 => outOfFuel
  | fuel + 1 => do
      if (← getParser).lookahead != DONE then
        topLevelDeclaration fuel
        mainLoop fuel
      else
        pure ()

/-- The variables at the start of the program, when the scanner is about to
return the tokens `input`. -/
def Parser.init (input : List Token) : Parser :=
  ⟨input, "", 0, 0, "", "", Checker.init, []⟩

/-- The function `main`, run on the tokens `input`. -/
def main (fuel : Nat) (input : List Token) : Res Parser Unit :=
  (do
    let t ← yylex
    let s ← getParser
    setParser { s with lookahead := t }
    let _ ← callTotal openScope
    mainLoop fuel
    let _ ← call closeScope
    exit EXIT_SUCCESS : PM Parser Unit) (Parser.init input)

end Phase3

/-! ## The token interface of the parser of phase 4 -/

namespace Phase4

/-- The tokens that `match` has still to install as `lookahead`: the token that
`peek` holds in `nexttoken` and `nextbuf`, if there is one, and then the tokens
that the scanner has not returned yet. -/
def Front.pending (s : Front) : List Token :=
  (if s.nexttoken != 0 then [⟨s.nexttoken, s.nextbuf⟩] else []) ++ s.input

/-- The token that is at position `i` of a token sequence that is followed by
the end of the input: beyond the sequence the scanner returns `DONE` with an
empty lexeme. -/
def tokenAt (ts : List Token) (i : Nat) : Token :=
  ts.getD i ⟨DONE, ""⟩

/-- A use of the token interface: a call of `peek`, or a call of `match` with
the token kind that `lookahead` holds, which is a match that succeeds. -/
inductive TokenOp where
  | peek
  | advance
  deriving DecidableEq, Repr

/-- Run a sequence of uses of the token interface: the values of `lookahead`
and `lexbuf` after each call of `match`, in order; `none` if a call does not
return. -/
def runTokenOps : List TokenOp → Front → Option (List Token)
  | [], _ => some []
  | TokenOp.peek :: ops, s =>
      match peek s with
      | Res.ok _ s1 => runTokenOps ops s1
      | _ => none
  | TokenOp.advance :: ops, s =>
      match match_ s.lookahead s with
      | Res.ok _ s1 =>
          match runTokenOps ops s1 with
          | some rest => some (⟨s1.lookahead, s1.lexbuf⟩ :: rest)
          | none => none
      | _ => none

end Phase4
/-! ## The token interface of the parser of phase 3 -/

namespace Phase3

/-- The tokens that `match` has still to install as `lookahead`: the token that
`peek` holds in `nexttoken` and `nextbuf`, if there is one, and then the tokens
that the scanner has not returned yet. -/
def Parser.pending (s : Parser) : List Token :=
  (if s.nexttoken != 0 then [⟨s.nexttoken, s.nextbuf⟩] else []) ++ s.input

/-- Run a sequence of uses of the token interface: the values of `lookahead`
and `lexbuf` after each call of `match`, in order; `none` if a call does not
return. -/
def runTokenOps : List Phase4.TokenOp → Parser → Option (List Token)
  | [], _ => some []
  | Phase4.TokenOp.peek :: ops, s =>
      match peek s with
      | Res.ok _ s1 => runTokenOps ops s1
      | _ => none
  | Phase4.TokenOp.advance :: ops, s =>
      match match_ s.lookahead s with
      | Res.ok _ s1 =>
          match runTokenOps ops s1 with
          | some rest => some (⟨s1.lookahead, s1.lexbuf⟩ :: rest)
          | none => none
      | _ => none

end Phase3

/-! ## Runs of the parser of phase 4 on given tokens -/

namespace Phase4

/-- The state of the parser that has the tokens `ts` before it, with nothing
peeked: `lookahead` and `lexbuf` hold the first token (`DONE` and the empty
lexeme when there is none) and the scanner has the others to return.  This is
the state in which `match` leaves the parser. -/
def Front.on (ts : List Token) (nextbuf : String) (returnType : Ty) (checker : Checker) : Front :=
  ⟨ts.tail, (tokenAt ts 0).text, (tokenAt ts 0).kind, 0, (tokenAt ts 0).text, nextbuf,
    returnType, checker⟩

/-- A run of `n` tokens `*`. -/
def stars (n : Nat) : List Token :=
  List.replicate n ⟨chr '*', "*"⟩

end Phase4
namespace Phase4

/-- The token of a punctuation character. -/
def tok (c : Char) : Token :=
  ⟨chr c, c.toString⟩

/-- A parameter as it is written: the token of its specifier, the number of
stars and the name. -/
structure Param where
  spec : Token
  indirection : Nat
  name : String

/-- The tokens of one parameter. -/
def Param.tokens (p : Param) : List Token :=
  p.spec :: (stars p.indirection ++ [⟨ID, p.name⟩])

/-- The type that `parameter` builds for a parameter. -/
def Param.type (p : Param) : Ty :=
  Ty.scalar p.spec.kind (p.indirection % 2 ^ 32)

/-- The tokens of the parameters after the first: each one after a comma. -/
def commaParams : List Param → List Token
  | [] => []
  | p :: ps => tok ',' :: (p.tokens ++ commaParams ps)

/-- The tokens of a parameter list that is not `void`. -/
def paramList : List Param → List Token
  | [] => []
  | p :: ps => p.tokens ++ commaParams ps

/-- The calls of `declareVariable` for the parameters, in order. -/
def declareAll : List Param → Checker → Option Checker
  | [], c => some c
  | p :: ps, c => (declareVariable p.name p.type c).bind (fun r => declareAll ps r.2)

/-- The tokens of `T f(P x) { Q x; }`, where the specifiers `T`, `P` and `Q`
are followed by `a`, `b` and `c` stars. -/
def sameScopeProgram (T P Q : Token) (a b c : Nat) : List Token :=
  T :: (stars a ++ ⟨ID, "f"⟩ :: tok '(' :: P :: (stars b ++ ⟨ID, "x"⟩ :: tok ')' :: tok '{' ::
    Q :: (stars c ++ [⟨ID, "x"⟩, tok ';', tok '}'])))

/-- The tokens of `T f(P x) { { Q x; } }`: the second `x` is declared in a
block of the body. -/
def nestedScopeProgram (T P Q : Token) (a b c : Nat) : List Token :=
  T :: (stars a ++ ⟨ID, "f"⟩ :: tok '(' :: P :: (stars b ++ ⟨ID, "x"⟩ :: tok ')' :: tok '{' ::
    tok '{' :: Q :: (stars c ++ [⟨ID, "x"⟩, tok ';', tok '}', tok '}'])))

end Phase4
namespace Phase3

/-- The state of the parser of phase 3 that has the tokens `ts` before it,
with nothing peeked. -/
def Parser.on (ts : List Token) (nextbuf : String) (checker : Checker) (output : List String) :
    Parser :=
  ⟨ts.tail, (Phase4.tokenAt ts 0).text, (Phase4.tokenAt ts 0).kind, 0, (Phase4.tokenAt ts 0).text,
    nextbuf, checker, output⟩

end Phase3

namespace Phase4

/-- A parameter list as it is written: `void`, or one parameter or more, which
`, ...` may follow. -/
inductive ParamList where
  | void
  | list (first : Param) (others : List Param) (ellipsis : Bool)

/-- The parameters of a parameter list. -/
def ParamList.params : ParamList → List Param
  | ParamList.void => []
  | ParamList.list p ps _ => p :: ps

/-- Whether a parameter list ends with an ellipsis. -/
def ParamList.variadic : ParamList → Bool
  | ParamList.void => false
  | ParamList.list _ _ v => v

/-- The tokens of a parameter list. -/
def ParamList.tokens : ParamList → List Token
  | ParamList.void => [⟨VOID, "void"⟩]
  | ParamList.list p ps v =>
      paramList (p :: ps) ++ (if v then [tok ',', ⟨ELLIPSIS, "..."⟩] else [])

/-- The names and the types of the symbols of the scope that `toplevel` points
to, in the order of the vector of symbols. -/
def scopeSymbols (c : Checker) : Option (List (String × Ty)) :=
  (c.scope c.toplevel).map (fun scope => scope.symbols.map (fun y => (y.name, y.type)))

end Phase4

namespace Phase4

/-- The part `if ( expression )` of an `if` statement, as `statement` runs it:
from `match(IF)` to `match(')')`. -/
def ifHeader (fuel : Nat) : PM Parser Unit := do
  let lvalue := false
  lift (match_ IF)
  lift (match_ (chr '('))
  let some_condition ← lift (expression fuel lvalue)
  let _ ← lift (check (checkWhileIfFor some_condition.1))
  lift (match_ (chr ')'))

/-- The tokens of `if ( 1 ) if ( 2 ) 3 ; else 4 ;`. -/
def nestedIfTokens : List Token :=
  [⟨IF, "if"⟩, tok '(', ⟨INTEGER, "1"⟩, tok ')', ⟨IF, "if"⟩, tok '(', ⟨INTEGER, "2"⟩, tok ')',
    ⟨INTEGER, "3"⟩, tok ';', ⟨ELSE, "else"⟩, ⟨INTEGER, "4"⟩, tok ';']

/-- The state of the parser of phase 4 before the tokens `ts`, inside no
loop, with the global scope open. -/
def Parser.before (ts : List Token) : Parser :=
  ⟨Front.on ts "" Ty.error (openScope Checker.init).2, 0⟩

end Phase4

/-! ## Termination of the parser of phase 4 -/

/-- The outcome `r` is not the end of the fuel, and if it is a return, the
returned value and state satisfy `Q`.  A call of `exit` and a null dereference
end the run. -/
def Res.halts {σ α : Type} (r : Res σ α) (Q : α → σ → Prop) : Prop :=
  match r with
  | Res.ok a s => Q a s
  | Res.timeout => False
  | _ => True

namespace Phase4

/-- The number of tokens that the parser has not consumed: those the scanner
has still to return, the peeked token, and the token in `lookahead`; a token
variable that holds zero, which is `DONE`, does not count. -/
def Front.size (s : Front) : Nat :=
  s.input.length + (if s.nexttoken = 0 then 0 else 1) + (if s.lookahead = 0 then 0 else 1)

end Phase4

/-! ## Parse trees of the expressions of phase 3 -/

namespace Phase3

open Phase4 (DONE SIZEOF OR AND EQL NEQ LEQ GEQ INC DEC ID INTEGER REAL STRING CHARACTER)

/-- The binary operators of the expressions, by the names that the parser of
phase 3 prints. -/
inductive BinOp where
  | mul
  | div
  | rem
  | add
  | sub
  | ltn
  | gtn
  | leq
  | geq
  | eql
  | neq
  | and
  | or
  deriving DecidableEq, Repr

/-- The token of a binary operator. -/
def BinOp.kind : BinOp → Int
  | BinOp.mul => chr '*'
  | BinOp.div => chr '/'
  | BinOp.rem => chr '%'
  | BinOp.add => chr '+'
  | BinOp.sub => chr '-'
  | BinOp.ltn => chr '<'
  | BinOp.gtn => chr '>'
  | BinOp.leq => LEQ
  | BinOp.geq => GEQ
  | BinOp.eql => EQL
  | BinOp.neq => NEQ
  | BinOp.and => AND
  | BinOp.or => OR

/-- The name that the parser prints for a binary operator. -/
def BinOp.name : BinOp → String
  | BinOp.mul => "mul"
  | BinOp.div => "div"
  | BinOp.rem => "rem"
  | BinOp.add => "add"
  | BinOp.sub => "sub"
  | BinOp.ltn => "ltn"
  | BinOp.gtn => "gtn"
  | BinOp.leq => "leq"
  | BinOp.geq => "geq"
  | BinOp.eql => "eql"
  | BinOp.neq => "neq"
  | BinOp.and => "and"
  | BinOp.or => "or"

/-- The level of the grammar at which a binary operator is applied:
multiplicative 3, additive 4, relational 5, equality 6, logical and 7,
logical or 8. -/
def BinOp.level : BinOp → Nat
  | BinOp.mul => 3
  | BinOp.div => 3
  | BinOp.rem => 3
  | BinOp.add => 4
  | BinOp.sub => 4
  | BinOp.ltn => 5
  | BinOp.gtn => 5
  | BinOp.leq => 5
  | BinOp.geq => 5
  | BinOp.eql => 6
  | BinOp.neq => 6
  | BinOp.and => 7
  | BinOp.or => 8

/-- The operators written before their operand. -/
inductive PreOp where
  | not
  | neg
  | deref
  | addr
  deriving DecidableEq, Repr

/-- The token of an operator written before its operand. -/
def PreOp.kind : PreOp → Int
  | PreOp.not => chr '!'
  | PreOp.neg => chr '-'
  | PreOp.deref => chr '*'
  | PreOp.addr => chr '&'

/-- The name that the parser prints for an operator written before its operand. -/
def PreOp.name : PreOp → String
  | PreOp.not => "not"
  | PreOp.neg => "neg"
  | PreOp.deref => "deref"
  | PreOp.addr => "addr"

/-- The operators `++` and `--`, written after their operand. -/
inductive PostOp where
  | inc
  | dec
  deriving DecidableEq, Repr

/-- The token of an operator written after its operand. -/
def PostOp.kind : PostOp → Int
  | PostOp.inc => INC
  | PostOp.dec => DEC

/-- The name that the parser prints for an operator written after its operand. -/
def PostOp.name : PostOp → String
  | PostOp.inc => "inc"
  | PostOp.dec => "dec"

/-- A parse tree of an expression, or of a list of arguments.  A leaf is a
character, a string, an integer, a real or an identifier; `comma first rest`
is the list of arguments `first , rest`. -/
inductive Tree where
  | leaf (kind : Int)
  | paren (e : Tree)
  | call0
  | call (args : Tree)
  | comma (first rest : Tree)
  | index (e i : Tree)
  | post (op : PostOp) (e : Tree)
  | pre (op : PreOp) (e : Tree)
  | sizeofExpr (e : Tree)
  | sizeofType (spec : Int) (stars : Nat)
  | cast (spec : Int) (stars : Nat) (e : Tree)
  | binary (op : BinOp) (left right : Tree)
  deriving DecidableEq, Repr

/-- The kinds of the tokens of a parse tree, from left to right. -/
def Tree.kinds : Tree → List Int
  | Tree.leaf kind => [kind]
  | Tree.paren e => chr '(' :: (e.kinds ++ [chr ')'])
  | Tree.call0 => [ID, chr '(', chr ')']
  | Tree.call args => ID :: chr '(' :: (args.kinds ++ [chr ')'])
  | Tree.comma first rest => first.kinds ++ chr ',' :: rest.kinds
  | Tree.index e i => e.kinds ++ chr '[' :: (i.kinds ++ [chr ']'])
  | Tree.post op e => e.kinds ++ [op.kind]
  | Tree.pre op e => op.kind :: e.kinds
  | Tree.sizeofExpr e => SIZEOF :: e.kinds
  | Tree.sizeofType spec stars => SIZEOF :: chr '(' :: spec :: (List.replicate stars (chr '*') ++ [chr ')'])
  | Tree.cast spec stars e =>
      chr '(' :: spec :: (List.replicate stars (chr '*') ++ chr ')' :: e.kinds)
  | Tree.binary op left right => left.kinds ++ op.kind :: right.kinds

/-- The post-order listing of the operators of a parse tree: the operators of
the operands from left to right, then the operator of the root. -/
def Tree.postorder : Tree → List String
  | Tree.leaf _ => []
  | Tree.paren e => e.postorder
  | Tree.call0 => []
  | Tree.call args => args.postorder
  | Tree.comma first rest => first.postorder ++ rest.postorder
  | Tree.index e i => e.postorder ++ i.postorder ++ ["index"]
  | Tree.post op e => e.postorder ++ [op.name]
  | Tree.pre op e => e.postorder ++ [op.name]
  | Tree.sizeofExpr e => e.postorder ++ ["sizeof"]
  | Tree.sizeofType _ _ => ["sizeof"]
  | Tree.cast _ _ e => e.postorder ++ ["cast"]
  | Tree.binary op left right => left.postorder ++ right.postorder ++ [op.name]

/-- Whether the root of a tree is a cast. -/
def Tree.isCast : Tree → Bool
  | Tree.cast _ _ _ => true
  | _ => false

/-- Whether a tree is a parse tree of the nonterminal of level `n` of the
grammar: 0 primary, 1 postfix, 2 prefix, 3 multiplicative, 4 additive,
5 relational, 6 equality, 7 logical and, 8 expression, 9 list of arguments.
A nonterminal derives the nonterminal of the level below; the left operand of
a binary operator is of the level of the operator and the right operand of the
level below, which makes the operator left-associative; the operand of a
prefix operator is a prefix expression and the operand of a postfix operator
a postfix expression.  The operand of `sizeof` is no cast: the comment of
`prefixExpression` resolves the ambiguity of `sizeof (type) ...` by reading
`(type)` as the operand of `sizeof`. -/
def Tree.derives : Nat → Tree → Bool
  | _, Tree.leaf kind =>
      kind == CHARACTER || kind == STRING || kind == INTEGER || kind == REAL || kind == ID
  | _, Tree.paren e => e.derives 8
  | _, Tree.call0 => true
  | _, Tree.call args => args.derives 9
  | n, Tree.comma first rest => decide (9 ≤ n) && first.derives 8 && rest.derives 9
  | n, Tree.index e i => decide (1 ≤ n) && e.derives 1 && i.derives 8
  | n, Tree.post _ e => decide (1 ≤ n) && e.derives 1
  | n, Tree.pre _ e => decide (2 ≤ n) && e.derives 2
  | n, Tree.sizeofExpr e => decide (2 ≤ n) && e.derives 2 && !e.isCast
  | n, Tree.sizeofType spec _ => decide (2 ≤ n) && isSpecifier spec
  | n, Tree.cast spec _ e => decide (2 ≤ n) && isSpecifier spec && e.derives 2
  | n, Tree.binary op left right =>
      decide (op.level ≤ n) && left.derives op.level && right.derives (op.level - 1)

/-- Whether the tokens of the kinds `r` start with `(` and a type specifier,
which is the test `lookahead == '(' && isSpecifier(peek())` of
`prefixExpression` on a parser that has these tokens before it. -/
def typeAhead : List Int → Bool
  | k :: k2 :: _ => k == chr '(' && isSpecifier k2
  | _ => false

/-- The kinds of the tokens that the parser has not consumed: the token in
`lookahead` and the tokens after it; none when `lookahead` is `DONE`. -/
def Parser.rest (s : Parser) : List Int :=
  if s.lookahead = 0 then [] else s.lookahead :: s.pending.map Token.kind

/-- The scanner returns `DONE`, which is zero, only at the end of the input:
no token that is still to come has the kind zero, and none is to come when
`lookahead` is `DONE`. -/
def Parser.wf (s : Parser) : Prop :=
  (∀ t ∈ s.pending, t.kind ≠ 0) ∧ (s.lookahead = 0 → s.pending = [])

instance (s : Parser) : Decidable s.wf :=
  inferInstanceAs (Decidable ((∀ t ∈ s.pending, t.kind ≠ 0) ∧ (s.lookahead = 0 → s.pending = [])))

/-! ### The parser that returns the parse tree

The functions below are the expression functions of the parser of phase 3
with one addition: each returns the parse tree of what it has parsed.  The
loop of a binary level gets the tree of the operands parsed so far. -/

/-- The loop of `pointers`, returning the number of stars. -/
def starsLoop : Nat → Nat → PM Parser Nat
  | 0, _ => outOfFuel
  | fuel + 1, count => do
      if (← getParser).lookahead == chr '*' then
        match_ (chr '*')
        starsLoop fuel (count + 1)
      else
        pure count

/-- The loop `while (lookahead == ',')` of `primaryExpression`, returning the
tree of the list that starts with the argument `first`. -/
def argumentsTreeLoop (expression : PM Parser Tree) : Nat → Tree → PM Parser Tree
  | 0, _ => outOfFuel
  | fuel + 1, first => do
      if (← getParser).lookahead == chr ',' then
        match_ (chr ',')
        let e ← expression
        let rest ← argumentsTreeLoop expression fuel e
        pure (Tree.comma first rest)
      else
        pure first

/-- The loop of `postfixExpression`, returning the tree. -/
def postfixTreeLoop (expression : PM Parser Tree) : Nat → Tree → PM Parser Tree
  | 0, _ => outOfFuel
  | fuel + 1, left => do
      if (← getParser).lookahead == chr '[' then
        match_ (chr '[')
        let i ← expression
        match_ (chr ']')
        print "index"
        postfixTreeLoop expression fuel (Tree.index left i)
      else if (← getParser).lookahead == INC then
        match_ INC
        print "inc"
        postfixTreeLoop expression fuel (Tree.post PostOp.inc left)
      else if (← getParser).lookahead == DEC then
        match_ DEC
        print "dec"
        postfixTreeLoop expression fuel (Tree.post PostOp.dec left)
      else
        pure left

/-- The loop of `multiplicativeExpression`, returning the tree. -/
def multiplicativeTreeLoop (operand : PM Parser Tree) : Nat → Tree → PM Parser Tree
  | 0, _ => outOfFuel
  | fuel + 1, left => do
      if (← getParser).lookahead == chr '*' then
        match_ (chr '*')
        let right ← operand
        print "mul"
        multiplicativeTreeLoop operand fuel (Tree.binary BinOp.mul left right)
      else if (← getParser).lookahead == chr '/' then
        match_ (chr '/')
        let right ← operand
        print "div"
        multiplicativeTreeLoop operand fuel (Tree.binary BinOp.div left right)
      else if (← getParser).lookahead == chr '%' then
        match_ (chr '%')
        let right ← operand
        print "rem"
        multiplicativeTreeLoop operand fuel (Tree.binary BinOp.rem left right)
      else
        pure left

/-- The loop of `additiveExpression`, returning the tree. -/
def additiveTreeLoop (operand : PM Parser Tree) : Nat → Tree → PM Parser Tree
  | 0, _ => outOfFuel
  | fuel + 1, left => do
      if (← getParser).lookahead == chr '+' then
        match_ (chr '+')
        let right ← operand
        print "add"
        additiveTreeLoop operand fuel (Tree.binary BinOp.add left right)
      else if (← getParser).lookahead == chr '-' then
        match_ (chr '-')
        let right ← operand
        print "sub"
        additiveTreeLoop operand fuel (Tree.binary BinOp.sub left right)
      else
        pure left

/-- The loop of `relationalExpression`, returning the tree. -/
def relationalTreeLoop (operand : PM Parser Tree) : Nat → Tree → PM Parser Tree
  | 0, _ => outOfFuel
  | fuel + 1, left => do
      if (← getParser).lookahead == chr '<' then
        match_ (chr '<')
        let right ← operand
        print "ltn"
        relationalTreeLoop operand fuel (Tree.binary BinOp.ltn left right)
      else if (← getParser).lookahead == chr '>' then
        match_ (chr '>')
        let right ← operand
        print "gtn"
        relationalTreeLoop operand fuel (Tree.binary BinOp.gtn left right)
      else if (← getParser).lookahead == LEQ then
        match_ (LEQ)
        let right ← operand
        print "leq"
        relationalTreeLoop operand fuel (Tree.binary BinOp.leq left right)
      else if (← getParser).lookahead == GEQ then
        match_ (GEQ)
        let right ← operand
        print "geq"
        relationalTreeLoop operand fuel (Tree.binary BinOp.geq left right)
      else
        pure left

/-- The loop of `equalityExpression`, returning the tree. -/
def equalityTreeLoop (operand : PM Parser Tree) : Nat → Tree → PM Parser Tree
  | 0, _ => outOfFuel
  | fuel + 1, left => do
      if (← getParser).lookahead == EQL then
        match_ (EQL)
        let right ← operand
        print "eql"
        equalityTreeLoop operand fuel (Tree.binary BinOp.eql left right)
      else if (← getParser).lookahead == NEQ then
        match_ (NEQ)
        let right ← operand
        print "neq"
        equalityTreeLoop operand fuel (Tree.binary BinOp.neq left right)
      else
        pure left

/-- The loop of `logicalAndExpression`, returning the tree. -/
def logicalAndTreeLoop (operand : PM Parser Tree) : Nat → Tree → PM Parser Tree
  | 0, _ => outOfFuel
  | fuel + 1, left => do
      if (← getParser).lookahead == AND then
        match_ (AND)
        let right ← operand
        print "and"
        logicalAndTreeLoop operand fuel (Tree.binary BinOp.and left right)
      else
        pure left

/-- The loop of `expression`, returning the tree. -/
def expressionTreeLoop (operand : PM Parser Tree) : Nat → Tree → PM Parser Tree
  | 0, _ => outOfFuel
  | fuel + 1, left => do
      if (← getParser).lookahead == OR then
        match_ (OR)
        let right ← operand
        print "or"
        expressionTreeLoop operand fuel (Tree.binary BinOp.or left right)
      else
        pure left

mutual

/-- The function `primaryExpression`, returning the tree. -/
def primaryTree : Nat → PM Parser Tree
  | 0 => outOfFuel
  | fuel + 1 => do
      if (← getParser).lookahead == chr '(' then
        match_ (chr '(')
        let e ← expressionTree fuel
        match_ (chr ')')
        pure (Tree.paren e)
      else if (← getParser).lookahead == CHARACTER then
        match_ CHARACTER
        pure (Tree.leaf CHARACTER)
      else if (← getParser).lookahead == STRING then
        match_ STRING
        pure (Tree.leaf STRING)
      else if (← getParser).lookahead == INTEGER then
        match_ INTEGER
        pure (Tree.leaf INTEGER)
      else if (← getParser).lookahead == REAL then
        match_ REAL
        pure (Tree.leaf REAL)
      else if (← getParser).lookahead == ID then
        let name ← identifier
        let _ ← call (checkIdentifier name)
        if (← getParser).lookahead == chr '(' then
          match_ (chr '(')
          if (← getParser).lookahead != chr ')' then
            let e ← expressionTree fuel
            let args ← argumentsTreeLoop (expressionTree fuel) fuel e
            match_ (chr ')')
            pure (Tree.call args)
          else
            match_ (chr ')')
            pure Tree.call0
        else
          pure (Tree.leaf ID)
      else
        error

/-- The function `postfixExpression`, returning the tree. -/
def postfixTree : Nat → PM Parser Tree
  | 0 => outOfFuel
  | fuel + 1 => do
      let e ← primaryTree fuel
      postfixTreeLoop (expressionTree fuel) fuel e

/-- The function `prefixExpression`, returning the tree. -/
def prefixTree : Nat → PM Parser Tree
  | 0 => outOfFuel
  | fuel + 1 => do
      if (← getParser).lookahead == chr '!' then
        match_ (chr '!')
        let e ← prefixTree fuel
        print "not"
        pure (Tree.pre PreOp.not e)
      else if (← getParser).lookahead == chr '-' then
        match_ (chr '-')
        let e ← prefixTree fuel
        print "neg"
        pure (Tree.pre PreOp.neg e)
      else if (← getParser).lookahead == chr '*' then
        match_ (chr '*')
        let e ← prefixTree fuel
        print "deref"
        pure (Tree.pre PreOp.deref e)
      else if (← getParser).lookahead == chr '&' then
        match_ (chr '&')
        let e ← prefixTree fuel
        print "addr"
        pure (Tree.pre PreOp.addr e)
      else if (← getParser).lookahead == SIZEOF then
        match_ SIZEOF
        if ← startsTypeName then
          match_ (chr '(')
          let spec ← specifier
          let stars ← starsLoop fuel 0
          match_ (chr ')')
          print "sizeof"
          pure (Tree.sizeofType spec stars)
        else
          let e ← prefixTree fuel
          print "sizeof"
          pure (Tree.sizeofExpr e)
      else if ← startsTypeName then
        match_ (chr '(')
        let spec ← specifier
        let stars ← starsLoop fuel 0
        match_ (chr ')')
        let e ← prefixTree fuel
        print "cast"
        pure (Tree.cast spec stars e)
      else
        postfixTree fuel

/-- The function `multiplicativeExpression`, returning the tree. -/
def multiplicativeTree : Nat → PM Parser Tree
  | 0 => outOfFuel
  | fuel + 1 => do
      let left ← prefixTree fuel
      multiplicativeTreeLoop (prefixTree fuel) fuel left

/-- The function `additiveExpression`, returning the tree. -/
def additiveTree : Nat → PM Parser Tree
  | 0 => outOfFuel
  | fuel + 1 => do
      let left ← multiplicativeTree fuel
      additiveTreeLoop (multiplicativeTree fuel) fuel left

/-- The function `relationalExpression`, returning the tree. -/
def relationalTree : Nat → PM Parser Tree
  | 0 => outOfFuel
  | fuel + 1 => do
      let left ← additiveTree fuel
      relationalTreeLoop (additiveTree fuel) fuel left

/-- The function `equalityExpression`, returning the tree. -/
def equalityTree : Nat → PM Parser Tree
  | 0 => outOfFuel
  | fuel + 1 => do
      let left ← relationalTree fuel
      equalityTreeLoop (relationalTree fuel) fuel left

/-- The function `logicalAndExpression`, returning the tree. -/
def logicalAndTree : Nat → PM Parser Tree
  | 0 => outOfFuel
  | fuel + 1 => do
      let left ← equalityTree fuel
      logicalAndTreeLoop (equalityTree fuel) fuel left

/-- The function `expression`, returning the tree. -/
def expressionTree : Nat → PM Parser Tree
  | 0 => outOfFuel
  | fuel + 1 => do
      let left ← logicalAndTree fuel
      expressionTreeLoop (logicalAndTree fuel) fuel left

end

end Phase3
/-- The outcome `r`, if it is a return, returns a value and a state that
satisfy `Q`. -/
def Res.sat {σ α : Type} (r : Res σ α) (Q : α → σ → Prop) : Prop :=
  match r with
  | Res.ok a s => Q a s
  | _ => True

/-- Run `x` and drop the value it returns. -/
def erase {σ α : Type} (x : PM σ α) : PM σ Unit :=
  fun s => (x s).bind (fun _ s1 => Res.ok () s1)

namespace Phase3

/-- From the state `s` the parser has reached the state `s1`, has consumed the
tokens of the kinds `ks` on the way and has printed the lines `out`, provided
the scanner returns `DONE` only at the end. -/
def Step (s : Parser) (ks : List Int) (out : List String) (s1 : Parser) : Prop :=
  s.wf → s1.wf ∧ s.rest = ks ++ s1.rest ∧ s1.output = s.output ++ out

end Phase3
namespace Phase3

/-- A checker state in which the global scope declares `a`, `b`, `c` and `d`
as `int`. -/
def sampleChecker : Checker :=
  ⟨[⟨none, [⟨0, "a", Ty.scalar INT 0⟩, ⟨1, "b", Ty.scalar INT 0⟩, ⟨2, "c", Ty.scalar INT 0⟩,
    ⟨3, "d", Ty.scalar INT 0⟩]⟩], 4, [], some 0, some 0, []⟩

/-- The tokens of `a - b + c * d ;`. -/
def sampleExpression : List Token :=
  [⟨Phase4.ID, "a"⟩, ⟨chr '-', "-"⟩, ⟨Phase4.ID, "b"⟩, ⟨chr '+', "+"⟩, ⟨Phase4.ID, "c"⟩,
    ⟨chr '*', "*"⟩, ⟨Phase4.ID, "d"⟩, ⟨chr ';', ";"⟩]

end Phase3

/-- The outcome `r1` is the outcome `r` unless `r` is the end of the fuel: what
a run gives with more fuel when `r` is what it gives with less. -/
def Res.extends {σ α : Type} (r r1 : Res σ α) : Prop :=
  r = Res.timeout ∨ r1 = r

/-! ## Counting the calls of the scanner -/

namespace Phase4

/-- The variables of the parser of phase 4 together with the number of calls of
the scanner function `yylex` made so far. -/
structure Counted where
  front : Front
  reads : Nat
  deriving DecidableEq, Repr

namespace Counted

/-- Read the variables of the parser. -/
def getFront : PM Counted Front := fun c => Res.ok c.front c

/-- Write the variables of the parser. -/
def setFront (s : Front) : PM Counted Unit := fun c => Res.ok () { c with front := s }

/-- The scanner function `yylex`; each call is counted. -/
def yylex : PM Counted Int := fun c =>
  (Phase4.yylex c.front).mapState (fun s => ⟨s, c.reads + 1⟩)

/-- The function `error`. -/
def error {α : Type} : PM Counted α := fun c =>
  (Phase4.error c.front).mapState (fun s => ⟨s, c.reads⟩)

/-- The function `peek`, over the scanner whose calls are counted. -/
def peek : PM Counted Int := do
  if (← getFront).nexttoken == 0 then
    let t ← yylex
    let s ← getFront
    setFront { s with nexttoken := t, nextbuf := s.yytext }
  pure (← getFront).nexttoken

/-- The function `match`, over the scanner whose calls are counted. -/
def match_ (t : Int) : PM Counted Unit := do
  if (← getFront).lookahead != t then
    error
  let s ← getFront
  if s.nexttoken != 0 then
    setFront { s with lookahead := s.nexttoken, lexbuf := s.nextbuf, nexttoken := 0 }
  else
    let t ← yylex
    let s ← getFront
    setFront { s with lookahead := t, lexbuf := s.yytext }

/-- A number of calls of `peek` one after the other, with no call of `match`
in between. -/
def peeks : Nat → PM Counted Unit
  | 0 => pure ()
  | n + 1 => do
      let _ ← peek
      peeks n

end Counted

end Phase4

namespace Phase3

/-- The variables of the parser of phase 3 together with the number of calls of
the scanner function `yylex` made so far. -/
structure Counted where
  state : Parser
  reads : Nat
  deriving DecidableEq, Repr

namespace Counted

/-- Read the variables of the parser. -/
def getParser : PM Counted Parser := fun c => Res.ok c.state c

/-- Write the variables of the parser. -/
def setParser (s : Parser) : PM Counted Unit := fun c => Res.ok () { c with state := s }

/-- The scanner function `yylex`; each call is counted. -/
def yylex : PM Counted Int := fun c =>
  (Phase3.yylex c.state).mapState (fun s => ⟨s, c.reads + 1⟩)

/-- The function `error`. -/
def error {α : Type} : PM Counted α := fun c =>
  (Phase3.error c.state).mapState (fun s => ⟨s, c.reads⟩)

/-- The function `peek`, over the scanner whose calls are counted. -/
def peek : PM Counted Int := do
  if (← getParser).nexttoken == 0 then
    let t ← yylex
    let s ← getParser
    setParser { s with nexttoken := t, nextbuf := s.yytext }
  pure (← getParser).nexttoken

/-- The function `match`, over the scanner whose calls are counted. -/
def match_ (t : Int) : PM Counted Unit := do
  if (← getParser).lookahead != t then
    error
  let s ← getParser
  if s.nexttoken != 0 then
    setParser { s with lookahead := s.nexttoken, lexbuf := s.nextbuf, nexttoken := 0 }
  else
    let t ← yylex
    let s ← getParser
    setParser { s with lookahead := t, lexbuf := s.yytext }

/-- A number of calls of `peek` one after the other, with no call of `match`
in between. -/
def peeks : Nat → PM Counted Unit
  | 0 => pure ()
  | n + 1 => do
      let _ ← peek
      peeks n

end Counted

end Phase3

namespace Phase4

/-- The names and the types of the symbols of a scope that has the symbols
`acc` after the declarations `ds` in order: `declareVariable` inserts no
symbol for a name that the scope has. -/
def declared : List (String × Ty) → List (String × Ty) → List (String × Ty)
  | acc, [] => acc
  | acc, d :: ds =>
      if (acc.map Prod.fst).contains d.1 then declared acc ds else declared (acc ++ [d]) ds

/-- The tokens of `int f(int a, int a) { }`. -/
def repeatedNameProgram : List Token :=
  [⟨INT, "int"⟩, ⟨ID, "f"⟩, tok '(', ⟨INT, "int"⟩, ⟨ID, "a"⟩, tok ',', ⟨INT, "int"⟩, ⟨ID, "a"⟩,
    tok ')', tok '{', tok '}']

/-- The tokens of `int f(int a, int b); int f(int a) { }`. -/
def prototypeProgram : List Token :=
  [⟨INT, "int"⟩, ⟨ID, "f"⟩, tok '(', ⟨INT, "int"⟩, ⟨ID, "a"⟩, tok ',', ⟨INT, "int"⟩, ⟨ID, "b"⟩,
    tok ')', tok ';',
   ⟨INT, "int"⟩, ⟨ID, "f"⟩, tok '(', ⟨INT, "int"⟩, ⟨ID, "a"⟩, tok ')', tok '{', tok '}']

/-- What the parser leaves to the code generator: the names and types of the
symbols of every scope of the heap, in the order in which the scopes were
opened, and the diagnostics. -/
def Parser.scopes (p : Parser) : List (List (String × Ty)) × Log :=
  (p.front.checker.scopes.map (fun sc => sc.symbols.map (fun y => (y.name, y.type))),
    p.front.checker.log)

end Phase4

namespace Phase5

/-- Modelled from the spec: the parser of phase 5 is not part of the sources.
A `Function` node owns the symbol of the function, which `defineFunction`
returns, and the block of the body, whose declarations are the scope that
`parameters` opened.  `Function::generate` reads `parameter_size` from the
parameter list of the type of that symbol, which is a null pointer for a type
that is no function, and `some_symbols` from that scope. -/
def Function.generateFor (id : String × Ty) (declarations : List (String × Ty))
    (body : List Stmt) : Option (List Int × Int) :=
  match id.2 with
  | Ty.function _ _ _ types =>
      Function.generate types.length (declarations.map Prod.snd) body
  | _ => none

end Phase5

/-- The outcome `r` is a return, and the value and the state it returns satisfy
`Q`. -/
def Res.returns {σ α : Type} (r : Res σ α) (Q : α → σ → Prop) : Prop :=
  match r with
  | Res.ok a s => Q a s
  | _ => False

namespace Phase3

open Phase4 (DONE SIZEOF OR AND EQL NEQ LEQ GEQ INC DEC ID INTEGER REAL STRING CHARACTER)

/-- A bound on the fuel that the parser needs for a tree: a call of
`expression` from `primaryExpression` or from the loop of `postfixExpression`
goes through the nine levels again, every other operator costs one call or one
round of a loop, and `pointers` one round of its loop for each star. -/
def Tree.weight : Tree → Nat
  | Tree.leaf _ => 1
  | Tree.paren e => e.weight + 10
  | Tree.call0 => 1
  | Tree.call args => args.weight + 10
  | Tree.comma first rest => first.weight + rest.weight + 10
  | Tree.index e i => e.weight + i.weight + 10
  | Tree.post _ e => e.weight + 1
  | Tree.pre _ e => e.weight + 1
  | Tree.sizeofExpr e => e.weight + 1
  | Tree.sizeofType _ stars => stars + 2
  | Tree.cast _ stars e => stars + e.weight + 2
  | Tree.binary _ left right => left.weight + right.weight + 1

/-- The lowest level of the grammar whose function consumes the token `k` when
it comes after an operand: `(` after an identifier in `primaryExpression`
(level 0), `[`, `++` and `--` in the loop of `postfixExpression` (level 1), the
binary operators in the loops of their levels (3 to 8), the comma in the loop
over the arguments of a call (level 9); 10 for every other token. -/
def opLevel (k : Int) : Nat :=
  if k = chr '(' then 0
  else if k = chr '[' ∨ k = INC ∨ k = DEC then 1
  else if k = chr '*' ∨ k = chr '/' ∨ k = chr '%' then 3
  else if k = chr '+' ∨ k = chr '-' then 4
  else if k = chr '<' ∨ k = chr '>' ∨ k = LEQ ∨ k = GEQ then 5
  else if k = EQL ∨ k = NEQ then 6
  else if k = AND then 7
  else if k = OR then 8
  else if k = chr ',' then 9
  else 10

/-- The tokens of the kinds `r` do not continue an expression of level `n`:
there is none, or the first one is consumed after an operand only by the
functions of the levels above `n`, if at all. -/
def stops (n : Nat) : List Int → Bool
  | [] => true
  | k :: _ => decide (n < opLevel k)

/-- The parser has the tokens of the kinds `r` before it, has printed the lines
`out`, the scanner returns `DONE` only at the end, and the checker is in a
state in which `checkIdentifier` returns: a scope is open and the symbol table
has the invariant of `Checker.Inv`. -/
def Parser.poised (s : Parser) (r : List Int) (out : List String) : Prop :=
  s.wf ∧ s.rest = r ∧ s.output = out ∧ s.checker.Inv ∧ s.checker.toplevel ≠ none

/-- The function `F` of level `n`, with enough fuel, parses the tree `t`: run
before the tokens of `t` and tokens that do not continue an expression of
level `n`, it returns `t`, has consumed the tokens of `t` and has printed the
post-order listing of its operators. -/
def Parses (F : Nat → PM Parser Tree) (n : Nat) (t : Tree) : Prop :=
  ∀ (f : Nat) (s : Parser) (r : List Int) (out : List String),
    t.weight + n + 1 ≤ f → s.poised (t.kinds ++ r) out → stops n r = true →
    (F f s).returns (fun t1 s1 => t1 = t ∧ s1.poised r (out ++ t.postorder))

/-- The operand function `F` followed by the loop of level `n` reaches, before
the tokens of `t` and tokens that do not continue an operand, the state in
which the loop has built `t` and has the remaining tokens before it: whatever
holds of every run of the loop from such a state, with at least `G` rounds
left, holds of the run of the operand function and the loop. -/
def Continues (F : Nat → PM Parser Tree) (loop : PM Parser Tree → Nat → Tree → PM Parser Tree)
    (n : Nat) (t : Tree) : Prop :=
  ∀ (f G : Nat) (s : Parser) (r : List Int) (out : List String) (Post : Tree → Parser → Prop),
    t.weight + n ≤ f → s.poised (t.kinds ++ r) out → stops (n - 1) r = true →
    (∀ (g : Nat) (s1 : Parser), G ≤ g → s1.poised r (out ++ t.postorder) →
      (loop (F f) g t s1).returns Post) →
    ∀ g : Nat, G + t.weight ≤ g → ((F f >>= fun left => loop (F f) g left) s).returns Post

/-- The same for the loop of `postfixExpression`, whose operand function is
`primaryExpression` and whose callee in the loop is `expression`. -/
def PostfixContinues (t : Tree) : Prop :=
  ∀ (f G : Nat) (s : Parser) (r : List Int) (out : List String) (Post : Tree → Parser → Prop),
    t.weight + 1 ≤ f → s.poised (t.kinds ++ r) out → stops 0 r = true →
    (∀ (g : Nat) (s1 : Parser), G ≤ g → s1.poised r (out ++ t.postorder) →
      (postfixTreeLoop (expressionTree f) g t s1).returns Post) →
    ∀ g : Nat, G + t.weight ≤ g →
      ((primaryTree f >>= fun left => postfixTreeLoop (expressionTree f) g left) s).returns Post

/-- The first argument and the loop over the other arguments of a call parse
the list of arguments `t`. -/
def ParsesArguments (t : Tree) : Prop :=
  ∀ (f g : Nat) (s : Parser) (r : List Int) (out : List String),
    t.weight + 9 ≤ f → t.weight + 1 ≤ g → s.poised (t.kinds ++ r) out → stops 9 r = true →
    ((expressionTree f >>= fun e => argumentsTreeLoop (expressionTree f) g e) s).returns
      (fun t1 s1 => t1 = t ∧ s1.poised r (out ++ t.postorder))

/-- What makes `loop` the loop of the binary level `n` with the operand
function `F` and `whole` the function of that level: a round of the loop
matches an operator of the level, parses the right operand, prints the name of
the operator and goes on with the tree of the two operands; the loop returns
the tree it has when no operator of the level follows. -/
structure BinaryLevel (n : Nat) (F whole : Nat → PM Parser Tree)
    (loop : PM Parser Tree → Nat → Tree → PM Parser Tree) : Prop where
  level : 3 ≤ n
  whole_eq : ∀ (f : Nat) (s : Parser),
    whole (f + 1) s = (F f >>= fun left => loop (F f) f left) s
  round : ∀ (operand : PM Parser Tree) (g : Nat) (left : Tree) (s : Parser) (op : BinOp),
    op.level = n → s.lookahead = op.kind →
    loop operand (g + 1) left s =
      (do
        match_ op.kind
        let right ← operand
        print op.name
        loop operand g (Tree.binary op left right) : PM Parser Tree) s
  done : ∀ (operand : PM Parser Tree) (g : Nat) (left : Tree) (s : Parser),
    (∀ op : BinOp, op.level = n → s.lookahead ≠ op.kind) →
    loop operand (g + 1) left s = Res.ok left s

/-- The tree `t` is parsed at every level at which the grammar derives it. -/
structure Parsed (t : Tree) : Prop where
  level0 : t.derives 0 = true → Parses primaryTree 0 t
  level1 : t.derives 1 = true → PostfixContinues t
  level2 : t.derives 2 = true → Parses prefixTree 2 t
  level3 : t.derives 3 = true → Continues prefixTree multiplicativeTreeLoop 3 t
  level4 : t.derives 4 = true → Continues multiplicativeTree additiveTreeLoop 4 t
  level5 : t.derives 5 = true → Continues additiveTree relationalTreeLoop 5 t
  level6 : t.derives 6 = true → Continues relationalTree equalityTreeLoop 6 t
  level7 : t.derives 7 = true → Continues equalityTree logicalAndTreeLoop 7 t
  level8 : t.derives 8 = true → Continues logicalAndTree expressionTreeLoop 8 t
  level9 : t.derives 9 = true → ParsesArguments t

end Phase3

namespace Phase3

/-- The parse tree of `a - b + c * d`. -/
def sampleTree : Tree :=
  Tree.binary BinOp.add
    (Tree.binary BinOp.sub (Tree.leaf Phase4.ID) (Tree.leaf Phase4.ID))
    (Tree.binary BinOp.mul (Tree.leaf Phase4.ID) (Tree.leaf Phase4.ID))

/-- The tokens of `a [ b ] ++ ;`. -/
def samplePostfix : List Token :=
  [⟨Phase4.ID, "a"⟩, ⟨chr '[', "["⟩, ⟨Phase4.ID, "b"⟩, ⟨chr ']', "]"⟩, ⟨Phase4.INC, "++"⟩,
    ⟨chr ';', ";"⟩]

end Phase3

/-! ## Properties of the type model -/

namespace Ty

mutual
/-- The comparison `operator ==` decides equality of type values. -/
theorem eq_iff : ∀ a b : Ty, eq a b = true ↔ a = b
  | error, error => by simp [eq]
  | error, scalar _ _ => by simp [eq]
  | error, array _ _ _ => by simp [eq]
  | error, function _ _ _ _ => by simp [eq]
  | scalar _ _, error => by simp [eq]
  | scalar s i, scalar s' i' => by simp [eq]
  | scalar _ _, array _ _ _ => by simp [eq]
  | scalar _ _, function _ _ _ _ => by simp [eq]
  | array _ _ _, error => by simp [eq]
  | array _ _ _, scalar _ _ => by simp [eq]
  | array s i n, array s' i' n' => by simp [eq, and_assoc]
  | array _ _ _, function _ _ _ _ => by simp [eq]
  | function _ _ _ _, error => by simp [eq]
  | function _ _ _ _, scalar _ _ => by simp [eq]
  | function _ _ _ _, array _ _ _ => by simp [eq]
  | function s i v ps, function s' i' v' ps' => by
      simp [eq, and_assoc, eqTypes_iff ps ps']
/-- The vector comparison decides equality of type lists. -/
theorem eqTypes_iff : ∀ as bs : List Ty, eqTypes as bs = true ↔ as = bs
  | [], bs => by cases bs <;> simp [eqTypes]
  | a :: as, [] => by simp [eqTypes]
  | a :: as, b :: bs => by
      have hhead := eq_iff a b
      have htail := eqTypes_iff as bs
      simp [eqTypes, hhead, htail]
end

theorem ne_iff (a b : Ty) : ne a b = true ↔ a ≠ b := by
  simp [ne, ← eq_iff a b]

theorem isError_iff (t : Ty) : t.isError = true ↔ t = error := by
  cases t <;> simp [isError, declarator]

theorem isError_eq_false_iff (t : Ty) : t.isError = false ↔ t ≠ error := by
  cases t <;> simp [isError, declarator]

theorem isNumeric_eq_false_of_isPointer {t : Ty} (h : t.isPointer = true) :
    t.isNumeric = false := by
  cases t <;> simp_all [isPointer, isNumeric, declarator, indirection]
  omega

theorem isPointer_eq_false_of_isInteger {t : Ty} (h : t.isInteger = true) :
    t.isPointer = false := by
  cases t <;> simp_all [isPointer, isInteger, declarator, indirection]

theorem isInteger_eq_false_of_isPointer {t : Ty} (h : t.isPointer = true) :
    t.isInteger = false := by
  cases t <;> simp_all [isPointer, isInteger, declarator, indirection]
  omega

theorem scalar_eta_of_isPointer {t : Ty} (h : t.isPointer = true) :
    scalar t.specifier t.indirection = t := by
  cases t <;> simp_all [isPointer, declarator, indirection, specifier]

end Ty

/-! ## Properties of the expression checks -/

/-- C1: in each of the phase-4 expression checks an operand of the error type
makes the result the error type and leaves the diagnostic sink as it was,
whatever the other operand, the operator string or the lvalue flag is; the
same holds for `checkCall` with a callee of the error type. -/
theorem error_operand_propagates_silently (L R : Ty) (op : String) (lvalue : Bool)
    (types : List Ty) (log : Log) :
    checkLogical Ty.error R op log = (Ty.error, log) ∧
    checkLogical L Ty.error op log = (Ty.error, log) ∧
    checkEquality Ty.error R op log = (Ty.error, log) ∧
    checkEquality L Ty.error op log = (Ty.error, log) ∧
    checkRelational Ty.error R op log = (Ty.error, log) ∧
    checkRelational L Ty.error op log = (Ty.error, log) ∧
    checkAdd Ty.error R log = (Ty.error, log) ∧
    checkAdd L Ty.error log = (Ty.error, log) ∧
    checkMinus Ty.error R log = (Ty.error, log) ∧
    checkMinus L Ty.error log = (Ty.error, log) ∧
    checkMultiply Ty.error R log = (Ty.error, log) ∧
    checkMultiply L Ty.error log = (Ty.error, log) ∧
    checkDivide Ty.error R log = (Ty.error, log) ∧
    checkDivide L Ty.error log = (Ty.error, log) ∧
    checkRemainder Ty.error R log = (Ty.error, log) ∧
    checkRemainder L Ty.error log = (Ty.error, log) ∧
    checkNot Ty.error log = (Ty.error, log) ∧
    checkNegation Ty.error log = (Ty.error, log) ∧
    checkDereference Ty.error log = (Ty.error, log) ∧
    checkAddress Ty.error lvalue log = (Ty.error, log) ∧
    checkSizeOf Ty.error log = (Ty.error, log) ∧
    checkCast Ty.error R log = (Ty.error, log) ∧
    checkCast L Ty.error log = (Ty.error, log) ∧
    checkIndex Ty.error R log = (Ty.error, log) ∧
    checkIndex L Ty.error log = (Ty.error, log) ∧
    checkIncrement Ty.error lvalue log = (Ty.error, log) ∧
    checkDecrement Ty.error lvalue log = (Ty.error, log) ∧
    checkAssignment Ty.error R lvalue log = (Ty.error, log) ∧
    checkAssignment L Ty.error lvalue log = (Ty.error, log) ∧
    checkCall Ty.error types log = (Ty.error, log) := by
  have hE : Ty.isError Ty.error = true := rfl
  simp [checkLogical, checkEquality, checkRelational, checkAdd, checkMinus, checkMultiply,
    checkDivide, checkRemainder, checkNot, checkNegation, checkDereference, checkAddress,
    checkSizeOf, checkCast, checkIndex, checkIncrement, checkDecrement, checkAssignment,
    checkCall, hE, error]

/-- C2: for operands that are not the error type, `checkAdd` yields `double`
for two numeric promoted operands of which one is `double`, `int` for two
numeric promoted operands of which none is `double`, the promoted left type
for pointer plus `int`, the promoted right type for `int` plus pointer, and in
every other case the error type with exactly one more diagnostic,
`invalid operands to binary +`. -/
theorem checkAdd_cases (L R : Ty) (log : Log)
    (hL : L.isError = false) (hR : R.isError = false) :
    (L.promote.isNumeric = true → R.promote.isNumeric = true →
        (L.promote.isDouble = true ∨ R.promote.isDouble = true) →
        checkAdd L R log = (Ty.scalar DOUBLE 0, log)) ∧
    (L.promote.isNumeric = true → R.promote.isNumeric = true →
        L.promote.isDouble = false → R.promote.isDouble = false →
        checkAdd L R log = (Ty.scalar INT 0, log)) ∧
    (L.promote.isPointer = true → R.promote.isInteger = true →
        checkAdd L R log = (L.promote, log)) ∧
    (L.promote.isInteger = true → R.promote.isPointer = true →
        checkAdd L R log = (R.promote, log)) ∧
    (¬ (L.promote.isNumeric = true ∧ R.promote.isNumeric = true) →
        ¬ (L.promote.isPointer = true ∧ R.promote.isInteger = true) →
        ¬ (L.promote.isInteger = true ∧ R.promote.isPointer = true) →
        checkAdd L R log = (Ty.error, log ++ [⟨invalid_binary_operands, "+"⟩])) := by
  have hE : (L.isError || R.isError) = false := by simp [hL, hR]
  refine ⟨?_, ?_, ?_, ?_, ?_⟩
  · intro h1 h2 h3
    have h4 : (L.promote.isDouble || R.promote.isDouble) = true := by simpa using h3
    simp [checkAdd, hE, h1, h2, h4]
  · intro h1 h2 h3 h4
    simp [checkAdd, hE, h1, h2, h3, h4, integer]
  · intro h1 h2
    simp [checkAdd, hE, h1, h2, Ty.isNumeric_eq_false_of_isPointer h1,
      Ty.scalar_eta_of_isPointer h1]
  · intro h1 h2
    simp [checkAdd, hE, h1, h2, Ty.isNumeric_eq_false_of_isPointer h2,
      Ty.isPointer_eq_false_of_isInteger h1, Ty.scalar_eta_of_isPointer h2]
  · intro h1 h2 h3
    have h1' : (L.promote.isNumeric && R.promote.isNumeric) = false := by
      simpa using h1
    have h2' : (L.promote.isPointer && R.promote.isInteger) = false := by
      simpa using h2
    have h3' : (L.promote.isInteger && R.promote.isPointer) = false := by
      simpa using h3
    simp [checkAdd, hE, h1', h2', h3', error, report]

/-- Witness of C2 at `char[3] + char`: the array promotes to `char *`, the
`char` to `int`, and the sum has the promoted left type. -/
theorem checkAdd_cases_witness :
    (Ty.array CHAR 0 3).isError = false ∧ (Ty.scalar CHAR 0).isError = false ∧
    checkAdd (Ty.array CHAR 0 3) (Ty.scalar CHAR 0) [] = (Ty.scalar CHAR 1, []) :=
  ⟨by decide, by decide,
    (checkAdd_cases (Ty.array CHAR 0 3) (Ty.scalar CHAR 0) [] (by decide) (by decide)).2.2.1
      (by decide) (by decide)⟩

/-- The argument loop succeeds exactly when every parameter is compatible,
after promotion of both sides, with the argument at the same index. -/
theorem checkCallLoop_iff : ∀ (P A : List Ty) (h : P.length ≤ A.length),
    checkCallLoop P A h = true ↔
      ∀ (i : Nat) (p a : Ty), P[i]? = some p → A[i]? = some a →
        p.promote.isCompatibleWith a.promote = true
  | [], A, _ => by simp [checkCallLoop]
  | p :: ps, [], h => absurd h (Nat.not_succ_le_zero _)
  | p :: ps, t :: ts, h => by
      have ih := checkCallLoop_iff ps ts (Nat.le_of_succ_le_succ h)
      simp only [checkCallLoop]
      constructor
      · intro hloop i q a hq ha
        cases hc : p.promote.isCompatibleWith t.promote
        · simp [hc] at hloop
        · simp only [hc, Bool.not_true, Bool.false_eq_true, if_false] at hloop
          cases i with
          | zero =>
              simp only [List.getElem?_cons_zero, Option.some.injEq] at hq ha
              rw [← hq, ← ha]; exact hc
          | succ j =>
              simp only [List.getElem?_cons_succ] at hq ha
              exact (ih.mp hloop) j q a hq ha
      · intro hall
        have h0 : p.promote.isCompatibleWith t.promote = true :=
          hall 0 p t (by simp) (by simp)
        simp only [h0, Bool.not_true, Bool.false_eq_true, if_false]
        exact ih.mpr (fun i q a hq ha => hall (i + 1) q a (by simpa using hq) (by simpa using ha))

/-- C3: for a function-typed callee with return specifier `s`, indirection
`k`, variadic flag `v` and fixed parameter types `P`, and every argument list
`A`, `checkCall` returns the scalar type `(s, k)` without a diagnostic when
the argument count is `|P|` (or at least `|P|` for a variadic callee) and
every parameter is compatible with its argument after promotion; otherwise it
returns the error type with exactly one more diagnostic, `invalid arguments to
called function`.  A callee that is neither the error type nor a function
gives the error type and exactly one `called object is not a function`.  The
arguments need not be restricted to non-error types. -/
theorem checkCall_cases (s : Int) (k : Nat) (v : Bool) (P A : List Ty) (log : Log) :
    (((A.length = P.length ∨ (v = true ∧ P.length ≤ A.length)) ∧
        ∀ (i : Nat) (p a : Ty), P[i]? = some p → A[i]? = some a →
          p.promote.isCompatibleWith a.promote = true) →
      checkCall (Ty.function s k v P) A log = (Ty.scalar s k, log)) ∧
    (¬ ((A.length = P.length ∨ (v = true ∧ P.length ≤ A.length)) ∧
        ∀ (i : Nat) (p a : Ty), P[i]? = some p → A[i]? = some a →
          p.promote.isCompatibleWith a.promote = true) →
      checkCall (Ty.function s k v P) A log =
        (Ty.error, log ++ [⟨invalid_arguments, ""⟩])) ∧
    (∀ G : Ty, G.isError = false → G.isFunction = false →
      checkCall G A log = (Ty.error, log ++ [⟨object_not_function, ""⟩])) := by
  refine ⟨?_, ?_, ?_⟩
  · rintro ⟨hcount, hall⟩
    cases v with
    | true =>
        have hle : P.length ≤ A.length := by
          rcases hcount with h | h
          · exact Nat.le_of_eq h.symm
          · exact h.2
        simp [checkCall, Ty.isError, Ty.isFunction, Ty.declarator, Ty.parameters,
          Ty.specifier, Ty.indirection, hle, (checkCallLoop_iff P A hle).mpr hall]
    | false =>
        have heq : A.length = P.length := by
          rcases hcount with h | h
          · exact h
          · exact absurd h.1 (by decide)
        simp [checkCall, Ty.isError, Ty.isFunction, Ty.declarator, Ty.parameters,
          Ty.specifier, Ty.indirection, heq,
          (checkCallLoop_iff P A (Nat.le_of_eq heq.symm)).mpr hall]
  · intro hnot
    cases v with
    | true =>
        by_cases hle : P.length ≤ A.length
        · have hloop : checkCallLoop P A hle = false := by
            cases hc : checkCallLoop P A hle
            · rfl
            · exact absurd ⟨Or.inr ⟨rfl, hle⟩, (checkCallLoop_iff P A hle).mp hc⟩ hnot
          simp [checkCall, Ty.isError, Ty.isFunction, Ty.declarator, Ty.parameters, hle,
            hloop, error, report]
        · simp [checkCall, Ty.isError, Ty.isFunction, Ty.declarator, Ty.parameters, hle,
            error, report]
    | false =>
        by_cases heq : A.length = P.length
        · have hloop : checkCallLoop P A (Nat.le_of_eq heq.symm) = false := by
            cases hc : checkCallLoop P A (Nat.le_of_eq heq.symm)
            · rfl
            · exact absurd ⟨Or.inl heq, (checkCallLoop_iff P A _).mp hc⟩ hnot
          simp [checkCall, Ty.isError, Ty.isFunction, Ty.declarator, Ty.parameters, heq,
            hloop, error, report]
        · simp [checkCall, Ty.isError, Ty.isFunction, Ty.declarator, Ty.parameters, heq,
            error, report]
  · intro G hG hF
    simp [checkCall, hG, hF, error, report]

/-- Witness of C3: a variadic `int f(int, ...)` called with a `char` and a
`double` is accepted; calling an `int` is rejected. -/
theorem checkCall_cases_witness :
    checkCall (Ty.function INT 0 true [Ty.scalar INT 0])
        [Ty.scalar CHAR 0, Ty.scalar DOUBLE 0] [] = (Ty.scalar INT 0, []) ∧
    checkCall (Ty.function INT 0 false [Ty.scalar INT 0]) [] [] =
        (Ty.error, [⟨invalid_arguments, ""⟩]) ∧
    checkCall (Ty.scalar INT 0) [] [] = (Ty.error, [⟨object_not_function, ""⟩]) :=
  ⟨(checkCall_cases INT 0 true [Ty.scalar INT 0] [Ty.scalar CHAR 0, Ty.scalar DOUBLE 0] []).1
      ⟨Or.inr ⟨rfl, by decide⟩, fun i p a hp ha => by
        cases i with
        | zero =>
            simp only [List.getElem?_cons_zero, Option.some.injEq] at hp ha
            rw [← hp, ← ha]; decide
        | succ j => simp at hp⟩,
    (checkCall_cases INT 0 false [Ty.scalar INT 0] [] []).2.1 (fun h => by
      rcases h.1 with h1 | h1
      · exact absurd h1 (by decide)
      · exact absurd h1.1 (by decide)),
    (checkCall_cases INT 0 false [] [] []).2.2 (Ty.scalar INT 0) (by decide) (by decide)⟩

/-- C4: `checkCast` tests the operand as it is given, without promoting it.
A `char` operand cast to `int` and an array operand cast to a pointer are
rejected with `invalid operand in cast expression`, although the promoted
operand is numeric, respectively a pointer. -/
theorem checkCast_does_not_promote_operand :
    (Ty.scalar INT 0).isNumeric = true ∧ (Ty.scalar CHAR 0).promote.isNumeric = true ∧
    checkCast (Ty.scalar INT 0) (Ty.scalar CHAR 0) [] =
      (Ty.error, [⟨invalid_operand_cast, ""⟩]) ∧
    (Ty.scalar INT 1).isPointer = true ∧ (Ty.array INT 0 10).promote.isPointer = true ∧
    checkCast (Ty.scalar INT 1) (Ty.array INT 0 10) [] =
      (Ty.error, [⟨invalid_operand_cast, ""⟩]) := by
  decide

/-- C5: for operands that are not the error type, `checkAssignment` returns
the left type without a diagnostic exactly when the left side is an lvalue and
the promoted types are compatible; without an lvalue it returns the error type
with exactly one `lvalue required in expression` (and nothing else, whatever
the types are); with an lvalue and incompatible promoted types it returns the
error type with exactly one `invalid operands to binary =`. -/
theorem checkAssignment_cases (L R : Ty) (lvalue : Bool) (log : Log)
    (hL : L.isError = false) (hR : R.isError = false) :
    (checkAssignment L R lvalue log = (L, log) ↔
      lvalue = true ∧ L.promote.isCompatibleWith R.promote = true) ∧
    (lvalue = false →
      checkAssignment L R lvalue log = (Ty.error, log ++ [⟨lvalue_expression, ""⟩])) ∧
    (lvalue = true → L.promote.isCompatibleWith R.promote = false →
      checkAssignment L R lvalue log =
        (Ty.error, log ++ [⟨invalid_binary_operands, "="⟩])) := by
  have hE : (L.isError || R.isError) = false := by simp [hL, hR]
  have hne : Ty.error ≠ L := fun h => by rw [← h] at hL; exact absurd hL (by decide)
  refine ⟨?_, ?_, ?_⟩
  · cases lvalue <;> cases hc : L.promote.isCompatibleWith R.promote <;>
      simp [checkAssignment, hE, hc, error, hne]
  · intro h
    simp [checkAssignment, hE, h, error, report]
  · intro h hc
    simp [checkAssignment, hE, h, hc, error, report]

/-- Witness of C5: `int = char` on an lvalue is accepted, `int * = double`
is rejected. -/
theorem checkAssignment_cases_witness :
    checkAssignment (Ty.scalar INT 0) (Ty.scalar CHAR 0) true [] = (Ty.scalar INT 0, []) ∧
    checkAssignment (Ty.scalar INT 1) (Ty.scalar DOUBLE 0) true [] =
      (Ty.error, [⟨invalid_binary_operands, "="⟩]) :=
  ⟨(checkAssignment_cases (Ty.scalar INT 0) (Ty.scalar CHAR 0) true [] (by decide)
      (by decide)).1.mpr ⟨rfl, by decide⟩,
    (checkAssignment_cases (Ty.scalar INT 1) (Ty.scalar DOUBLE 0) true [] (by decide)
      (by decide)).2.2 rfl (by decide)⟩

/-- C6, as stated, fails: two error types are the same type after promotion
but are not compatible, in the phase-4 and in the phase-5 type model alike;
the same holds for two equal function types. -/
theorem isCompatibleWith_counterexample :
    ¬ (Ty.isCompatibleWith Ty.error Ty.error = true ↔
        (Ty.error.isNumeric = true ∧ Ty.error.isNumeric = true) ∨
          Ty.eq Ty.error.promote Ty.error.promote = true) ∧
    ¬ (Phase5.isCompatibleWith Ty.error Ty.error = true ↔
        (Phase5.isNumeric Ty.error = true ∧ Phase5.isNumeric Ty.error = true) ∨
          Ty.eq (Phase5.promote Ty.error) (Phase5.promote Ty.error) = true) ∧
    ¬ (Ty.isCompatibleWith (Ty.function INT 0 false []) (Ty.function INT 0 false []) = true ↔
        ((Ty.function INT 0 false []).isNumeric = true ∧
          (Ty.function INT 0 false []).isNumeric = true) ∨
          Ty.eq (Ty.function INT 0 false []).promote (Ty.function INT 0 false []).promote
            = true) := by
  decide

/-- C6, amended: in both type models `A.isCompatibleWith(B)` holds exactly
when both are numeric, or `A` is a predicate type and the two promoted types
are equal.  Hence a function type or the error type is compatible with no
type, itself included. -/
theorem isCompatibleWith_iff (A B : Ty) :
    (Ty.isCompatibleWith A B = true ↔
      (A.isNumeric = true ∧ B.isNumeric = true) ∨
        (A.isPredicate = true ∧ A.promote = B.promote)) ∧
    (Phase5.isCompatibleWith A B = true ↔
      (Phase5.isNumeric A = true ∧ Phase5.isNumeric B = true) ∨
        (Phase5.isPredicate A = true ∧ Phase5.promote A = Phase5.promote B)) ∧
    (A.isFunction = true ∨ A.isError = true →
      Ty.isCompatibleWith A B = false ∧ Phase5.isCompatibleWith A B = false) := by
  refine ⟨?_, ?_, ?_⟩
  · unfold Ty.isCompatibleWith
    by_cases h : (A.isNumeric && B.isNumeric) = true
    · have h2 := h
      simp only [Bool.and_eq_true] at h2
      simp [h, h2]
    · have h2 := h
      simp only [Bool.and_eq_true] at h2
      simp [h, h2, Ty.eq_iff]
  · unfold Phase5.isCompatibleWith
    by_cases h : (Phase5.isNumeric A && Phase5.isNumeric B) = true
    · have h2 := h
      simp only [Bool.and_eq_true] at h2
      simp [h, h2]
    · have h2 := h
      simp only [Bool.and_eq_true] at h2
      simp [h, h2, Ty.eq_iff]
  · intro h
    cases A <;>
      simp_all [Ty.isFunction, Ty.isError, Ty.isCompatibleWith, Phase5.isCompatibleWith,
        Ty.isNumeric, Phase5.isNumeric, Ty.isPredicate, Phase5.isPredicate, Phase5.isPointer,
        Ty.declarator, Ty.indirection]

/-- Witness of C6 (amended): a function type is not compatible with itself,
an `int *` is compatible with an `int[4]`. -/
theorem isCompatibleWith_iff_witness :
    Ty.isCompatibleWith (Ty.function INT 0 false []) (Ty.function INT 0 false []) = false ∧
    Ty.isCompatibleWith (Ty.scalar INT 1) (Ty.array INT 0 4) = true :=
  ⟨((isCompatibleWith_iff (Ty.function INT 0 false []) (Ty.function INT 0 false [])).2.2
      (Or.inl rfl)).1,
    (isCompatibleWith_iff (Ty.scalar INT 1) (Ty.array INT 0 4)).1.mpr
      (Or.inr ⟨by decide, by decide⟩)⟩


/-! ## Properties of scopes and of the declaration checker -/

namespace Scope

theorem findIn_name {name : String} : ∀ {l : List Symbol} {sym : Symbol},
    findIn name l = some sym → sym.name = name
  | [], _, h => by simp [findIn] at h
  | x :: rest, sym, h => by
      by_cases hx : x.name = name
      · simp [findIn, hx] at h
        rw [← h]; exact hx
      · simp [findIn, hx] at h
        exact findIn_name h

theorem findIn_append_none {name : String} (sym : Symbol) (hname : sym.name = name) :
    ∀ {l : List Symbol}, findIn name l = none → findIn name (l ++ [sym]) = some sym
  | [], _ => by simp [findIn, hname]
  | x :: rest, h => by
      by_cases hx : x.name = name
      · simp [findIn, hx] at h
      · simp [findIn, hx] at h
        simp [findIn, hx, findIn_append_none sym hname h]

theorem countP_of_findIn_none {name : String} : ∀ {l : List Symbol},
    findIn name l = none → l.countP (fun x => x.name == name) = 0
  | [], _ => by simp
  | x :: rest, h => by
      by_cases hx : x.name = name
      · simp [findIn, hx] at h
      · simp [findIn, hx] at h
        simp [List.countP_cons, hx, countP_of_findIn_none h]

end Scope

namespace Checker

theorem scope_setScope {s : Checker} {p : Option Nat} {sc : Scope} (sc1 : Scope)
    (h : s.scope p = some sc) : (s.setScope p sc1).scope p = some sc1 := by
  cases p with
  | none => simp [scope] at h
  | some i =>
      simp only [scope] at h
      have hi : i < s.scopes.length := by
        rcases List.getElem?_eq_some.mp h with ⟨hi, _⟩
        exact hi
      simp [scope, setScope, hi]

end Checker

/-- C7: when the current scope is the outermost scope and already holds a
symbol `sym0` named `n`, `declareVariable(n, t)` reports exactly one
`conflicting types for 'n'` if `t` differs from the type of `sym0` and nothing
if it is equal; either way it returns `sym0` and changes nothing but the
diagnostic sink, so every symbol list is as before.  The same holds for the
phase-3 checker, whose global scope has no enclosing scope. -/
theorem declareVariable_outermost_redeclaration (s : Checker) (sc : Scope) (sym0 : Symbol)
    (n : String) (t : Ty) (hcur : s.toplevel = s.outermost)
    (hsc : s.scope s.toplevel = some sc) (hfind : sc.find n = some sym0) :
    (t ≠ sym0.type →
      declareVariable n t s =
        some (some sym0, { s with log := s.log ++ [⟨conflicting, n⟩] })) ∧
    (t = sym0.type → declareVariable n t s = some (some sym0, s)) ∧
    (sc.enclosing = none → t ≠ sym0.type →
      Phase3.declareVariable n t s =
        some (some sym0, { s with log := s.log ++ [⟨conflicting, n⟩] })) ∧
    (sc.enclosing = none → t = sym0.type →
      Phase3.declareVariable n t s = some (some sym0, s)) := by
  have hout : (s.outermost != s.toplevel) = false := by simp [hcur]
  refine ⟨?_, ?_, ?_, ?_⟩
  · intro ht
    have hne : Ty.ne t sym0.type = true := (Ty.ne_iff _ _).mpr ht
    simp [declareVariable, hsc, hfind, hout, hne, report]
  · intro ht
    have hne : Ty.ne t sym0.type = false := by
      cases h : Ty.ne t sym0.type
      · rfl
      · exact absurd ht ((Ty.ne_iff _ _).mp h)
    simp [declareVariable, hsc, hfind, hout, hne]
  · intro henc ht
    have hne : Ty.ne t sym0.type = true := (Ty.ne_iff _ _).mpr ht
    simp [Phase3.declareVariable, hsc, hfind, henc, hne, report]
  · intro henc ht
    have hne : Ty.ne t sym0.type = false := by
      cases h : Ty.ne t sym0.type
      · rfl
      · exact absurd ht ((Ty.ne_iff _ _).mp h)
    simp [Phase3.declareVariable, hsc, hfind, henc, hne]

/-- Witness of C7: after `int a2;` at file level, `char a2;` gives one
`conflicting types for 'a2'` and `int a2;` gives nothing. -/
theorem declareVariable_outermost_redeclaration_witness :
    declareVariable "a2" (Ty.scalar INT 0) (openScope Checker.init).2 =
      some (some ⟨0, "a2", Ty.scalar INT 0⟩,
        ⟨[⟨none, [⟨0, "a2", Ty.scalar INT 0⟩]⟩], 1, [], some 0, some 0, []⟩) ∧
    declareVariable "a2" (Ty.scalar CHAR 0)
        ⟨[⟨none, [⟨0, "a2", Ty.scalar INT 0⟩]⟩], 1, [], some 0, some 0, []⟩ =
      some (some ⟨0, "a2", Ty.scalar INT 0⟩,
        ⟨[⟨none, [⟨0, "a2", Ty.scalar INT 0⟩]⟩], 1, [], some 0, some 0,
          [⟨conflicting, "a2"⟩]⟩) ∧
    declareVariable "a2" (Ty.scalar INT 0)
        ⟨[⟨none, [⟨0, "a2", Ty.scalar INT 0⟩]⟩], 1, [], some 0, some 0, []⟩ =
      some (some ⟨0, "a2", Ty.scalar INT 0⟩,
        ⟨[⟨none, [⟨0, "a2", Ty.scalar INT 0⟩]⟩], 1, [], some 0, some 0, []⟩) :=
  ⟨by decide,
    (declareVariable_outermost_redeclaration
      ⟨[⟨none, [⟨0, "a2", Ty.scalar INT 0⟩]⟩], 1, [], some 0, some 0, []⟩
      ⟨none, [⟨0, "a2", Ty.scalar INT 0⟩]⟩ ⟨0, "a2", Ty.scalar INT 0⟩ "a2" (Ty.scalar CHAR 0)
      rfl rfl (by decide)).1 (by decide),
    (declareVariable_outermost_redeclaration
      ⟨[⟨none, [⟨0, "a2", Ty.scalar INT 0⟩]⟩], 1, [], some 0, some 0, []⟩
      ⟨none, [⟨0, "a2", Ty.scalar INT 0⟩]⟩ ⟨0, "a2", Ty.scalar INT 0⟩ "a2" (Ty.scalar INT 0)
      rfl rfl (by decide)).2.1 rfl⟩

/-- C8: in a scope that is not the outermost and does not yet declare `n`,
`declareVariable(n, t1)` inserts a fresh symbol without a diagnostic; every
later `declareVariable(n, t2)` in that scope, whatever `t2` is, returns that
symbol and adds exactly one `redeclaration of 'n'` and nothing else (so two
declarations give exactly one diagnostic, which is not a conflicting-types
one).  The scope then holds the old symbols followed by the new one, and
exactly one symbol named `n`, of type `t1`. -/
theorem declareVariable_inner_redeclaration (s : Checker) (sc : Scope) (n : String) (t1 : Ty)
    (hsc : s.scope s.toplevel = some sc) (hinner : s.outermost ≠ s.toplevel)
    (hfind : sc.find n = none) :
    ∃ (sym : Symbol) (s1 : Checker),
      declareVariable n t1 s = some (some sym, s1) ∧
      sym.name = n ∧ sym.type = t1 ∧ s1.log = s.log ∧
      (∀ t2 : Ty, ∃ s2 : Checker,
        declareVariable n t2 s1 = some (some sym, s2) ∧
        s2.log = s.log ++ [⟨redeclared, n⟩] ∧ s2.scopes = s1.scopes) ∧
      (∀ (t2 : Ty) (log1 : Log),
        declareVariable n t2 { s1 with log := log1 } =
          some (some sym, { s1 with log := log1 ++ [⟨redeclared, n⟩] })) ∧
      (∃ sc1 : Scope, s1.scope s1.toplevel = some sc1 ∧
        sc1.symbols = sc.symbols ++ [sym] ∧
        sc1.symbols.countP (fun x => x.name == n) = 1) ∧
      redeclared ≠ conflicting := by
  obtain ⟨scopes, symbols, defined, outermost, toplevel, log⟩ := s
  cases toplevel with
  | none => simp [Checker.scope] at hsc
  | some top =>
    simp only [Checker.scope] at hsc
    simp only [ne_eq] at hinner
    have hi : top < scopes.length := (List.getElem?_eq_some.mp hsc).1
    have hfind1 : (sc.insert ⟨symbols, n, t1⟩).find n = some ⟨symbols, n, t1⟩ :=
      Scope.findIn_append_none (l := sc.symbols) ⟨symbols, n, t1⟩ rfl hfind
    have hne : (outermost != some top) = true := by simpa using hinner
    have hstep : ∀ (t2 : Ty) (log1 : Log),
        declareVariable n t2
            ⟨scopes.set top (sc.insert ⟨symbols, n, t1⟩), symbols + 1, defined, outermost,
              some top, log1⟩ =
          some (some ⟨symbols, n, t1⟩,
            ⟨scopes.set top (sc.insert ⟨symbols, n, t1⟩), symbols + 1, defined, outermost,
              some top, log1 ++ [⟨redeclared, n⟩]⟩) := by
      intro t2 log1
      simp [declareVariable, Checker.scope, hi, hfind1, hne, report]
    refine ⟨⟨symbols, n, t1⟩,
      ⟨scopes.set top (sc.insert ⟨symbols, n, t1⟩), symbols + 1, defined, outermost,
        some top, log⟩, ?_, rfl, rfl, rfl, ?_, hstep, ?_, by decide⟩
    · simp [declareVariable, Checker.scope, Checker.setScope, hsc, hfind]
    · intro t2
      exact ⟨_, hstep t2 log, rfl, rfl⟩
    · refine ⟨sc.insert ⟨symbols, n, t1⟩, ?_, rfl, ?_⟩
      · simp [Checker.scope, hi]
      · simp [Scope.insert, List.countP_append, Scope.countP_of_findIn_none hfind]

/-- Witness of C8: in the body scope of a function, `int a; double a;`
gives exactly one `redeclaration of 'a'`. -/
theorem declareVariable_inner_redeclaration_witness :
    ∃ (sym : Symbol) (s1 s2 : Checker),
      declareVariable "a" (Ty.scalar INT 0)
        ⟨[⟨none, []⟩, ⟨some 0, []⟩], 0, [], some 0, some 1, []⟩ = some (some sym, s1) ∧
      declareVariable "a" (Ty.scalar DOUBLE 0) s1 = some (some sym, s2) ∧
      s2.log = [⟨redeclared, "a"⟩] := by
  obtain ⟨sym, s1, h1, _, _, _, h2, _⟩ :=
    declareVariable_inner_redeclaration
      ⟨[⟨none, []⟩, ⟨some 0, []⟩], 0, [], some 0, some 1, []⟩ ⟨some 0, []⟩ "a"
      (Ty.scalar INT 0) rfl (by decide) rfl
  obtain ⟨s2, h3, h4, _⟩ := h2 (Ty.scalar DOUBLE 0)
  exact ⟨sym, s1, s2, h1, h3, h4⟩

/-- C9: when the outermost scope does not declare `n`, `declareFunction(n, t1)`
inserts a fresh symbol of type `t1` there without a diagnostic.  Every later
`declareFunction(n, t2)` returns that symbol and leaves every scope as it is:
with `t2` different from `t1` it adds exactly one `conflicting types for 'n'`,
with `t2` equal to `t1` it adds nothing.  The outermost scope keeps binding
`n` to the first symbol, so a third declaration is again compared with `t1`.
Nothing is assumed about the current scope. -/
theorem declareFunction_redeclaration (s : Checker) (sc : Scope) (n : String) (t1 : Ty)
    (hsc : s.scope s.outermost = some sc) (hfind : sc.find n = none) :
    ∃ (sym : Symbol) (s1 : Checker),
      declareFunction n t1 s = some (some sym, s1) ∧
      sym.name = n ∧ sym.type = t1 ∧ s1.log = s.log ∧ s1.toplevel = s.toplevel ∧
      (∃ sc1 : Scope, s1.scope s1.outermost = some sc1 ∧ sc1.find n = some sym) ∧
      (∀ t2 : Ty, t2 ≠ t1 →
        declareFunction n t2 s1 =
          some (some sym, { s1 with log := s.log ++ [⟨conflicting, n⟩] })) ∧
      declareFunction n t1 s1 = some (some sym, s1) ∧
      (∀ (log1 : Log) (top : Option Nat),
        declareFunction n t1 { s1 with log := log1, toplevel := top } =
          some (some sym, { s1 with log := log1, toplevel := top })) ∧
      (∀ (t2 : Ty) (log1 : Log) (top : Option Nat), t2 ≠ t1 →
        declareFunction n t2 { s1 with log := log1, toplevel := top } =
          some (some sym, { s1 with log := log1 ++ [⟨conflicting, n⟩], toplevel := top })) := by
  obtain ⟨scopes, symbols, defined, outermost, toplevel, log⟩ := s
  cases outermost with
  | none => simp [Checker.scope] at hsc
  | some out =>
    simp only [Checker.scope] at hsc
    have hi : out < scopes.length := (List.getElem?_eq_some.mp hsc).1
    have hfind1 : (sc.insert ⟨symbols, n, t1⟩).find n = some ⟨symbols, n, t1⟩ :=
      Scope.findIn_append_none (l := sc.symbols) ⟨symbols, n, t1⟩ rfl hfind
    have hsame : Ty.ne t1 t1 = false := by
      cases h : Ty.ne t1 t1
      · rfl
      · exact absurd rfl ((Ty.ne_iff _ _).mp h)
    refine ⟨⟨symbols, n, t1⟩,
      ⟨scopes.set out (sc.insert ⟨symbols, n, t1⟩), symbols + 1, defined, some out,
        toplevel, log⟩, ?_, rfl, rfl, rfl, rfl, ?_, ?_, ?_, ?_, ?_⟩
    · simp [declareFunction, Checker.scope, Checker.setScope, hsc, hfind]
    · exact ⟨sc.insert ⟨symbols, n, t1⟩, by simp [Checker.scope, hi], hfind1⟩
    · intro t2 ht
      have hne : Ty.ne t2 t1 = true := (Ty.ne_iff _ _).mpr ht
      simp [declareFunction, Checker.scope, hi, hfind1, hne, report]
    · simp [declareFunction, Checker.scope, hi, hfind1, hsame]
    · intro log1 top
      simp [declareFunction, Checker.scope, hi, hfind1, hsame]
    · intro t2 log1 top ht
      have hne : Ty.ne t2 t1 = true := (Ty.ne_iff _ _).mpr ht
      simp [declareFunction, Checker.scope, hi, hfind1, hne, report]

/-- Witness of C9: `int fun4(void); int *fun4(void); int fun4(void);`
declared from inside an inner scope gives exactly one
`conflicting types for 'fun4'`. -/
theorem declareFunction_redeclaration_witness :
    ∃ (sym : Symbol) (s1 : Checker),
      declareFunction "fun4" (Ty.function INT 0 false [])
        ⟨[⟨none, []⟩, ⟨some 0, []⟩], 0, [], some 0, some 1, []⟩ = some (some sym, s1) ∧
      declareFunction "fun4" (Ty.function INT 1 false []) s1 =
        some (some sym, { s1 with log := [⟨conflicting, "fun4"⟩] }) ∧
      declareFunction "fun4" (Ty.function INT 0 false [])
          { s1 with log := [⟨conflicting, "fun4"⟩] } =
        some (some sym, { s1 with log := [⟨conflicting, "fun4"⟩] }) := by
  obtain ⟨sym, s1, h1, _, _, _, _, _, h2, _, h3, _⟩ :=
    declareFunction_redeclaration
      ⟨[⟨none, []⟩, ⟨some 0, []⟩], 0, [], some 0, some 1, []⟩ ⟨none, []⟩ "fun4"
      (Ty.function INT 0 false []) rfl rfl
  refine ⟨sym, s1, h1, ?_, ?_⟩
  · exact h2 (Ty.function INT 1 false []) (by decide)
  · exact h3 [⟨conflicting, "fun4"⟩] s1.toplevel

/-- C10: once `n` is in the set of defined functions, `defineFunction(n, t)`
reports exactly one `redefinition of 'n'` and nothing else, whatever `t` is,
returns what the outermost scope binds to `n`, and changes nothing but the
diagnostic sink.  When `n` is not yet defined, `defineFunction(n, t)` gives
what `declareFunction(n, t)` gives and records `n` as defined; after it, every
further `defineFunction(n, t2)` returns the same symbol with exactly one more
`redefinition of 'n'`.  The phase-3 checker behaves alike. -/
theorem defineFunction_redefinition (s : Checker) (sc : Scope) (n : String) (t : Ty)
    (hsc : s.scope s.outermost = some sc) :
    (n ∈ s.defined →
      defineFunction n t s =
        some (sc.find n, { s with log := s.log ++ [⟨redefined, n⟩] })) ∧
    (n ∉ s.defined →
      defineFunction n t s =
        (declareFunction n t s).map
          (fun r => (r.1, { r.2 with defined := n :: s.defined }))) ∧
    (n ∉ s.defined →
      ∃ (sym : Symbol) (s1 : Checker),
        defineFunction n t s = some (some sym, s1) ∧ sym.name = n ∧
        ∀ (t2 : Ty) (log1 : Log) (top : Option Nat),
          defineFunction n t2 { s1 with log := log1, toplevel := top } =
            some (some sym,
              { s1 with log := log1 ++ [⟨redefined, n⟩], toplevel := top })) ∧
    (n ∈ s.defined →
      Phase3.defineFunction n t s =
        some (sc.find n, { s with log := s.log ++ [⟨redefined, n⟩] })) ∧
    (n ∉ s.defined →
      Phase3.defineFunction n t s =
        (Phase3.declareFunction n t s).map
          (fun r => (r.1, { r.2 with defined := n :: s.defined }))) := by
  obtain ⟨scopes, symbols, defined, outermost, toplevel, log⟩ := s
  cases outermost with
  | none => simp [Checker.scope] at hsc
  | some out =>
    simp only [Checker.scope] at hsc
    have hi : out < scopes.length := (List.getElem?_eq_some.mp hsc).1
    refine ⟨?_, ?_, ?_, ?_, ?_⟩
    · intro hmem
      have hc : 0 < List.count n defined := List.count_pos_iff.mpr hmem
      simp [defineFunction, hc, Checker.scope, hsc, report]
    · intro hmem
      have hc : ¬ 0 < List.count n defined := fun h => hmem (List.count_pos_iff.mp h)
      cases hf : sc.find n with
      | none => simp [defineFunction, hc, declareFunction, Checker.scope, hsc, hf,
          Checker.setScope]
      | some sym =>
          cases hne : Ty.ne t sym.type <;>
            simp [defineFunction, hc, declareFunction, Checker.scope, hsc, hf, hne]
    · intro hmem
      have hc : ¬ 0 < List.count n defined := fun h => hmem (List.count_pos_iff.mp h)
      have hc1 : 0 < List.count n (n :: defined) := by simp
      cases hf : sc.find n with
      | none =>
          have hfind1 : (sc.insert ⟨symbols, n, t⟩).find n = some ⟨symbols, n, t⟩ :=
            Scope.findIn_append_none (l := sc.symbols) ⟨symbols, n, t⟩ rfl hf
          refine ⟨⟨symbols, n, t⟩,
            ⟨scopes.set out (sc.insert ⟨symbols, n, t⟩), symbols + 1, n :: defined, some out,
              toplevel, log⟩, ?_, rfl, ?_⟩
          · simp [defineFunction, hc, declareFunction, Checker.scope, hsc, hf,
              Checker.setScope]
          · intro t2 log1 top
            simp [defineFunction, Checker.scope, hi, hfind1, report]
      | some sym =>
          have hname : sym.name = n := Scope.findIn_name hf
          cases hne : Ty.ne t sym.type
          · refine ⟨sym, ⟨scopes, symbols, n :: defined, some out, toplevel, log⟩,
              ?_, hname, ?_⟩
            · simp [defineFunction, hc, declareFunction, Checker.scope, hsc, hf, hne]
            · intro t2 log1 top
              simp [defineFunction, Checker.scope, hsc, hf, report]
          · refine ⟨sym, ⟨scopes, symbols, n :: defined, some out, toplevel,
              log ++ [⟨conflicting, n⟩]⟩, ?_, hname, ?_⟩
            · simp [defineFunction, hc, declareFunction, Checker.scope, hsc, hf, hne, report]
            · intro t2 log1 top
              simp [defineFunction, Checker.scope, hsc, hf, report]
    · intro hmem
      have hc : ¬ List.count n defined = 0 :=
        Nat.pos_iff_ne_zero.mp (List.count_pos_iff.mpr hmem)
      simp [Phase3.defineFunction, hc, Checker.scope, hsc, report]
    · intro hmem
      have hc : List.count n defined = 0 := by
        by_contra h
        exact hmem (List.count_pos_iff.mp (Nat.pos_of_ne_zero h))
      cases hf : sc.find n with
      | none => simp [Phase3.defineFunction, hc, Phase3.declareFunction, Checker.scope, hsc, hf,
          Checker.setScope]
      | some sym =>
          cases hne : Ty.ne t sym.type <;>
            simp [Phase3.defineFunction, hc, Phase3.declareFunction, Checker.scope, hsc, hf,
              hne]

/-- Witness of C10: `int g(int a) {..}` followed by `int *g(int a) {..}`,
each defined while the parameter scope is current, gives exactly one
`redefinition of 'g'` and no conflicting-types diagnostic. -/
theorem defineFunction_redefinition_witness :
    ∃ (sym : Symbol) (s1 : Checker),
      defineFunction "g" (Ty.function INT 0 false [Ty.scalar INT 0])
        ⟨[⟨none, []⟩, ⟨some 0, []⟩], 0, [], some 0, some 1, []⟩ = some (some sym, s1) ∧
      defineFunction "g" (Ty.function INT 1 false [Ty.scalar INT 0])
          { s1 with log := [], toplevel := some 1 } =
        some (some sym, { s1 with log := [⟨redefined, "g"⟩], toplevel := some 1 }) := by
  obtain ⟨sym, s1, h1, _, h2⟩ :=
    (defineFunction_redefinition
      ⟨[⟨none, []⟩, ⟨some 0, []⟩], 0, [], some 0, some 1, []⟩ ⟨none, []⟩ "g"
      (Ty.function INT 0 false [Ty.scalar INT 0]) rfl).2.2.1 (by decide)
  exact ⟨sym, s1, h1, h2 (Ty.function INT 1 false [Ty.scalar INT 0]) [] (some 1)⟩

/-! ## Equality, promotion and the predicates of the type model -/

namespace Ty

/-- The vector comparison holds exactly when the sizes agree and the
elements at every index compare equal. -/
theorem eqTypes_pointwise : ∀ ps qs : List Ty,
    eqTypes ps qs = true ↔
      ps.length = qs.length ∧
        ∀ (k : Nat) (p q : Ty), ps[k]? = some p → qs[k]? = some q → eq p q = true
  | [], [] => by simp [eqTypes]
  | [], q :: qs => by simp [eqTypes]
  | p :: ps, [] => by simp [eqTypes]
  | p :: ps, q :: qs => by
      have ih := eqTypes_pointwise ps qs
      simp only [eqTypes, Bool.and_eq_true, ih, List.length_cons, Nat.succ.injEq]
      constructor
      · rintro ⟨h0, hlen, hall⟩
        refine ⟨hlen, fun k a b ha hb => ?_⟩
        cases k with
        | zero =>
            simp only [List.getElem?_cons_zero, Option.some.injEq] at ha hb
            rw [← ha, ← hb]; exact h0
        | succ j =>
            simp only [List.getElem?_cons_succ] at ha hb
            exact hall j a b ha hb
      · rintro ⟨hlen, hall⟩
        exact ⟨hall 0 p q (by simp) (by simp), hlen,
          fun k a b ha hb => hall (k + 1) a b (by simpa using ha) (by simpa using hb)⟩

end Ty

/-- C14: `operator ==` is reflexive, symmetric and transitive.  It is
structural: two scalars are equal iff specifier and indirection agree, two
arrays iff the lengths agree as well, two functions iff specifier,
indirection, variadic flag and the parameter vectors agree, the vectors being
compared by size and then element by element with `operator ==` again.  Two
error types are equal (an error value has no further state in this model),
types of different declarator kinds are never equal, and `operator !=` is the
negation. -/
theorem operator_eq_equivalence_structural :
    (∀ a : Ty, Ty.eq a a = true) ∧
    (∀ a b : Ty, Ty.eq a b = Ty.eq b a) ∧
    (∀ a b c : Ty, Ty.eq a b = true → Ty.eq b c = true → Ty.eq a c = true) ∧
    (∀ (s s1 : Int) (i i1 : Nat),
      Ty.eq (Ty.scalar s i) (Ty.scalar s1 i1) = true ↔ s = s1 ∧ i = i1) ∧
    (∀ (s s1 : Int) (i i1 n n1 : Nat),
      Ty.eq (Ty.array s i n) (Ty.array s1 i1 n1) = true ↔ s = s1 ∧ i = i1 ∧ n = n1) ∧
    (∀ (s s1 : Int) (i i1 : Nat) (v v1 : Bool) (ps ps1 : List Ty),
      Ty.eq (Ty.function s i v ps) (Ty.function s1 i1 v1 ps1) = true ↔
        s = s1 ∧ i = i1 ∧ v = v1 ∧ Ty.eqTypes ps ps1 = true) ∧
    (∀ ps qs : List Ty,
      Ty.eqTypes ps qs = true ↔
        ps.length = qs.length ∧
          ∀ (k : Nat) (p q : Ty), ps[k]? = some p → qs[k]? = some q → Ty.eq p q = true) ∧
    Ty.eq Ty.error Ty.error = true ∧
    (∀ a b : Ty, a.declarator ≠ b.declarator → Ty.eq a b = false) ∧
    (∀ a b : Ty, Ty.ne a b = !Ty.eq a b) := by
  refine ⟨?_, ?_, ?_, ?_, ?_, ?_, Ty.eqTypes_pointwise, rfl, ?_, fun _ _ => rfl⟩
  · intro a
    exact (Ty.eq_iff a a).mpr rfl
  · intro a b
    cases hab : Ty.eq a b
    · cases hba : Ty.eq b a
      · rfl
      · have h1 : b = a := (Ty.eq_iff b a).mp hba
        have h2 : Ty.eq a b = true := (Ty.eq_iff a b).mpr h1.symm
        rw [hab] at h2
        exact h2
    · have h1 : a = b := (Ty.eq_iff a b).mp hab
      exact ((Ty.eq_iff b a).mpr h1.symm).symm
  · intro a b c hab hbc
    exact (Ty.eq_iff a c).mpr (((Ty.eq_iff a b).mp hab).trans ((Ty.eq_iff b c).mp hbc))
  · intro s s1 i i1
    simp [Ty.eq]
  · intro s s1 i i1 n n1
    simp [Ty.eq, and_assoc]
  · intro s s1 i i1 v v1 ps ps1
    simp [Ty.eq, and_assoc]
  · intro a b h
    cases a <;> cases b <;> simp_all [Ty.eq, Ty.declarator]

/-- Witness of C14: transitivity through three equal function types, and a
pair of different declarator kinds. -/
theorem operator_eq_equivalence_structural_witness :
    Ty.eq (Ty.function INT 0 true [Ty.scalar CHAR 1])
        (Ty.function INT 0 true [Ty.scalar CHAR 1]) = true ∧
    Ty.eq (Ty.scalar INT 1) (Ty.array INT 1 4) = false :=
  ⟨operator_eq_equivalence_structural.2.2.1 (Ty.function INT 0 true [Ty.scalar CHAR 1])
      (Ty.function INT 0 true [Ty.scalar CHAR 1]) (Ty.function INT 0 true [Ty.scalar CHAR 1])
      (by decide) (by decide),
    operator_eq_equivalence_structural.2.2.2.2.2.2.2.2.1 (Ty.scalar INT 1) (Ty.array INT 1 4)
      (by decide)⟩

/-- C15, as stated, fails where the `unsigned` indirection wraps: an array
of `char` with indirection `2 ^ 32 - 1` promotes to the scalar `char` with
indirection `0` (not `2 ^ 32`), which promotes on to `int`.  This holds for the
promotion of phase 4 and of phase 5. -/
theorem promote_idempotent_counterexample :
    (Ty.array CHAR 4294967295 1).promote = Ty.scalar CHAR 0 ∧
    (Ty.array CHAR 4294967295 1).promote.promote = Ty.scalar INT 0 ∧
    Ty.eq (Ty.array CHAR 4294967295 1).promote.promote
      (Ty.array CHAR 4294967295 1).promote = false ∧
    Ty.eq (Phase5.promote (Phase5.promote (Ty.array CHAR 4294967295 1)))
      (Phase5.promote (Ty.array CHAR 4294967295 1)) = false := by
  decide

namespace Ty

theorem INT_ne_CHAR : INT ≠ CHAR := by decide

theorem promote_error : promote error = error := rfl

theorem promote_function (s : Int) (i : Nat) (v : Bool) (ps : List Ty) :
    promote (function s i v ps) = function s i v ps := by
  simp [promote, declarator]

theorem promote_array (s : Int) (k n : Nat) :
    promote (array s k n) = scalar s ((k + 1) % 2 ^ 32) := by
  simp [promote, declarator, specifier, indirection]

theorem promote_scalar (s : Int) (i : Nat) :
    promote (scalar s i) = if s = CHAR ∧ i = 0 then scalar INT 0 else scalar s i := by
  by_cases hs : s = CHAR <;> by_cases hi : i = 0 <;>
    simp [promote, declarator, specifier, indirection, hs, hi]

theorem isCompatibleWith_error_right (t : Ty) :
    t.isCompatibleWith error.promote = false := by
  rw [promote_error]
  cases t with
  | error => decide
  | scalar s i =>
      by_cases h : s = CHAR ∧ i = 0 <;>
        simp [isCompatibleWith, isNumeric, declarator, promote_scalar, promote_error, h, eq]
  | array s k n =>
      simp [isCompatibleWith, isNumeric, declarator, promote_array, promote_error, eq]
  | function s i v ps => simp [isCompatibleWith, isNumeric, isPredicate, declarator]

end Ty

namespace Phase5

theorem promote_error_phase5 : promote Ty.error = Ty.error := rfl

theorem promote_function_phase5 (s : Int) (i : Nat) (v : Bool) (ps : List Ty) :
    promote (Ty.function s i v ps) = Ty.function s i v ps := by
  simp [promote, Ty.declarator]

theorem promote_array_phase5 (s : Int) (k n : Nat) :
    promote (Ty.array s k n) = Ty.scalar s ((k + 1) % 2 ^ 32) := by
  simp [promote, Ty.declarator, Ty.specifier, Ty.indirection]

theorem promote_scalar_phase5 (s : Int) (i : Nat) :
    promote (Ty.scalar s i) =
      if s = CHAR ∧ i = 0 then Ty.scalar INT 0 else Ty.scalar s i := by
  by_cases hs : s = CHAR <;> by_cases hi : i = 0 <;>
    simp [promote, Ty.declarator, Ty.specifier, Ty.indirection, hs, hi]

end Phase5

/-- C15, amended: in both type models promotion maps the scalar `char` of
indirection `0` to `int`, an array of specifier `s` and indirection `k` to the
scalar of specifier `s` and indirection `k + 1` reduced modulo `2 ^ 32`, and
every other type to itself.  It is idempotent on every type except an array of
`char` whose indirection wraps to `0`; in particular on every type whose
indirection is below `2 ^ 32 - 1`. -/
theorem promote_idempotent_iff (T : Ty) :
    (T.promote.promote = T.promote ↔
      ¬ (T.isArray = true ∧ T.specifier = CHAR ∧ (T.indirection + 1) % 2 ^ 32 = 0)) ∧
    (Phase5.promote (Phase5.promote T) = Phase5.promote T ↔
      ¬ (T.isArray = true ∧ T.specifier = CHAR ∧ (T.indirection + 1) % 2 ^ 32 = 0)) ∧
    (T.indirection + 1 < 2 ^ 32 →
      Ty.eq T.promote.promote T.promote = true ∧
      Ty.eq (Phase5.promote (Phase5.promote T)) (Phase5.promote T) = true) ∧
    (Ty.scalar CHAR 0).promote = Ty.scalar INT 0 ∧
    Phase5.promote (Ty.scalar CHAR 0) = Ty.scalar INT 0 ∧
    (∀ (s : Int) (k n : Nat),
      (Ty.array s k n).promote = Ty.scalar s ((k + 1) % 2 ^ 32) ∧
      Phase5.promote (Ty.array s k n) = Ty.scalar s ((k + 1) % 2 ^ 32)) ∧
    (T.isArray = false → T ≠ Ty.scalar CHAR 0 →
      T.promote = T ∧ Phase5.promote T = T) := by
  have hIC := Ty.INT_ne_CHAR
  have key4 : T.promote.promote = T.promote ↔
      ¬ (T.isArray = true ∧ T.specifier = CHAR ∧ (T.indirection + 1) % 2 ^ 32 = 0) := by
    cases T with
    | error => decide
    | scalar s i =>
        by_cases hs : s = CHAR <;> by_cases hi : i = 0 <;>
          simp [Ty.promote_scalar, Ty.isArray, Ty.declarator, hs, hi, hIC]
    | array s k n =>
        by_cases hs : s = CHAR <;> by_cases hk : (k + 1) % 2 ^ 32 = 0 <;>
          simp [Ty.promote_array, Ty.promote_scalar, Ty.isArray, Ty.declarator, Ty.specifier,
            Ty.indirection, hs, hk, hIC]
    | function s i v ps => simp [Ty.promote_function, Ty.isArray, Ty.declarator]
  have key5 : Phase5.promote (Phase5.promote T) = Phase5.promote T ↔
      ¬ (T.isArray = true ∧ T.specifier = CHAR ∧ (T.indirection + 1) % 2 ^ 32 = 0) := by
    cases T with
    | error => decide
    | scalar s i =>
        by_cases hs : s = CHAR <;> by_cases hi : i = 0 <;>
          simp [Phase5.promote_scalar_phase5, Ty.isArray, Ty.declarator, hs, hi, hIC]
    | array s k n =>
        by_cases hs : s = CHAR <;> by_cases hk : (k + 1) % 2 ^ 32 = 0 <;>
          simp [Phase5.promote_array_phase5, Phase5.promote_scalar_phase5, Ty.isArray, Ty.declarator,
            Ty.specifier, Ty.indirection, hs, hk, hIC]
    | function s i v ps => simp [Phase5.promote_function_phase5, Ty.isArray, Ty.declarator]
  refine ⟨key4, key5, ?_, by decide, by decide,
    fun s k n => ⟨Ty.promote_array s k n, Phase5.promote_array_phase5 s k n⟩, ?_⟩
  · intro hlt
    have hmod : ¬ (T.indirection + 1) % 2 ^ 32 = 0 := by
      rw [Nat.mod_eq_of_lt hlt]; omega
    exact ⟨(Ty.eq_iff _ _).mpr (key4.mpr (fun h => hmod h.2.2)),
      (Ty.eq_iff _ _).mpr (key5.mpr (fun h => hmod h.2.2))⟩
  · intro harr hne
    cases T with
    | error => exact ⟨rfl, rfl⟩
    | scalar s i =>
        have h : ¬ (s = CHAR ∧ i = 0) := fun h => hne (by rw [h.1, h.2])
        exact ⟨by rw [Ty.promote_scalar, if_neg h], by rw [Phase5.promote_scalar_phase5, if_neg h]⟩
    | array s k n => simp [Ty.isArray, Ty.declarator] at harr
    | function s i v ps => exact ⟨Ty.promote_function s i v ps, Phase5.promote_function_phase5 s i v ps⟩

/-- Witness of C15 (amended): promotion is idempotent on `char[3]` and on
`char`. -/
theorem promote_idempotent_iff_witness :
    Ty.eq (Ty.array CHAR 0 3).promote.promote (Ty.array CHAR 0 3).promote = true ∧
    (Ty.scalar CHAR 0).promote.promote = (Ty.scalar CHAR 0).promote :=
  ⟨((promote_idempotent_iff (Ty.array CHAR 0 3)).2.2.1 (by decide)).1,
    (promote_idempotent_iff (Ty.scalar CHAR 0)).1.mpr (by decide)⟩

/-- C16, as stated, fails: an unpromoted `char` and an array are predicate
types of phase 4 but are neither numeric nor pointers. -/
theorem isPredicate_counterexample :
    ¬ ((Ty.scalar CHAR 0).isPredicate = true ↔
        ((Ty.scalar CHAR 0).isNumeric = true ∨ (Ty.scalar CHAR 0).isPointer = true)) ∧
    ¬ ((Ty.array INT 0 10).isPredicate = true ↔
        ((Ty.array INT 0 10).isNumeric = true ∨ (Ty.array INT 0 10).isPointer = true)) := by
  decide

/-- C16, amended: in the phase-4 type model `isPredicate()` holds exactly
for the types that are neither functions nor the error type.  A numeric type
and a pointer type are predicate types.  For a type whose specifier is `char`,
`int` or `double` and whose indirection is below `2 ^ 32 - 1`, `isPredicate()`
holds exactly when the promoted type is numeric or a pointer. -/
theorem isPredicate_iff (T : Ty) :
    (T.isPredicate = true ↔ (T.isFunction = false ∧ T.isError = false)) ∧
    (T.isNumeric = true ∨ T.isPointer = true → T.isPredicate = true) ∧
    ((T.specifier = CHAR ∨ T.specifier = INT ∨ T.specifier = DOUBLE) →
      T.indirection + 1 < 2 ^ 32 →
      (T.isPredicate = true ↔
        (T.promote.isNumeric = true ∨ T.promote.isPointer = true))) := by
  refine ⟨?_, ?_, ?_⟩
  · cases T <;> simp [Ty.isPredicate, Ty.isFunction, Ty.isError, Ty.declarator]
  · cases T <;>
      simp [Ty.isPredicate, Ty.isNumeric, Ty.isPointer, Ty.declarator, Ty.indirection]
  · intro hs hk
    cases T with
    | error => decide
    | scalar s i =>
        simp only [Ty.specifier] at hs
        by_cases hc : s = CHAR <;> by_cases hi : i = 0
        · simp [Ty.promote_scalar, hc, hi, Ty.isPredicate, Ty.isNumeric, Ty.declarator,
            Ty.indirection, Ty.specifier]
        · have hpos : 0 < i := Nat.pos_of_ne_zero hi
          simp [Ty.promote_scalar, hc, hi, Ty.isPredicate, Ty.isPointer, Ty.declarator,
            Ty.indirection, hpos]
        · have hs2 : s = INT ∨ s = DOUBLE := by
            rcases hs with h | h | h
            · exact absurd h hc
            · exact Or.inl h
            · exact Or.inr h
          simp [Ty.promote_scalar, hc, hi, Ty.isPredicate, Ty.isNumeric, Ty.declarator,
            Ty.indirection, Ty.specifier, hs2]
        · have hpos : 0 < i := Nat.pos_of_ne_zero hi
          simp [Ty.promote_scalar, hc, hi, Ty.isPredicate, Ty.isPointer, Ty.declarator,
            Ty.indirection, hpos]
    | array s k n =>
        simp only [Ty.indirection] at hk
        have hmod : (k + 1) % 4294967296 = k + 1 := Nat.mod_eq_of_lt hk
        simp [Ty.promote_array, hmod, Ty.isPredicate, Ty.isPointer, Ty.declarator,
          Ty.indirection]
    | function s i v ps =>
        simp [Ty.promote_function, Ty.isPredicate, Ty.isNumeric, Ty.isPointer, Ty.declarator]

/-- Witness of C16 (amended): `char` is a predicate type and its promotion
`int` is numeric. -/
theorem isPredicate_iff_witness :
    (Ty.scalar CHAR 0).isPredicate = true ∧ (Ty.scalar CHAR 0).promote.isNumeric = true ∧
    (Ty.scalar INT 2).isPredicate = true :=
  ⟨((isPredicate_iff (Ty.scalar CHAR 0)).2.2 (Or.inl rfl) (by decide)).mpr (Or.inl (by decide)),
    by decide,
    (isPredicate_iff (Ty.scalar INT 2)).2.1 (Or.inr (by decide))⟩

/-- C17: the phase-5 `Type::size` gives `4` for every array whose indirection
is not `0`, whatever its length, because the array branch returns `4` before
it multiplies: an array of ten `int *` gets the size of a single pointer. -/
theorem size_of_pointer_array :
    Phase5.size (Ty.scalar INT 1) = some 4 ∧
    Phase5.size (Ty.array INT 1 10) = some 4 ∧
    Phase5.size (Ty.array INT 0 10) = some 40 ∧
    (∀ (s : Int) (k n : Nat), Phase5.size (Ty.array s (k + 1) n) = some 4) := by
  refine ⟨by decide, by decide, by decide, fun s k n => ?_⟩
  simp [Phase5.size, Ty.declarator, Ty.indirection]

/-- C18: for operands that are not the error type, `checkMinus` yields
`double` for two numeric promoted operands of which one is `double`, `int` for
two numeric promoted operands of which none is `double`, the promoted left
type for pointer minus `int`, `int` for two equal promoted pointer types, and
in every other case the error type with exactly one more diagnostic,
`invalid operands to binary -`. -/
theorem checkMinus_cases (L R : Ty) (log : Log)
    (hL : L.isError = false) (hR : R.isError = false) :
    (L.promote.isNumeric = true → R.promote.isNumeric = true →
        (L.promote.isDouble = true ∨ R.promote.isDouble = true) →
        checkMinus L R log = (Ty.scalar DOUBLE 0, log)) ∧
    (L.promote.isNumeric = true → R.promote.isNumeric = true →
        L.promote.isDouble = false → R.promote.isDouble = false →
        checkMinus L R log = (Ty.scalar INT 0, log)) ∧
    (L.promote.isPointer = true → R.promote.isInteger = true →
        checkMinus L R log = (L.promote, log)) ∧
    (L.promote.isPointer = true → Ty.eq L.promote R.promote = true →
        checkMinus L R log = (Ty.scalar INT 0, log)) ∧
    (¬ (L.promote.isNumeric = true ∧ R.promote.isNumeric = true) →
        ¬ (L.promote.isPointer = true ∧ R.promote.isInteger = true) →
        ¬ (L.promote.isPointer = true ∧ Ty.eq L.promote R.promote = true) →
        checkMinus L R log = (Ty.error, log ++ [⟨invalid_binary_operands, "-"⟩])) ∧
    (L.promote.isInteger = true → R.promote.isPointer = true →
        checkMinus L R log = (Ty.error, log ++ [⟨invalid_binary_operands, "-"⟩])) ∧
    (L.promote.isPointer = true → R.promote.isPointer = true → L.promote ≠ R.promote →
        checkMinus L R log = (Ty.error, log ++ [⟨invalid_binary_operands, "-"⟩])) := by
  have hE : (L.isError || R.isError) = false := by simp [hL, hR]
  have hother : ¬ (L.promote.isNumeric = true ∧ R.promote.isNumeric = true) →
      ¬ (L.promote.isPointer = true ∧ R.promote.isInteger = true) →
      ¬ (L.promote.isPointer = true ∧ Ty.eq L.promote R.promote = true) →
      checkMinus L R log = (Ty.error, log ++ [⟨invalid_binary_operands, "-"⟩]) := by
    intro h1 h2 h3
    have h1b : (L.promote.isNumeric && R.promote.isNumeric) = false := by simpa using h1
    have h2b : (L.promote.isPointer && R.promote.isInteger) = false := by simpa using h2
    have h3b : (L.promote.isPointer && Ty.eq L.promote R.promote) = false := by simpa using h3
    simp [checkMinus, hE, h1b, h2b, h3b, error, report]
  refine ⟨?_, ?_, ?_, ?_, hother, ?_, ?_⟩
  · intro h1 h2 h3
    have h4 : (L.promote.isDouble || R.promote.isDouble) = true := by simpa using h3
    simp [checkMinus, hE, h1, h2, h4]
  · intro h1 h2 h3 h4
    simp [checkMinus, hE, h1, h2, h3, h4, integer]
  · intro h1 h2
    simp [checkMinus, hE, h1, h2, Ty.isNumeric_eq_false_of_isPointer h1,
      Ty.scalar_eta_of_isPointer h1]
  · intro h1 h2
    have h3 : R.promote.isPointer = true := by
      rw [← (Ty.eq_iff _ _).mp h2]; exact h1
    simp [checkMinus, hE, h1, h2, Ty.isNumeric_eq_false_of_isPointer h1,
      Ty.isInteger_eq_false_of_isPointer h3, integer]
  · intro h1 h2
    have h3 : L.promote.isPointer = false := Ty.isPointer_eq_false_of_isInteger h1
    exact hother (fun h => by
        have := Ty.isNumeric_eq_false_of_isPointer h2
        rw [h.2] at this; exact absurd this (by decide))
      (fun h => by rw [h3] at h; exact absurd h.1 (by decide))
      (fun h => by rw [h3] at h; exact absurd h.1 (by decide))
  · intro h1 h2 hne
    exact hother (fun h => by
        have := Ty.isNumeric_eq_false_of_isPointer h1
        rw [h.1] at this; exact absurd this (by decide))
      (fun h => by
        have := Ty.isPointer_eq_false_of_isInteger h.2
        rw [h2] at this; exact absurd this (by decide))
      (fun h => hne ((Ty.eq_iff _ _).mp h.2))

/-- Witness of C18: `int[3] - int *` is an `int`, `int - int *` is
rejected. -/
theorem checkMinus_cases_witness :
    checkMinus (Ty.array INT 0 3) (Ty.scalar INT 1) [] = (Ty.scalar INT 0, []) ∧
    checkMinus (Ty.scalar INT 0) (Ty.scalar INT 1) [] =
      (Ty.error, [⟨invalid_binary_operands, "-"⟩]) :=
  ⟨(checkMinus_cases (Ty.array INT 0 3) (Ty.scalar INT 1) [] (by decide) (by decide)).2.2.2.1
      (by decide) (by decide),
    (checkMinus_cases (Ty.scalar INT 0) (Ty.scalar INT 1) [] (by decide)
      (by decide)).2.2.2.2.2.1 (by decide) (by decide)⟩

/-- C19: `checkWhileIfFor` returns the error type for every condition, also
for a predicate type, which it was meant to return unchanged: for `int` the
result is the error type, without a diagnostic.  Only the diagnostic is as
intended: none for a predicate type or the error type, exactly one
`invalid type for test expression` otherwise. -/
theorem checkWhileIfFor_always_error :
    checkWhileIfFor (Ty.scalar INT 0) [] = (Ty.error, []) ∧
    (∀ (C : Ty) (log : Log), (checkWhileIfFor C log).1 = Ty.error) ∧
    (∀ (C : Ty) (log : Log),
      (checkWhileIfFor C log).2 =
        if C.isError = false ∧ C.isPredicate = false then log ++ [⟨type_expression, ""⟩]
        else log) := by
  refine ⟨by decide, fun C log => ?_, fun C log => ?_⟩
  · cases hE : C.isError <;> simp [checkWhileIfFor, hE, error]
  · cases hE : C.isError <;> cases hP : C.isPredicate <;>
      simp [checkWhileIfFor, hE, hP, report]

/-- C20: `checkCall` does not test the arguments for the error type.  An
error-typed argument in the fixed prefix is reported as
`invalid arguments to called function`, and an error-typed argument after the
fixed prefix of a variadic callee is accepted with the return type as result. -/
theorem checkCall_error_argument :
    checkCall (Ty.function INT 0 false [Ty.scalar INT 0]) [Ty.error] [] =
      (Ty.error, [⟨invalid_arguments, ""⟩]) ∧
    checkCall (Ty.function INT 0 true [Ty.scalar INT 0]) [Ty.scalar INT 0, Ty.error] [] =
      (Ty.scalar INT 0, []) ∧
    (∀ (s : Int) (k : Nat) (v : Bool) (p : Ty) (ps A : List Ty) (log : Log),
      checkCall (Ty.function s k v (p :: ps)) (Ty.error :: A) log =
        (Ty.error, log ++ [⟨invalid_arguments, ""⟩])) := by
  refine ⟨by decide, by decide, fun s k v p ps A log => ?_⟩
  have hc : p.promote.isCompatibleWith Ty.error.promote = false :=
    Ty.isCompatibleWith_error_right p.promote
  cases v <;> by_cases hlen : ps.length ≤ A.length <;>
    simp [checkCall, Ty.isError, Ty.isFunction, Ty.declarator, Ty.parameters, checkCallLoop,
      hc, hlen, error, report]

/-! ## Scope chains and `lookup` -/

namespace Chain

theorem det {heap : List Scope} : ∀ {p : Option Nat} {c1 c2 : List Scope},
    Chain heap p c1 → Chain heap p c2 → c1 = c2 := by
  intro p c1 c2 h1
  induction h1 generalizing c2 with
  | nil => intro h2; cases h2; rfl
  | cons hget _ ih =>
      intro h2
      cases h2 with
      | cons hget2 hrest2 =>
          rw [hget] at hget2
          cases hget2
          rw [ih hrest2]

theorem indices {heap : List Scope} {p : Option Nat} {c : List Scope} (h : Chain heap p c) :
    ∃ idx : List Nat, idx.length = c.length ∧ idx.Nodup ∧
      ∀ j ∈ idx, j < heap.length ∧
        ∃ c1 : List Scope, Chain heap (some j) c1 ∧ c1.length ≤ c.length := by
  induction h with
  | nil => exact ⟨[], rfl, List.nodup_nil, fun j hj => by simp at hj⟩
  | @cons i scope rest hget hrest ih =>
      obtain ⟨idx, hlen, hnd, hall⟩ := ih
      have hi : i < heap.length := (List.getElem?_eq_some.mp hget).1
      refine ⟨i :: idx, by simp [hlen], List.nodup_cons.mpr ⟨?_, hnd⟩, ?_⟩
      · intro hmem
        obtain ⟨_, c1, hc1, hle⟩ := hall i hmem
        have heq : c1 = scope :: rest := det hc1 (Chain.cons hget hrest)
        rw [heq] at hle
        simp at hle
      · intro j hj
        rcases List.mem_cons.mp hj with hji | hjm
        · rw [hji]
          exact ⟨hi, scope :: rest, Chain.cons hget hrest, Nat.le_refl _⟩
        · obtain ⟨hjlt, c1, hc1, hle⟩ := hall j hjm
          exact ⟨hjlt, c1, hc1, by simp; omega⟩

/-- A chain visits every scope of the heap at most once, so it is not longer
than the heap. -/
theorem length_le {heap : List Scope} {p : Option Nat} {c : List Scope} (h : Chain heap p c) :
    c.length ≤ heap.length := by
  obtain ⟨idx, hlen, hnd, hall⟩ := indices h
  have hsub : idx ⊆ List.range heap.length := fun j hj => List.mem_range.mpr (hall j hj).1
  have := (List.subperm_of_subset hnd hsub).length_le
  rw [List.length_range] at this
  omega

end Chain

namespace Scope

/-- With enough iterations the loop of `lookup` returns what `find` gives in
the first scope of the chain that has the name, and `nullptr` if none has. -/
theorem lookupLoop_of_chain {heap : List Scope} {name : String} {p : Option Nat}
    {c : List Scope} (h : Chain heap p c) :
    ∀ fuel : Nat, c.length ≤ fuel →
      lookupLoop heap name fuel p = some (c.findSome? (fun sc => sc.find name)) := by
  induction h with
  | nil => intro fuel _; cases fuel <;> rfl
  | @cons i scope rest hget hrest ih =>
      intro fuel hfuel
      cases fuel with
      | zero => simp at hfuel
      | succ f =>
          have hf : rest.length ≤ f := by simpa using hfuel
          cases hfind : scope.find name with
          | none => simp [lookupLoop, hget, hfind, ih f hf, List.findSome?_cons]
          | some sym => simp [lookupLoop, hget, hfind, List.findSome?_cons]

theorem lookup_of_chain {heap : List Scope} (name : String) {scope : Scope}
    {rest : List Scope} (h : Chain heap scope.enclosing rest) :
    scope.lookup heap name = some ((scope :: rest).findSome? (fun sc => sc.find name)) := by
  cases hfind : scope.find name with
  | none =>
      simp [lookup, hfind, lookupLoop_of_chain h heap.length (Chain.length_le h),
        List.findSome?_cons]
  | some sym => simp [lookup, hfind, List.findSome?_cons]

end Scope

namespace Scope

theorem findIn_eq_none_iff {name : String} : ∀ {l : List Symbol},
    findIn name l = none ↔ ∀ x ∈ l, x.name ≠ name
  | [] => by simp [findIn]
  | x :: rest => by
      by_cases hx : x.name = name
      · simp [findIn, hx]
      · simp [findIn, hx, findIn_eq_none_iff (l := rest)]

theorem findIn_first {name : String} (sym : Symbol) (hname : sym.name = name)
    (post : List Symbol) : ∀ {pre : List Symbol}, (∀ x ∈ pre, x.name ≠ name) →
      findIn name (pre ++ sym :: post) = some sym
  | [], _ => by simp [findIn, hname]
  | x :: rest, h => by
      have hx : ¬ x.name = name := h x (List.mem_cons_self _ _)
      have hrest : ∀ y ∈ rest, y.name ≠ name := fun y hy => h y (List.mem_cons_of_mem _ hy)
      simp [findIn, hx, findIn_first sym hname post hrest]

theorem findSome_first {name : String} (sc : Scope) (sym : Symbol)
    (hsc : sc.find name = some sym) (post : List Scope) :
    ∀ {pre : List Scope}, (∀ x ∈ pre, x.find name = none) →
      (pre ++ sc :: post).findSome? (fun x => x.find name) = some sym
  | [], _ => by simp [List.findSome?_cons, hsc]
  | x :: rest, h => by
      have hx : x.find name = none := h x (List.mem_cons_self _ _)
      have hrest : ∀ y ∈ rest, y.find name = none :=
        fun y hy => h y (List.mem_cons_of_mem _ hy)
      simp [List.findSome?_cons, hx, findSome_first sc sym hsc post hrest]

theorem findSome_eq_none_iff {name : String} : ∀ {c : List Scope},
    c.findSome? (fun x => x.find name) = none ↔ ∀ x ∈ c, x.find name = none
  | [] => by simp
  | x :: rest => by
      cases hx : x.find name with
      | none => simp [List.findSome?_cons, hx, findSome_eq_none_iff (c := rest)]
      | some sym => simp [List.findSome?_cons, hx]

end Scope

/-- C12: for a receiver `scope` whose enclosing scopes in the heap are `rest`
(innermost first), `lookup(n)` returns what `find(n)` gives in the first scope
of `scope :: rest` that has a symbol named `n`, and returns `nullptr` exactly
when no scope of the chain has one.  `find(n)` reads the receiver's own symbol
vector only and returns its first (earliest inserted) symbol named `n`, and
`nullptr` exactly when there is none.  So a symbol of the receiver hides the
symbols of the same name in the enclosing scopes. -/
theorem lookup_nearest_first (heap : List Scope) (scope : Scope) (rest : List Scope)
    (n : String) (hchain : Chain heap scope.enclosing rest) :
    (∀ (pre post : List Scope) (sc : Scope) (sym : Symbol),
      scope :: rest = pre ++ sc :: post → (∀ x ∈ pre, x.find n = none) →
      sc.find n = some sym → scope.lookup heap n = some (some sym)) ∧
    (scope.lookup heap n = some none ↔ ∀ sc ∈ scope :: rest, sc.find n = none) ∧
    (∃ r : Option Symbol, scope.lookup heap n = some r) ∧
    (∀ (pre post : List Symbol) (sym : Symbol),
      scope.symbols = pre ++ sym :: post → sym.name = n → (∀ x ∈ pre, x.name ≠ n) →
      scope.find n = some sym) ∧
    (scope.find n = none ↔ ∀ x ∈ scope.symbols, x.name ≠ n) ∧
    (∀ sym : Symbol, scope.find n = some sym → scope.lookup heap n = some (some sym)) := by
  have hlook := Scope.lookup_of_chain n hchain
  refine ⟨?_, ?_, ⟨_, hlook⟩, ?_, Scope.findIn_eq_none_iff, ?_⟩
  · intro pre post sc sym hsplit hpre hsc
    rw [hlook, hsplit, Scope.findSome_first sc sym hsc post hpre]
  · rw [hlook]
    simp only [Option.some.injEq]
    exact Scope.findSome_eq_none_iff
  · intro pre post sym hsplit hname hpre
    unfold Scope.find
    rw [hsplit]
    exact Scope.findIn_first sym hname post hpre
  · intro sym hfind
    simp [Scope.lookup, hfind]

/-- Witness of C12: in a block scope that declares `x` inside a function
scope that declares `x` and `y`, `lookup` finds the inner `x` and the outer
`y`, and nothing for `z`. -/
theorem lookup_nearest_first_witness :
    Scope.lookup ⟨some 1, [⟨2, "x", Ty.scalar DOUBLE 0⟩]⟩
        [⟨none, []⟩, ⟨some 0, [⟨0, "x", Ty.scalar INT 0⟩, ⟨1, "y", Ty.scalar INT 0⟩]⟩,
          ⟨some 1, [⟨2, "x", Ty.scalar DOUBLE 0⟩]⟩] "x" =
      some (some ⟨2, "x", Ty.scalar DOUBLE 0⟩) ∧
    Scope.lookup ⟨some 1, [⟨2, "x", Ty.scalar DOUBLE 0⟩]⟩
        [⟨none, []⟩, ⟨some 0, [⟨0, "x", Ty.scalar INT 0⟩, ⟨1, "y", Ty.scalar INT 0⟩]⟩,
          ⟨some 1, [⟨2, "x", Ty.scalar DOUBLE 0⟩]⟩] "y" =
      some (some ⟨1, "y", Ty.scalar INT 0⟩) :=
  ⟨(lookup_nearest_first
      [⟨none, []⟩, ⟨some 0, [⟨0, "x", Ty.scalar INT 0⟩, ⟨1, "y", Ty.scalar INT 0⟩]⟩,
        ⟨some 1, [⟨2, "x", Ty.scalar DOUBLE 0⟩]⟩]
      ⟨some 1, [⟨2, "x", Ty.scalar DOUBLE 0⟩]⟩
      [⟨some 0, [⟨0, "x", Ty.scalar INT 0⟩, ⟨1, "y", Ty.scalar INT 0⟩]⟩, ⟨none, []⟩] "x"
      (Chain.cons rfl (Chain.cons rfl Chain.nil))).2.2.2.2.2 _ (by decide),
    (lookup_nearest_first
      [⟨none, []⟩, ⟨some 0, [⟨0, "x", Ty.scalar INT 0⟩, ⟨1, "y", Ty.scalar INT 0⟩]⟩,
        ⟨some 1, [⟨2, "x", Ty.scalar DOUBLE 0⟩]⟩]
      ⟨some 1, [⟨2, "x", Ty.scalar DOUBLE 0⟩]⟩
      [⟨some 0, [⟨0, "x", Ty.scalar INT 0⟩, ⟨1, "y", Ty.scalar INT 0⟩]⟩, ⟨none, []⟩] "y"
      (Chain.cons rfl (Chain.cons rfl Chain.nil))).1
      [⟨some 1, [⟨2, "x", Ty.scalar DOUBLE 0⟩]⟩] [⟨none, []⟩]
      ⟨some 0, [⟨0, "x", Ty.scalar INT 0⟩, ⟨1, "y", Ty.scalar INT 0⟩]⟩
      ⟨1, "y", Ty.scalar INT 0⟩ rfl (by decide) (by decide)⟩

/-- C11, as stated, fails for a nested scope that declares the name itself:
after `x` has been used undeclared in a function scope (one diagnostic, an
error-typed symbol inserted), a nested block declares `int x`; the next
`checkIdentifier` of `x` from the nested block reports nothing but returns
the `int` symbol of the block, not the error-typed symbol. -/
theorem checkIdentifier_counterexample :
    checkIdentifier "x" ⟨[⟨none, []⟩, ⟨some 0, []⟩], 0, [], some 0, some 1, []⟩ =
      some (some ⟨0, "x", Ty.error⟩,
        ⟨[⟨none, []⟩, ⟨some 0, [⟨0, "x", Ty.error⟩]⟩], 1, [], some 0, some 1,
          [⟨undeclared, "x"⟩]⟩) ∧
    (openScope ⟨[⟨none, []⟩, ⟨some 0, [⟨0, "x", Ty.error⟩]⟩], 1, [], some 0, some 1,
        [⟨undeclared, "x"⟩]⟩).2 =
      ⟨[⟨none, []⟩, ⟨some 0, [⟨0, "x", Ty.error⟩]⟩, ⟨some 1, []⟩], 1, [], some 0, some 2,
        [⟨undeclared, "x"⟩]⟩ ∧
    declareVariable "x" (Ty.scalar INT 0)
        ⟨[⟨none, []⟩, ⟨some 0, [⟨0, "x", Ty.error⟩]⟩, ⟨some 1, []⟩], 1, [], some 0, some 2,
          [⟨undeclared, "x"⟩]⟩ =
      some (some ⟨1, "x", Ty.scalar INT 0⟩,
        ⟨[⟨none, []⟩, ⟨some 0, [⟨0, "x", Ty.error⟩]⟩, ⟨some 1, [⟨1, "x", Ty.scalar INT 0⟩]⟩],
          2, [], some 0, some 2, [⟨undeclared, "x"⟩]⟩) ∧
    checkIdentifier "x"
        ⟨[⟨none, []⟩, ⟨some 0, [⟨0, "x", Ty.error⟩]⟩, ⟨some 1, [⟨1, "x", Ty.scalar INT 0⟩]⟩],
          2, [], some 0, some 2, [⟨undeclared, "x"⟩]⟩ =
      some (some ⟨1, "x", Ty.scalar INT 0⟩,
        ⟨[⟨none, []⟩, ⟨some 0, [⟨0, "x", Ty.error⟩]⟩, ⟨some 1, [⟨1, "x", Ty.scalar INT 0⟩]⟩],
          2, [], some 0, some 2, [⟨undeclared, "x"⟩]⟩) ∧
    (⟨1, "x", Ty.scalar INT 0⟩ : Symbol) ≠ ⟨0, "x", Ty.error⟩ := by
  decide

namespace Scope

theorem findIn_append_some {name : String} {sym : Symbol} (extra : List Symbol) :
    ∀ {l : List Symbol}, findIn name l = some sym → findIn name (l ++ extra) = some sym
  | [], h => by simp [findIn] at h
  | x :: rest, h => by
      by_cases hx : x.name = name
      · simpa [findIn, hx] using h
      · simp only [findIn, beq_iff_eq, hx, if_false] at h
        simp [findIn, hx, findIn_append_some extra h]

end Scope

/-- The heap after a call: unchanged, or with one symbol appended to one
scope, or (for `openScope`) with one scope appended. -/
theorem Call.step_scopes {c : Call} {s t : Checker} (h : c.step s = some t) :
    t.scopes = s.scopes ∨
    (∃ (j : Nat) (x : Scope) (sym : Symbol),
      s.scopes[j]? = some x ∧ t.scopes = s.scopes.set j (x.insert sym)) ∨
    (∃ x : Scope, t.scopes = s.scopes ++ [x]) := by
  obtain ⟨scopes, symbols, defined, outermost, toplevel, log⟩ := s
  cases c with
  | openScope =>
      simp only [Call.step, Option.some.injEq] at h
      refine Or.inr (Or.inr ⟨Scope.mk toplevel [], ?_⟩)
      rw [← h]
      cases outermost <;> simp [SimpleC.openScope]
  | closeScope =>
      simp only [Call.step, Option.map_eq_some'] at h
      obtain ⟨⟨r, u⟩, hu, rfl⟩ := h
      cases toplevel with
      | none => simp [SimpleC.closeScope, Checker.scope] at hu
      | some top =>
          cases hget : scopes[top]? with
          | none => simp [SimpleC.closeScope, Checker.scope, hget] at hu
          | some sc =>
              simp only [SimpleC.closeScope, Checker.scope, hget, Option.some.injEq, Prod.mk.injEq] at hu
              rw [← hu.2]; exact Or.inl rfl
  | declareVariable n ty =>
      simp only [Call.step, Option.map_eq_some'] at h
      obtain ⟨⟨r, u⟩, hu, rfl⟩ := h
      cases toplevel with
      | none => simp [SimpleC.declareVariable, Checker.scope] at hu
      | some top =>
          cases hget : scopes[top]? with
          | none => simp [SimpleC.declareVariable, Checker.scope, hget] at hu
          | some sc =>
              cases hfind : sc.find n with
              | none =>
                  simp only [SimpleC.declareVariable, Checker.scope, hget, hfind, Checker.setScope,
                    Option.some.injEq, Prod.mk.injEq] at hu
                  rw [← hu.2]
                  exact Or.inr (Or.inl ⟨top, sc, ⟨symbols, n, ty⟩, hget, rfl⟩)
              | some sym =>
                  cases hout : (outermost != some top) <;> cases hne : Ty.ne ty sym.type <;>
                    simp only [SimpleC.declareVariable, Checker.scope, hget, hfind, hout, hne, if_true,
                      Bool.false_eq_true, if_false, Option.some.injEq, Prod.mk.injEq] at hu <;>
                    (rw [← hu.2]; exact Or.inl rfl)
  | declareFunction n ty =>
      simp only [Call.step, Option.map_eq_some'] at h
      obtain ⟨⟨r, u⟩, hu, rfl⟩ := h
      cases outermost with
      | none => simp [SimpleC.declareFunction, Checker.scope] at hu
      | some out =>
          cases hget : scopes[out]? with
          | none => simp [SimpleC.declareFunction, Checker.scope, hget] at hu
          | some sc =>
              cases hfind : sc.find n with
              | none =>
                  simp only [SimpleC.declareFunction, Checker.scope, hget, hfind, Checker.setScope,
                    Option.some.injEq, Prod.mk.injEq] at hu
                  rw [← hu.2]
                  exact Or.inr (Or.inl ⟨out, sc, ⟨symbols, n, ty⟩, hget, rfl⟩)
              | some sym =>
                  cases hne : Ty.ne ty sym.type <;>
                    simp only [SimpleC.declareFunction, Checker.scope, hget, hfind, hne, if_true,
                      Bool.false_eq_true, if_false, Option.some.injEq, Prod.mk.injEq] at hu <;>
                    (rw [← hu.2]; exact Or.inl rfl)
  | defineFunction n ty =>
      simp only [Call.step, Option.map_eq_some'] at h
      obtain ⟨⟨r, u⟩, hu, rfl⟩ := h
      cases outermost with
      | none =>
          by_cases hd : List.count n defined > 0 <;>
            simp [SimpleC.defineFunction, SimpleC.declareFunction, Checker.scope, hd] at hu
      | some out =>
          cases hget : scopes[out]? with
          | none =>
              by_cases hd : List.count n defined > 0 <;>
                simp [SimpleC.defineFunction, SimpleC.declareFunction, Checker.scope, hd, hget] at hu
          | some sc =>
              by_cases hd : List.count n defined > 0
              · simp only [SimpleC.defineFunction, hd, if_true, Checker.scope, hget, Option.some.injEq,
                  Prod.mk.injEq] at hu
                rw [← hu.2]; exact Or.inl rfl
              · cases hfind : sc.find n with
                | none =>
                    simp only [SimpleC.defineFunction, hd, if_false, SimpleC.declareFunction, Checker.scope, hget,
                      hfind, Checker.setScope, Option.some.injEq, Prod.mk.injEq] at hu
                    rw [← hu.2]
                    exact Or.inr (Or.inl ⟨out, sc, ⟨symbols, n, ty⟩, hget, rfl⟩)
                | some sym =>
                    cases hne : Ty.ne ty sym.type <;>
                      simp only [SimpleC.defineFunction, hd, if_false, SimpleC.declareFunction, Checker.scope,
                        hget, hfind, hne, if_true, Bool.false_eq_true, Option.some.injEq,
                        Prod.mk.injEq] at hu <;>
                      (rw [← hu.2]; exact Or.inl rfl)
  | checkIdentifier n =>
      simp only [Call.step, Option.map_eq_some'] at h
      obtain ⟨⟨r, u⟩, hu, rfl⟩ := h
      cases toplevel with
      | none => simp [SimpleC.checkIdentifier, Checker.scope] at hu
      | some top =>
          cases hget : scopes[top]? with
          | none => simp [SimpleC.checkIdentifier, Checker.scope, hget] at hu
          | some sc =>
              cases hl : sc.lookup scopes n with
              | none => simp [SimpleC.checkIdentifier, Checker.scope, hget, hl] at hu
              | some found =>
                  cases found with
                  | some sym =>
                      simp only [SimpleC.checkIdentifier, Checker.scope, hget, hl, Option.some.injEq,
                        Prod.mk.injEq] at hu
                      rw [← hu.2]; exact Or.inl rfl
                  | none =>
                      simp only [SimpleC.checkIdentifier, Checker.scope, hget, hl, Checker.setScope,
                        Option.some.injEq, Prod.mk.injEq] at hu
                      rw [← hu.2]
                      exact Or.inr (Or.inl ⟨top, sc, ⟨symbols, n, error⟩, hget, rfl⟩)

/-- A call keeps every scope of the heap at its address, with the same
enclosing pointer and with its symbols as a prefix of the new symbols. -/
theorem Call.step_grows {c : Call} {s t : Checker} (h : c.step s = some t) (i : Nat)
    (sc : Scope) (hget : s.scopes[i]? = some sc) :
    ∃ extra : List Symbol, t.scopes[i]? = some ⟨sc.enclosing, sc.symbols ++ extra⟩ := by
  have hi : i < s.scopes.length := (List.getElem?_eq_some.mp hget).1
  rcases Call.step_scopes h with hs | ⟨j, x, sym, hx, hs⟩ | ⟨x, hs⟩
  · exact ⟨[], by rw [hs, hget]; simp⟩
  · by_cases hji : j = i
    · subst hji
      rw [hget] at hx
      cases hx
      exact ⟨[sym], by rw [hs]; simp [hi, Scope.insert]⟩
    · exact ⟨[], by rw [hs, List.getElem?_set]; simp [hji, hget]⟩
  · exact ⟨[], by rw [hs, List.getElem?_append_left hi, hget]; simp⟩

theorem runCalls_grows : ∀ (calls : List Call) {s t : Checker},
    runCalls calls s = some t → ∀ (i : Nat) (sc : Scope), s.scopes[i]? = some sc →
      ∃ extra : List Symbol, t.scopes[i]? = some ⟨sc.enclosing, sc.symbols ++ extra⟩
  | [], s, t, hr, i, sc, hget => by
      simp only [runCalls, Option.some.injEq] at hr
      exact ⟨[], by rw [← hr, hget]; simp⟩
  | c :: rest, s, t, hr, i, sc, hget => by
      cases hs : c.step s with
      | none => simp [runCalls, hs] at hr
      | some u =>
          simp only [runCalls, hs] at hr
          obtain ⟨e1, h1⟩ := Call.step_grows hs i sc hget
          obtain ⟨e2, h2⟩ := runCalls_grows rest hr i _ h1
          exact ⟨e1 ++ e2, by rw [h2]; simp⟩

/-- C11, amended: let `scope` be the current scope and `rest` its enclosing
scopes.  If no scope of the chain declares `n`, `checkIdentifier(n)` reports
exactly one `'n' undeclared`, appends a fresh error-typed symbol `n` to the
current scope, changes no other scope and returns that symbol.  After any
further calls, a `checkIdentifier(n)` issued while that scope is current, or
from a scope nested inside it when no scope nearer than it declares `n`,
reports nothing, changes nothing and returns the same symbol.  In every
state, if `n` is declared on the chain, `checkIdentifier(n)` returns what
`find(n)` gives in the nearest scope that declares it, reports nothing and
changes nothing. -/
theorem checkIdentifier_cases (s : Checker) (scope : Scope) (rest : List Scope) (n : String)
    (hsc : s.scope s.toplevel = some scope) (hchain : Chain s.scopes scope.enclosing rest) :
    ((∀ sc ∈ scope :: rest, sc.find n = none) →
      ∃ s1 : Checker,
        checkIdentifier n s = some (some ⟨s.symbols, n, Ty.error⟩, s1) ∧
        s1.log = s.log ++ [⟨undeclared, n⟩] ∧
        s1.scope s1.toplevel = some (scope.insert ⟨s.symbols, n, Ty.error⟩) ∧
        s1.toplevel = s.toplevel ∧ s1.outermost = s.outermost ∧ s1.defined = s.defined ∧
        s1.scopes.length = s.scopes.length ∧
        (∀ i : Nat, some i ≠ s.toplevel → s1.scopes[i]? = s.scopes[i]?) ∧
        checkIdentifier n s1 = some (some ⟨s.symbols, n, Ty.error⟩, s1) ∧
        checkIdentifier n (openScope s1).2 =
          some (some ⟨s.symbols, n, Ty.error⟩, (openScope s1).2) ∧
        (∀ (calls : List Call) (t : Checker), runCalls calls s1 = some t →
          (t.toplevel = s.toplevel →
            checkIdentifier n t = some (some ⟨s.symbols, n, Ty.error⟩, t)) ∧
          (∀ (cur home : Scope) (up pre post : List Scope),
            t.scope t.toplevel = some cur → Chain t.scopes cur.enclosing up →
            t.scope s.toplevel = some home → cur :: up = pre ++ home :: post →
            (∀ x ∈ pre, x.find n = none) →
            checkIdentifier n t = some (some ⟨s.symbols, n, Ty.error⟩, t)))) ∧
    (∀ (pre post : List Scope) (sc : Scope) (sym : Symbol),
      scope :: rest = pre ++ sc :: post → (∀ x ∈ pre, x.find n = none) →
      sc.find n = some sym → checkIdentifier n s = some (some sym, s)) := by
  obtain ⟨scopes, symbols, defined, outermost, toplevel, log⟩ := s
  cases toplevel with
  | none => simp [Checker.scope] at hsc
  | some top =>
    simp only [Checker.scope] at hsc
    have hi : top < scopes.length := (List.getElem?_eq_some.mp hsc).1
    have hlook := Scope.lookup_of_chain n hchain
    constructor
    · intro hnone
      have hl : scope.lookup scopes n = some none := by
        rw [hlook, Scope.findSome_eq_none_iff.mpr hnone]
      have hfind0 : scope.find n = none := hnone scope (List.mem_cons_self _ _)
      have hfind1 : (scope.insert ⟨symbols, n, Ty.error⟩).find n = some ⟨symbols, n, Ty.error⟩ :=
        Scope.findIn_append_none (l := scope.symbols) ⟨symbols, n, Ty.error⟩ rfl hfind0
      refine ⟨⟨scopes.set top (scope.insert ⟨symbols, n, Ty.error⟩), symbols + 1, defined,
        outermost, some top, log ++ [⟨undeclared, n⟩]⟩, ?_, rfl, ?_, rfl, rfl, rfl, ?_, ?_, ?_, ?_,
        ?_⟩
      · simp [checkIdentifier, Checker.scope, hsc, hl, Checker.setScope, report, error]
      · simp [Checker.scope, hi]
      · simp
      · intro i hne
        have hne2 : top ≠ i := fun h => hne (by rw [h])
        simp [List.getElem?_set, hne2]
      · simp [checkIdentifier, Checker.scope, hi, Scope.lookup, hfind1]
      · have hnew : (scopes.set top (scope.insert ⟨symbols, n, Ty.error⟩) ++
            [Scope.mk (some top) []])[scopes.length]? = some (Scope.mk (some top) []) := by
          have : (scopes.set top (scope.insert ⟨symbols, n, Ty.error⟩)).length = scopes.length := by
            simp
          rw [← this]
          simp
        have hold : (scopes.set top (scope.insert ⟨symbols, n, Ty.error⟩) ++
            [Scope.mk (some top) []])[top]? = some (scope.insert ⟨symbols, n, Ty.error⟩) := by
          rw [List.getElem?_append_left (by simpa using hi)]
          simp [hi]
        have hfind2 : Scope.findIn n (scope.insert ⟨symbols, n, Ty.error⟩).symbols =
            some ⟨symbols, n, Ty.error⟩ := hfind1
        cases outermost <;>
          simp [checkIdentifier, openScope, Checker.scope, hnew, hold, Scope.lookup, Scope.find,
            Scope.findIn, Scope.lookupLoop, hfind2]
      · intro calls t hrun
        have hset : (scopes.set top (scope.insert ⟨symbols, n, Ty.error⟩))[top]? =
            some (scope.insert ⟨symbols, n, Ty.error⟩) := by simp [hi]
        obtain ⟨extra, hgrow⟩ := runCalls_grows calls hrun top _ hset
        have hfindg : Scope.find ⟨(scope.insert ⟨symbols, n, Ty.error⟩).enclosing,
            (scope.insert ⟨symbols, n, Ty.error⟩).symbols ++ extra⟩ n =
              some ⟨symbols, n, Ty.error⟩ :=
          Scope.findIn_append_some extra hfind1
        constructor
        · intro htop
          simp only at htop
          simp [checkIdentifier, htop, Checker.scope, hgrow, Scope.lookup, hfindg]
        · intro cur home up pre post hcur hup hhome hsplit hpre
          simp only [Checker.scope] at hhome
          rw [hgrow] at hhome
          cases hhome
          have hl : cur.lookup t.scopes n = some (some ⟨symbols, n, Ty.error⟩) := by
            rw [Scope.lookup_of_chain n hup, hsplit, Scope.findSome_first _ _ hfindg post hpre]
          simp [checkIdentifier, hcur, hl]
    · intro pre post sc sym hsplit hpre hfound
      have hl : scope.lookup scopes n = some (some sym) := by
        rw [hlook, hsplit, Scope.findSome_first sc sym hfound post hpre]
      simp [checkIdentifier, Checker.scope, hsc, hl]

/-- Witness of C11: in a function scope `idk` is undeclared once and found
afterwards; a declared `raspberry` is returned without a diagnostic. -/
theorem checkIdentifier_cases_witness :
    (∃ s1 : Checker,
      checkIdentifier "idk" ⟨[⟨none, []⟩, ⟨some 0, []⟩], 0, [], some 0, some 1, []⟩ =
        some (some ⟨0, "idk", Ty.error⟩, s1) ∧
      s1.log = [⟨undeclared, "idk"⟩] ∧
      checkIdentifier "idk" s1 = some (some ⟨0, "idk", Ty.error⟩, s1)) ∧
    checkIdentifier "raspberry"
        ⟨[⟨none, [⟨0, "raspberry", Ty.scalar INT 0⟩]⟩, ⟨some 0, []⟩], 1, [], some 0, some 1, []⟩ =
      some (some ⟨0, "raspberry", Ty.scalar INT 0⟩,
        ⟨[⟨none, [⟨0, "raspberry", Ty.scalar INT 0⟩]⟩, ⟨some 0, []⟩], 1, [], some 0, some 1,
          []⟩) := by
  constructor
  · obtain ⟨s1, h1, h2, _, _, _, _, _, _, h3, _, _⟩ :=
      (checkIdentifier_cases ⟨[⟨none, []⟩, ⟨some 0, []⟩], 0, [], some 0, some 1, []⟩
        ⟨some 0, []⟩ [⟨none, []⟩] "idk" rfl (Chain.cons rfl Chain.nil)).1 (by decide)
    exact ⟨s1, h1, h2, h3⟩
  · exact (checkIdentifier_cases
      ⟨[⟨none, [⟨0, "raspberry", Ty.scalar INT 0⟩]⟩, ⟨some 0, []⟩], 1, [], some 0, some 1, []⟩
      ⟨some 0, []⟩ [⟨none, [⟨0, "raspberry", Ty.scalar INT 0⟩]⟩] "raspberry" rfl
      (Chain.cons rfl Chain.nil)).2 [⟨some 0, []⟩] []
      ⟨none, [⟨0, "raspberry", Ty.scalar INT 0⟩]⟩ ⟨0, "raspberry", Ty.scalar INT 0⟩ rfl
      (by decide) (by decide)

/-! ## The invariant of the symbol table -/

namespace Checker

theorem inv_init : Inv init :=
  ⟨fun i j sc h _ => by simp [init] at h, fun i h => by simp [init] at h,
    fun i h => by simp [init] at h, fun sc h => by simp [init] at h⟩

/-- A state with the same heap and the same scope pointers keeps the invariant. -/
theorem Inv.same {s t : Checker} (h : Inv s) (hs : t.scopes = s.scopes)
    (ht : t.toplevel = s.toplevel) (ho : t.outermost = s.outermost) : Inv t :=
  ⟨by rw [hs]; exact h.ordered, by rw [hs, ht]; exact h.top_valid,
    by rw [hs, ho]; exact h.out_valid, by rw [hs]; exact h.unique⟩

/-- Appending a symbol whose name the scope does not have keeps the invariant. -/
theorem Inv.insert {s t : Checker} (h : Inv s) {i : Nat} {sc : Scope} (sym : Symbol)
    (hget : s.scopes[i]? = some sc) (hfind : sc.find sym.name = none)
    (hs : t.scopes = s.scopes.set i (sc.insert sym))
    (ht : t.toplevel = s.toplevel) (ho : t.outermost = s.outermost) : Inv t := by
  refine ⟨?_, ?_, ?_, ?_⟩
  · intro a b x hx henc
    rw [hs, List.getElem?_set] at hx
    by_cases hia : i = a
    · subst hia
      have hlt : i < s.scopes.length := (List.getElem?_eq_some.mp hget).1
      simp only [hlt, if_true] at hx
      cases hx
      exact h.ordered i b sc hget henc
    · simp only [hia, if_false] at hx
      exact h.ordered a b x hx henc
  · intro a ha
    rw [hs, List.length_set]
    exact h.top_valid a (ht ▸ ha)
  · intro a ha
    rw [hs, List.length_set]
    exact h.out_valid a (ho ▸ ha)
  · intro x hx
    rw [hs] at hx
    rcases List.mem_or_eq_of_mem_set hx with hmem | heq
    · exact h.unique x hmem
    · rw [heq]
      have hsc : (sc.symbols.map Symbol.name).Nodup :=
        h.unique sc (List.getElem?_mem hget)
      have hnot : sym.name ∉ sc.symbols.map Symbol.name := by
        intro hm
        obtain ⟨y, hy, hyn⟩ := List.mem_map.mp hm
        exact (Scope.findIn_eq_none_iff.mp hfind) y hy hyn
      simp only [Scope.insert, List.map_append, List.map_cons, List.map_nil]
      exact List.Nodup.append hsc (List.nodup_singleton _)
        (by simpa [List.disjoint_singleton] using hnot)

end Checker

namespace Checker

theorem Inv.openScope {s : Checker} (h : Inv s) : Inv (SimpleC.openScope s).2 := by
  obtain ⟨scopes, symbols, defined, outermost, toplevel, log⟩ := s
  have hord : ∀ (i j : Nat) (sc : Scope),
      (scopes ++ [Scope.mk toplevel []])[i]? = some sc → sc.enclosing = some j → j < i := by
    intro i j sc hget henc
    by_cases hi : i < scopes.length
    · rw [List.getElem?_append_left hi] at hget
      exact h.ordered i j sc hget henc
    · have hlen : i < (scopes ++ [Scope.mk toplevel []]).length :=
        (List.getElem?_eq_some.mp hget).1
      have hieq : i = scopes.length := by simp at hlen; omega
      subst hieq
      simp at hget
      rw [← hget] at henc
      exact h.top_valid j henc
  have huniq : ∀ sc ∈ scopes ++ [Scope.mk toplevel []],
      (sc.symbols.map Symbol.name).Nodup := by
    intro sc hsc
    rcases List.mem_append.mp hsc with hm | hm
    · exact h.unique sc hm
    · simp at hm
      rw [hm]
      exact List.nodup_nil
  cases outermost with
  | none =>
      exact ⟨hord, fun i hi => by simp [SimpleC.openScope] at hi ⊢; omega,
        fun i hi => by simp [SimpleC.openScope] at hi ⊢; omega, huniq⟩
  | some out =>
      refine ⟨hord, fun i hi => by simp [SimpleC.openScope] at hi ⊢; omega, ?_, huniq⟩
      intro i hi
      simp only [SimpleC.openScope] at hi
      have : i < scopes.length := h.out_valid i (by simpa using hi)
      simp [SimpleC.openScope]
      omega

theorem Inv.closeScope {s t : Checker} {r : Option Nat} (h : Inv s)
    (hc : SimpleC.closeScope s = some (r, t)) : Inv t := by
  obtain ⟨scopes, symbols, defined, outermost, toplevel, log⟩ := s
  cases toplevel with
  | none => simp [SimpleC.closeScope, scope] at hc
  | some top =>
      cases hget : scopes[top]? with
      | none => simp [SimpleC.closeScope, scope, hget] at hc
      | some sc =>
          simp only [SimpleC.closeScope, scope, hget, Option.some.injEq, Prod.mk.injEq] at hc
          rw [← hc.2]
          refine ⟨h.ordered, ?_, h.out_valid, h.unique⟩
          intro i hi
          have h1 : i < top := h.ordered top i sc hget hi
          have h2 : top < scopes.length := h.top_valid top rfl
          exact Nat.lt_trans h1 h2

theorem Inv.declareFunction {s t : Checker} {r : Option Symbol} {n : String} {ty : Ty}
    (h : Inv s) (hc : SimpleC.declareFunction n ty s = some (r, t)) : Inv t := by
  obtain ⟨scopes, symbols, defined, outermost, toplevel, log⟩ := s
  cases outermost with
  | none => simp [SimpleC.declareFunction, scope] at hc
  | some out =>
      cases hget : scopes[out]? with
      | none => simp [SimpleC.declareFunction, scope, hget] at hc
      | some sc =>
          cases hfind : sc.find n with
          | none =>
              simp only [SimpleC.declareFunction, scope, hget, hfind, setScope,
                Option.some.injEq, Prod.mk.injEq] at hc
              rw [← hc.2]
              exact Inv.insert h ⟨symbols, n, ty⟩ hget hfind rfl rfl rfl
          | some sym =>
              cases hne : Ty.ne ty sym.type <;>
                simp only [SimpleC.declareFunction, scope, hget, hfind, hne, if_true,
                  Bool.false_eq_true, if_false, Option.some.injEq, Prod.mk.injEq] at hc <;>
                (rw [← hc.2]; exact Inv.same h rfl rfl rfl)

theorem Inv.declareVariable {s t : Checker} {r : Option Symbol} {n : String} {ty : Ty}
    (h : Inv s) (hc : SimpleC.declareVariable n ty s = some (r, t)) : Inv t := by
  obtain ⟨scopes, symbols, defined, outermost, toplevel, log⟩ := s
  cases toplevel with
  | none => simp [SimpleC.declareVariable, scope] at hc
  | some top =>
      cases hget : scopes[top]? with
      | none => simp [SimpleC.declareVariable, scope, hget] at hc
      | some sc =>
          cases hfind : sc.find n with
          | none =>
              simp only [SimpleC.declareVariable, scope, hget, hfind, setScope,
                Option.some.injEq, Prod.mk.injEq] at hc
              rw [← hc.2]
              exact Inv.insert h ⟨symbols, n, ty⟩ hget hfind rfl rfl rfl
          | some sym =>
              cases hout : (outermost != some top) <;> cases hne : Ty.ne ty sym.type <;>
                simp only [SimpleC.declareVariable, scope, hget, hfind, hout, hne, if_true,
                  Bool.false_eq_true, if_false, Option.some.injEq, Prod.mk.injEq] at hc <;>
                (rw [← hc.2]; exact Inv.same h rfl rfl rfl)

theorem Inv.defineFunction {s t : Checker} {r : Option Symbol} {n : String} {ty : Ty}
    (h : Inv s) (hc : SimpleC.defineFunction n ty s = some (r, t)) : Inv t := by
  by_cases hd : s.defined.count n > 0
  · simp only [SimpleC.defineFunction, hd, if_true] at hc
    cases hget : scope { s with log := report redefined n s.log } s.outermost with
    | none => simp [hget] at hc
    | some sc =>
        simp only [hget, Option.some.injEq, Prod.mk.injEq] at hc
        rw [← hc.2]
        exact Inv.same h rfl rfl rfl
  · simp only [SimpleC.defineFunction, hd, if_false] at hc
    exact Inv.declareFunction (Inv.same (t := { s with defined := n :: s.defined }) h rfl rfl rfl) hc

theorem Inv.checkIdentifier {s t : Checker} {r : Option Symbol} {n : String}
    (h : Inv s) (hc : SimpleC.checkIdentifier n s = some (r, t)) : Inv t := by
  obtain ⟨scopes, symbols, defined, outermost, toplevel, log⟩ := s
  cases toplevel with
  | none => simp [SimpleC.checkIdentifier, scope] at hc
  | some top =>
      cases hget : scopes[top]? with
      | none => simp [SimpleC.checkIdentifier, scope, hget] at hc
      | some sc =>
          cases hl : sc.lookup scopes n with
          | none => simp [SimpleC.checkIdentifier, scope, hget, hl] at hc
          | some found =>
              cases found with
              | some sym =>
                  simp only [SimpleC.checkIdentifier, scope, hget, hl, Option.some.injEq,
                    Prod.mk.injEq] at hc
                  rw [← hc.2]
                  exact Inv.same h rfl rfl rfl
              | none =>
                  have hfind : sc.find n = none := by
                    cases hf : sc.find n with
                    | none => rfl
                    | some sym => simp [Scope.lookup, hf] at hl
                  simp only [SimpleC.checkIdentifier, scope, hget, hl, setScope,
                    Option.some.injEq, Prod.mk.injEq] at hc
                  rw [← hc.2]
                  exact Inv.insert h ⟨symbols, n, error⟩ hget hfind rfl rfl rfl

theorem Inv.step {s t : Checker} {c : Call} (h : Inv s) (hc : c.step s = some t) : Inv t := by
  cases c with
  | openScope =>
      simp only [Call.step, Option.some.injEq] at hc
      rw [← hc]; exact h.openScope
  | closeScope =>
      simp only [Call.step, Option.map_eq_some'] at hc
      obtain ⟨⟨r, u⟩, hu, rfl⟩ := hc
      exact h.closeScope hu
  | declareVariable n ty =>
      simp only [Call.step, Option.map_eq_some'] at hc
      obtain ⟨⟨r, u⟩, hu, rfl⟩ := hc
      exact h.declareVariable hu
  | declareFunction n ty =>
      simp only [Call.step, Option.map_eq_some'] at hc
      obtain ⟨⟨r, u⟩, hu, rfl⟩ := hc
      exact h.declareFunction hu
  | defineFunction n ty =>
      simp only [Call.step, Option.map_eq_some'] at hc
      obtain ⟨⟨r, u⟩, hu, rfl⟩ := hc
      exact h.defineFunction hu
  | checkIdentifier n =>
      simp only [Call.step, Option.map_eq_some'] at hc
      obtain ⟨⟨r, u⟩, hu, rfl⟩ := hc
      exact h.checkIdentifier hu

theorem Inv.runCalls : ∀ (calls : List Call) {s t : Checker}, Inv s →
    SimpleC.runCalls calls s = some t → Inv t
  | [], s, t, h, hr => by
      simp only [SimpleC.runCalls, Option.some.injEq] at hr
      rw [← hr]; exact h
  | c :: rest, s, t, h, hr => by
      cases hs : c.step s with
      | none => simp [SimpleC.runCalls, hs] at hr
      | some u =>
          simp only [SimpleC.runCalls, hs] at hr
          exact Inv.runCalls rest (h.step hs) hr

end Checker

namespace Checker

/-- In a heap whose enclosing pointers name earlier scopes every scope has a
chain of enclosing scopes. -/
theorem Inv.chain_exists {s : Checker} (h : Inv s) :
    ∀ i : Nat, i < s.scopes.length → ∃ c : List Scope, Chain s.scopes (some i) c := by
  intro i
  induction i using Nat.strong_induction_on with
  | _ i ih =>
      intro hi
      have hget : s.scopes[i]? = some (s.scopes[i]) := List.getElem?_eq_getElem hi
      cases henc : (s.scopes[i]).enclosing with
      | none =>
          exact ⟨[s.scopes[i]], Chain.cons hget (by rw [henc]; exact Chain.nil)⟩
      | some j =>
          have hj : j < i := h.ordered i j _ hget henc
          obtain ⟨c, hc⟩ := ih j hj (Nat.lt_trans hj hi)
          exact ⟨s.scopes[i] :: c, Chain.cons hget (by rw [henc]; exact hc)⟩

/-- In a state that satisfies the invariant `lookup` returns. -/
theorem Inv.lookup_isSome {s : Checker} (h : Inv s) {i : Nat} {sc : Scope}
    (hget : s.scopes[i]? = some sc) (n : String) : (sc.lookup s.scopes n).isSome = true := by
  have hchain : ∃ c : List Scope, Chain s.scopes sc.enclosing c := by
    cases henc : sc.enclosing with
    | none => exact ⟨[], Chain.nil⟩
    | some j =>
        have hj : j < i := h.ordered i j sc hget henc
        have hi : i < s.scopes.length := (List.getElem?_eq_some.mp hget).1
        exact h.chain_exists j (Nat.lt_trans hj hi)
  obtain ⟨c, hc⟩ := hchain
  rw [Scope.lookup_of_chain n hc]
  rfl

end Checker

/-- C13: in every state reached from the initial state by a sequence of
`openScope`, `closeScope`, `declareVariable`, `declareFunction`,
`defineFunction` and `checkIdentifier` calls, no scope holds two symbols of
the same name.  In such a state every one of these calls is defined as long
as the scope pointer it dereferences is not null (`toplevel` for `closeScope`,
`declareVariable` and `checkIdentifier`, `outermost` for `declareFunction` and
`defineFunction`), so a sequence is cut short only by a call made while no
scope is open. -/
theorem scope_names_unique (calls : List Call) (s : Checker)
    (hrun : runCalls calls Checker.init = some s) :
    (∀ sc ∈ s.scopes, (sc.symbols.map Symbol.name).Nodup) ∧
    (∀ c : Call, (c.step s).isSome = true ↔
      match c with
      | Call.openScope => True
      | Call.closeScope => s.toplevel ≠ none
      | Call.declareVariable _ _ => s.toplevel ≠ none
      | Call.checkIdentifier _ => s.toplevel ≠ none
      | Call.declareFunction _ _ => s.outermost ≠ none
      | Call.defineFunction _ _ => s.outermost ≠ none) := by
  have hinv : Checker.Inv s := Checker.Inv.runCalls calls Checker.inv_init hrun
  refine ⟨hinv.unique, ?_⟩
  obtain ⟨scopes, symbols, defined, outermost, toplevel, log⟩ := s
  intro c
  cases c with
  | openScope => simp [Call.step]
  | closeScope =>
      cases toplevel with
      | none => simp [Call.step, closeScope, Checker.scope]
      | some top =>
          have hi : top < scopes.length := hinv.top_valid top rfl
          simp [Call.step, closeScope, Checker.scope, List.getElem?_eq_getElem hi]
  | declareVariable n ty =>
      cases toplevel with
      | none => simp [Call.step, declareVariable, Checker.scope]
      | some top =>
          have hi : top < scopes.length := hinv.top_valid top rfl
          cases hfind : (scopes[top]).find n with
          | none =>
              simp [Call.step, declareVariable, Checker.scope, List.getElem?_eq_getElem hi, hfind]
          | some sym =>
              cases hout : (outermost != some top) <;> cases hne : Ty.ne ty sym.type <;>
                simp [Call.step, declareVariable, Checker.scope, List.getElem?_eq_getElem hi,
                  hfind, hout, hne]
  | declareFunction n ty =>
      cases outermost with
      | none => simp [Call.step, declareFunction, Checker.scope]
      | some out =>
          have hi : out < scopes.length := hinv.out_valid out rfl
          cases hfind : (scopes[out]).find n with
          | none =>
              simp [Call.step, declareFunction, Checker.scope, List.getElem?_eq_getElem hi, hfind]
          | some sym =>
              cases hne : Ty.ne ty sym.type <;>
                simp [Call.step, declareFunction, Checker.scope, List.getElem?_eq_getElem hi,
                  hfind, hne]
  | defineFunction n ty =>
      cases outermost with
      | none =>
          by_cases hd : List.count n defined > 0 <;>
            simp [Call.step, defineFunction, declareFunction, Checker.scope, hd]
      | some out =>
          have hi : out < scopes.length := hinv.out_valid out rfl
          by_cases hd : List.count n defined > 0
          · simp [Call.step, defineFunction, Checker.scope, List.getElem?_eq_getElem hi, hd]
          · cases hfind : (scopes[out]).find n with
            | none =>
                simp [Call.step, defineFunction, declareFunction, Checker.scope,
                  List.getElem?_eq_getElem hi, hfind, hd]
            | some sym =>
                cases hne : Ty.ne ty sym.type <;>
                  simp [Call.step, defineFunction, declareFunction, Checker.scope,
                    List.getElem?_eq_getElem hi, hfind, hne, hd]
  | checkIdentifier n =>
      cases toplevel with
      | none => simp [Call.step, checkIdentifier, Checker.scope]
      | some top =>
          have hi : top < scopes.length := hinv.top_valid top rfl
          have hget : scopes[top]? = some (scopes[top]) := List.getElem?_eq_getElem hi
          have hl := hinv.lookup_isSome hget n
          cases hlook : (scopes[top]).lookup scopes n with
          | none => rw [hlook] at hl; exact absurd hl (by decide)
          | some found =>
              cases found <;>
                simp [Call.step, checkIdentifier, Checker.scope, hget, hlook]

/-- Witness of C13: a sequence that declares, uses an undeclared name,
redeclares, closes every scope and opens a new one ends in a state whose three
scopes have pairwise different names each. -/
theorem scope_names_unique_witness :
    runCalls [Call.openScope, Call.declareVariable "a" (Ty.scalar INT 0),
        Call.declareFunction "f" (Ty.function INT 0 false []), Call.openScope,
        Call.checkIdentifier "x", Call.declareVariable "a" (Ty.scalar DOUBLE 0),
        Call.declareVariable "a" (Ty.scalar INT 0), Call.checkIdentifier "x",
        Call.defineFunction "f" (Ty.function INT 1 false []), Call.closeScope,
        Call.closeScope, Call.openScope, Call.declareVariable "a" (Ty.scalar INT 0)]
        Checker.init =
      some ⟨[⟨none, [⟨0, "a", Ty.scalar INT 0⟩, ⟨1, "f", Ty.function INT 0 false []⟩]⟩,
          ⟨some 0, [⟨2, "x", Ty.error⟩, ⟨3, "a", Ty.scalar DOUBLE 0⟩]⟩,
          ⟨none, [⟨4, "a", Ty.scalar INT 0⟩]⟩], 5, ["f"], some 0, some 2,
        [⟨undeclared, "x"⟩, ⟨redeclared, "a"⟩, ⟨conflicting, "f"⟩]⟩ ∧
    ∀ sc ∈ [(⟨none, [⟨0, "a", Ty.scalar INT 0⟩, ⟨1, "f", Ty.function INT 0 false []⟩]⟩ : Scope),
        ⟨some 0, [⟨2, "x", Ty.error⟩, ⟨3, "a", Ty.scalar DOUBLE 0⟩]⟩,
        ⟨none, [⟨4, "a", Ty.scalar INT 0⟩]⟩], (sc.symbols.map Symbol.name).Nodup :=
  ⟨by decide,
    (scope_names_unique
      [Call.openScope, Call.declareVariable "a" (Ty.scalar INT 0),
        Call.declareFunction "f" (Ty.function INT 0 false []), Call.openScope,
        Call.checkIdentifier "x", Call.declareVariable "a" (Ty.scalar DOUBLE 0),
        Call.declareVariable "a" (Ty.scalar INT 0), Call.checkIdentifier "x",
        Call.defineFunction "f" (Ty.function INT 1 false []), Call.closeScope,
        Call.closeScope, Call.openScope, Call.declareVariable "a" (Ty.scalar INT 0)]
      ⟨[⟨none, [⟨0, "a", Ty.scalar INT 0⟩, ⟨1, "f", Ty.function INT 0 false []⟩]⟩,
          ⟨some 0, [⟨2, "x", Ty.error⟩, ⟨3, "a", Ty.scalar DOUBLE 0⟩]⟩,
          ⟨none, [⟨4, "a", Ty.scalar INT 0⟩]⟩], 5, ["f"], some 0, some 2,
        [⟨undeclared, "x"⟩, ⟨redeclared, "a"⟩, ⟨conflicting, "f"⟩]⟩
      (by decide)).1⟩

/-! ## Return statements and the error type as the mark of a diagnostic -/

namespace Ty

theorem isCompatibleWith_error_left (t : Ty) : isCompatibleWith error t = false := by
  simp [isCompatibleWith, isNumeric, isPredicate, declarator]

theorem eq_promote_of_isNumeric {t : Ty} (h : t.isNumeric = true) : eq t t.promote = true := by
  cases t with
  | error => simp [isNumeric, declarator] at h
  | scalar s i =>
      have hs : ¬ (s = CHAR ∧ i = 0) := by
        intro hc
        rw [hc.1] at h
        simp [isNumeric, declarator, specifier, indirection, CHAR, INT, DOUBLE] at h
      rw [promote_scalar, if_neg hs]
      exact (eq_iff _ _).mpr rfl
  | array s k n => simp [isNumeric, declarator] at h
  | function s i v ps => simp [isNumeric, declarator] at h

theorem ne_error_of_isError {t : Ty} (h : t.isError = false) : t ≠ error := by
  intro he
  rw [he] at h
  exact absurd h (by decide)

end Ty

/-- C21: `checkReturn` has no test for the error type.  For a returned
expression of the error type it reports `invalid return type`, whatever the
return type of the function is, so `return huh;` with `huh` undeclared gives a
second diagnostic after `'huh' undeclared`.  For every returned type the
diagnostic is reported exactly when the promoted returned type is not
compatible with the promoted return type. -/
theorem checkReturn_reports_error_operand :
    (∀ (F : Ty) (log : Log), checkReturn Ty.error F log = log ++ [⟨return_type, ""⟩]) ∧
    checkReturn Ty.error (Ty.scalar INT 0) [⟨undeclared, "huh"⟩] =
      [⟨undeclared, "huh"⟩, ⟨return_type, ""⟩] ∧
    (∀ (E F : Ty) (log : Log),
      checkReturn E F log =
        if E.promote.isCompatibleWith F.promote = true then log
        else log ++ [⟨return_type, ""⟩]) := by
  refine ⟨fun F log => ?_, by decide, fun E F log => ?_⟩
  · simp [checkReturn, Ty.promote_error, Ty.isCompatibleWith_error_left, report]
  · cases h : E.promote.isCompatibleWith F.promote <;> simp [checkReturn, h, report]

theorem Diagnosed.ok {t : Ty} (log : Log) (h : t ≠ Ty.error) : Diagnosed log (t, log) :=
  Or.inr ⟨h, rfl⟩

theorem Diagnosed.err (format arg : String) (log : Log) :
    Diagnosed log (error, report format arg log) :=
  Or.inl ⟨rfl, ⟨format, arg⟩, rfl⟩

theorem scalar_ne_error (s : Int) (i : Nat) : Ty.scalar s i ≠ Ty.error := by
  intro h
  cases h

theorem checkLogical_diagnosed {L R : Ty} (op : String) (log : Log)
    (hL : L.isError = false) (hR : R.isError = false) :
    Diagnosed log (checkLogical L R op log) := by
  unfold checkLogical
  simp only [hL, hR, Bool.or_self, Bool.false_eq_true, if_false]
  split_ifs
  · exact Diagnosed.ok log (scalar_ne_error _ _)
  · exact Diagnosed.err _ _ log

theorem checkEquality_diagnosed {L R : Ty} (op : String) (log : Log)
    (hL : L.isError = false) (hR : R.isError = false) :
    Diagnosed log (checkEquality L R op log) := by
  unfold checkEquality
  simp only [hL, hR, Bool.or_self, Bool.false_eq_true, if_false]
  split_ifs
  · exact Diagnosed.ok log (scalar_ne_error _ _)
  · exact Diagnosed.err _ _ log

theorem checkRelational_diagnosed {L R : Ty} (op : String) (log : Log)
    (hL : L.isError = false) (hR : R.isError = false) :
    Diagnosed log (checkRelational L R op log) := by
  unfold checkRelational
  simp only [hL, hR, Bool.or_self, Bool.false_eq_true, if_false]
  split_ifs
  · exact Diagnosed.ok log (scalar_ne_error _ _)
  · exact Diagnosed.err _ _ log

theorem checkAdd_diagnosed {L R : Ty} (log : Log)
    (hL : L.isError = false) (hR : R.isError = false) :
    Diagnosed log (checkAdd L R log) := by
  unfold checkAdd
  simp only [hL, hR, Bool.or_self, Bool.false_eq_true, if_false]
  split_ifs
  · exact Diagnosed.ok log (scalar_ne_error _ _)
  · exact Diagnosed.ok log (scalar_ne_error _ _)
  · exact Diagnosed.ok log (scalar_ne_error _ _)
  · exact Diagnosed.ok log (scalar_ne_error _ _)
  · exact Diagnosed.err _ _ log

theorem checkMinus_diagnosed {L R : Ty} (log : Log)
    (hL : L.isError = false) (hR : R.isError = false) :
    Diagnosed log (checkMinus L R log) := by
  unfold checkMinus
  simp only [hL, hR, Bool.or_self, Bool.false_eq_true, if_false]
  split_ifs
  · exact Diagnosed.ok log (scalar_ne_error _ _)
  · exact Diagnosed.ok log (scalar_ne_error _ _)
  · exact Diagnosed.ok log (scalar_ne_error _ _)
  · exact Diagnosed.ok log (scalar_ne_error _ _)
  · exact Diagnosed.err _ _ log

theorem checkMultiply_diagnosed {L R : Ty} (log : Log)
    (hL : L.isError = false) (hR : R.isError = false) :
    Diagnosed log (checkMultiply L R log) := by
  unfold checkMultiply
  simp only [hL, hR, Bool.or_self, Bool.false_eq_true, if_false]
  split_ifs
  · exact Diagnosed.ok log (scalar_ne_error _ _)
  · exact Diagnosed.ok log (scalar_ne_error _ _)
  · exact Diagnosed.err _ _ log

theorem checkDivide_diagnosed {L R : Ty} (log : Log)
    (hL : L.isError = false) (hR : R.isError = false) :
    Diagnosed log (checkDivide L R log) := by
  unfold checkDivide
  simp only [hL, hR, Bool.or_self, Bool.false_eq_true, if_false]
  split_ifs
  · exact Diagnosed.ok log (scalar_ne_error _ _)
  · exact Diagnosed.ok log (scalar_ne_error _ _)
  · exact Diagnosed.err _ _ log

theorem checkRemainder_diagnosed {L R : Ty} (log : Log)
    (hL : L.isError = false) (hR : R.isError = false) :
    Diagnosed log (checkRemainder L R log) := by
  unfold checkRemainder
  simp only [hL, hR, Bool.or_self, Bool.false_eq_true, if_false]
  split_ifs
  · exact Diagnosed.ok log (scalar_ne_error _ _)
  · exact Diagnosed.err _ _ log

theorem checkNot_diagnosed {R : Ty} (log : Log) (hR : R.isError = false) :
    Diagnosed log (checkNot R log) := by
  unfold checkNot
  simp only [hR, Bool.false_eq_true, if_false]
  split_ifs
  · exact Diagnosed.ok log (scalar_ne_error _ _)
  · exact Diagnosed.err _ _ log

theorem checkNegation_diagnosed {R : Ty} (log : Log) (hR : R.isError = false) :
    Diagnosed log (checkNegation R log) := by
  unfold checkNegation
  simp only [hR, Bool.false_eq_true, if_false]
  split_ifs with hn he
  · exact Diagnosed.ok log (scalar_ne_error _ _)
  · exact absurd (Ty.eq_promote_of_isNumeric hn) he
  · exact Diagnosed.err _ _ log

theorem checkDereference_diagnosed {R : Ty} (log : Log) (hR : R.isError = false) :
    Diagnosed log (checkDereference R log) := by
  unfold checkDereference
  simp only [hR, Bool.false_eq_true, if_false]
  split_ifs
  · exact Diagnosed.ok log (scalar_ne_error _ _)
  · exact Diagnosed.err _ _ log

theorem checkAddress_diagnosed {R : Ty} (lvalue : Bool) (log : Log) (hR : R.isError = false) :
    Diagnosed log (checkAddress R lvalue log) := by
  unfold checkAddress
  simp only [hR, Bool.false_eq_true, if_false]
  split_ifs
  · exact Diagnosed.ok log (scalar_ne_error _ _)
  · exact Diagnosed.err _ _ log

theorem checkSizeOf_diagnosed {R : Ty} (log : Log) (hR : R.isError = false) :
    Diagnosed log (checkSizeOf R log) := by
  unfold checkSizeOf
  simp only [hR, Bool.false_eq_true, if_false]
  split_ifs
  · exact Diagnosed.ok log (scalar_ne_error _ _)
  · exact Diagnosed.err _ _ log

theorem checkCast_diagnosed {L R : Ty} (log : Log)
    (hL : L.isError = false) (hR : R.isError = false) :
    Diagnosed log (checkCast L R log) := by
  unfold checkCast
  simp only [hL, hR, Bool.or_self, Bool.false_eq_true, if_false]
  split_ifs
  · exact Diagnosed.ok log (Ty.ne_error_of_isError hL)
  · exact Diagnosed.ok log (Ty.ne_error_of_isError hL)
  · exact Diagnosed.ok log (Ty.ne_error_of_isError hL)
  · exact Diagnosed.err _ _ log

theorem checkIndex_diagnosed {L R : Ty} (log : Log)
    (hL : L.isError = false) (hR : R.isError = false) :
    Diagnosed log (checkIndex L R log) := by
  unfold checkIndex
  simp only [hL, hR, Bool.or_self, Bool.false_eq_true, if_false]
  split_ifs
  · exact Diagnosed.ok log (scalar_ne_error _ _)
  · exact Diagnosed.err _ _ log

theorem checkIncrement_diagnosed {L : Ty} (lvalue : Bool) (log : Log) (hL : L.isError = false) :
    Diagnosed log (checkIncrement L lvalue log) := by
  unfold checkIncrement
  simp only [hL, Bool.false_eq_true, if_false]
  split_ifs
  · exact Diagnosed.ok log (scalar_ne_error _ _)
  · exact Diagnosed.err _ _ log

theorem checkDecrement_diagnosed {L : Ty} (lvalue : Bool) (log : Log) (hL : L.isError = false) :
    Diagnosed log (checkDecrement L lvalue log) := by
  unfold checkDecrement
  simp only [hL, Bool.false_eq_true, if_false]
  split_ifs
  · exact Diagnosed.ok log (scalar_ne_error _ _)
  · exact Diagnosed.err _ _ log

theorem checkCall_diagnosed {L : Ty} (types : List Ty) (log : Log) (hL : L.isError = false) :
    Diagnosed log (checkCall L types log) := by
  unfold checkCall
  simp only [hL, Bool.false_eq_true, if_false]
  split_ifs
  · exact Diagnosed.ok log (scalar_ne_error _ _)
  · exact Diagnosed.err _ _ log
  · exact Diagnosed.err _ _ log
  · exact Diagnosed.ok log (scalar_ne_error _ _)
  · exact Diagnosed.err _ _ log
  · exact Diagnosed.err _ _ log
  · exact Diagnosed.err _ _ log

theorem checkAssignment_diagnosed {L R : Ty} (lvalue : Bool) (log : Log)
    (hL : L.isError = false) (hR : R.isError = false) :
    Diagnosed log (checkAssignment L R lvalue log) := by
  unfold checkAssignment
  simp only [hL, hR, Bool.or_self, Bool.false_eq_true, if_false]
  split_ifs
  · exact Diagnosed.err _ _ log
  · exact Diagnosed.ok log (Ty.ne_error_of_isError hL)
  · exact Diagnosed.err _ _ log

/-- C22: each of the nineteen expression checks, applied to operands none of
which is the error type (the arguments of a call may be anything), either
returns the error type and appends exactly one diagnostic to the sink, or
returns a type other than the error type and leaves the sink as it was. -/
theorem error_type_iff_one_diagnostic (L R : Ty) (types : List Ty) (op : String)
    (lvalue : Bool) (log : Log) (hL : L.isError = false) (hR : R.isError = false) :
    Diagnosed log (checkLogical L R op log) ∧
    Diagnosed log (checkEquality L R op log) ∧
    Diagnosed log (checkRelational L R op log) ∧
    Diagnosed log (checkAdd L R log) ∧
    Diagnosed log (checkMinus L R log) ∧
    Diagnosed log (checkMultiply L R log) ∧
    Diagnosed log (checkDivide L R log) ∧
    Diagnosed log (checkRemainder L R log) ∧
    Diagnosed log (checkNot R log) ∧
    Diagnosed log (checkNegation R log) ∧
    Diagnosed log (checkDereference R log) ∧
    Diagnosed log (checkAddress R lvalue log) ∧
    Diagnosed log (checkSizeOf R log) ∧
    Diagnosed log (checkCast L R log) ∧
    Diagnosed log (checkIndex L R log) ∧
    Diagnosed log (checkIncrement L lvalue log) ∧
    Diagnosed log (checkDecrement L lvalue log) ∧
    Diagnosed log (checkCall L types log) ∧
    Diagnosed log (checkAssignment L R lvalue log) :=
  ⟨checkLogical_diagnosed op log hL hR, checkEquality_diagnosed op log hL hR,
   checkRelational_diagnosed op log hL hR, checkAdd_diagnosed log hL hR,
   checkMinus_diagnosed log hL hR, checkMultiply_diagnosed log hL hR,
   checkDivide_diagnosed log hL hR, checkRemainder_diagnosed log hL hR,
   checkNot_diagnosed log hR, checkNegation_diagnosed log hR,
   checkDereference_diagnosed log hR, checkAddress_diagnosed lvalue log hR,
   checkSizeOf_diagnosed log hR, checkCast_diagnosed log hL hR,
   checkIndex_diagnosed log hL hR, checkIncrement_diagnosed lvalue log hL,
   checkDecrement_diagnosed lvalue log hL, checkCall_diagnosed types log hL,
   checkAssignment_diagnosed lvalue log hL hR⟩

theorem error_type_iff_one_diagnostic_witness :
    (Ty.scalar INT 1).isError = false ∧ (Ty.scalar DOUBLE 0).isError = false ∧
    Diagnosed [] (checkAdd (Ty.scalar INT 1) (Ty.scalar DOUBLE 0) []) ∧
    (checkAdd (Ty.scalar INT 1) (Ty.scalar DOUBLE 0) []).1 = Ty.error ∧
    Diagnosed [] (checkIndex (Ty.scalar INT 1) (Ty.scalar DOUBLE 0) []) :=
  ⟨by decide, by decide,
   (error_type_iff_one_diagnostic (Ty.scalar INT 1) (Ty.scalar DOUBLE 0) [] "+" false []
      (by decide) (by decide)).2.2.2.1,
   by decide,
   (checkIndex_diagnosed [] (by decide) (by decide))⟩

/-! ## The stack frames of the code generators -/

/-- C28: in phase 5 the argument area `caller_size` is added to the frame size
after the loop that pads it to `8` modulo `16`.  For a function without
parameters and locals whose body is one call with one `int` argument the number
printed is `12`, and `12 + 8` is not a multiple of `16`; without the call it is
`8`. -/
theorem phase5_frame_not_aligned :
    Phase5.Function.generate 0 [] [Phase5.Stmt.call [Ty.scalar INT 0]] = some ([], 12) ∧
    ¬ ((16 : Int) ∣ 12 + 8) ∧
    Phase5.Function.generate 0 [] [] = some ([], 8) := by
  refine ⟨by decide, by decide, by decide⟩

theorem int32_of_range {x : Int} (h1 : -(2147483648 : Int) ≤ x) (h2 : x < 2147483648) :
    int32 x = some x := by
  unfold int32
  rw [if_pos]
  constructor
  · norm_num
    exact h1
  · norm_num
    exact h2

theorem rem_of_pos {a b : Int} (hb : 0 < b) : rem a b = some (a.tmod b) := by
  unfold rem
  rw [if_neg (by omega), if_neg (by omega)]

theorem toInt_of_range {x : Int} (h1 : -(2147483648 : Int) ≤ x) (h2 : x < 2147483648) :
    toInt x = x := by
  unfold toInt
  norm_num
  omega

theorem Phase6.align_spec {S n : Int} (hS : 0 < S) (hS2 : S < 2147483648)
    (hn : -(2147483648 : Int) < n) (hn2 : n < 2147483648) :
    ∃ a : Int, Phase6.align S n = some a ∧ 0 ≤ a ∧ a < S ∧ S ∣ (n.natAbs : Int) + a := by
  have hk0 : (0 : Int) ≤ (n.natAbs : Int) := Int.ofNat_nonneg _
  have hk2 : (n.natAbs : Int) < 2147483648 := by omega
  by_cases hr : n.tmod S = 0
  · refine ⟨0, ?_, le_refl _, hS, ?_⟩
    · simp [Phase6.align, rem_of_pos hS, hr]
    · rw [add_zero]
      exact Int.dvd_natAbs.mpr (Int.dvd_of_tmod_eq_zero hr)
  · have hm : (n.natAbs : Int).tmod S = (n.natAbs : Int) % S := Int.tmod_eq_emod hk0 (le_of_lt hS)
    have hm0 : (n.natAbs : Int) % S ≠ 0 := by
      intro h0
      exact hr (Int.tmod_eq_zero_of_dvd (Int.dvd_natAbs.mp (Int.dvd_of_emod_eq_zero h0)))
    have hm1 : 0 ≤ (n.natAbs : Int) % S := Int.emod_nonneg _ (ne_of_gt hS)
    have hm2 : (n.natAbs : Int) % S < S := Int.emod_lt_of_pos _ hS
    refine ⟨S - (n.natAbs : Int) % S, ?_, by omega, by omega, ?_⟩
    · have ha : abs n = some (n.natAbs : Int) := int32_of_range (by omega) hk2
      have hi : int32 (S - (n.natAbs : Int) % S) = some (S - (n.natAbs : Int) % S) :=
        int32_of_range (by omega) (by omega)
      simp only [Phase6.align, rem_of_pos hS, hr, ha, hm, hi, Option.bind_eq_bind,
        Option.some_bind, if_false]
    · have h : (n.natAbs : Int) + (S - (n.natAbs : Int) % S) =
          S * ((n.natAbs : Int) / S + 1) := by
        have := Int.emod_add_ediv (n.natAbs : Int) S
        linarith
      rw [h]
      exact Dvd.intro _ rfl

/-- C27: for a positive `STACK_ALIGNMENT` that is an `int` and an `int` `n`
other than `INT_MIN`, `align(n)` returns a value `a` with `0 ≤ a <
STACK_ALIGNMENT` and `|n| + a` a multiple of `STACK_ALIGNMENT`.  When the
running offset after the body is `off ≤ 0`, `SIZEOF_REG` is not negative and
the padded frame with the two saved registers fits in an `int`, the frame size
`F` printed by `Function::generate` is computed without overflow and satisfies
`F ≥ -off + max_args`, `F - (-off + max_args) < STACK_ALIGNMENT`, and `F + 2 *
SIZEOF_REG` is a multiple of `STACK_ALIGNMENT`. -/
theorem frame_size_aligned (S R n off : Int) (max_args : Nat)
    (hS : 0 < S) (hS2 : S < 2 ^ 31) (hn : -(2 ^ 31) < n) (hn2 : n < 2 ^ 31)
    (hR : 0 ≤ R) (hoff : off ≤ 0)
    (hfit : -(2 ^ 31) < off - (max_args : Int) - 2 * R - S) :
    (∃ a : Int, Phase6.align S n = some a ∧ 0 ≤ a ∧ a < S ∧ S ∣ |n| + a) ∧
    (∃ F : Int, Phase6.Function.generate S R off max_args = some F ∧
      F ≥ -off + (max_args : Int) ∧ F - (-off + (max_args : Int)) < S ∧ S ∣ F + 2 * R) := by
  norm_num at hS2 hn hn2 hfit
  have hmax : (0 : Int) ≤ (max_args : Int) := Int.ofNat_nonneg _
  constructor
  · obtain ⟨a, h1, h2, h3, h4⟩ := Phase6.align_spec hS hS2 hn hn2
    refine ⟨a, h1, h2, h3, ?_⟩
    rw [Int.abs_eq_natAbs]
    exact h4
  · obtain ⟨a, h1, h2, h3, h4⟩ :=
      Phase6.align_spec (n := off - (max_args : Int) - R * 2) hS hS2 (by omega) (by omega)
    have hnat : ((off - (max_args : Int) - R * 2).natAbs : Int) = -(off - (max_args : Int) - R * 2) := by
      omega
    rw [hnat] at h4
    refine ⟨a - (off - (max_args : Int)), ?_, by omega, by omega, ?_⟩
    · have e1 : toInt (off - (max_args : Int)) = off - (max_args : Int) :=
        toInt_of_range (by omega) (by omega)
      have e2 : int32 (R * 2) = some (R * 2) := int32_of_range (by omega) (by omega)
      have e3 : int32 (off - (max_args : Int) - R * 2) = some (off - (max_args : Int) - R * 2) :=
        int32_of_range (by omega) (by omega)
      have e4 : int32 (off - (max_args : Int) - a) = some (off - (max_args : Int) - a) :=
        int32_of_range (by omega) (by omega)
      have e5 : int32 (-(off - (max_args : Int) - a)) = some (-(off - (max_args : Int) - a)) :=
        int32_of_range (by omega) (by omega)
      simp only [Phase6.Function.generate, e1, e2, e3, h1, e4, e5, Option.bind_eq_bind,
        Option.some_bind, Option.some.injEq]
      ring
    · have e : a - (off - (max_args : Int)) + 2 * R = -(off - (max_args : Int) - R * 2) + a := by
        ring
      rw [e]
      exact h4

theorem frame_size_aligned_witness :
    (∃ a : Int, Phase6.align 16 (-13) = some a ∧ 0 ≤ a ∧ a < 16 ∧ (16 : Int) ∣ |(-13 : Int)| + a) ∧
    (∃ F : Int, Phase6.Function.generate 16 4 (-20) 8 = some F ∧
      F ≥ -(-20) + ((8 : Nat) : Int) ∧ F - (-(-20) + ((8 : Nat) : Int)) < 16 ∧
      (16 : Int) ∣ F + 2 * 4) :=
  frame_size_aligned 16 4 (-13) (-20) 8 (by decide) (by decide) (by decide) (by decide)
    (by decide) (by decide) (by decide)

/-! ## Control flow in the code generator of phase 6 -/

/-- C25: `LogicalOr::generate` and `LogicalAnd::generate` generate both
operands before they write the test of the left operand.  For operands of type
`int` the output is all the code of the left operand, then all the code of the
right operand, and only then the lines that test the left operand and jump: no
line of the right operand is between the conditional jump and its target, so
the code of the right operand runs whatever the left operand is.  The two
labels are the next two numbers of the counter. -/
theorem logical_right_operand_before_jump (left right : Phase6.Expr) (operand : String)
    (n : Nat) :
    (Phase6.Expr.logicalOr left right operand false).generate n =
      ((left.generate n).1 ++ (right.generate (left.generate n).2).1 ++
        [Phase6.Line.text "#LogicalOrring",
         Phase6.Line.text ("\tmovl\t" ++ left.operand ++ ", %eax"),
         Phase6.Line.text "\tcmpl\t$0, %eax",
         Phase6.Line.jne (right.generate (left.generate n).2).2,
         Phase6.Line.text ("\tmovl\t" ++ right.operand ++ ", %eax"),
         Phase6.Line.text "\tcmpl\t$0, %eax",
         Phase6.Line.jne (right.generate (left.generate n).2).2,
         Phase6.Line.text "\tmovl\t$0, %eax",
         Phase6.Line.jmp ((right.generate (left.generate n).2).2 + 1),
         Phase6.Line.label (right.generate (left.generate n).2).2,
         Phase6.Line.text "\tmovl\t$1, %eax",
         Phase6.Line.label ((right.generate (left.generate n).2).2 + 1),
         Phase6.Line.text ("\tmovl\t%eax, " ++ operand)],
       (right.generate (left.generate n).2).2 + 2) ∧
    (Phase6.Expr.logicalAnd left right operand false).generate n =
      ((left.generate n).1 ++ (right.generate (left.generate n).2).1 ++
        [Phase6.Line.text "#LogicalAnding",
         Phase6.Line.text ("\tmovl\t" ++ left.operand ++ ", %eax"),
         Phase6.Line.text "\tcmpl\t$0, %eax",
         Phase6.Line.je (right.generate (left.generate n).2).2,
         Phase6.Line.text ("\tmovl\t" ++ right.operand ++ ", %eax"),
         Phase6.Line.text "\tcmpl\t$0, %eax",
         Phase6.Line.je (right.generate (left.generate n).2).2,
         Phase6.Line.text "\tmovl\t$1, %eax",
         Phase6.Line.jmp ((right.generate (left.generate n).2).2 + 1),
         Phase6.Line.label (right.generate (left.generate n).2).2,
         Phase6.Line.text "\tmovl\t$0, %eax",
         Phase6.Line.label ((right.generate (left.generate n).2).2 + 1),
         Phase6.Line.text ("\tmovl\t%eax, " ++ operand)],
       (right.generate (left.generate n).2).2 + 2) ∧
    (Phase6.Expr.logicalOr (Phase6.Expr.other [] 0 "a" false)
        (Phase6.Expr.other [Phase6.Line.text "\tcall\tf", Phase6.Line.text "\tmovl\t%eax, -4(%ebp)"]
          0 "-4(%ebp)" false) "-8(%ebp)" false).generate 0 =
      ([Phase6.Line.text "\tcall\tf", Phase6.Line.text "\tmovl\t%eax, -4(%ebp)",
        Phase6.Line.text "#LogicalOrring",
        Phase6.Line.text "\tmovl\ta, %eax",
        Phase6.Line.text "\tcmpl\t$0, %eax",
        Phase6.Line.jne 0,
        Phase6.Line.text "\tmovl\t-4(%ebp), %eax",
        Phase6.Line.text "\tcmpl\t$0, %eax",
        Phase6.Line.jne 0,
        Phase6.Line.text "\tmovl\t$0, %eax",
        Phase6.Line.jmp 1,
        Phase6.Line.label 0,
        Phase6.Line.text "\tmovl\t$1, %eax",
        Phase6.Line.label 1,
        Phase6.Line.text "\tmovl\t%eax, -8(%ebp)"], 2) := by
  refine ⟨?_, ?_, by decide⟩
  · simp [Phase6.Expr.generate]
  · simp [Phase6.Expr.generate]

/-- C26: `breaks` gets the exit label of a loop when the loop is entered and
loses its back only in `Break::generate`.  In `while (a) { break; break; }` the
second `Break::generate` finds `breaks` empty, and in `while (a) { while (b) { }
break; }` the `break` of the outer loop jumps to the exit label of the inner
loop, which is left on `breaks`. -/
theorem break_targets_stale_label (a b : Phase6.Expr) (n : Nat) :
    Phase6.Stmt.generate
        (Phase6.Stmt.While a (Phase6.Stmt.Block [Phase6.Stmt.Break, Phase6.Stmt.Break]))
        ⟨n, []⟩ = none ∧
    Phase6.Stmt.generate
        (Phase6.Stmt.While a (Phase6.Stmt.Block
          [Phase6.Stmt.While b (Phase6.Stmt.Block []), Phase6.Stmt.Break]))
        ⟨n, []⟩ =
      some ([Phase6.Line.label n] ++ (a.test (n + 1) false (n + 2)).1 ++
          ([Phase6.Line.label (a.test (n + 1) false (n + 2)).2] ++
            (b.test ((a.test (n + 1) false (n + 2)).2 + 1) false
              ((a.test (n + 1) false (n + 2)).2 + 2)).1 ++
            [Phase6.Line.jmp (a.test (n + 1) false (n + 2)).2,
             Phase6.Line.label ((a.test (n + 1) false (n + 2)).2 + 1)] ++
            [Phase6.Line.jmp ((a.test (n + 1) false (n + 2)).2 + 1)]) ++
          [Phase6.Line.jmp n, Phase6.Line.label (n + 1)],
        ⟨(b.test ((a.test (n + 1) false (n + 2)).2 + 1) false
            ((a.test (n + 1) false (n + 2)).2 + 2)).2, [n + 1]⟩) := by
  constructor
  · simp [Phase6.Stmt.generate, Phase6.Block.generate]
  · simp [Phase6.Stmt.generate, Phase6.Block.generate]

/-! ## The loop depth of the parser of phase 4 -/

namespace Phase4

theorem bind_congr_lift {α β : Type} {X : PM Parser α} {Y : PM Front α}
    {g : α → PM Parser β} {g' : α → PM Front β} {k : Int}
    (H1 : ∀ f : Front, X ⟨f, k⟩ = lift Y ⟨f, k⟩)
    (H2 : ∀ (a : α) (f : Front), g a ⟨f, k⟩ = lift (g' a) ⟨f, k⟩) (f : Front) :
    (X >>= g) ⟨f, k⟩ = lift (Y >>= g') ⟨f, k⟩ := by
  show (X ⟨f, k⟩).bind g = ((Y f).bind g').mapState (fun f' => ⟨f', k⟩)
  rw [H1 f]
  show ((Y f).mapState (fun f' => ⟨f', k⟩)).bind g = _
  cases h : Y f with
  | ok a s => exact H2 a s
  | exit status log => rfl
  | undefined => rfl
  | timeout => rfl

theorem checkBreak_natCast (k : Nat) : checkBreak (k : Int) = Lexical.breakAt k := by
  funext log
  unfold checkBreak Lexical.breakAt
  by_cases h : k = 0
  · subst h
    simp
  · have h2 : ¬ ((k : Int) ≤ 0) := by omega
    rw [if_neg h2, if_neg h]

theorem loop_body {X : PM Parser Unit} {Y : PM Front Unit} {k : Nat}
    (H : ∀ f : Front, X ⟨f, ((k + 1 : Nat) : Int)⟩ = lift Y ⟨f, ((k + 1 : Nat) : Int)⟩)
    (f : Front) :
    (getLoopDepth >>= fun d => setLoopDepth (d + 1) >>= fun _ => X >>= fun _ =>
      getLoopDepth >>= fun d => setLoopDepth (d - 1)) ⟨f, (k : Int)⟩ = lift Y ⟨f, (k : Int)⟩ := by
  show (X ⟨f, (k : Int) + 1⟩).bind _ = _
  have h := H f
  rw [Nat.cast_succ] at h
  rw [h]
  unfold lift
  cases Y f with
  | ok a s =>
      show Res.ok () (⟨s, (k : Int) + 1 - 1⟩ : Parser) = Res.ok a (⟨s, (k : Int)⟩ : Parser)
      rw [add_sub_cancel_right]
  | exit status log => rfl
  | undefined => rfl
  | timeout => rfl

end Phase4
namespace Phase4

theorem lift_pure_apply {α : Type} (a : α) (f : Front) (k : Int) :
    (pure a : PM Parser α) ⟨f, k⟩ = lift (pure a) ⟨f, k⟩ := rfl

theorem getLoopDepth_bind {β : Type} (g : Int → PM Parser β) (f : Front) (k : Int) :
    (getLoopDepth >>= g) ⟨f, k⟩ = g k ⟨f, k⟩ := rfl

theorem statement_refines (fuel : Nat) :
    (∀ (k : Nat) (f : Front),
      statement fuel ⟨f, (k : Int)⟩ = lift (Lexical.statementAt k fuel) ⟨f, (k : Int)⟩) ∧
    (∀ (k : Nat) (f : Front),
      statements fuel ⟨f, (k : Int)⟩ = lift (Lexical.statementsAt k fuel) ⟨f, (k : Int)⟩) := by
  induction fuel with
  | zero =>
      constructor
      · intro k f
        rw [statement, Lexical.statementAt]
        rfl
      · intro k f
        rw [statements, Lexical.statementsAt]
        rfl
  | succ n ih =>
      obtain ⟨ih1, ih2⟩ := ih
      constructor
      · intro k f
        rw [statement, Lexical.statementAt]
        repeat' first
          | with_reducible rfl
          | exact ih1 _ _
          | exact ih2 _ _
          | exact lift_pure_apply _ _ _
          | exact loop_body (ih1 _) _
          | refine bind_congr_lift (fun _ => rfl) (fun _ f => ?_) f
          | refine bind_congr_lift (ih1 _) (fun _ f => ?_) f
          | refine bind_congr_lift (ih2 _) (fun _ f => ?_) f
          | rw [getLoopDepth_bind, checkBreak_natCast]
          | split_ifs
      · intro k f
        rw [statements, Lexical.statementsAt]
        refine bind_congr_lift (fun _ => rfl) (fun s f => ?_) f
        split_ifs
        · refine bind_congr_lift (ih1 _) (fun _ f => ?_) f
          exact ih2 _ _
        · exact lift_pure_apply _ _ _

end Phase4
namespace Phase4

theorem topLevelDeclaration_refines (fuel : Nat) (f : Front) :
    topLevelDeclaration fuel ⟨f, 0⟩ = lift (Lexical.topLevelDeclaration fuel) ⟨f, 0⟩ := by
  have ih2 : ∀ f : Front, statements fuel ⟨f, 0⟩ = lift (Lexical.statementsAt 0 fuel) ⟨f, 0⟩ :=
    fun f => (statement_refines fuel).2 0 f
  unfold topLevelDeclaration Lexical.topLevelDeclaration
  repeat' first
    | with_reducible rfl
    | refine bind_congr_lift (fun _ => rfl) (fun _ f => ?_) f
    | refine bind_congr_lift ih2 (fun _ f => ?_) f
    | split_ifs

theorem mainLoop_refines (fuel : Nat) :
    ∀ f : Front, mainLoop fuel ⟨f, 0⟩ = lift (Lexical.mainLoop fuel) ⟨f, 0⟩ := by
  induction fuel with
  | zero =>
      intro f
      rfl
  | succ n ih =>
      intro f
      rw [mainLoop, Lexical.mainLoop]
      refine bind_congr_lift (fun _ => rfl) (fun s f => ?_) f
      split_ifs
      · refine bind_congr_lift (topLevelDeclaration_refines n) (fun _ f => ?_) f
        exact ih f
      · exact lift_pure_apply _ _ _

theorem main_refines (fuel : Nat) (input : List Token) :
    main fuel input = (Lexical.main fuel input).mapState (fun f => ⟨f, 0⟩) := by
  unfold main Lexical.main
  generalize Front.init input = f
  show _ = lift _ ⟨f, 0⟩
  repeat' first
    | with_reducible rfl
    | refine bind_congr_lift (fun _ => rfl) (fun _ f => ?_) f
    | refine bind_congr_lift (mainLoop_refines fuel) (fun _ f => ?_) f

end Phase4

/-- C23: the parser of phase 4 run with `loopDepth` equal to `k` behaves as
the parser that carries the number `k` of enclosing `while` and `for` bodies as
a parameter: `statement` and `statements` give the same outcome as
`statementAt k` and `statementsAt k` and leave `loopDepth` at `k`; a
`statement` that returns does so with `loopDepth` as on entry; a top-level
declaration started with `loopDepth = 0` is the declaration whose function body
is inside no loop, and the whole program is the program in which every function
body starts at nesting zero.  In that parser the check of a `break` inside `k`
loop bodies, which is `checkBreak(k)`, reports `break statement not within
loop` exactly when `k` is zero.  On `int f(void) { while (1) { break; } break; }`
only the second `break` is diagnosed. -/
theorem break_diagnosed_iff_outside_loops :
    (∀ (fuel k : Nat) (f : Phase4.Front),
      Phase4.statement fuel ⟨f, (k : Int)⟩ =
        Phase4.lift (Phase4.Lexical.statementAt k fuel) ⟨f, (k : Int)⟩) ∧
    (∀ (fuel k : Nat) (f : Phase4.Front),
      Phase4.statements fuel ⟨f, (k : Int)⟩ =
        Phase4.lift (Phase4.Lexical.statementsAt k fuel) ⟨f, (k : Int)⟩) ∧
    (∀ (fuel k : Nat) (f : Phase4.Front),
      (∃ f1 : Phase4.Front, Phase4.statement fuel ⟨f, (k : Int)⟩ = Res.ok () ⟨f1, (k : Int)⟩) ∨
      (∃ (status : Int) (log : Log), Phase4.statement fuel ⟨f, (k : Int)⟩ = Res.exit status log) ∨
      Phase4.statement fuel ⟨f, (k : Int)⟩ = Res.undefined ∨
      Phase4.statement fuel ⟨f, (k : Int)⟩ = Res.timeout) ∧
    (∀ (fuel : Nat) (f : Phase4.Front),
      Phase4.topLevelDeclaration fuel ⟨f, 0⟩ =
        Phase4.lift (Phase4.Lexical.topLevelDeclaration fuel) ⟨f, 0⟩) ∧
    (∀ (fuel : Nat) (input : List Token),
      Phase4.main fuel input = (Phase4.Lexical.main fuel input).mapState (fun f => ⟨f, 0⟩)) ∧
    (∀ (k : Nat) (log : Log),
      checkBreak (k : Int) log = Phase4.Lexical.breakAt k log ∧
      Phase4.Lexical.breakAt k log = if k = 0 then log ++ [⟨breaking, ""⟩] else log) ∧
    Phase4.main 60
        [⟨INT, "int"⟩, ⟨Phase4.ID, "f"⟩, ⟨chr '(', "("⟩, ⟨Phase4.VOID, "void"⟩, ⟨chr ')', ")"⟩,
         ⟨chr '{', "\x7b"⟩,
         ⟨Phase4.WHILE, "while"⟩, ⟨chr '(', "("⟩, ⟨Phase4.INTEGER, "1"⟩, ⟨chr ')', ")"⟩,
         ⟨chr '{', "\x7b"⟩, ⟨Phase4.BREAK, "break"⟩, ⟨chr ';', ";"⟩, ⟨chr '}', "\x7d"⟩,
         ⟨Phase4.BREAK, "break"⟩, ⟨chr ';', ";"⟩,
         ⟨chr '}', "\x7d"⟩] =
      Res.exit EXIT_SUCCESS [⟨breaking, ""⟩] := by
  refine ⟨fun fuel k f => (Phase4.statement_refines fuel).1 k f,
    fun fuel k f => (Phase4.statement_refines fuel).2 k f, fun fuel k f => ?_,
    Phase4.topLevelDeclaration_refines, Phase4.main_refines, fun k log => ⟨?_, rfl⟩, by decide!⟩
  · rw [(Phase4.statement_refines fuel).1 k f]
    unfold Phase4.lift
    cases Phase4.Lexical.statementAt k fuel f with
    | ok a s => exact Or.inl ⟨s, rfl⟩
    | exit status log => exact Or.inr (Or.inl ⟨status, log, rfl⟩)
    | undefined => exact Or.inr (Or.inr (Or.inl rfl))
    | timeout => exact Or.inr (Or.inr (Or.inr rfl))
  · rw [Phase4.checkBreak_natCast]

/-- C24 as stated: on the tokens of `int f(){ if (0) break; }` the function
`parameters` finds `)` where the grammar wants `void` or a parameter, so the
front end reports a syntax error at `)` and exits with a failure status; no
`break` diagnostic is reported. -/
theorem empty_parameter_list_counterexample :
    Phase4.main 40
        [⟨INT, "int"⟩, ⟨Phase4.ID, "f"⟩, ⟨chr '(', "("⟩, ⟨chr ')', ")"⟩, ⟨chr '{', "\x7b"⟩,
         ⟨Phase4.IF, "if"⟩, ⟨chr '(', "("⟩, ⟨Phase4.INTEGER, "0"⟩, ⟨chr ')', ")"⟩,
         ⟨Phase4.BREAK, "break"⟩, ⟨chr ';', ";"⟩, ⟨chr '}', "\x7d"⟩] =
      Res.exit EXIT_FAILURE [⟨"syntax error at '%s'", ")"⟩] := by
  decide!

/-- C24, amended: on the tokens of `int f(void){ if (0) break; }` the front end
reports exactly one diagnostic, `break statement not within loop`, reports no
syntax error, and exits with a success status. -/
theorem break_in_if_one_diagnostic :
    Phase4.main 40
        [⟨INT, "int"⟩, ⟨Phase4.ID, "f"⟩, ⟨chr '(', "("⟩, ⟨Phase4.VOID, "void"⟩, ⟨chr ')', ")"⟩,
         ⟨chr '{', "\x7b"⟩,
         ⟨Phase4.IF, "if"⟩, ⟨chr '(', "("⟩, ⟨Phase4.INTEGER, "0"⟩, ⟨chr ')', ")"⟩,
         ⟨Phase4.BREAK, "break"⟩, ⟨chr ';', ";"⟩, ⟨chr '}', "\x7d"⟩] =
      Res.exit EXIT_SUCCESS [⟨breaking, ""⟩] := by
  decide!

/-- C30: the branch `sizeof ( specifier pointers )` of `prefixExpression`
returns without an assignment to `lvalue`, so the flag keeps the value it had
on entry.  Entered with the flag true on `sizeof ( int ) ;` the function
returns `int` with the flag true; and in `int f(void) { int *p; p =
&sizeof(int); }`, where the flag is true after the left side `p`, the operand
of `&` passes for an lvalue and nothing is reported, while the statement
`&sizeof(int);`, which enters with the flag false, is diagnosed. -/
theorem sizeof_type_keeps_lvalue_flag :
    (∀ (rest : List Token) (c : Checker),
      Phase4.prefixExpression 3 true
          ⟨⟨chr '(', "("⟩ :: ⟨INT, "int"⟩ :: ⟨chr ')', ")"⟩ :: ⟨chr ';', ";"⟩ :: rest, "sizeof",
            Phase4.SIZEOF, 0, "sizeof", "", Ty.error, c⟩ =
        Res.ok (Ty.scalar INT 0, true)
          ⟨rest, ";", chr ';', 0, ";", "int", Ty.error, c⟩) ∧
    Phase4.main 60
        [⟨INT, "int"⟩, ⟨Phase4.ID, "f"⟩, ⟨chr '(', "("⟩, ⟨Phase4.VOID, "void"⟩, ⟨chr ')', ")"⟩,
         ⟨chr '{', "\x7b"⟩,
         ⟨INT, "int"⟩, ⟨chr '*', "*"⟩, ⟨Phase4.ID, "p"⟩, ⟨chr ';', ";"⟩,
         ⟨Phase4.ID, "p"⟩, ⟨chr '=', "="⟩, ⟨chr '&', "&"⟩, ⟨Phase4.SIZEOF, "sizeof"⟩,
         ⟨chr '(', "("⟩, ⟨INT, "int"⟩, ⟨chr ')', ")"⟩, ⟨chr ';', ";"⟩,
         ⟨chr '}', "\x7d"⟩] =
      Res.exit EXIT_SUCCESS [] ∧
    Phase4.main 60
        [⟨INT, "int"⟩, ⟨Phase4.ID, "f"⟩, ⟨chr '(', "("⟩, ⟨Phase4.VOID, "void"⟩, ⟨chr ')', ")"⟩,
         ⟨chr '{', "\x7b"⟩,
         ⟨chr '&', "&"⟩, ⟨Phase4.SIZEOF, "sizeof"⟩,
         ⟨chr '(', "("⟩, ⟨INT, "int"⟩, ⟨chr ')', ")"⟩, ⟨chr ';', ";"⟩,
         ⟨chr '}', "\x7d"⟩] =
      Res.exit EXIT_SUCCESS [⟨lvalue_expression, ""⟩] := by
  refine ⟨fun rest c => ?_, by decide!, by decide!⟩
  rfl

/-! ## Syntax errors in the parser of phase 2 -/

/-- C29: `specifier` and `remainingDecls` of the phase-2 parser report a
syntax diagnostic and return; only `match` and `primaryExpression` go on to
`exit(1)`.  On `int x` followed by the end of the input `remainingDecls`
reports and `main` returns, which is a success status.  On `x ;` `specifier`
reports, the rest of the declaration is parsed and `main` returns.  On `;`
`specifier` reports and then `match` reports a second diagnostic before it
exits. -/
theorem phase2_reports_without_exit :
    Phase2.main 10 [⟨INT, "int"⟩, ⟨Phase2.ID, "x"⟩] =
      Res.ok () ⟨[], "", Phase2.DONE, 0, "", "",
        [⟨"remaingDecls. Error at %s", ""⟩], []⟩ ∧
    Phase2.main 10 [⟨Phase2.ID, "x"⟩, ⟨chr ';', ";"⟩] =
      Res.ok () ⟨[], "", Phase2.DONE, 0, "", "",
        [⟨"Is not a legal specifier. Error at %s", "x"⟩], []⟩ ∧
    Phase2.main 10 [⟨chr ';', ";"⟩] =
      Res.exit 1 [⟨"Is not a legal specifier. Error at %s", ";"⟩,
        ⟨"Does not match. Error at %s", ";"⟩] := by
  refine ⟨by decide!, by decide!, by decide!⟩

/-! ## Symmetry of compatibility -/

theorem Ty.promote_isScalar_of_isPredicate {A : Ty} (h : A.isPredicate = true) :
    ∃ (s : Int) (i : Nat), A.promote = Ty.scalar s i := by
  cases A with
  | error => simp [Ty.isPredicate, Ty.declarator] at h
  | scalar s i =>
      rw [Ty.promote_scalar]
      by_cases hc : s = CHAR ∧ i = 0
      · exact ⟨INT, 0, by rw [if_pos hc]⟩
      · exact ⟨s, i, by rw [if_neg hc]⟩
  | array s k n => exact ⟨s, (k + 1) % 2 ^ 32, Ty.promote_array s k n⟩
  | function s i v ps => simp [Ty.isPredicate, Ty.declarator] at h

theorem Ty.isPredicate_of_promote_scalar {B : Ty} {s : Int} {i : Nat}
    (h : B.promote = Ty.scalar s i) : B.isPredicate = true := by
  cases B with
  | error => rw [Ty.promote_error] at h; cases h
  | scalar s i => simp [Ty.isPredicate, Ty.declarator]
  | array s k n => simp [Ty.isPredicate, Ty.declarator]
  | function s i v ps => rw [Ty.promote_function] at h; cases h

theorem Ty.isCompatibleWith_imp (A B : Ty) (h : A.isCompatibleWith B = true) :
    B.isCompatibleWith A = true := by
  unfold Ty.isCompatibleWith at *
  by_cases hn : (A.isNumeric && B.isNumeric) = true
  · have hn2 : (B.isNumeric && A.isNumeric) = true := by
      rw [Bool.and_comm]
      exact hn
    rw [if_pos hn2]
  · rw [if_neg hn] at h
    rw [Bool.and_eq_true] at h
    obtain ⟨hp, he⟩ := h
    have heq : A.promote = B.promote := (Ty.eq_iff _ _).mp he
    obtain ⟨s, i, hs⟩ := Ty.promote_isScalar_of_isPredicate hp
    have hpB : B.isPredicate = true := Ty.isPredicate_of_promote_scalar (heq ▸ hs)
    have he2 : Ty.eq B.promote A.promote = true := (Ty.eq_iff _ _).mpr heq.symm
    have hn2 : ¬ (B.isNumeric && A.isNumeric) = true := by
      rw [Bool.and_comm]
      exact hn
    rw [if_neg hn2, hpB, he2]
    rfl

theorem Phase5.promote_isScalar_of_isPredicate_phase5 {A : Ty} (h : Phase5.isPredicate A = true) :
    ∃ (s : Int) (i : Nat), Phase5.promote A = Ty.scalar s i := by
  cases A with
  | error => simp [Phase5.isPredicate, Phase5.isNumeric, Phase5.isPointer, Ty.declarator] at h
  | scalar s i =>
      rw [Phase5.promote_scalar_phase5]
      by_cases hc : s = CHAR ∧ i = 0
      · exact ⟨INT, 0, by rw [if_pos hc]⟩
      · exact ⟨s, i, by rw [if_neg hc]⟩
  | array s k n => exact ⟨s, (k + 1) % 2 ^ 32, Phase5.promote_array_phase5 s k n⟩
  | function s i v ps =>
      simp [Phase5.isPredicate, Phase5.isNumeric, Phase5.isPointer, Ty.declarator] at h

theorem Phase5.isPredicate_of_promote_scalar_phase5 {B : Ty} {s : Int} {i : Nat}
    (h : Phase5.promote B = Ty.scalar s i) : Phase5.isPredicate B = true := by
  cases B with
  | error => rw [Phase5.promote_error_phase5] at h; cases h
  | scalar s i =>
      by_cases hi : i = 0 <;>
        simp [Phase5.isPredicate, Phase5.isNumeric, Phase5.isPointer, Ty.declarator,
          Ty.indirection, hi]
      omega
  | array s k n => simp [Phase5.isPredicate, Phase5.isNumeric, Phase5.isPointer, Ty.declarator]
  | function s i v ps => rw [Phase5.promote_function_phase5] at h; cases h

theorem Phase5.isCompatibleWith_imp_phase5 (A B : Ty) (h : Phase5.isCompatibleWith A B = true) :
    Phase5.isCompatibleWith B A = true := by
  unfold Phase5.isCompatibleWith at *
  by_cases hn : (Phase5.isNumeric A && Phase5.isNumeric B) = true
  · have hn2 : (Phase5.isNumeric B && Phase5.isNumeric A) = true := by
      rw [Bool.and_comm]
      exact hn
    rw [if_pos hn2]
  · rw [if_neg hn] at h
    rw [Bool.and_eq_true] at h
    obtain ⟨hp, he⟩ := h
    have heq : Phase5.promote A = Phase5.promote B := (Ty.eq_iff _ _).mp he
    obtain ⟨s, i, hs⟩ := Phase5.promote_isScalar_of_isPredicate_phase5 hp
    have hpB : Phase5.isPredicate B = true := Phase5.isPredicate_of_promote_scalar_phase5 (heq ▸ hs)
    have he2 : Ty.eq (Phase5.promote B) (Phase5.promote A) = true :=
      (Ty.eq_iff _ _).mpr heq.symm
    have hn2 : ¬ (Phase5.isNumeric B && Phase5.isNumeric A) = true := by
      rw [Bool.and_comm]
      exact hn
    rw [if_neg hn2, hpB, he2]
    rfl

/-- C39: `Type::isCompatibleWith` is symmetric in the type model of phase 4
and in that of phase 5, for all types of any declarator kind: the receiver is
compatible with the argument exactly when the argument is compatible with the
receiver. -/
theorem isCompatibleWith_symmetric (A B : Ty) :
    Ty.isCompatibleWith A B = Ty.isCompatibleWith B A ∧
    Phase5.isCompatibleWith A B = Phase5.isCompatibleWith B A := by
  constructor
  · rw [Bool.eq_iff_iff]
    exact ⟨Ty.isCompatibleWith_imp A B, Ty.isCompatibleWith_imp B A⟩
  · rw [Bool.eq_iff_iff]
    exact ⟨Phase5.isCompatibleWith_imp_phase5 A B, Phase5.isCompatibleWith_imp_phase5 B A⟩

/-! ## The offsets of the locals in phase 5 -/

/-- C35: `Function::generate` of phase 5 stores the offset of a local before
it rounds the running offset down to a multiple of 4.  A single local `char c`
gets the offset `-1`, which is not a multiple of 4 (after `int i` it gets
`-5`), and a single local of size zero, `int a[0]`, gets the offset `0`, which
is not negative. -/
theorem phase5_local_offsets_unaligned :
    Phase5.Function.generate 0 [Ty.scalar CHAR 0] [] = some ([-1], 8) ∧
    ¬ ((4 : Int) ∣ -1) ∧
    Phase5.Function.generate 0 [Ty.scalar INT 0, Ty.scalar CHAR 0, Ty.scalar INT 0] [] =
      some ([-4, -5, -12], 24) ∧
    Phase5.Function.generate 0 [Ty.array INT 0 0] [] = some ([0], 8) := by
  refine ⟨by decide, by decide, by decide, by decide⟩

/-! ## Pointer arithmetic in the code generator of phase 6 -/

/-- C37: for a `Subtract` node that is not floating-point, with `scaleResult =
0` and `scaleRight != 0`, `Subtract::generate` writes `movl left, %eax`, then
`imull $scaleRight, %ecx` and `subl %ecx, %eax`, without a load of the right
operand into `%ecx`: the sequence reads `%ecx` before it has written it, and
the right operand occurs in none of its lines.  `Add::generate` with the same
scale loads the right operand into `%ecx` first and reads no register before it
has written it. -/
theorem subtract_reads_ecx_unwritten (left right this : String) (scaleLeft scaleRight : Nat)
    (h : scaleRight ≠ 0) :
    Phase6.Subtract.emit left right this false scaleRight 0 =
      [Phase6.Instr.movl (Phase6.Opnd.node left) (Phase6.Opnd.reg Phase6.Reg.eax),
       Phase6.Instr.imull (Phase6.Opnd.imm scaleRight) (Phase6.Opnd.reg Phase6.Reg.ecx),
       Phase6.Instr.subl (Phase6.Opnd.reg Phase6.Reg.ecx) (Phase6.Opnd.reg Phase6.Reg.eax),
       Phase6.Instr.movl (Phase6.Opnd.reg Phase6.Reg.eax) (Phase6.Opnd.node this)] ∧
    Phase6.readBeforeWritten [] (Phase6.Subtract.emit left right this false scaleRight 0) =
      some Phase6.Reg.ecx ∧
    Phase6.readBeforeWritten [] (Phase6.Add.emit left right this false scaleLeft scaleRight) =
      none := by
  refine ⟨?_, ?_, ?_⟩
  · simp [Phase6.Subtract.emit, h]
  · simp [Phase6.Subtract.emit, h, Phase6.readBeforeWritten, Phase6.Instr.reads,
      Phase6.Instr.writes, Phase6.Opnd.regs]
  · by_cases hl : scaleLeft = 0 <;>
      simp [Phase6.Add.emit, h, hl, Phase6.readBeforeWritten, Phase6.Instr.reads,
        Phase6.Instr.writes, Phase6.Opnd.regs]

theorem subtract_reads_ecx_unwritten_witness :
    Phase6.readBeforeWritten [] (Phase6.Subtract.emit "-4(%ebp)" "-8(%ebp)" "-12(%ebp)" false 4 0) =
      some Phase6.Reg.ecx :=
  (subtract_reads_ecx_unwritten "-4(%ebp)" "-8(%ebp)" "-12(%ebp)" 0 4 (by decide)).2.1

/-! ## The literal pools of the code generator of phase 6 -/

namespace Phase6

theorem findLabel_some {value : String} {m : List (String × Label)} {l : Label}
    (h : findLabel value m = some l) : (value, l) ∈ m := by
  induction m with
  | nil => simp [findLabel] at h
  | cons e rest ih =>
      unfold findLabel at h
      by_cases he : e.1 = value
      · rw [if_pos he] at h
        have hl : e.2 = l := Option.some.inj h
        have : e = (value, l) := Prod.ext he hl
        rw [this]
        exact List.mem_cons_self _ _
      · rw [if_neg he] at h
        exact List.mem_cons_of_mem _ (ih h)

theorem findLabel_none {value : String} {m : List (String × Label)}
    (h : findLabel value m = none) : value ∉ m.map Prod.fst := by
  induction m with
  | nil => simp
  | cons e rest ih =>
      unfold findLabel at h
      by_cases he : e.1 = value
      · rw [if_pos he] at h
        cases h
      · rw [if_neg he] at h
        intro hm
        rw [List.map_cons, List.mem_cons] at hm
        rcases hm with hm | hm
        · exact he hm.symm
        · exact ih h hm

theorem nodup_map_append_singleton {α β : Type} (f : α → β) (m : List α) (a : α)
    (h : (m.map f).Nodup) (hn : f a ∉ m.map f) : ((m ++ [a]).map f).Nodup := by
  rw [List.map_append, List.map_cons, List.map_nil, List.nodup_append]
  refine ⟨h, List.nodup_singleton _, ?_⟩
  intro x hx hx2
  rw [List.mem_singleton] at hx2
  rw [hx2] at hx
  exact hn hx

theorem mem_of_nodup_fst {m : List (String × Label)} (h : (m.map Prod.fst).Nodup)
    {v : String} {l l2 : Label} (h1 : (v, l) ∈ m) (h2 : (v, l2) ∈ m) : l = l2 := by
  have := List.inj_on_of_nodup_map h h1 h2 rfl
  exact congrArg Prod.snd this

theorem mem_of_nodup_snd {m : List (String × Label)} (h : (m.map Prod.snd).Nodup)
    {v w : String} {l : Label} (h1 : (v, l) ∈ m) (h2 : (w, l) ∈ m) : v = w := by
  have := List.inj_on_of_nodup_map h h1 h2 rfl
  exact congrArg Prod.fst this

theorem PoolsInv.bump {p : Pools} {written : List (Use × Label)} (h : PoolsInv p written) :
    PoolsInv { p with labels := p.labels + 1 } written :=
  { bound1 := fun e he => Nat.lt_succ_of_lt (h.bound1 e he)
    bound2 := fun e he => Nat.lt_succ_of_lt (h.bound2 e he)
    keys1 := h.keys1
    keys2 := h.keys2
    labs1 := h.labs1
    labs2 := h.labs2
    apart := h.apart
    mem1 := h.mem1
    mem2 := h.mem2
    literal := h.literal }

theorem PoolsInv.string {p : Pools} {written : List (Use × Label)} (h : PoolsInv p written)
    (value : String) :
    PoolsInv (String.operand value p).2
      (written ++ [(Use.string value, (String.operand value p).1)]) := by
  unfold String.operand
  cases hf : findLabel value p.m1 with
  | some found =>
      simp only [hf]
      have hb := h.bump
      exact
        { bound1 := hb.bound1
          bound2 := hb.bound2
          keys1 := hb.keys1
          keys2 := hb.keys2
          labs1 := hb.labs1
          labs2 := hb.labs2
          apart := hb.apart
          mem1 := by
            intro v l hm
            rw [List.mem_append, List.mem_singleton] at hm
            rcases hm with hm | hm
            · exact h.mem1 v l hm
            · cases hm
              exact findLabel_some hf
          mem2 := by
            intro v l hm
            rw [List.mem_append, List.mem_singleton] at hm
            rcases hm with hm | hm
            · exact h.mem2 v l hm
            · cases hm
          literal := by
            intro l hm
            rw [List.mem_append, List.mem_singleton] at hm
            rcases hm with hm | hm
            · exact h.literal l hm
            · cases hm }
  | none =>
      simp only [hf]
      have hfresh : p.labels ∉ p.m1.map Prod.snd := by
        intro hm
        rw [List.mem_map] at hm
        obtain ⟨e, he, hel⟩ := hm
        have hlt := h.bound1 e he
        rw [hel] at hlt
        exact Nat.lt_irrefl _ hlt
      exact
        { bound1 := by
            intro e he
            rw [List.mem_append, List.mem_singleton] at he
            rcases he with he | he
            · exact Nat.lt_succ_of_lt (h.bound1 e he)
            · rw [he]
              exact Nat.lt_succ_self _
          bound2 := fun e he => Nat.lt_succ_of_lt (h.bound2 e he)
          keys1 := nodup_map_append_singleton Prod.fst p.m1 (value, p.labels) h.keys1
            (findLabel_none hf)
          keys2 := h.keys2
          labs1 := nodup_map_append_singleton Prod.snd p.m1 (value, p.labels) h.labs1 hfresh
          labs2 := h.labs2
          apart := by
            intro e1 he1 e2 he2
            rw [List.mem_append, List.mem_singleton] at he1
            rcases he1 with he1 | he1
            · exact h.apart e1 he1 e2 he2
            · rw [he1]
              exact (Nat.ne_of_lt (h.bound2 e2 he2)).symm
          mem1 := by
            intro v l hm
            rw [List.mem_append, List.mem_singleton] at hm
            rw [List.mem_append, List.mem_singleton]
            rcases hm with hm | hm
            · exact Or.inl (h.mem1 v l hm)
            · cases hm
              exact Or.inr rfl
          mem2 := by
            intro v l hm
            rw [List.mem_append, List.mem_singleton] at hm
            rcases hm with hm | hm
            · exact h.mem2 v l hm
            · cases hm
          literal := by
            intro l hm
            rw [List.mem_append, List.mem_singleton] at hm
            rcases hm with hm | hm
            · exact h.literal l hm
            · cases hm }

theorem PoolsInv.real {p : Pools} {written : List (Use × Label)} (h : PoolsInv p written)
    (value : String) :
    PoolsInv (Real.operand value p).2
      (written ++ [(Use.real value, (Real.operand value p).1)]) := by
  unfold Real.operand
  cases hf : findLabel value p.m2 with
  | some found =>
      simp only [hf]
      have hb := h.bump
      exact
        { bound1 := hb.bound1
          bound2 := hb.bound2
          keys1 := hb.keys1
          keys2 := hb.keys2
          labs1 := hb.labs1
          labs2 := hb.labs2
          apart := hb.apart
          mem1 := by
            intro v l hm
            rw [List.mem_append, List.mem_singleton] at hm
            rcases hm with hm | hm
            · exact h.mem1 v l hm
            · cases hm
          mem2 := by
            intro v l hm
            rw [List.mem_append, List.mem_singleton] at hm
            rcases hm with hm | hm
            · exact h.mem2 v l hm
            · cases hm
              exact findLabel_some hf
          literal := by
            intro l hm
            rw [List.mem_append, List.mem_singleton] at hm
            rcases hm with hm | hm
            · exact h.literal l hm
            · cases hm }
  | none =>
      simp only [hf]
      have hfresh : p.labels ∉ p.m2.map Prod.snd := by
        intro hm
        rw [List.mem_map] at hm
        obtain ⟨e, he, hel⟩ := hm
        have hlt := h.bound2 e he
        rw [hel] at hlt
        exact Nat.lt_irrefl _ hlt
      exact
        { bound1 := fun e he => Nat.lt_succ_of_lt (h.bound1 e he)
          bound2 := by
            intro e he
            rw [List.mem_append, List.mem_singleton] at he
            rcases he with he | he
            · exact Nat.lt_succ_of_lt (h.bound2 e he)
            · rw [he]
              exact Nat.lt_succ_self _
          keys1 := h.keys1
          keys2 := nodup_map_append_singleton Prod.fst p.m2 (value, p.labels) h.keys2
            (findLabel_none hf)
          labs1 := h.labs1
          labs2 := nodup_map_append_singleton Prod.snd p.m2 (value, p.labels) h.labs2 hfresh
          apart := by
            intro e1 he1 e2 he2
            rw [List.mem_append, List.mem_singleton] at he2
            rcases he2 with he2 | he2
            · exact h.apart e1 he1 e2 he2
            · rw [he2]
              exact Nat.ne_of_lt (h.bound1 e1 he1)
          mem1 := by
            intro v l hm
            rw [List.mem_append, List.mem_singleton] at hm
            rcases hm with hm | hm
            · exact h.mem1 v l hm
            · cases hm
          mem2 := by
            intro v l hm
            rw [List.mem_append, List.mem_singleton] at hm
            rw [List.mem_append, List.mem_singleton]
            rcases hm with hm | hm
            · exact Or.inl (h.mem2 v l hm)
            · cases hm
              exact Or.inr rfl
          literal := by
            intro l hm
            rw [List.mem_append, List.mem_singleton] at hm
            rcases hm with hm | hm
            · exact h.literal l hm
            · cases hm }

theorem PoolsInv.runUses (uses : List Use) :
    ∀ (p : Pools) (written : List (Use × Label)), PoolsInv p written →
      PoolsInv (runUses uses p).2 (written ++ (runUses uses p).1) := by
  induction uses with
  | nil =>
      intro p written h
      simpa [Phase6.runUses] using h
  | cons u rest ih =>
      intro p written h
      cases u with
      | string value =>
          have h1 := ih _ _ (h.string value)
          simpa [Phase6.runUses, List.append_assoc] using h1
      | real value =>
          have h1 := ih _ _ (h.real value)
          simpa [Phase6.runUses, List.append_assoc] using h1
      | other =>
          have h1 := ih _ _ h.bump
          simpa [Phase6.runUses] using h1

theorem PoolsInv.init (n : Nat) : PoolsInv ⟨n, [], []⟩ [] :=
  { bound1 := by simp
    bound2 := by simp
    keys1 := by simp
    keys2 := by simp
    labs1 := by simp
    labs2 := by simp
    apart := by simp
    mem1 := by simp
    mem2 := by simp
    literal := by simp }

theorem PoolsInv.same_label {p : Pools} {written : List (Use × Label)} (h : PoolsInv p written)
    {a b : Use × Label} (ha : a ∈ written) (hb : b ∈ written) : a.2 = b.2 ↔ a.1 = b.1 := by
  obtain ⟨ua, la⟩ := a
  obtain ⟨ub, lb⟩ := b
  cases ua with
  | other => exact absurd ha (h.literal la)
  | string v =>
      cases ub with
      | other => exact absurd hb (h.literal lb)
      | string w =>
          constructor
          · intro hl
            have hl2 : la = lb := hl
            subst hl2
            have := mem_of_nodup_snd h.labs1 (h.mem1 v la ha) (h.mem1 w la hb)
            rw [this]
          · intro hu
            have hvw : v = w := by
              cases hu
              rfl
            subst hvw
            exact mem_of_nodup_fst h.keys1 (h.mem1 v la ha) (h.mem1 v lb hb)
      | real w =>
          constructor
          · intro hl
            exact absurd hl (h.apart _ (h.mem1 v la ha) _ (h.mem2 w lb hb))
          · intro hu
            cases hu
  | real v =>
      cases ub with
      | other => exact absurd hb (h.literal lb)
      | string w =>
          constructor
          · intro hl
            exact absurd hl.symm (h.apart _ (h.mem1 w lb hb) _ (h.mem2 v la ha))
          · intro hu
            cases hu
      | real w =>
          constructor
          · intro hl
            have hl2 : la = lb := hl
            subst hl2
            have := mem_of_nodup_snd h.labs2 (h.mem2 v la ha) (h.mem2 w la hb)
            rw [this]
          · intro hu
            have hvw : v = w := by
              cases hu
              rfl
            subst hvw
            exact mem_of_nodup_fst h.keys2 (h.mem2 v la ha) (h.mem2 v lb hb)

theorem generateGlobals_labels (p : Pools) :
    (generateGlobals p).map PoolEntry.label = p.m1.map Prod.snd ++ p.m2.map Prod.snd := by
  simp [generateGlobals, List.map_append, List.map_map, Function.comp_def]

theorem PoolsInv.count_string {p : Pools} {written : List (Use × Label)}
    (h : PoolsInv p written) {v : String} {l : Label} (hm : (v, l) ∈ p.m1) :
    (⟨l, false, v⟩ : PoolEntry) ∈ generateGlobals p ∧
    ((generateGlobals p).map PoolEntry.label).count l = 1 := by
  constructor
  · unfold generateGlobals
    rw [List.mem_append]
    exact Or.inl (List.mem_map.mpr ⟨(v, l), hm, rfl⟩)
  · rw [generateGlobals_labels, List.count_append]
    have h1 : (p.m1.map Prod.snd).count l = 1 :=
      List.count_eq_one_of_mem h.labs1 (List.mem_map.mpr ⟨(v, l), hm, rfl⟩)
    have h2 : (p.m2.map Prod.snd).count l = 0 := by
      apply List.count_eq_zero_of_not_mem
      intro hm2
      rw [List.mem_map] at hm2
      obtain ⟨e, he, hel⟩ := hm2
      exact h.apart _ hm _ he hel.symm
    rw [h1, h2]

theorem PoolsInv.count_real {p : Pools} {written : List (Use × Label)}
    (h : PoolsInv p written) {v : String} {l : Label} (hm : (v, l) ∈ p.m2) :
    (⟨l, true, v⟩ : PoolEntry) ∈ generateGlobals p ∧
    ((generateGlobals p).map PoolEntry.label).count l = 1 := by
  constructor
  · unfold generateGlobals
    rw [List.mem_append]
    exact Or.inr (List.mem_map.mpr ⟨(v, l), hm, rfl⟩)
  · rw [generateGlobals_labels, List.count_append]
    have h2 : (p.m2.map Prod.snd).count l = 1 :=
      List.count_eq_one_of_mem h.labs2 (List.mem_map.mpr ⟨(v, l), hm, rfl⟩)
    have h1 : (p.m1.map Prod.snd).count l = 0 := by
      apply List.count_eq_zero_of_not_mem
      intro hm1
      rw [List.mem_map] at hm1
      obtain ⟨e, he, hel⟩ := hm1
      exact h.apart _ he _ hm hel
    rw [h1, h2]

end Phase6

/-- C36: run any sequence of `String::operand` calls, `Real::operand` calls and
other constructions of a `Label` from empty pools, with the counter at any
value.  Two literal operands write the same label exactly when they are of the
same kind and have the same lexeme; and for every label written by a string
operand `generateGlobals` writes an `.asciz` entry with that label and that
lexeme, for every label written by a real operand a `.double` entry with that
label and that lexeme, and in both cases no other entry with that label. -/
theorem literal_pool_deduplicates (uses : List Phase6.Use) (n : Nat) :
    (∀ a ∈ (Phase6.runUses uses ⟨n, [], []⟩).1, ∀ b ∈ (Phase6.runUses uses ⟨n, [], []⟩).1,
      (a.2 = b.2 ↔ a.1 = b.1)) ∧
    (∀ (v : String) (l : Phase6.Label),
      (Phase6.Use.string v, l) ∈ (Phase6.runUses uses ⟨n, [], []⟩).1 →
        (⟨l, false, v⟩ : Phase6.PoolEntry) ∈
          Phase6.generateGlobals (Phase6.runUses uses ⟨n, [], []⟩).2 ∧
        ((Phase6.generateGlobals (Phase6.runUses uses ⟨n, [], []⟩).2).map
          Phase6.PoolEntry.label).count l = 1) ∧
    (∀ (v : String) (l : Phase6.Label),
      (Phase6.Use.real v, l) ∈ (Phase6.runUses uses ⟨n, [], []⟩).1 →
        (⟨l, true, v⟩ : Phase6.PoolEntry) ∈
          Phase6.generateGlobals (Phase6.runUses uses ⟨n, [], []⟩).2 ∧
        ((Phase6.generateGlobals (Phase6.runUses uses ⟨n, [], []⟩).2).map
          Phase6.PoolEntry.label).count l = 1) := by
  have h := Phase6.PoolsInv.runUses uses ⟨n, [], []⟩ [] (Phase6.PoolsInv.init n)
  rw [List.nil_append] at h
  refine ⟨fun a ha b hb => h.same_label ha hb, fun v l hm => h.count_string (h.mem1 v l hm),
    fun v l hm => h.count_real (h.mem2 v l hm)⟩

theorem literal_pool_deduplicates_witness :
    (Phase6.runUses [Phase6.Use.string "a", Phase6.Use.other, Phase6.Use.real "a",
        Phase6.Use.string "a"] ⟨0, [], []⟩).1 =
      [(Phase6.Use.string "a", 0), (Phase6.Use.real "a", 2), (Phase6.Use.string "a", 0)] ∧
    ((⟨0, false, "a"⟩ : Phase6.PoolEntry) ∈
        Phase6.generateGlobals (Phase6.runUses [Phase6.Use.string "a", Phase6.Use.other,
          Phase6.Use.real "a", Phase6.Use.string "a"] ⟨0, [], []⟩).2 ∧
      ((Phase6.generateGlobals (Phase6.runUses [Phase6.Use.string "a", Phase6.Use.other,
          Phase6.Use.real "a", Phase6.Use.string "a"] ⟨0, [], []⟩).2).map
        Phase6.PoolEntry.label).count 0 = 1) :=
  ⟨by decide,
   (literal_pool_deduplicates [Phase6.Use.string "a", Phase6.Use.other, Phase6.Use.real "a",
      Phase6.Use.string "a"] 0).2.1 "a" 0 (by decide)⟩

/-! ## The token interface of the parser of phase 4 -/

namespace Phase4

theorem bind_apply {σ α β : Type} (x : PM σ α) (g : α → PM σ β) (s : σ) :
    (x >>= g) s = (x s).bind g := rfl

theorem pure_apply {σ α : Type} (a : α) (s : σ) : (pure a : PM σ α) s = Res.ok a s := rfl

theorem ite_apply {σ α : Type} (c : Prop) [Decidable c] (x y : PM σ α) (s : σ) :
    (if c then x else y) s = if c then x s else y s := by
  split <;> rfl

theorem match_fail (t : Int) (s : Front) (h : s.lookahead ≠ t) :
    match_ t s = Res.exit EXIT_FAILURE
      (if s.lookahead == DONE then report "syntax error at end of file" "" s.checker.log
       else report "syntax error at '%s'" s.yytext s.checker.log) := by
  simp [match_, bind_apply, ite_apply, getFront, Res.bind, h, error]

theorem match_peeked (t : Int) (s : Front) (h : s.lookahead = t) (hn : s.nexttoken ≠ 0) :
    match_ t s = Res.ok () { s with lookahead := s.nexttoken, lexbuf := s.nextbuf, nexttoken := 0 } := by
  simp [match_, bind_apply, ite_apply, getFront, setFront, Res.bind, h, hn, pure_apply]

theorem match_cons (t : Int) (s : Front) (tok : Token) (rest : List Token)
    (h : s.lookahead = t) (hn : s.nexttoken = 0) (hi : s.input = tok :: rest) :
    match_ t s = Res.ok ()
      { s with input := rest, yytext := tok.text, lookahead := tok.kind, lexbuf := tok.text } := by
  simp [match_, bind_apply, ite_apply, getFront, setFront, Res.bind, h, hn, pure_apply, yylex, hi]

theorem match_nil (t : Int) (s : Front) (h : s.lookahead = t) (hn : s.nexttoken = 0)
    (hi : s.input = []) :
    match_ t s = Res.ok () { s with yytext := "", lookahead := DONE, lexbuf := "" } := by
  simp [match_, bind_apply, ite_apply, getFront, setFront, Res.bind, h, hn, pure_apply, yylex, hi]

end Phase4
namespace Phase4

theorem peek_peeked (s : Front) (hn : s.nexttoken ≠ 0) : peek s = Res.ok s.nexttoken s := by
  simp [peek, bind_apply, ite_apply, getFront, Res.bind, hn, pure_apply]

theorem peek_cons (s : Front) (tok : Token) (rest : List Token) (hn : s.nexttoken = 0)
    (hi : s.input = tok :: rest) :
    peek s = Res.ok tok.kind
      { s with input := rest, yytext := tok.text, nexttoken := tok.kind, nextbuf := tok.text } := by
  simp [peek, bind_apply, ite_apply, getFront, setFront, Res.bind, hn, pure_apply, yylex, hi]

theorem peek_nil (s : Front) (hn : s.nexttoken = 0) (hi : s.input = []) :
    peek s = Res.ok DONE { s with yytext := "", nexttoken := DONE, nextbuf := "" } := by
  simp [peek, bind_apply, ite_apply, getFront, setFront, Res.bind, hn, pure_apply, yylex, hi]

end Phase4
namespace Phase3

theorem match_fail3 (t : Int) (s : Parser) (h : s.lookahead ≠ t) :
    match_ t s = Res.exit EXIT_FAILURE
      (if s.lookahead == Phase4.DONE then report "syntax error at end of file" "" s.checker.log
       else report "syntax error at '%s'" s.yytext s.checker.log) := by
  simp [match_, Phase4.bind_apply, Phase4.ite_apply, getParser, Res.bind, h, error]

theorem match_peeked3 (t : Int) (s : Parser) (h : s.lookahead = t) (hn : s.nexttoken ≠ 0) :
    match_ t s = Res.ok () { s with lookahead := s.nexttoken, lexbuf := s.nextbuf, nexttoken := 0 } := by
  simp [match_, Phase4.bind_apply, Phase4.ite_apply, getParser, setParser, Res.bind, h, hn, Phase4.pure_apply]

theorem match_cons3 (t : Int) (s : Parser) (tok : Token) (rest : List Token)
    (h : s.lookahead = t) (hn : s.nexttoken = 0) (hi : s.input = tok :: rest) :
    match_ t s = Res.ok ()
      { s with input := rest, yytext := tok.text, lookahead := tok.kind, lexbuf := tok.text } := by
  simp [match_, Phase4.bind_apply, Phase4.ite_apply, getParser, setParser, Res.bind, h, hn, Phase4.pure_apply, yylex, hi]

theorem match_nil3 (t : Int) (s : Parser) (h : s.lookahead = t) (hn : s.nexttoken = 0)
    (hi : s.input = []) :
    match_ t s = Res.ok () { s with yytext := "", lookahead := Phase4.DONE, lexbuf := "" } := by
  simp [match_, Phase4.bind_apply, Phase4.ite_apply, getParser, setParser, Res.bind, h, hn, Phase4.pure_apply, yylex, hi]


theorem match_advance3 (t : Int) (s : Parser) (h : s.lookahead = t) :
    ∃ s1 : Parser, match_ t s = Res.ok () s1 ∧
      (⟨s1.lookahead, s1.lexbuf⟩ : Token) = Phase4.tokenAt s.pending 0 ∧
      s1.pending = s.pending.tail ∧ s1.checker = s.checker := by
  by_cases hn : s.nexttoken = 0
  · cases hi : s.input with
    | nil =>
        refine ⟨_, match_nil3 t s h hn hi, ?_, ?_, rfl⟩
        · simp [Parser.pending, hn, hi, Phase4.tokenAt]
        · simp [Parser.pending, hn, hi]
    | cons tok rest =>
        refine ⟨_, match_cons3 t s tok rest h hn hi, ?_, ?_, rfl⟩
        · simp [Parser.pending, hn, hi, Phase4.tokenAt]
        · simp [Parser.pending, hn, hi]
  · refine ⟨_, match_peeked3 t s h hn, ?_, ?_, rfl⟩
    · simp [Parser.pending, hn, Phase4.tokenAt]
    · simp [Parser.pending, hn]

theorem peek_peeked3 (s : Parser) (hn : s.nexttoken ≠ 0) : peek s = Res.ok s.nexttoken s := by
  simp [peek, Phase4.bind_apply, Phase4.ite_apply, getParser, Res.bind, hn, Phase4.pure_apply]

theorem peek_cons3 (s : Parser) (tok : Token) (rest : List Token) (hn : s.nexttoken = 0)
    (hi : s.input = tok :: rest) :
    peek s = Res.ok tok.kind
      { s with input := rest, yytext := tok.text, nexttoken := tok.kind, nextbuf := tok.text } := by
  simp [peek, Phase4.bind_apply, Phase4.ite_apply, getParser, setParser, Res.bind, hn, Phase4.pure_apply, yylex, hi]

theorem peek_nil3 (s : Parser) (hn : s.nexttoken = 0) (hi : s.input = []) :
    peek s = Res.ok Phase4.DONE { s with yytext := "", nexttoken := Phase4.DONE, nextbuf := "" } := by
  simp [peek, Phase4.bind_apply, Phase4.ite_apply, getParser, setParser, Res.bind, hn, Phase4.pure_apply, yylex, hi]

theorem peek_pending3 (s : Parser) (h : ∀ t ∈ s.pending, t.kind ≠ 0) :
    ∃ s1 : Parser, peek s = Res.ok (Phase4.tokenAt s.pending 0).kind s1 ∧
      s1.lookahead = s.lookahead ∧ s1.lexbuf = s.lexbuf ∧ s1.pending = s.pending ∧
      s1.checker = s.checker ∧
      peek s1 = Res.ok (Phase4.tokenAt s.pending 0).kind s1 := by
  by_cases hn : s.nexttoken = 0
  · cases hi : s.input with
    | nil =>
        have hk : (Phase4.tokenAt s.pending 0).kind = Phase4.DONE := by
          simp [Parser.pending, hn, hi, Phase4.tokenAt]
        have e := peek_nil3 s hn hi
        have e2 := peek_nil3 { s with yytext := "", nexttoken := Phase4.DONE, nextbuf := "" } rfl hi
        rw [hk]
        refine ⟨{ s with yytext := "", nexttoken := Phase4.DONE, nextbuf := "" }, e, rfl, rfl, ?_,
          rfl, e2⟩
        simp [Parser.pending, hn, hi, Phase4.DONE]
    | cons tok rest =>
        have hk0 : tok.kind ≠ 0 := by
          apply h
          simp [Parser.pending, hn, hi]
        have hk : (Phase4.tokenAt s.pending 0).kind = tok.kind := by
          simp [Parser.pending, hn, hi, Phase4.tokenAt]
        have e := peek_cons3 s tok rest hn hi
        have e2 := peek_peeked3
          { s with input := rest, yytext := tok.text, nexttoken := tok.kind,
                   nextbuf := tok.text } hk0
        rw [hk]
        refine ⟨{ s with input := rest, yytext := tok.text, nexttoken := tok.kind,
                         nextbuf := tok.text }, e, rfl, rfl, ?_, rfl, e2⟩
        simp [Parser.pending, hn, hi, hk0]
  · have hk : (Phase4.tokenAt s.pending 0).kind = s.nexttoken := by
      simp [Parser.pending, hn, Phase4.tokenAt]
    rw [hk]
    exact ⟨s, peek_peeked3 s hn, rfl, rfl, rfl, rfl, peek_peeked3 s hn⟩

end Phase3

namespace Phase4

namespace Counted

end Counted

end Phase4

namespace Phase3

namespace Counted

end Counted

end Phase3

namespace Phase4

theorem getFront_apply (s : Front) : getFront s = Res.ok s s := rfl

theorem bind_ok {σ α β : Type} (a : α) (s : σ) (g : α → σ → Res σ β) :
    (Res.ok a s : Res σ α).bind g = g a s := rfl

theorem match_any (k : Int) (s : Front) (h : s.lookahead = k) (hn : s.nexttoken = 0) :
    match_ k s = Res.ok () (Front.on s.input s.nextbuf s.returnType s.checker) := by
  cases hi : s.input with
  | nil =>
      rw [match_nil k s h hn hi]
      simp [Front.on, tokenAt, hn, hi]
  | cons tok rest =>
      rw [match_cons k s tok rest h hn hi]
      simp [Front.on, tokenAt, hn, hi]

theorem match_on (k : Int) (x : String) (ts : List Token) (nb : String) (rt : Ty) (c : Checker) :
    match_ k (Front.on (⟨k, x⟩ :: ts) nb rt c) = Res.ok () (Front.on ts nb rt c) :=
  match_any k _ rfl rfl

theorem lookahead_on (t : Token) (ts : List Token) (nb : String) (rt : Ty) (c : Checker) :
    (Front.on (t :: ts) nb rt c).lookahead = t.kind := rfl

theorem lexbuf_on (t : Token) (ts : List Token) (nb : String) (rt : Ty) (c : Checker) :
    (Front.on (t :: ts) nb rt c).lexbuf = t.text := rfl

theorem checker_on (ts : List Token) (nb : String) (rt : Ty) (c : Checker) :
    (Front.on ts nb rt c).checker = c := rfl

theorem returnType_on (ts : List Token) (nb : String) (rt : Ty) (c : Checker) :
    (Front.on ts nb rt c).returnType = rt := rfl

theorem lookahead_on_nil (nb : String) (rt : Ty) (c : Checker) :
    (Front.on [] nb rt c).lookahead = DONE := rfl

theorem call_on {α : Type} (f : Checker → Option (α × Checker)) (ts : List Token) (nb : String)
    (rt : Ty) (c c1 : Checker) (a : α) (h : f c = some (a, c1)) :
    call f (Front.on ts nb rt c) = Res.ok a (Front.on ts nb rt c1) := by
  simp [call, Front.on, h]

theorem callTotal_on {α : Type} (f : Checker → α × Checker) (ts : List Token) (nb : String)
    (rt : Ty) (c : Checker) :
    callTotal f (Front.on ts nb rt c) = Res.ok (f c).1 (Front.on ts nb rt (f c).2) := rfl

theorem setReturnType_on (ts : List Token) (nb : String) (rt rt1 : Ty) (c : Checker) :
    setReturnType rt1 (Front.on ts nb rt c) = Res.ok () (Front.on ts nb rt1 c) := rfl

theorem isSpecifier_cases {k : Int} (h : isSpecifier k = true) : k = CHAR ∨ k = INT ∨ k = DOUBLE := by
  simpa [isSpecifier, or_assoc] using h

theorem specifier_at (k : Int) (s : Front) (hk : isSpecifier k = true) (h : s.lookahead = k)
    (hn : s.nexttoken = 0) :
    specifier s = Res.ok k (Front.on s.input s.nextbuf s.returnType s.checker) := by
  simp [specifier, bind_apply, ite_apply, getFront_apply, Res.bind, h, hk, match_any k s h hn,
    pure_apply]

theorem specifier_on (k : Int) (x : String) (ts : List Token) (nb : String) (rt : Ty)
    (c : Checker) (hk : isSpecifier k = true) :
    specifier (Front.on (⟨k, x⟩ :: ts) nb rt c) = Res.ok k (Front.on ts nb rt c) :=
  specifier_at k _ hk rfl rfl

theorem identifier_on (x : String) (ts : List Token) (nb : String) (rt : Ty) (c : Checker) :
    identifier (Front.on (⟨ID, x⟩ :: ts) nb rt c) = Res.ok x (Front.on ts nb rt c) := by
  simp [identifier, bind_apply, getFront_apply, Res.bind, match_on, pure_apply, lexbuf_on]

theorem stars_succ (n : Nat) (ts : List Token) :
    stars (n + 1) ++ ts = ⟨chr '*', "*"⟩ :: (stars n ++ ts) := rfl

theorem lookahead_on_tokenAt (ts : List Token) (nb : String) (rt : Ty) (c : Checker) :
    (Front.on ts nb rt c).lookahead = (tokenAt ts 0).kind := rfl

theorem pointersLoop_on (n : Nat) :
    ∀ (fuel count : Nat) (ts : List Token) (nb : String) (rt : Ty) (c : Checker),
      n < fuel → count < 2 ^ 32 → (tokenAt ts 0).kind ≠ chr '*' →
      pointersLoop fuel count (Front.on (stars n ++ ts) nb rt c) =
        Res.ok ((count + n) % 2 ^ 32) (Front.on ts nb rt c) := by
  induction n with
  | zero =>
      intro fuel count ts nb rt c hf hc hts
      obtain ⟨fuel, rfl⟩ : ∃ k, fuel = k + 1 := ⟨fuel - 1, by omega⟩
      have hl : (Front.on ts nb rt c).lookahead ≠ chr '*' := hts
      have hc1 : count % 4294967296 = count := Nat.mod_eq_of_lt hc
      simp [pointersLoop, stars, bind_apply, getFront_apply, Res.bind, hl, pure_apply, ite_apply,
        hc1]
  | succ n ih =>
      intro fuel count ts nb rt c hf hc hts
      obtain ⟨fuel, rfl⟩ : ∃ k, fuel = k + 1 := ⟨fuel - 1, by omega⟩
      rw [stars_succ]
      simp only [pointersLoop, bind_apply, getFront_apply, Res.bind, lookahead_on, beq_self_eq_true,
        if_true, match_on]
      rw [ih fuel _ ts nb rt c (by omega) (Nat.mod_lt _ (by norm_num)) hts]
      simp [Nat.add_assoc, Nat.add_comm 1 n]

theorem pointers_on (n fuel : Nat) (ts : List Token) (nb : String) (rt : Ty) (c : Checker)
    (hf : n < fuel) (hts : (tokenAt ts 0).kind ≠ chr '*') :
    pointers fuel (Front.on (stars n ++ ts) nb rt c) =
      Res.ok (n % 2 ^ 32) (Front.on ts nb rt c) := by
  rw [pointers, pointersLoop_on n fuel 0 ts nb rt c hf (by norm_num) hts, Nat.zero_add]

end Phase4
namespace Phase4

theorem isSpecifier_ne {k : Int} (h : isSpecifier k = true) :
    k ≠ DONE ∧ k ≠ VOID ∧ k ≠ chr '*' ∧ k ≠ ELLIPSIS ∧ k ≠ chr '{' ∧ k ≠ chr '}' := by
  rcases isSpecifier_cases h with rfl | rfl | rfl <;> decide

theorem tokenAt_cons_zero (t : Token) (ts : List Token) : tokenAt (t :: ts) 0 = t := rfl

theorem declarator_on (n fuel : Nat) (k : Int) (x : String) (ts : List Token) (nb : String)
    (rt : Ty) (c c1 : Checker) (r : Option Symbol)
    (hf : n < fuel) (hts : (tokenAt ts 0).kind ≠ chr '[')
    (hd : declareVariable x (Ty.scalar k (n % 2 ^ 32)) c = some (r, c1)) :
    declarator fuel k (Front.on (stars n ++ ⟨ID, x⟩ :: ts) nb rt c) =
      Res.ok () (Front.on ts nb rt c1) := by
  have hp := pointers_on n fuel (⟨ID, x⟩ :: ts) nb rt c hf
    (show ID ≠ chr '*' by decide)
  simp only [declarator, bind_apply, hp, bind_ok, identifier_on, getFront_apply, ite_apply,
    lookahead_on_tokenAt, beq_iff_eq, hts, if_false, call_on _ _ _ _ _ _ _ hd, pure_apply]

theorem declaration_on (n fuel : Nat) (k : Int) (kx x : String) (ts : List Token) (nb : String)
    (rt : Ty) (c c1 : Checker) (r : Option Symbol)
    (hk : isSpecifier k = true) (hf : n + 1 < fuel)
    (hd : declareVariable x (Ty.scalar k (n % 2 ^ 32)) c = some (r, c1)) :
    declaration fuel (Front.on (⟨k, kx⟩ :: (stars n ++ ⟨ID, x⟩ :: tok ';' :: ts)) nb rt c) =
      Res.ok () (Front.on ts nb rt c1) := by
  obtain ⟨fuel, rfl⟩ : ∃ m, fuel = m + 1 := ⟨fuel - 1, by omega⟩
  have h1 := declarator_on n (fuel + 1) k x (tok ';' :: ts) nb rt c c1 r (by omega)
    (show chr ';' ≠ chr '[' by decide) hd
  have h2 : (chr ';' == chr ',') = false := by decide
  simp only [tok] at h1
  simp only [declaration, bind_apply, specifier_on k kx _ nb rt c hk, bind_ok, h1, declarationLoop,
    getFront_apply, ite_apply, lookahead_on, tok, h2, pure_apply, match_on]
  exact match_on _ _ _ _ _ _

theorem declarations_one (n fuel : Nat) (k : Int) (kx x : String) (ts : List Token) (nb : String)
    (rt : Ty) (c c1 : Checker) (r : Option Symbol)
    (hk : isSpecifier k = true) (hf : n + 3 < fuel)
    (hts : isSpecifier (tokenAt ts 0).kind = false)
    (hd : declareVariable x (Ty.scalar k (n % 2 ^ 32)) c = some (r, c1)) :
    declarations fuel (Front.on (⟨k, kx⟩ :: (stars n ++ ⟨ID, x⟩ :: tok ';' :: ts)) nb rt c) =
      Res.ok () (Front.on ts nb rt c1) := by
  obtain ⟨fuel, rfl⟩ : ∃ m, fuel = m + 2 := ⟨fuel - 2, by omega⟩
  have h1 := declaration_on n (fuel + 1) k kx x ts nb rt c c1 r hk (by omega) hd
  simp only [declarations, bind_apply, getFront_apply, bind_ok, hk, if_true, h1,
    ite_apply, lookahead_on_tokenAt, tokenAt_cons_zero, hts, pure_apply]
  simp

theorem declarations_none (fuel : Nat) (s : Front) (hf : 0 < fuel)
    (hts : isSpecifier s.lookahead = false) :
    declarations fuel s = Res.ok () s := by
  obtain ⟨fuel, rfl⟩ : ∃ m, fuel = m + 1 := ⟨fuel - 1, by omega⟩
  simp [declarations, bind_apply, getFront_apply, bind_ok, ite_apply, hts, pure_apply]

theorem statementsAt_none (k fuel : Nat) (s : Front) (hf : 0 < fuel)
    (hts : s.lookahead = chr '}') :
    Lexical.statementsAt k fuel s = Res.ok () s := by
  obtain ⟨fuel, rfl⟩ : ∃ m, fuel = m + 1 := ⟨fuel - 1, by omega⟩
  simp [Lexical.statementsAt, bind_apply, getFront_apply, bind_ok, ite_apply, hts, pure_apply]

theorem parameter_on (p : Param) (fuel : Nat) (ts : List Token) (nb : String)
    (rt : Ty) (c c1 : Checker) (r : Option Symbol)
    (hk : isSpecifier p.spec.kind = true) (hf : p.indirection < fuel)
    (hd : declareVariable p.name p.type c = some (r, c1)) :
    parameter fuel (Front.on (p.tokens ++ ts) nb rt c) = Res.ok p.type (Front.on ts nb rt c1) := by
  obtain ⟨⟨k, kx⟩, n, x⟩ := p
  have hp := pointers_on n fuel (⟨ID, x⟩ :: ts) nb rt c hf
    (show ID ≠ chr '*' by decide)
  have e : (Param.mk ⟨k, kx⟩ n x).tokens ++ ts = ⟨k, kx⟩ :: (stars n ++ ⟨ID, x⟩ :: ts) := by
    simp [Param.tokens]
  rw [e]
  simp only [Param.type] at hd ⊢
  simp only [parameter, bind_apply, specifier_on k kx _ nb rt c hk, bind_ok, hp, identifier_on,
    call_on _ _ _ _ _ _ _ hd, pure_apply, Param.type]

theorem parametersLoop_on (ps : List Param) :
    ∀ (fuel : Nat) (params : Parameters) (ts : List Token) (nb : String) (rt : Ty)
      (c c1 : Checker),
      (∀ p ∈ ps, isSpecifier (Param.spec p).kind = true) →
      (∀ p ∈ ps, p.indirection + ps.length < fuel) → 0 < fuel →
      (tokenAt ts 0).kind ≠ chr ',' →
      declareAll ps c = some c1 →
      parametersLoop fuel params (Front.on (commaParams ps ++ ts) nb rt c) =
        Res.ok { params with types := params.types ++ ps.map Param.type }
          (Front.on ts nb rt c1) := by
  induction ps with
  | nil =>
      intro fuel params ts nb rt c c1 _ _ h0 hts hd
      obtain ⟨fuel, rfl⟩ : ∃ m, fuel = m + 1 := ⟨fuel - 1, by omega⟩
      obtain rfl : c = c1 := by simpa [declareAll] using hd
      simp [parametersLoop, commaParams, bind_apply, getFront_apply, bind_ok, ite_apply,
        lookahead_on_tokenAt, hts, pure_apply]
  | cons p ps ih =>
      intro fuel params ts nb rt c c1 hk hf _ hts hd
      have hfp := hf p (List.mem_cons_self _ _)
      obtain ⟨fuel, rfl⟩ : ∃ m, fuel = m + 1 := ⟨fuel - 1, by omega⟩
      simp only [List.length_cons] at hf hfp
      cases hd1 : declareVariable p.name p.type c with
      | none => simp [declareAll, hd1] at hd
      | some rc =>
          obtain ⟨r, c2⟩ := rc
          have hd2 : declareAll ps c2 = some c1 := by simpa [declareAll, hd1] using hd
          have hkp := hk p (List.mem_cons_self _ _)
          have hne : (tokenAt (p.tokens ++ (commaParams ps ++ ts)) 0).kind ≠ ELLIPSIS :=
            (isSpecifier_ne hkp).2.2.2.1
          have h1 := parameter_on p fuel (commaParams ps ++ ts) nb rt c c2 r hkp (by omega) hd1
          have h2 := ih fuel { params with types := params.types ++ [p.type] } ts nb rt c2 c1
            (fun q hq => hk q (List.mem_cons_of_mem _ hq))
            (fun q hq => by have := hf q (List.mem_cons_of_mem _ hq); omega) (by omega) hts hd2
          simp only [parametersLoop, commaParams, tok, List.cons_append, List.append_assoc,
            bind_apply, getFront_apply, bind_ok, ite_apply, lookahead_on_tokenAt, tokenAt_cons_zero,
            beq_self_eq_true, if_true, match_on, beq_iff_eq, hne, if_false, h1, h2, List.map_cons]
          simp

theorem parameters_on (p : Param) (ps : List Param) (fuel : Nat) (ts : List Token) (nb : String)
    (rt : Ty) (c c1 : Checker)
    (hk : ∀ q ∈ p :: ps, isSpecifier (Param.spec q).kind = true)
    (hf : ∀ q ∈ p :: ps, q.indirection + ps.length < fuel)
    (hts : (tokenAt ts 0).kind ≠ chr ',')
    (hd : declareAll (p :: ps) (openScope c).2 = some c1) :
    parameters fuel (Front.on (paramList (p :: ps) ++ ts) nb rt c) =
      Res.ok ⟨false, (p :: ps).map Param.type⟩ (Front.on ts nb rt c1) := by
  have hfp := hf p (List.mem_cons_self _ _)
  cases hd1 : declareVariable p.name p.type (openScope c).2 with
  | none => simp [declareAll, hd1] at hd
  | some rc =>
      obtain ⟨r, c2⟩ := rc
      have hd2 : declareAll ps c2 = some c1 := by simpa [declareAll, hd1] using hd
      have hkp := hk p (List.mem_cons_self _ _)
      have hne : (tokenAt (p.tokens ++ (commaParams ps ++ ts)) 0).kind ≠ VOID :=
        (isSpecifier_ne hkp).2.1
      have h1 := parameter_on p fuel (commaParams ps ++ ts) nb rt (openScope c).2 c2 r hkp
        (by omega) hd1
      have h2 := parametersLoop_on ps fuel ⟨false, [p.type]⟩ ts nb rt c2 c1
        (fun q hq => hk q (List.mem_cons_of_mem _ hq))
        (fun q hq => hf q (List.mem_cons_of_mem _ hq)) (by omega) hts hd2
      simp only [parameters, paramList, List.append_assoc, bind_apply, callTotal_on, bind_ok,
        getFront_apply, ite_apply, lookahead_on_tokenAt, beq_iff_eq, hne, if_false, h1,
        List.nil_append, h2, List.map_cons]
      simp

end Phase4
namespace Phase4

theorem sameScope_checker (tyP tyF tyQ : Ty) :
    ∃ r1 c2 r2 c3 r3 c4 r4 c5 r5 c6,
      declareVariable "x" tyP (openScope (openScope Checker.init).2).2 = some (r1, c2) ∧
      defineFunction "f" tyF c2 = some (r2, c3) ∧
      declareVariable "x" tyQ c3 = some (r3, c4) ∧
      closeScope c4 = some (r4, c5) ∧
      closeScope c5 = some (r5, c6) ∧
      c6.log = [⟨redeclared, "x"⟩] :=
  ⟨_, _, _, _, _, _, _, _, _, _, rfl, rfl, rfl, rfl, rfl, rfl⟩

theorem nestedScope_checker (tyP tyF tyQ : Ty) :
    ∃ r1 c2 r2 c3 r3 c4 r4 c5 r5 c6 r6 c7,
      declareVariable "x" tyP (openScope (openScope Checker.init).2).2 = some (r1, c2) ∧
      defineFunction "f" tyF c2 = some (r2, c3) ∧
      declareVariable "x" tyQ (openScope c3).2 = some (r3, c4) ∧
      closeScope c4 = some (r4, c5) ∧
      closeScope c5 = some (r5, c6) ∧
      closeScope c6 = some (r6, c7) ∧
      c7.log = [] :=
  ⟨_, _, _, _, _, _, _, _, _, _, _, _, rfl, rfl, rfl, rfl, rfl, rfl, rfl⟩

theorem mainLoop_step (fuel : Nat) (s : Front) (h : s.lookahead ≠ DONE) :
    Lexical.mainLoop (fuel + 1) s =
      (Lexical.topLevelDeclaration fuel s).bind (fun _ => Lexical.mainLoop fuel) := by
  simp [Lexical.mainLoop, bind_apply, getFront_apply, bind_ok, ite_apply, h]

theorem mainLoop_done (fuel : Nat) (s : Front) (h : s.lookahead = DONE) :
    Lexical.mainLoop (fuel + 1) s = Res.ok () s := by
  simp [Lexical.mainLoop, bind_apply, getFront_apply, bind_ok, ite_apply, h, pure_apply]

theorem sameScope_lexical (T P Q : Token) (a b c fuel : Nat)
    (hT : isSpecifier T.kind = true) (hP : isSpecifier P.kind = true)
    (hQ : isSpecifier Q.kind = true) (hf : a + b + c + 8 ≤ fuel) :
    Lexical.main fuel (sameScopeProgram T P Q a b c) = Res.exit 0 [⟨redeclared, "x"⟩] := by
  obtain ⟨fuel, rfl⟩ : ∃ k, fuel = k + 2 := ⟨fuel - 2, by omega⟩
  obtain ⟨T, tx⟩ := T
  obtain ⟨P, px⟩ := P
  obtain ⟨Q, qx⟩ := Q
  simp only at hT hP hQ
  obtain ⟨hT0, -, -⟩ := isSpecifier_ne hT
  obtain ⟨r1, c2, r2, c3, r3, c4, r4, c5, r5, c6, h1, h2, h3, h4, h5, h6⟩ :=
    sameScope_checker (Ty.scalar P (b % 2 ^ 32))
      (Ty.function T (a % 2 ^ 32) false [Ty.scalar P (b % 2 ^ 32)]) (Ty.scalar Q (c % 2 ^ 32))
  have e1 : ∀ (y lb nb : String) (rt : Ty) (c : Checker) (ts : List Token),
      specifier ⟨ts, y, T, 0, lb, nb, rt, c⟩ = Res.ok T (Front.on ts nb rt c) :=
    fun y lb nb rt c ts => specifier_at T _ hT rfl rfl
  have e2 := fun ts nb rt ck => pointers_on a (fuel + 1) (⟨ID, "f"⟩ :: ts) nb rt ck (by omega)
    (show ID ≠ chr '*' by decide)
  have e3 := fun ts nb rt ck ck1 (h : declareAll [⟨⟨P, px⟩, b, "x"⟩] (openScope ck).2 = some ck1) =>
    parameters_on ⟨⟨P, px⟩, b, "x"⟩ [] (fuel + 1) (tok ')' :: ts) nb rt ck ck1
      (by simpa using hP) (by simp; omega) (show chr ')' ≠ chr ',' by decide) h
  have e4 := fun ts (h : isSpecifier (tokenAt ts 0).kind = false) nb rt =>
    declarations_one c (fuel + 1) Q qx "x" ts nb rt c3 c4 r3 hQ (by omega) h h3
  have e5 : ∀ nb rt ck, Lexical.statementsAt 0 (fuel + 1) (Front.on [tok '}'] nb rt ck) =
      Res.ok () (Front.on [tok '}'] nb rt ck) :=
    fun nb rt ck => statementsAt_none 0 (fuel + 1) _ (by omega) rfl
  have hb1 : (chr '(' == chr '[') = false := by decide
  have e6 : declareAll [⟨⟨P, px⟩, b, "x"⟩] (openScope (openScope Checker.init).2).2 = some c2 := by
    show (declareVariable "x" (Ty.scalar P (b % 2 ^ 32)) _).bind _ = _
    rw [h1]; rfl
  simp only [Lexical.main, sameScopeProgram, Front.init, bind_apply, callTotal, bind_ok, yylex]
  rw [mainLoop_step _ _ hT0]
  simp only [bind_apply, bind_ok, getFront_apply, ite_apply, Lexical.topLevelDeclaration, e1, e2,
    identifier_on, lookahead_on_tokenAt, tokenAt_cons_zero, tok, hb1, Bool.false_eq_true, if_false,
    beq_self_eq_true, if_true, match_on]
  have e7 := e3 (tok '{' :: ⟨Q, qx⟩ :: (stars c ++ [⟨ID, "x"⟩, tok ';', tok '}'])) "" Ty.error _ _ e6
  simp only [paramList, Param.tokens, commaParams, List.append_nil, List.cons_append,
    List.append_assoc, List.nil_append, tok, List.map_cons, List.map_nil, Param.type] at e7
  have e8 := e4 [tok '}'] (by decide) "" (Ty.scalar T (a % 2 ^ 32))
  have e9 := e5 "" (Ty.scalar T (a % 2 ^ 32)) c4
  simp only [tok, List.cons_append, List.nil_append] at e8 e9
  simp only [e7, bind_apply, bind_ok, match_on, getFront_apply, lookahead_on_tokenAt,
    tokenAt_cons_zero, beq_self_eq_true, if_true, setReturnType_on, call_on _ _ _ _ _ _ _ h2,
    e8, e9, call_on _ _ _ _ _ _ _ h4, mainLoop_done _ _ (lookahead_on_nil _ _ _),
    call_on _ _ _ _ _ _ _ h5, exit, checker_on, h6]
  rfl

theorem statementsAt_step (k fuel : Nat) (s : Front) (h : s.lookahead ≠ chr '}') :
    Lexical.statementsAt k (fuel + 1) s =
      (Lexical.statementAt k fuel s).bind (fun _ => Lexical.statementsAt k fuel) := by
  simp [Lexical.statementsAt, bind_apply, getFront_apply, bind_ok, ite_apply, h]

theorem statementAt_block (k fuel : Nat) (s : Front) (h : s.lookahead = chr '{') :
    Lexical.statementAt k (fuel + 1) s =
      (do
        match_ (chr '{')
        let _ ← callTotal openScope
        declarations fuel
        Lexical.statementsAt k fuel
        let _ ← call closeScope
        match_ (chr '}') : PM Front Unit) s := by
  rw [Lexical.statementAt]
  simp only [bind_apply, getFront_apply, bind_ok, ite_apply, h, beq_self_eq_true, if_true]

theorem nestedScope_lexical (T P Q : Token) (a b c fuel : Nat)
    (hT : isSpecifier T.kind = true) (hP : isSpecifier P.kind = true)
    (hQ : isSpecifier Q.kind = true) (hf : a + b + c + 8 ≤ fuel) :
    Lexical.main fuel (nestedScopeProgram T P Q a b c) = Res.exit 0 [] := by
  obtain ⟨fuel, rfl⟩ : ∃ k, fuel = k + 4 := ⟨fuel - 4, by omega⟩
  obtain ⟨T, tx⟩ := T
  obtain ⟨P, px⟩ := P
  obtain ⟨Q, qx⟩ := Q
  simp only at hT hP hQ
  obtain ⟨hT0, -, -⟩ := isSpecifier_ne hT
  obtain ⟨r1, c2, r2, c3, r3, c4, r4, c5, r5, c6, r6, c7, h1, h2, h3, h4, h5, h6, h7⟩ :=
    nestedScope_checker (Ty.scalar P (b % 2 ^ 32))
      (Ty.function T (a % 2 ^ 32) false [Ty.scalar P (b % 2 ^ 32)]) (Ty.scalar Q (c % 2 ^ 32))
  have e1 : ∀ (y lb nb : String) (rt : Ty) (c : Checker) (ts : List Token),
      specifier ⟨ts, y, T, 0, lb, nb, rt, c⟩ = Res.ok T (Front.on ts nb rt c) :=
    fun y lb nb rt c ts => specifier_at T _ hT rfl rfl
  have e2 := fun ts nb rt ck => pointers_on a (fuel + 3) (⟨ID, "f"⟩ :: ts) nb rt ck (by omega)
    (show ID ≠ chr '*' by decide)
  have e3 := fun ts nb rt ck ck1 (h : declareAll [⟨⟨P, px⟩, b, "x"⟩] (openScope ck).2 = some ck1) =>
    parameters_on ⟨⟨P, px⟩, b, "x"⟩ [] (fuel + 3) (tok ')' :: ts) nb rt ck ck1
      (by simpa using hP) (by simp; omega) (show chr ')' ≠ chr ',' by decide) h
  have e4 := fun ts (h : isSpecifier (tokenAt ts 0).kind = false) nb rt =>
    declarations_one c (fuel + 1) Q qx "x" ts nb rt (openScope c3).2 c4 r3 hQ (by omega) h h3
  have e5 : ∀ n ts nb rt ck, Lexical.statementsAt 0 (n + 1) (Front.on (tok '}' :: ts) nb rt ck) =
      Res.ok () (Front.on (tok '}' :: ts) nb rt ck) :=
    fun n ts nb rt ck => statementsAt_none 0 (n + 1) _ (by omega) rfl
  have e10 : ∀ ts nb rt ck, declarations (fuel + 3) (Front.on (tok '{' :: ts) nb rt ck) =
      Res.ok () (Front.on (tok '{' :: ts) nb rt ck) :=
    fun ts nb rt ck => declarations_none (fuel + 3) _ (by omega)
      (show isSpecifier (chr '{') = false by decide)
  have e11 : ∀ ts nb rt ck, Lexical.statementsAt 0 (fuel + 3) (Front.on (tok '{' :: ts) nb rt ck) =
      ((Lexical.statementAt 0 (fuel + 2) (Front.on (tok '{' :: ts) nb rt ck)).bind
        (fun _ => Lexical.statementsAt 0 (fuel + 2))) :=
    fun ts nb rt ck => statementsAt_step 0 (fuel + 2) _ (show chr '{' ≠ chr '}' by decide)
  have e12 : ∀ ts nb rt ck, Lexical.statementAt 0 (fuel + 2) (Front.on (tok '{' :: ts) nb rt ck) =
      _ :=
    fun ts nb rt ck => statementAt_block 0 (fuel + 1) _ rfl
  have hb1 : (chr '(' == chr '[') = false := by decide
  have e6 : declareAll [⟨⟨P, px⟩, b, "x"⟩] (openScope (openScope Checker.init).2).2 = some c2 := by
    show (declareVariable "x" (Ty.scalar P (b % 2 ^ 32)) _).bind _ = _
    rw [h1]; rfl
  simp only [Lexical.main, nestedScopeProgram, Front.init, bind_apply, callTotal, bind_ok, yylex]
  rw [mainLoop_step _ _ hT0]
  simp only [bind_apply, bind_ok, getFront_apply, ite_apply, Lexical.topLevelDeclaration, e1, e2,
    identifier_on, lookahead_on_tokenAt, tokenAt_cons_zero, tok, hb1, Bool.false_eq_true, if_false,
    beq_self_eq_true, if_true, match_on]
  have e7 := e3 (tok '{' :: tok '{' :: ⟨Q, qx⟩ :: (stars c ++ [⟨ID, "x"⟩, tok ';', tok '}', tok '}']))
    "" Ty.error _ _ e6
  simp only [paramList, Param.tokens, commaParams, List.append_nil, List.cons_append,
    List.append_assoc, List.nil_append, tok, List.map_cons, List.map_nil, Param.type] at e7
  have e8 := e4 [tok '}', tok '}'] (by decide) "" (Ty.scalar T (a % 2 ^ 32))
  simp only [tok, List.cons_append, List.nil_append] at e8 e5 e10 e11 e12
  simp only [e7, bind_apply, bind_ok, match_on, getFront_apply, lookahead_on_tokenAt,
    tokenAt_cons_zero, beq_self_eq_true, if_true, setReturnType_on, call_on _ _ _ _ _ _ _ h2,
    e8, e5, e10, e11, e12, callTotal_on, call_on _ _ _ _ _ _ _ h4,
    mainLoop_done _ _ (lookahead_on_nil _ _ _),
    call_on _ _ _ _ _ _ _ h5, call_on _ _ _ _ _ _ _ h6, exit, checker_on, h7]
  rfl

end Phase4
namespace Phase3

open Phase4 (bind_apply bind_ok pure_apply stars tok tokenAt tokenAt_cons_zero)

theorem getParser_apply (s : Parser) : getParser s = Res.ok s s := rfl

theorem match_any3 (k : Int) (s : Parser) (h : s.lookahead = k) (hn : s.nexttoken = 0) :
    match_ k s = Res.ok () (Parser.on s.input s.nextbuf s.checker s.output) := by
  cases hi : s.input with
  | nil =>
      rw [match_nil3 k s h hn hi]
      simp [Parser.on, tokenAt, hn, hi]
  | cons tok rest =>
      rw [match_cons3 k s tok rest h hn hi]
      simp [Parser.on, tokenAt, hn, hi]

theorem match_on3 (k : Int) (x : String) (ts : List Token) (nb : String) (c : Checker)
    (out : List String) :
    match_ k (Parser.on (⟨k, x⟩ :: ts) nb c out) = Res.ok () (Parser.on ts nb c out) :=
  match_any3 k _ rfl rfl

theorem lexbuf_on3 (t : Token) (ts : List Token) (nb : String) (c : Checker) (out : List String) :
    (Parser.on (t :: ts) nb c out).lexbuf = t.text := rfl

theorem checker_on3 (ts : List Token) (nb : String) (c : Checker) (out : List String) :
    (Parser.on ts nb c out).checker = c := rfl

theorem lookahead_on_nil3 (nb : String) (c : Checker) (out : List String) :
    (Parser.on [] nb c out).lookahead = Phase4.DONE := rfl

theorem lookahead_on_tokenAt3 (ts : List Token) (nb : String) (c : Checker) (out : List String) :
    (Parser.on ts nb c out).lookahead = (tokenAt ts 0).kind := rfl

theorem call_on3 {α : Type} (f : Checker → Option (α × Checker)) (ts : List Token) (nb : String)
    (c c1 : Checker) (out : List String) (a : α) (h : f c = some (a, c1)) :
    call f (Parser.on ts nb c out) = Res.ok a (Parser.on ts nb c1 out) := by
  simp [call, Parser.on, h]

theorem callTotal_on3 {α : Type} (f : Checker → α × Checker) (ts : List Token) (nb : String)
    (c : Checker) (out : List String) :
    callTotal f (Parser.on ts nb c out) = Res.ok (f c).1 (Parser.on ts nb (f c).2 out) := rfl

theorem specifier_at3 (k : Int) (s : Parser) (hk : isSpecifier k = true) (h : s.lookahead = k)
    (hn : s.nexttoken = 0) :
    specifier s = Res.ok k (Parser.on s.input s.nextbuf s.checker s.output) := by
  simp [specifier, bind_apply, Phase4.ite_apply, getParser_apply, Res.bind, h, hk, match_any3 k s h hn,
    pure_apply]

theorem specifier_on3 (k : Int) (x : String) (ts : List Token) (nb : String)
    (c : Checker) (out : List String) (hk : isSpecifier k = true) :
    specifier (Parser.on (⟨k, x⟩ :: ts) nb c out) = Res.ok k (Parser.on ts nb c out) :=
  specifier_at3 k _ hk rfl rfl

theorem identifier_on3 (x : String) (ts : List Token) (nb : String) (c : Checker)
    (out : List String) :
    identifier (Parser.on (⟨Phase4.ID, x⟩ :: ts) nb c out) = Res.ok x (Parser.on ts nb c out) := by
  simp [identifier, bind_apply, getParser_apply, Res.bind, match_on3, pure_apply, lexbuf_on3]

theorem pointersLoop_on3 (n : Nat) :
    ∀ (fuel count : Nat) (ts : List Token) (nb : String) (c : Checker) (out : List String),
      n < fuel → count < 2 ^ 32 → (tokenAt ts 0).kind ≠ chr '*' →
      pointersLoop fuel count (Parser.on (stars n ++ ts) nb c out) =
        Res.ok ((count + n) % 2 ^ 32) (Parser.on ts nb c out) := by
  induction n with
  | zero =>
      intro fuel count ts nb c out hf hc hts
      obtain ⟨fuel, rfl⟩ : ∃ k, fuel = k + 1 := ⟨fuel - 1, by omega⟩
      have hl : (Parser.on ts nb c out).lookahead ≠ chr '*' := hts
      have hc1 : count % 4294967296 = count := Nat.mod_eq_of_lt hc
      simp [pointersLoop, stars, bind_apply, getParser_apply, Res.bind, hl, pure_apply, Phase4.ite_apply,
        hc1]
  | succ n ih =>
      intro fuel count ts nb c out hf hc hts
      obtain ⟨fuel, rfl⟩ : ∃ k, fuel = k + 1 := ⟨fuel - 1, by omega⟩
      rw [Phase4.stars_succ]
      simp only [pointersLoop, bind_apply, getParser_apply, Res.bind, lookahead_on_tokenAt3,
        tokenAt_cons_zero, beq_self_eq_true, if_true, match_on3]
      rw [ih fuel _ ts nb c out (by omega) (Nat.mod_lt _ (by norm_num)) hts]
      simp [Nat.add_assoc, Nat.add_comm 1 n]

theorem pointers_on3 (n fuel : Nat) (ts : List Token) (nb : String) (c : Checker)
    (out : List String) (hf : n < fuel) (hts : (tokenAt ts 0).kind ≠ chr '*') :
    pointers fuel (Parser.on (stars n ++ ts) nb c out) =
      Res.ok (n % 2 ^ 32) (Parser.on ts nb c out) := by
  rw [pointers, pointersLoop_on3 n fuel 0 ts nb c out hf (by norm_num) hts, Nat.zero_add]

theorem declarator_on3 (n fuel : Nat) (k : Int) (x : String) (ts : List Token) (nb : String)
    (c c1 : Checker) (out : List String) (r : Option Symbol)
    (hf : n < fuel) (hts : (tokenAt ts 0).kind ≠ chr '[')
    (hd : declareVariable x (Ty.scalar k (n % 2 ^ 32)) c = some (r, c1)) :
    declarator fuel k (Parser.on (stars n ++ ⟨Phase4.ID, x⟩ :: ts) nb c out) =
      Res.ok () (Parser.on ts nb c1 out) := by
  have hp := pointers_on3 n fuel (⟨Phase4.ID, x⟩ :: ts) nb c out hf
    (show Phase4.ID ≠ chr '*' by decide)
  simp only [declarator, bind_apply, hp, bind_ok, identifier_on3, getParser_apply, Phase4.ite_apply,
    lookahead_on_tokenAt3, beq_iff_eq, hts, if_false, call_on3 _ _ _ _ _ _ _ hd, pure_apply]

theorem declaration_on3 (n fuel : Nat) (k : Int) (kx x : String) (ts : List Token) (nb : String)
    (c c1 : Checker) (out : List String) (r : Option Symbol)
    (hk : isSpecifier k = true) (hf : n + 1 < fuel)
    (hd : declareVariable x (Ty.scalar k (n % 2 ^ 32)) c = some (r, c1)) :
    declaration fuel
        (Parser.on (⟨k, kx⟩ :: (stars n ++ ⟨Phase4.ID, x⟩ :: tok ';' :: ts)) nb c out) =
      Res.ok () (Parser.on ts nb c1 out) := by
  obtain ⟨fuel, rfl⟩ : ∃ m, fuel = m + 1 := ⟨fuel - 1, by omega⟩
  have h1 := declarator_on3 n (fuel + 1) k x (tok ';' :: ts) nb c c1 out r (by omega)
    (show chr ';' ≠ chr '[' by decide) hd
  have h2 : (chr ';' == chr ',') = false := by decide
  simp only [tok] at h1
  simp only [declaration, bind_apply, specifier_on3 k kx _ nb c out hk, bind_ok, h1,
    declarationLoop, getParser_apply, Phase4.ite_apply, lookahead_on_tokenAt3, tokenAt_cons_zero, tok, h2,
    pure_apply, match_on3]
  exact match_on3 _ _ _ _ _ _

theorem declarations_one3 (n fuel : Nat) (k : Int) (kx x : String) (ts : List Token)
    (nb : String) (c c1 : Checker) (out : List String) (r : Option Symbol)
    (hk : isSpecifier k = true) (hf : n + 3 < fuel)
    (hts : isSpecifier (tokenAt ts 0).kind = false)
    (hd : declareVariable x (Ty.scalar k (n % 2 ^ 32)) c = some (r, c1)) :
    declarations fuel
        (Parser.on (⟨k, kx⟩ :: (stars n ++ ⟨Phase4.ID, x⟩ :: tok ';' :: ts)) nb c out) =
      Res.ok () (Parser.on ts nb c1 out) := by
  obtain ⟨fuel, rfl⟩ : ∃ m, fuel = m + 2 := ⟨fuel - 2, by omega⟩
  have h1 := declaration_on3 n (fuel + 1) k kx x ts nb c c1 out r hk (by omega) hd
  simp only [declarations, bind_apply, getParser_apply, bind_ok, hk, if_true, h1,
    Phase4.ite_apply, lookahead_on_tokenAt3, tokenAt_cons_zero, hts, pure_apply]
  simp

theorem declarations_none3 (fuel : Nat) (s : Parser) (hf : 0 < fuel)
    (hts : isSpecifier s.lookahead = false) :
    declarations fuel s = Res.ok () s := by
  obtain ⟨fuel, rfl⟩ : ∃ m, fuel = m + 1 := ⟨fuel - 1, by omega⟩
  simp [declarations, bind_apply, getParser_apply, bind_ok, Phase4.ite_apply, hts, pure_apply]

theorem statements_none3 (fuel : Nat) (s : Parser) (hf : 0 < fuel)
    (hts : s.lookahead = chr '}') :
    statements fuel s = Res.ok () s := by
  obtain ⟨fuel, rfl⟩ : ∃ m, fuel = m + 1 := ⟨fuel - 1, by omega⟩
  simp [statements, bind_apply, getParser_apply, bind_ok, Phase4.ite_apply, hts, pure_apply]

theorem statements_step3 (fuel : Nat) (s : Parser) (h : s.lookahead ≠ chr '}') :
    statements (fuel + 1) s = (statement fuel s).bind (fun _ => statements fuel) := by
  simp [statements, bind_apply, getParser_apply, bind_ok, Phase4.ite_apply, h]

theorem statement_block3 (fuel : Nat) (s : Parser) (h : s.lookahead = chr '{') :
    statement (fuel + 1) s =
      (do
        match_ (chr '{')
        let _ ← callTotal openScope
        declarations fuel
        statements fuel
        let _ ← call closeScope
        match_ (chr '}') : PM Parser Unit) s := by
  rw [statement]
  simp only [bind_apply, getParser_apply, bind_ok, Phase4.ite_apply, h, beq_self_eq_true, if_true]

theorem parameters_one3 (n fuel : Nat) (k : Int) (kx x : String) (ts : List Token) (nb : String)
    (c c1 : Checker) (out : List String) (r : Option Symbol)
    (hk : isSpecifier k = true) (hf : n < fuel) (h0 : 0 < fuel)
    (hts : (tokenAt ts 0).kind ≠ chr ',')
    (hd : declareVariable x (Ty.scalar k (n % 2 ^ 32)) c = some (r, c1)) :
    parameters fuel (Parser.on (⟨k, kx⟩ :: (stars n ++ ⟨Phase4.ID, x⟩ :: ts)) nb c out) =
      Res.ok ⟨false, [Ty.scalar k (n % 2 ^ 32)]⟩ (Parser.on ts nb c1 out) := by
  obtain ⟨fuel1, hfu⟩ : ∃ m, fuel = m + 1 := ⟨fuel - 1, by omega⟩
  have hp := pointers_on3 n fuel (⟨Phase4.ID, x⟩ :: ts) nb c out hf
    (show Phase4.ID ≠ chr '*' by decide)
  have hv : k ≠ Phase4.VOID := by
    intro h; rw [h] at hk; exact absurd hk (by decide)
  have hl : parametersLoop fuel ⟨false, [Ty.scalar k (n % 2 ^ 32)]⟩ (Parser.on ts nb c1 out) =
      Res.ok ⟨false, [Ty.scalar k (n % 2 ^ 32)]⟩ (Parser.on ts nb c1 out) := by
    rw [hfu]
    simp [parametersLoop, bind_apply, getParser_apply, bind_ok, Phase4.ite_apply,
      lookahead_on_tokenAt3, hts, pure_apply]
  simp only [parameters, parameter, bind_apply, getParser_apply, bind_ok, Phase4.ite_apply,
    lookahead_on_tokenAt3, tokenAt_cons_zero, beq_iff_eq, hv, if_false,
    specifier_on3 k kx _ nb c out hk, hp, identifier_on3, call_on3 _ _ _ _ _ _ _ hd, pure_apply,
    List.nil_append, hl]

theorem mainLoop_step3 (fuel : Nat) (s : Parser) (h : s.lookahead ≠ Phase4.DONE) :
    mainLoop (fuel + 1) s = (topLevelDeclaration fuel s).bind (fun _ => mainLoop fuel) := by
  simp [mainLoop, bind_apply, getParser_apply, bind_ok, Phase4.ite_apply, h]

theorem mainLoop_done3 (fuel : Nat) (s : Parser) (h : s.lookahead = Phase4.DONE) :
    mainLoop (fuel + 1) s = Res.ok () s := by
  simp [mainLoop, bind_apply, getParser_apply, bind_ok, Phase4.ite_apply, h, pure_apply]

theorem sameScope_checker3 (tyP tyF tyQ : Ty) :
    ∃ r1 c2 r2 c3 r3 c4 r4 c5 r5 c6,
      declareVariable "x" tyP (openScope (openScope Checker.init).2).2 = some (r1, c2) ∧
      defineFunction "f" tyF c2 = some (r2, c3) ∧
      declareVariable "x" tyQ c3 = some (r3, c4) ∧
      closeScope c4 = some (r4, c5) ∧
      closeScope c5 = some (r5, c6) ∧
      c6.log = [⟨redeclared, "x"⟩] :=
  ⟨_, _, _, _, _, _, _, _, _, _, rfl, rfl, rfl, rfl, rfl, rfl⟩

theorem nestedScope_checker3 (tyP tyF tyQ : Ty) :
    ∃ r1 c2 r2 c3 r3 c4 r4 c5 r5 c6 r6 c7,
      declareVariable "x" tyP (openScope (openScope Checker.init).2).2 = some (r1, c2) ∧
      defineFunction "f" tyF c2 = some (r2, c3) ∧
      declareVariable "x" tyQ (openScope c3).2 = some (r3, c4) ∧
      closeScope c4 = some (r4, c5) ∧
      closeScope c5 = some (r5, c6) ∧
      closeScope c6 = some (r6, c7) ∧
      c7.log = [] :=
  ⟨_, _, _, _, _, _, _, _, _, _, _, _, rfl, rfl, rfl, rfl, rfl, rfl, rfl⟩

theorem sameScope_phase3 (T P Q : Token) (a b c fuel : Nat)
    (hT : isSpecifier T.kind = true) (hP : isSpecifier P.kind = true)
    (hQ : isSpecifier Q.kind = true) (hf : a + b + c + 8 ≤ fuel) :
    main fuel (Phase4.sameScopeProgram T P Q a b c) = Res.exit 0 [⟨redeclared, "x"⟩] := by
  obtain ⟨fuel, rfl⟩ : ∃ k, fuel = k + 2 := ⟨fuel - 2, by omega⟩
  obtain ⟨T, tx⟩ := T
  obtain ⟨P, px⟩ := P
  obtain ⟨Q, qx⟩ := Q
  simp only at hT hP hQ
  have hT0 : T ≠ Phase4.DONE := by
    intro h; rw [h] at hT; exact absurd hT (by decide)
  obtain ⟨r1, c2, r2, c3, r3, c4, r4, c5, r5, c6, h1, h2, h3, h4, h5, h6⟩ :=
    sameScope_checker3 (Ty.scalar P (b % 2 ^ 32))
      (Ty.function T (a % 2 ^ 32) false [Ty.scalar P (b % 2 ^ 32)]) (Ty.scalar Q (c % 2 ^ 32))
  have e1 : ∀ (y lb nb : String) (c : Checker) (out : List String) (ts : List Token),
      specifier ⟨ts, y, T, 0, lb, nb, c, out⟩ = Res.ok T (Parser.on ts nb c out) :=
    fun y lb nb c out ts => specifier_at3 T _ hT rfl rfl
  have e2 := fun ts nb ck out =>
    pointers_on3 a (fuel + 1) (⟨Phase4.ID, "f"⟩ :: ts) nb ck out (by omega)
      (show Phase4.ID ≠ chr '*' by decide)
  have e3 := fun ts nb out =>
    parameters_one3 b (fuel + 1) P px "x" (tok ')' :: ts) nb _ c2 out r1 hP (by omega) (by omega)
      (show chr ')' ≠ chr ',' by decide) h1
  have e4 := fun ts (h : isSpecifier (tokenAt ts 0).kind = false) nb out =>
    declarations_one3 c (fuel + 1) Q qx "x" ts nb c3 c4 out r3 hQ (by omega) h h3
  have e5 : ∀ nb ck out, statements (fuel + 1) (Parser.on [tok '}'] nb ck out) =
      Res.ok () (Parser.on [tok '}'] nb ck out) :=
    fun nb ck out => statements_none3 (fuel + 1) _ (by omega) rfl
  have hb1 : (chr '(' == chr '[') = false := by decide
  have e8 := e4 [tok '}'] (by decide) "" []
  have e9 := e5 "" c4 []
  simp only [tok, List.cons_append, List.nil_append] at e3 e8 e9
  simp only [main, Phase4.sameScopeProgram, Parser.init, bind_apply, callTotal, bind_ok, yylex,
    getParser_apply, setParser]
  rw [mainLoop_step3 _ _ hT0]
  simp only [bind_apply, bind_ok, getParser_apply, Phase4.ite_apply, topLevelDeclaration, e1, e2,
    identifier_on3, lookahead_on_tokenAt3, tokenAt_cons_zero, tok, hb1, Bool.false_eq_true,
    if_false, beq_self_eq_true, if_true, match_on3, callTotal_on3, e3,
    call_on3 _ _ _ _ _ _ _ h2, e8, e9, call_on3 _ _ _ _ _ _ _ h4,
    mainLoop_done3 _ _ (lookahead_on_nil3 _ _ _), call_on3 _ _ _ _ _ _ _ h5, exit, checker_on3, h6]
  rfl

theorem nestedScope_phase3 (T P Q : Token) (a b c fuel : Nat)
    (hT : isSpecifier T.kind = true) (hP : isSpecifier P.kind = true)
    (hQ : isSpecifier Q.kind = true) (hf : a + b + c + 8 ≤ fuel) :
    main fuel (Phase4.nestedScopeProgram T P Q a b c) = Res.exit 0 [] := by
  obtain ⟨fuel, rfl⟩ : ∃ k, fuel = k + 4 := ⟨fuel - 4, by omega⟩
  obtain ⟨T, tx⟩ := T
  obtain ⟨P, px⟩ := P
  obtain ⟨Q, qx⟩ := Q
  simp only at hT hP hQ
  have hT0 : T ≠ Phase4.DONE := by
    intro h; rw [h] at hT; exact absurd hT (by decide)
  obtain ⟨r1, c2, r2, c3, r3, c4, r4, c5, r5, c6, r6, c7, h1, h2, h3, h4, h5, h6, h7⟩ :=
    nestedScope_checker3 (Ty.scalar P (b % 2 ^ 32))
      (Ty.function T (a % 2 ^ 32) false [Ty.scalar P (b % 2 ^ 32)]) (Ty.scalar Q (c % 2 ^ 32))
  have e1 : ∀ (y lb nb : String) (c : Checker) (out : List String) (ts : List Token),
      specifier ⟨ts, y, T, 0, lb, nb, c, out⟩ = Res.ok T (Parser.on ts nb c out) :=
    fun y lb nb c out ts => specifier_at3 T _ hT rfl rfl
  have e2 := fun ts nb ck out =>
    pointers_on3 a (fuel + 3) (⟨Phase4.ID, "f"⟩ :: ts) nb ck out (by omega)
      (show Phase4.ID ≠ chr '*' by decide)
  have e3 := fun ts nb out =>
    parameters_one3 b (fuel + 3) P px "x" (tok ')' :: ts) nb _ c2 out r1 hP (by omega) (by omega)
      (show chr ')' ≠ chr ',' by decide) h1
  have e4 := fun ts (h : isSpecifier (tokenAt ts 0).kind = false) nb out =>
    declarations_one3 c (fuel + 1) Q qx "x" ts nb (openScope c3).2 c4 out r3 hQ (by omega) h h3
  have e5 : ∀ n ts nb ck out, statements (n + 1) (Parser.on (tok '}' :: ts) nb ck out) =
      Res.ok () (Parser.on (tok '}' :: ts) nb ck out) :=
    fun n ts nb ck out => statements_none3 (n + 1) _ (by omega) rfl
  have e10 : ∀ ts nb ck out, declarations (fuel + 3) (Parser.on (tok '{' :: ts) nb ck out) =
      Res.ok () (Parser.on (tok '{' :: ts) nb ck out) :=
    fun ts nb ck out => declarations_none3 (fuel + 3) _ (by omega)
      (show isSpecifier (chr '{') = false by decide)
  have e11 : ∀ ts nb ck out, statements (fuel + 3) (Parser.on (tok '{' :: ts) nb ck out) =
      ((statement (fuel + 2) (Parser.on (tok '{' :: ts) nb ck out)).bind
        (fun _ => statements (fuel + 2))) :=
    fun ts nb ck out => statements_step3 (fuel + 2) _ (show chr '{' ≠ chr '}' by decide)
  have e12 : ∀ ts nb ck out, statement (fuel + 2) (Parser.on (tok '{' :: ts) nb ck out) = _ :=
    fun ts nb ck out => statement_block3 (fuel + 1) _ rfl
  have hb1 : (chr '(' == chr '[') = false := by decide
  have e8 := e4 [tok '}', tok '}'] (by decide) "" []
  simp only [tok, List.cons_append, List.nil_append] at e3 e8 e5 e10 e11 e12
  simp only [main, Phase4.nestedScopeProgram, Parser.init, bind_apply, callTotal, bind_ok, yylex,
    getParser_apply, setParser]
  rw [mainLoop_step3 _ _ hT0]
  simp only [bind_apply, bind_ok, getParser_apply, Phase4.ite_apply, topLevelDeclaration, e1, e2,
    identifier_on3, lookahead_on_tokenAt3, tokenAt_cons_zero, tok, hb1, Bool.false_eq_true,
    if_false, beq_self_eq_true, if_true, match_on3, callTotal_on3, e3,
    call_on3 _ _ _ _ _ _ _ h2, e8, e5, e10, e11, e12, call_on3 _ _ _ _ _ _ _ h4,
    mainLoop_done3 _ _ (lookahead_on_nil3 _ _ _), call_on3 _ _ _ _ _ _ _ h5,
    call_on3 _ _ _ _ _ _ _ h6, exit, checker_on3, h7]
  rfl

end Phase3
/-- C34: in a function definition the parameters and the declarations of the
outermost block of the body are in one scope.  For all specifiers `T`, `P`,
`Q` and all numbers of stars after them, the parsers of phases 3 and 4 run to
the end of `T f(P x) { Q x; }` and report exactly one diagnostic,
`redeclaration of 'x'`; on `T f(P x) { { Q x; } }`, where the second `x`
is declared in a block of the body, they run to the end and report nothing. -/
theorem parameters_share_body_scope (T P Q : Token) (a b c fuel : Nat)
    (hT : Phase4.isSpecifier T.kind = true) (hP : Phase4.isSpecifier P.kind = true)
    (hQ : Phase4.isSpecifier Q.kind = true) (hf : a + b + c + 8 ≤ fuel) :
    Phase4.main fuel (Phase4.sameScopeProgram T P Q a b c) =
        Res.exit 0 [⟨redeclared, "x"⟩] ∧
      Phase4.main fuel (Phase4.nestedScopeProgram T P Q a b c) = Res.exit 0 [] ∧
      Phase3.main fuel (Phase4.sameScopeProgram T P Q a b c) =
        Res.exit 0 [⟨redeclared, "x"⟩] ∧
      Phase3.main fuel (Phase4.nestedScopeProgram T P Q a b c) = Res.exit 0 [] := by
  refine ⟨?_, ?_, Phase3.sameScope_phase3 T P Q a b c fuel hT hP hQ hf,
    Phase3.nestedScope_phase3 T P Q a b c fuel hT hP hQ hf⟩
  · rw [Phase4.main_refines, Phase4.sameScope_lexical T P Q a b c fuel hT hP hQ hf]; rfl
  · rw [Phase4.main_refines, Phase4.nestedScope_lexical T P Q a b c fuel hT hP hQ hf]; rfl

theorem parameters_share_body_scope_witness :
    Phase4.main 11 (Phase4.sameScopeProgram ⟨INT, "int"⟩ ⟨INT, "int"⟩ ⟨CHAR, "char"⟩ 0 1 2) =
        Res.exit 0 [⟨redeclared, "x"⟩] ∧
      Phase4.main 11 (Phase4.nestedScopeProgram ⟨INT, "int"⟩ ⟨INT, "int"⟩ ⟨CHAR, "char"⟩ 0 1 2) =
        Res.exit 0 [] ∧
      Phase3.main 11 (Phase4.sameScopeProgram ⟨INT, "int"⟩ ⟨INT, "int"⟩ ⟨CHAR, "char"⟩ 0 1 2) =
        Res.exit 0 [⟨redeclared, "x"⟩] ∧
      Phase3.main 11 (Phase4.nestedScopeProgram ⟨INT, "int"⟩ ⟨INT, "int"⟩ ⟨CHAR, "char"⟩ 0 1 2) =
        Res.exit 0 [] :=
  parameters_share_body_scope ⟨INT, "int"⟩ ⟨INT, "int"⟩ ⟨CHAR, "char"⟩ 0 1 2 11
    (by decide) (by decide) (by decide) (by decide)

namespace Phase4

theorem parametersLoop_run (ps : List Param) :
    ∀ (fuel : Nat) (params : Parameters) (ts : List Token) (nb : String) (rt : Ty)
      (c c1 : Checker),
      (∀ p ∈ ps, isSpecifier (Param.spec p).kind = true) →
      (∀ p ∈ ps, p.indirection < fuel) →
      declareAll ps c = some c1 →
      parametersLoop (fuel + ps.length) params (Front.on (commaParams ps ++ ts) nb rt c) =
        parametersLoop fuel { params with types := params.types ++ ps.map Param.type }
          (Front.on ts nb rt c1) := by
  induction ps with
  | nil =>
      intro fuel params ts nb rt c c1 _ _ hd
      obtain rfl : c = c1 := by simpa [declareAll] using hd
      simp [commaParams]
  | cons p ps ih =>
      intro fuel params ts nb rt c c1 hk hf hd
      have hfp := hf p (List.mem_cons_self _ _)
      cases hd1 : declareVariable p.name p.type c with
      | none => simp [declareAll, hd1] at hd
      | some rc =>
          obtain ⟨r, c2⟩ := rc
          have hd2 : declareAll ps c2 = some c1 := by simpa [declareAll, hd1] using hd
          have hkp := hk p (List.mem_cons_self _ _)
          have hne : (tokenAt (p.tokens ++ (commaParams ps ++ ts)) 0).kind ≠ ELLIPSIS :=
            (isSpecifier_ne hkp).2.2.2.1
          have h1 := parameter_on p (fuel + ps.length) (commaParams ps ++ ts) nb rt c c2 r hkp
            (by omega) hd1
          have h2 := ih fuel { params with types := params.types ++ [p.type] } ts nb rt c2 c1
            (fun q hq => hk q (List.mem_cons_of_mem _ hq))
            (fun q hq => hf q (List.mem_cons_of_mem _ hq)) hd2
          rw [List.length_cons, ← Nat.add_assoc]
          simp only [parametersLoop, commaParams, tok, List.cons_append, List.append_assoc,
            bind_apply, getFront_apply, bind_ok, ite_apply, lookahead_on_tokenAt, tokenAt_cons_zero,
            beq_self_eq_true, if_true, match_on, beq_iff_eq, hne, if_false, h1, h2, List.map_cons]
          simp

theorem parametersLoop_end (fuel : Nat) (params : Parameters) (ts : List Token) (nb : String)
    (rt : Ty) (c : Checker) (hts : (tokenAt ts 0).kind ≠ chr ',') :
    parametersLoop (fuel + 1) params (Front.on ts nb rt c) = Res.ok params (Front.on ts nb rt c) := by
  simp [parametersLoop, bind_apply, getFront_apply, bind_ok, ite_apply, lookahead_on_tokenAt, hts,
    pure_apply]

theorem parametersLoop_ellipsis (fuel : Nat) (params : Parameters) (x : String) (ts : List Token)
    (nb : String) (rt : Ty) (c : Checker) :
    parametersLoop (fuel + 1) params (Front.on (tok ',' :: ⟨ELLIPSIS, x⟩ :: ts) nb rt c) =
      Res.ok { params with variadic := true } (Front.on ts nb rt c) := by
  simp only [parametersLoop, bind_apply, getFront_apply, bind_ok, ite_apply, lookahead_on_tokenAt,
    tokenAt_cons_zero, tok, beq_self_eq_true, if_true, match_on, pure_apply]

theorem declareVariable_fresh (name : String) (type : Ty) (c : Checker) (i : Nat) (sc : Scope)
    (ht : c.toplevel = some i) (hs : c.scopes[i]? = some sc)
    (hx : ∀ y ∈ sc.symbols, y.name ≠ name) :
    ∃ r c1, declareVariable name type c = some (r, c1) ∧ c1.toplevel = some i ∧
      c1.scopes[i]? = some ⟨sc.enclosing, sc.symbols ++ [⟨c.symbols, name, type⟩]⟩ ∧
      c1.log = c.log := by
  have hfind : sc.find name = none := Scope.findIn_eq_none_iff.mpr hx
  have hi : i < c.scopes.length := by
    rcases Nat.lt_or_ge i c.scopes.length with h | h
    · exact h
    · rw [List.getElem?_eq_none h] at hs; cases hs
  refine ⟨some ⟨c.symbols, name, type⟩,
    ({ c with symbols := c.symbols + 1 } : Checker).setScope (some i)
      (sc.insert ⟨c.symbols, name, type⟩), ?_, ?_, ?_, ?_⟩
  · simp only [declareVariable, Checker.scope, ht, hs, hfind]
  · simp [Checker.setScope, ht]
  · simp [Checker.setScope, ht, Scope.insert, hi]
  · simp [Checker.setScope, ht]

theorem declareAll_fresh (ps : List Param) :
    ∀ (c : Checker) (i : Nat) (sc : Scope), c.toplevel = some i → c.scopes[i]? = some sc →
      (∀ p ∈ ps, ∀ y ∈ sc.symbols, y.name ≠ Param.name p) → (ps.map Param.name).Nodup →
      ∃ c1 sc1, declareAll ps c = some c1 ∧ c1.toplevel = some i ∧ c1.scopes[i]? = some sc1 ∧
        sc1.symbols.map (fun y => (y.name, y.type)) =
          sc.symbols.map (fun y => (y.name, y.type)) ++ ps.map (fun p => (p.name, p.type)) ∧
        c1.log = c.log := by
  induction ps with
  | nil =>
      intro c i sc ht hs _ _
      exact ⟨c, sc, rfl, ht, hs, by simp, rfl⟩
  | cons p ps ih =>
      intro c i sc ht hs hx hn
      obtain ⟨r, c2, h1, ht2, hs2, hl2⟩ := declareVariable_fresh p.name p.type c i sc ht hs
        (hx p (List.mem_cons_self _ _))
      rw [List.map_cons, List.nodup_cons] at hn
      obtain ⟨c1, sc1, h3, ht1, hs1, hm, hl1⟩ := ih c2 i _ ht2 hs2
        (by
          intro q hq y hy
          simp only [List.mem_append, List.mem_singleton] at hy
          rcases hy with hy | rfl
          · exact hx q (List.mem_cons_of_mem _ hq) y hy
          · intro h
            exact hn.1 (by rw [show p.name = q.name from h]; exact List.mem_map_of_mem _ hq))
        hn.2
      refine ⟨c1, sc1, ?_, ht1, hs1, ?_, hl1.trans hl2⟩
      · simp [declareAll, h1, h3]
      · simp [hm]

theorem openScope_fresh (c : Checker) :
    (openScope c).2.toplevel = some c.scopes.length ∧
      (openScope c).2.scopes[c.scopes.length]? = some ⟨c.toplevel, []⟩ ∧
      (openScope c).2.log = c.log := by
  simp only [openScope]
  split_ifs <;> simp

theorem parameters_void (fuel : Nat) (x : String) (ts : List Token) (nb : String) (rt : Ty)
    (c : Checker) :
    parameters fuel (Front.on (⟨VOID, x⟩ :: ts) nb rt c) =
      Res.ok ⟨false, []⟩ (Front.on ts nb rt (openScope c).2) := by
  simp only [parameters, bind_apply, callTotal_on, bind_ok, getFront_apply, ite_apply,
    lookahead_on_tokenAt, tokenAt_cons_zero, beq_self_eq_true, if_true, match_on, pure_apply]

theorem parameters_list (p : Param) (ps : List Param) (v : Bool) (fuel : Nat) (ts : List Token)
    (nb : String) (rt : Ty) (c c1 : Checker)
    (hk : ∀ q ∈ p :: ps, isSpecifier (Param.spec q).kind = true)
    (hf : ∀ q ∈ p :: ps, q.indirection + ps.length + 1 < fuel)
    (hts : (tokenAt ts 0).kind ≠ chr ',')
    (hd : declareAll (p :: ps) (openScope c).2 = some c1) :
    parameters fuel (Front.on ((ParamList.list p ps v).tokens ++ ts) nb rt c) =
      Res.ok ⟨v, (p :: ps).map Param.type⟩ (Front.on ts nb rt c1) := by
  have hfp := hf p (List.mem_cons_self _ _)
  obtain ⟨fuel, rfl⟩ : ∃ m, fuel = m + 1 + ps.length := ⟨fuel - 1 - ps.length, by omega⟩
  cases hd1 : declareVariable p.name p.type (openScope c).2 with
  | none => simp [declareAll, hd1] at hd
  | some rc =>
      obtain ⟨r, c2⟩ := rc
      have hd2 : declareAll ps c2 = some c1 := by simpa [declareAll, hd1] using hd
      have hkp := hk p (List.mem_cons_self _ _)
      have hne : ∀ rest, (tokenAt (p.tokens ++ rest) 0).kind ≠ VOID :=
        fun _ => (isSpecifier_ne hkp).2.1
      have h1 := fun rest => parameter_on p (fuel + 1 + ps.length) rest nb rt (openScope c).2 c2 r
        hkp (by omega) hd1
      have h2 := fun rest => parametersLoop_run ps (fuel + 1) ⟨false, [p.type]⟩ rest nb rt c2 c1
        (fun q hq => hk q (List.mem_cons_of_mem _ hq))
        (fun q hq => by have := hf q (List.mem_cons_of_mem _ hq); omega) hd2
      cases v with
      | false =>
          simp only [parameters, ParamList.tokens, paramList, List.append_assoc, bind_apply,
            callTotal_on, bind_ok, getFront_apply, ite_apply, lookahead_on_tokenAt, beq_iff_eq, hne,
            if_false, h1, List.nil_append, h2, Bool.false_eq_true, parametersLoop_end _ _ _ _ _ _ hts,
            List.map_cons]
          rfl
      | true =>
          simp only [parameters, ParamList.tokens, paramList, List.append_assoc, bind_apply,
            callTotal_on, bind_ok, getFront_apply, ite_apply, lookahead_on_tokenAt, beq_iff_eq, hne,
            if_false, h1, List.nil_append, h2, if_true, List.cons_append, parametersLoop_ellipsis,
            List.map_cons]

end Phase4
namespace Phase4

theorem declared_length_le (ds : List (String × Ty)) :
    ∀ acc : List (String × Ty), (declared acc ds).length ≤ acc.length + ds.length := by
  induction ds with
  | nil => intro acc; simp [declared]
  | cons d ds ih =>
      intro acc
      rw [declared]
      split
      · have := ih acc
        simp only [List.length_cons]
        omega
      · have := ih (acc ++ [d])
        simp only [List.length_append, List.length_singleton, List.length_cons, List.length_nil] at this ⊢
        omega

theorem declared_nodup (ds : List (String × Ty)) :
    ∀ acc : List (String × Ty), (acc.map Prod.fst ++ ds.map Prod.fst).Nodup →
      declared acc ds = acc ++ ds := by
  induction ds with
  | nil => intro acc _; simp [declared]
  | cons d ds ih =>
      intro acc h
      have hd : d.1 ∉ acc.map Prod.fst := by
        intro hm
        rw [List.nodup_append] at h
        exact h.2.2 hm (by simp)
      have h2 : ((acc ++ [d]).map Prod.fst ++ ds.map Prod.fst).Nodup := by
        simpa [List.append_assoc] using h
      rw [declared, if_neg (by simpa using hd), ih _ h2]
      simp

theorem declared_length_lt (ds : List (String × Ty)) :
    ∀ acc : List (String × Ty), (acc.map Prod.fst).Nodup →
      ¬ (acc.map Prod.fst ++ ds.map Prod.fst).Nodup →
      (declared acc ds).length < acc.length + ds.length := by
  induction ds with
  | nil => intro acc h1 h2; simp at h2; exact absurd h1 h2
  | cons d ds ih =>
      intro acc h1 h2
      rw [declared]
      split
      · have := declared_length_le ds acc
        simp only [List.length_cons]
        omega
      · rename_i hc
        have hd : d.1 ∉ acc.map Prod.fst := by simpa using hc
        have h3 : ((acc ++ [d]).map Prod.fst).Nodup := by
          rw [List.map_append, List.nodup_append]
          refine ⟨h1, by simp, ?_⟩
          intro x hx hy
          simp only [List.map_cons, List.map_nil, List.mem_singleton] at hy
          exact hd (hy ▸ hx)
        have h4 : ¬ ((acc ++ [d]).map Prod.fst ++ ds.map Prod.fst).Nodup := by
          simpa [List.append_assoc] using h2
        have := ih (acc ++ [d]) h3 h4
        simp only [List.length_append, List.length_singleton, List.length_cons, List.length_nil] at this ⊢
        omega

theorem declareVariable_scope (name : String) (type : Ty) (c : Checker) (i : Nat) (sc : Scope)
    (ht : c.toplevel = some i) (hs : c.scopes[i]? = some sc) :
    ∃ r c1 sc1, declareVariable name type c = some (r, c1) ∧ c1.toplevel = some i ∧
      c1.scopes[i]? = some sc1 ∧
      sc1.symbols.map (fun y => (y.name, y.type)) =
        declared (sc.symbols.map (fun y => (y.name, y.type))) [(name, type)] := by
  cases hfind : sc.find name with
  | none =>
      have hx : ∀ y ∈ sc.symbols, y.name ≠ name := Scope.findIn_eq_none_iff.mp hfind
      obtain ⟨r, c1, h1, h2, h3, _⟩ := declareVariable_fresh name type c i sc ht hs hx
      refine ⟨r, c1, _, h1, h2, h3, ?_⟩
      have hc : ((sc.symbols.map (fun y => (y.name, y.type))).map Prod.fst).contains name =
          false := by
        rw [List.contains_eq_any_beq, List.any_eq_false]
        intro x hx1
        simp only [List.map_map, List.mem_map, Function.comp] at hx1
        obtain ⟨y, hy, rfl⟩ := hx1
        simpa using fun h => hx y hy h.symm
      simp only [declared, hc, Bool.false_eq_true, if_false]
      simp
  | some sym =>
      have hc : ((sc.symbols.map (fun y => (y.name, y.type))).map Prod.fst).contains name =
          true := by
        rw [List.contains_eq_any_beq, List.any_eq_true]
        have hne : ¬ ∀ y ∈ sc.symbols, y.name ≠ name := by
          intro h
          have h0 := Scope.findIn_eq_none_iff.mpr h
          rw [Scope.find, h0] at hfind
          cases hfind
        push_neg at hne
        obtain ⟨y, hy, hyn⟩ := hne
        exact ⟨name, by
          simp only [List.map_map, List.mem_map, Function.comp]
          exact ⟨y, hy, hyn⟩, by simp⟩
      simp only [declared, hc, if_true]
      simp only [declareVariable, Checker.scope, ht, hs, hfind]
      split_ifs
      · exact ⟨_, _, sc, rfl, rfl, hs, rfl⟩
      · exact ⟨_, _, sc, rfl, rfl, hs, rfl⟩
      · exact ⟨_, _, sc, rfl, ht, hs, rfl⟩

theorem declared_append (ds es : List (String × Ty)) :
    ∀ acc : List (String × Ty), declared acc (ds ++ es) = declared (declared acc ds) es := by
  induction ds with
  | nil => intro acc; rfl
  | cons d ds ih =>
      intro acc
      simp only [List.cons_append, declared]
      split
      · exact ih acc
      · exact ih _

theorem declareAll_scope (ps : List Param) :
    ∀ (c : Checker) (i : Nat) (sc : Scope), c.toplevel = some i → c.scopes[i]? = some sc →
      ∃ c1 sc1, declareAll ps c = some c1 ∧ c1.toplevel = some i ∧ c1.scopes[i]? = some sc1 ∧
        sc1.symbols.map (fun y => (y.name, y.type)) =
          declared (sc.symbols.map (fun y => (y.name, y.type)))
            (ps.map (fun p => (p.name, p.type))) := by
  induction ps with
  | nil =>
      intro c i sc ht hs
      exact ⟨c, sc, rfl, ht, hs, rfl⟩
  | cons p ps ih =>
      intro c i sc ht hs
      obtain ⟨r, c2, sc2, h1, ht2, hs2, hm2⟩ := declareVariable_scope p.name p.type c i sc ht hs
      obtain ⟨c1, sc1, h3, ht1, hs1, hm⟩ := ih c2 i sc2 ht2 hs2
      refine ⟨c1, sc1, ?_, ht1, hs1, ?_⟩
      · simp [declareAll, h1, h3]
      · rw [hm, hm2, List.map_cons, ← declared_append]
        rfl

end Phase4

/-- C38: the scope of the parameters can have fewer symbols than the list
`types` has entries, and then the first loop of `Function::generate` of phase
5 indexes past the end of the symbols of the body or gives a parameter offset
to a local.  For every parameter list (`void`, or parameters with any
specifiers, stars and names, with or without a final `, ...`) the function
`parameters` of phase 4 returns with one entry of `types` per parameter
written, while the scope has one symbol per distinct name, in the order of
the first occurrences: `declareVariable` inserts nothing for a name that the
scope has.  When the names are pairwise different the symbols are the
parameters, one per entry of `types`; when a name is repeated the scope has
fewer symbols than `types` has entries, and `Function::generate`, for a
function symbol of that type and a body that declares nothing, indexes the
vector of symbols past its end.  Two runs of the parser: on
`int f(int a, int a) { }` the function symbol has two parameter types and
the scope of the body the one symbol `a`; on
`int f(int a, int b); int f(int a) { }` the symbol that `defineFunction`
finds is that of the declaration, with two parameter types, and the scope of
the body has the one symbol `a`.  In both, `Function::generate` reads
`some_symbols[1]` of a vector of one element, and if the body declares
`double d` it gives that local the parameter offset 12. -/
theorem parameter_count_exceeds_scope (l : Phase4.ParamList) (fuel : Nat) (ts : List Token)
    (nb : String) (rt : Ty) (c : Checker)
    (hk : ∀ p ∈ l.params, Phase4.isSpecifier (Phase4.Param.spec p).kind = true)
    (hf : ∀ p ∈ l.params, p.indirection + l.params.length < fuel)
    (hts : (Phase4.tokenAt ts 0).kind ≠ chr ',') :
    (∃ c1 syms, Phase4.parameters fuel (Phase4.Front.on (l.tokens ++ ts) nb rt c) =
        Res.ok ⟨l.variadic, l.params.map Phase4.Param.type⟩ (Phase4.Front.on ts nb rt c1) ∧
      Phase4.scopeSymbols c1 = some syms ∧
      syms = Phase4.declared [] (l.params.map (fun p => (p.name, p.type))) ∧
      ((l.params.map Phase4.Param.name).Nodup →
        syms = l.params.map (fun p => (p.name, p.type))) ∧
      (¬ (l.params.map Phase4.Param.name).Nodup →
        syms.length < (l.params.map Phase4.Param.type).length ∧
        ∀ (name : String) (spec : Int) (indirection : Nat) (body : List Phase5.Stmt),
          Phase5.Function.generateFor
            (name, Ty.function spec indirection l.variadic (l.params.map Phase4.Param.type))
            syms body = none)) ∧
    (Phase4.mainLoop 12 (Phase4.Parser.before Phase4.repeatedNameProgram)).mapState
        Phase4.Parser.scopes =
      Res.ok () ([[("f", Ty.function INT 0 false [Ty.scalar INT 0, Ty.scalar INT 0])],
        [("a", Ty.scalar INT 0)]], [⟨redeclared, "a"⟩]) ∧
    (Phase4.mainLoop 12 (Phase4.Parser.before Phase4.prototypeProgram)).mapState
        Phase4.Parser.scopes =
      Res.ok () ([[("f", Ty.function INT 0 false [Ty.scalar INT 0, Ty.scalar INT 0])],
        [("a", Ty.scalar INT 0), ("b", Ty.scalar INT 0)], [("a", Ty.scalar INT 0)]],
        [⟨conflicting, "f"⟩]) ∧
    Phase5.Function.generateFor
        ("f", Ty.function INT 0 false [Ty.scalar INT 0, Ty.scalar INT 0])
        [("a", Ty.scalar INT 0)] [] = none ∧
    (Phase5.Function.generateFor
        ("f", Ty.function INT 0 false [Ty.scalar INT 0, Ty.scalar INT 0])
        [("a", Ty.scalar INT 0), ("d", Ty.scalar DOUBLE 0)] []).map Prod.fst = some [8, 12] := by
  refine ⟨?_, by decide!, by decide!, by decide!, by decide!⟩
  cases l with
  | void =>
      refine ⟨(openScope c).2, [], Phase4.parameters_void fuel _ ts nb rt c, ?_, rfl,
        fun _ => rfl, fun h => absurd List.nodup_nil h⟩
      obtain ⟨h1, h2, -⟩ := Phase4.openScope_fresh c
      simp [Phase4.scopeSymbols, Checker.scope, h1, h2]
  | list p ps v =>
      obtain ⟨h1, h2, -⟩ := Phase4.openScope_fresh c
      obtain ⟨c1, sc1, hd, ht1, hs1, hm⟩ := Phase4.declareAll_scope (p :: ps) (openScope c).2
        c.scopes.length _ h1 h2
      have hnames : ((p :: ps).map (fun q : Phase4.Param => (q.name, q.type))).map Prod.fst =
          (p :: ps).map Phase4.Param.name := by
        simp [List.map_map, Function.comp]
      refine ⟨c1, _, Phase4.parameters_list p ps v fuel ts nb rt c c1 hk ?_ hts hd, ?_, rfl,
        ?_, ?_⟩
      · intro q hq
        have := hf q hq
        simp only [Phase4.ParamList.params, List.length_cons] at this
        omega
      · simpa [Phase4.scopeSymbols, Checker.scope, ht1, hs1] using hm
      · intro hn
        have h := Phase4.declared_nodup ((p :: ps).map (fun q => (q.name, q.type))) []
          (by rw [List.map_nil, List.nil_append, hnames]; exact hn)
        simpa using h
      · intro hn
        have h := Phase4.declared_length_lt ((p :: ps).map (fun q => (q.name, q.type))) []
          List.nodup_nil (by rw [List.map_nil, List.nil_append, hnames]; exact hn)
        simp only [List.length_nil, Nat.zero_add, List.length_map] at h
        refine ⟨by simpa [Phase4.ParamList.params] using h, ?_⟩
        intro name spec indirection body
        simp only [Phase5.Function.generateFor, Phase5.Function.generate, List.length_map,
          Phase4.ParamList.params]
        rw [if_pos h]

theorem parameter_count_exceeds_scope_witness :
    ∃ c1 syms, Phase4.parameters 4
        (Phase4.Front.on
          ((Phase4.ParamList.list ⟨⟨INT, "int"⟩, 0, "a"⟩ [⟨⟨INT, "int"⟩, 0, "a"⟩] false).tokens ++
            [Phase4.tok ')']) "" Ty.error (openScope Checker.init).2) =
        Res.ok ⟨false, [Ty.scalar INT 0, Ty.scalar INT 0]⟩
          (Phase4.Front.on [Phase4.tok ')'] "" Ty.error c1) ∧
      Phase4.scopeSymbols c1 = some syms ∧ syms = [("a", Ty.scalar INT 0)] ∧
      Phase5.Function.generateFor
        ("f", Ty.function INT 0 false [Ty.scalar INT 0, Ty.scalar INT 0]) syms [] = none := by
  obtain ⟨c1, syms, h1, h2, h3, -, h5⟩ := (parameter_count_exceeds_scope
    (Phase4.ParamList.list ⟨⟨INT, "int"⟩, 0, "a"⟩ [⟨⟨INT, "int"⟩, 0, "a"⟩] false) 4
    [Phase4.tok ')'] "" Ty.error (openScope Checker.init).2 (by decide) (by decide)
    (by decide)).1
  exact ⟨c1, syms, h1, h2, h3.trans (by decide), (h5 (by decide)).2 "f" INT 0 []⟩

namespace Phase4

theorem lift_getFront_apply (p : Parser) : lift getFront p = Res.ok p.front p := rfl

theorem bind_assoc_apply {σ α β γ : Type} (x : PM σ α) (f : α → PM σ β) (g : β → PM σ γ) :
    (x >>= f) >>= g = x >>= fun a => f a >>= g := by
  funext s
  show ((x s).bind f).bind g = (x s).bind (fun a => f a >>= g)
  cases x s <;> rfl

theorem statement_if (fuel : Nat) (p : Parser) (h : p.front.lookahead = IF) :
    statement (fuel + 1) p =
      (do
        ifHeader fuel
        statement fuel
        if (← lift getFront).lookahead == ELSE then
          lift (match_ ELSE)
          statement fuel
        else
          pure () : PM Parser Unit) p := by
  have h1 : (IF == chr '{') = false := by decide
  have h2 : (IF == BREAK) = false := by decide
  have h3 : (IF == RETURN) = false := by decide
  have h4 : (IF == WHILE) = false := by decide
  have h5 : (IF == FOR) = false := by decide
  rw [statement]
  simp only [ifHeader, bind_assoc_apply]
  simp only [bind_apply, lift_getFront_apply, bind_ok, ite_apply, h, h1, h2, h3, h4, h5,
    Bool.false_eq_true, if_false, beq_self_eq_true, if_true]

end Phase4

/-- C32, amended: when `statement` of phase 4 is at an `if`, has parsed
`if ( e2 )` and the statement `s1`, and the next token is `else`, it consumes
that `else` and parses one more statement `s2` as the else-branch.  So for
`if ( e1 ) if ( e2 ) s1 else s2 REST` the invocation that starts at the
second `if` consumes everything up to and including `s2`; and if `REST` does
not begin with `else`, the invocation that starts at the first `if` returns
in the same state, with `REST` remaining and without an else-branch of its
own. -/
theorem dangling_else_binds_nearest_if (fuel : Nat) (p0 p1 p2 p3 p4 p5 : Phase4.Parser)
    (h0 : p0.front.lookahead = Phase4.IF)
    (h1 : Phase4.ifHeader (fuel + 1) p0 = Res.ok () p1)
    (h2 : p1.front.lookahead = Phase4.IF)
    (h3 : Phase4.ifHeader fuel p1 = Res.ok () p2)
    (h4 : Phase4.statement fuel p2 = Res.ok () p3)
    (h5 : p3.front.lookahead = Phase4.ELSE)
    (h6 : Phase4.lift (Phase4.match_ Phase4.ELSE) p3 = Res.ok () p4)
    (h7 : Phase4.statement fuel p4 = Res.ok () p5)
    (h8 : p5.front.lookahead ≠ Phase4.ELSE) :
    Phase4.statement (fuel + 1) p1 = Res.ok () p5 ∧
      Phase4.statement (fuel + 2) p0 = Res.ok () p5 := by
  have hin : Phase4.statement (fuel + 1) p1 = Res.ok () p5 := by
    rw [Phase4.statement_if fuel p1 h2]
    simp only [Phase4.bind_apply, h3, Phase4.bind_ok, h4, Phase4.lift_getFront_apply,
      Phase4.ite_apply, h5, beq_self_eq_true, if_true, h6, h7]
  refine ⟨hin, ?_⟩
  rw [Phase4.statement_if (fuel + 1) p0 h0]
  simp only [Phase4.bind_apply, h1, Phase4.bind_ok, hin, Phase4.lift_getFront_apply,
    Phase4.ite_apply, beq_iff_eq, h8, if_false, Phase4.pure_apply]

theorem dangling_else_binds_nearest_if_witness :
    Phase4.statement 12 (Phase4.Parser.before (Phase4.nestedIfTokens.drop 4 ++ [Phase4.tok '}'])) =
        Res.ok () (Phase4.Parser.before [Phase4.tok '}']) ∧
      Phase4.statement 13 (Phase4.Parser.before (Phase4.nestedIfTokens ++ [Phase4.tok '}'])) =
        Res.ok () (Phase4.Parser.before [Phase4.tok '}']) :=
  dangling_else_binds_nearest_if 11
    (Phase4.Parser.before (Phase4.nestedIfTokens ++ [Phase4.tok '}']))
    (Phase4.Parser.before (Phase4.nestedIfTokens.drop 4 ++ [Phase4.tok '}']))
    (Phase4.Parser.before (Phase4.nestedIfTokens.drop 8 ++ [Phase4.tok '}']))
    (Phase4.Parser.before (Phase4.nestedIfTokens.drop 10 ++ [Phase4.tok '}']))
    (Phase4.Parser.before (Phase4.nestedIfTokens.drop 11 ++ [Phase4.tok '}']))
    (Phase4.Parser.before [Phase4.tok '}'])
    (by decide!) (by decide!) (by decide!) (by decide!) (by decide!) (by decide!) (by decide!)
    (by decide!) (by decide!)

/-- C32 as stated: on `if ( 1 ) if ( 2 ) 3 ; else 4 ; REST`, where `REST` is
`else 5 ;`, the invocation of `statement` that starts at the first `if` does
not return with `REST` remaining: the outer `if` consumes the `else` that
`REST` begins with and parses `5 ;` as its else-branch. -/
theorem dangling_else_counterexample :
    Phase4.statement 13 (Phase4.Parser.before
        (Phase4.nestedIfTokens ++
          [⟨Phase4.ELSE, "else"⟩, ⟨Phase4.INTEGER, "5"⟩, Phase4.tok ';', Phase4.tok '}'])) =
      Res.ok () (Phase4.Parser.before [Phase4.tok '}']) ∧
    Phase4.statement 12 (Phase4.Parser.before
        (Phase4.nestedIfTokens.drop 4 ++
          [⟨Phase4.ELSE, "else"⟩, ⟨Phase4.INTEGER, "5"⟩, Phase4.tok ';', Phase4.tok '}'])) =
      Res.ok () (Phase4.Parser.before
        [⟨Phase4.ELSE, "else"⟩, ⟨Phase4.INTEGER, "5"⟩, Phase4.tok ';', Phase4.tok '}']) := by
  decide!

/-! ## Termination of the parser of phase 4 -/

theorem Res.halts_of {σ α : Type} {r : Res σ α} {P Q : α → σ → Prop} (h : r.halts P)
    (hPQ : ∀ a s, P a s → Q a s) : r.halts Q := by
  cases r with
  | ok a s => exact hPQ a s h
  | exit status log => trivial
  | undefined => trivial
  | timeout => exact h

theorem Res.halts_ok {σ α : Type} (a : α) (s : σ) (Q : α → σ → Prop) :
    (Res.ok a s).halts Q ↔ Q a s := Iff.rfl

theorem Res.halts_exit {σ α : Type} (status : Int) (log : Log) (Q : α → σ → Prop) :
    (Res.exit status log : Res σ α).halts Q ↔ True := Iff.rfl

theorem Res.halts_undefined {σ α : Type} (Q : α → σ → Prop) :
    (Res.undefined : Res σ α).halts Q ↔ True := Iff.rfl

theorem Res.halts_bind {σ α β : Type} (r : Res σ α) (f : α → σ → Res σ β) (Q : β → σ → Prop) :
    (r.bind f).halts Q ↔ r.halts (fun a s => (f a s).halts Q) := by
  cases r <;> exact Iff.rfl

theorem Res.halts_ne_timeout {σ α : Type} {r : Res σ α} {Q : α → σ → Prop} (h : r.halts Q) :
    r ≠ Res.timeout := by
  intro e; rw [e] at h; exact h

theorem Res.halts_mapState {σ τ α : Type} (g : σ → τ) (r : Res σ α) (Q : α → τ → Prop) :
    (r.mapState g).halts Q ↔ r.halts (fun a s => Q a (g s)) := by
  cases r <;> exact Iff.rfl

namespace Phase4

theorem size_checker (s : Front) (c : Checker) : ({ s with checker := c } : Front).size = s.size :=
  rfl

theorem size_returnType (s : Front) (t : Ty) :
    ({ s with returnType := t } : Front).size = s.size := rfl

theorem check_halts (f : Log → Ty × Log) (s : Front) :
    (check f s).halts (fun _ s1 => s1.size = s.size) := rfl

theorem checkOnly_halts (f : Log → Log) (s : Front) :
    (checkOnly f s).halts (fun _ s1 => s1.size = s.size) := rfl

theorem callTotal_halts {α : Type} (f : Checker → α × Checker) (s : Front) :
    (callTotal f s).halts (fun _ s1 => s1.size = s.size) := rfl

theorem setReturnType_halts (t : Ty) (s : Front) :
    (setReturnType t s).halts (fun _ s1 => s1.size = s.size) := rfl

theorem error_halts {α : Type} (s : Front) (Q : α → Front → Prop) :
    ((error : PM Front α) s).halts Q ↔ True := Iff.rfl

theorem exit_halts {α : Type} (status : Int) (s : Front) (Q : α → Front → Prop) :
    ((exit status : PM Front α) s).halts Q ↔ True := Iff.rfl

theorem outOfFuel_halts {σ α : Type} (s : σ) (Q : α → σ → Prop) :
    ((outOfFuel : PM σ α) s).halts Q ↔ False := Iff.rfl

theorem call_halts {α : Type} (f : Checker → Option (α × Checker)) (s : Front) :
    (call f s).halts (fun _ s1 => s1.size = s.size) := by
  unfold call
  split
  · trivial
  · rfl

theorem match_halts (t : Int) (s : Front) (ht : t ≠ 0) :
    (match_ t s).halts (fun _ s1 => s1.size < s.size) := by
  by_cases h : s.lookahead = t
  · have hl : s.lookahead ≠ 0 := by rw [h]; exact ht
    by_cases hn : s.nexttoken = 0
    · cases hi : s.input with
      | nil =>
          rw [match_nil t s h hn hi]
          simp [Res.halts, Front.size, hn, hi, hl, DONE]
      | cons tok rest =>
          rw [match_cons t s tok rest h hn hi]
          simp only [Res.halts, Front.size, hn, hi, hl, if_true, if_false, List.length_cons]
          split_ifs <;> omega
    · rw [match_peeked t s h hn]
      simp [Res.halts, Front.size, hn, hl]
  · rw [match_fail t s h]
    trivial

theorem peek_halts (s : Front) :
    (peek s).halts (fun _ s1 => s1.size ≤ s.size) := by
  by_cases hn : s.nexttoken = 0
  · cases hi : s.input with
    | nil =>
        rw [peek_nil s hn hi]
        simp [Res.halts, Front.size, hn, hi, DONE]
    | cons tok rest =>
        rw [peek_cons s tok rest hn hi]
        simp only [Res.halts, Front.size, hn, hi, if_true, List.length_cons]
        split_ifs <;> omega
  · rw [peek_peeked s hn]
    exact Nat.le_refl _

end Phase4
namespace Phase4

theorem halts_ite {σ α : Type} (c : Prop) [Decidable c] (a b : Res σ α) (Q : α → σ → Prop) :
    (if c then a else b).halts Q ↔ if c then a.halts Q else b.halts Q := by
  split <;> exact Iff.rfl

theorem isSpecifier_ne_zero {k : Int} (h : isSpecifier k = true) : k ≠ 0 :=
  (isSpecifier_ne h).1

theorem specifier_halts (s : Front) :
    (specifier s).halts (fun _ s1 => s1.size < s.size) := by
  unfold specifier
  simp only [bind_apply, Res.halts_bind, getFront_apply, pure_apply, ite_apply, Res.halts_ok,
    halts_ite]
  split
  · rename_i h
    exact Res.halts_of (match_halts _ _ (isSpecifier_ne_zero h)) (fun _ _ h1 => h1)
  · trivial

theorem identifier_halts (s : Front) :
    (identifier s).halts (fun _ s1 => s1.size < s.size) := by
  unfold identifier
  simp only [bind_apply, Res.halts_bind, getFront_apply, pure_apply, Res.halts_ok]
  exact match_halts _ _ (by decide)

theorem integer_halts (s : Front) :
    (integer s).halts (fun _ s1 => s1.size < s.size) := by
  unfold integer
  simp only [bind_apply, Res.halts_bind, getFront_apply, pure_apply, Res.halts_ok]
  exact match_halts _ _ (by decide)

theorem startsTypeName_halts (s : Front) :
    (startsTypeName s).halts (fun _ s1 => s1.size ≤ s.size) := by
  unfold startsTypeName
  simp only [bind_apply, Res.halts_bind, getFront_apply, pure_apply, ite_apply, Res.halts_ok,
    halts_ite]
  split
  · exact Res.halts_of (peek_halts s) (fun _ _ h1 => h1)
  · exact Nat.le_refl _

theorem pointersLoop_halts :
    ∀ (fuel count : Nat) (s : Front), s.size < fuel →
      (pointersLoop fuel count s).halts (fun _ s1 => s1.size ≤ s.size) := by
  intro fuel
  induction fuel with
  | zero => intro count s h; omega
  | succ fuel ih =>
      intro count s hf
      rw [pointersLoop]
      repeat' first
        | omega
        | refine Res.halts_of (match_halts _ _ (by decide)) (fun _ _ _ => ?_)
        | refine Res.halts_of (ih _ _ (by omega)) (fun _ _ _ => ?_)
        | simp only [bind_apply, Res.halts_bind, getFront_apply, pure_apply, ite_apply,
            Res.halts_ok, halts_ite]
        | split

theorem pointers_halts (fuel : Nat) (s : Front) (hf : s.size < fuel) :
    (pointers fuel s).halts (fun _ s1 => s1.size ≤ s.size) :=
  pointersLoop_halts fuel 0 s hf

theorem argumentsLoop_halts_le (operand : Bool → PM Front (Ty × Bool)) (m : Nat)
    (hop : ∀ lv s, s.size < m → (operand lv s).halts (fun _ s1 => s1.size < s.size)) :
    ∀ (fuel : Nat) (types : List Ty) (lv : Bool) (s : Front), s.size ≤ m → s.size < fuel →
      (argumentsLoop operand fuel types lv s).halts (fun _ s1 => s1.size ≤ s.size) := by
  intro fuel
  induction fuel with
  | zero => intro types lv s _ h; omega
  | succ fuel ih =>
      intro types lv s hm hf
      rw [argumentsLoop]
      repeat' first
        | omega
        | refine Res.halts_of (match_halts _ _ (by decide)) (fun _ _ _ => ?_)
        | refine Res.halts_of (check_halts _ _) (fun _ _ _ => ?_)
        | refine Res.halts_of (hop _ _ (by omega)) (fun _ _ _ => ?_)
        | refine Res.halts_of (ih _ _ _ (by omega) (by omega)) (fun _ _ _ => ?_)
        | simp only [bind_apply, Res.halts_bind, getFront_apply, pure_apply, ite_apply,
            Res.halts_ok, halts_ite]
        | split

theorem argumentsLoop_halts (operand : Bool → PM Front (Ty × Bool)) (fuel : Nat) (types : List Ty)
    (lv : Bool) (s : Front)
    (hop : ∀ lv s1, s1.size < s.size → (operand lv s1).halts (fun _ s2 => s2.size < s1.size))
    (hf : s.size < fuel) :
    (argumentsLoop operand fuel types lv s).halts (fun _ s1 => s1.size ≤ s.size) :=
  argumentsLoop_halts_le operand s.size hop fuel types lv s (Nat.le_refl _) hf

theorem postfixLoop_halts_le (operand : Bool → PM Front (Ty × Bool)) (m : Nat)
    (hop : ∀ lv s, s.size < m → (operand lv s).halts (fun _ s1 => s1.size < s.size)) :
    ∀ (fuel : Nat) (left : Ty) (lv : Bool) (s : Front), s.size ≤ m → s.size < fuel →
      (postfixLoop operand fuel left lv s).halts (fun _ s1 => s1.size ≤ s.size) := by
  intro fuel
  induction fuel with
  | zero => intro left lv s _ h; omega
  | succ fuel ih =>
      intro left lv s hm hf
      rw [postfixLoop]
      repeat' first
        | omega
        | refine Res.halts_of (match_halts _ _ (by decide)) (fun _ _ _ => ?_)
        | refine Res.halts_of (check_halts _ _) (fun _ _ _ => ?_)
        | refine Res.halts_of (hop _ _ (by omega)) (fun _ _ _ => ?_)
        | refine Res.halts_of (ih _ _ _ (by omega) (by omega)) (fun _ _ _ => ?_)
        | simp only [bind_apply, Res.halts_bind, getFront_apply, pure_apply, ite_apply,
            Res.halts_ok, halts_ite]
        | split

theorem postfixLoop_halts (operand : Bool → PM Front (Ty × Bool)) (fuel : Nat) (left : Ty)
    (lv : Bool) (s : Front)
    (hop : ∀ lv s1, s1.size < s.size → (operand lv s1).halts (fun _ s2 => s2.size < s1.size))
    (hf : s.size < fuel) :
    (postfixLoop operand fuel left lv s).halts (fun _ s1 => s1.size ≤ s.size) :=
  postfixLoop_halts_le operand s.size hop fuel left lv s (Nat.le_refl _) hf

theorem multiplicativeLoop_halts_le (operand : Bool → PM Front (Ty × Bool)) (m : Nat)
    (hop : ∀ lv s, s.size < m → (operand lv s).halts (fun _ s1 => s1.size < s.size)) :
    ∀ (fuel : Nat) (left : Ty) (lv : Bool) (s : Front), s.size ≤ m → s.size < fuel →
      (multiplicativeLoop operand fuel left lv s).halts (fun _ s1 => s1.size ≤ s.size) := by
  intro fuel
  induction fuel with
  | zero => intro left lv s _ h; omega
  | succ fuel ih =>
      intro left lv s hm hf
      rw [multiplicativeLoop]
      repeat' first
        | omega
        | refine Res.halts_of (match_halts _ _ (by decide)) (fun _ _ _ => ?_)
        | refine Res.halts_of (check_halts _ _) (fun _ _ _ => ?_)
        | refine Res.halts_of (hop _ _ (by omega)) (fun _ _ _ => ?_)
        | refine Res.halts_of (ih _ _ _ (by omega) (by omega)) (fun _ _ _ => ?_)
        | simp only [bind_apply, Res.halts_bind, getFront_apply, pure_apply, ite_apply,
            Res.halts_ok, halts_ite]
        | split

theorem multiplicativeLoop_halts (operand : Bool → PM Front (Ty × Bool)) (fuel : Nat) (left : Ty)
    (lv : Bool) (s : Front)
    (hop : ∀ lv s1, s1.size < s.size → (operand lv s1).halts (fun _ s2 => s2.size < s1.size))
    (hf : s.size < fuel) :
    (multiplicativeLoop operand fuel left lv s).halts (fun _ s1 => s1.size ≤ s.size) :=
  multiplicativeLoop_halts_le operand s.size hop fuel left lv s (Nat.le_refl _) hf

theorem additiveLoop_halts_le (operand : Bool → PM Front (Ty × Bool)) (m : Nat)
    (hop : ∀ lv s, s.size < m → (operand lv s).halts (fun _ s1 => s1.size < s.size)) :
    ∀ (fuel : Nat) (left : Ty) (lv : Bool) (s : Front), s.size ≤ m → s.size < fuel →
      (additiveLoop operand fuel left lv s).halts (fun _ s1 => s1.size ≤ s.size) := by
  intro fuel
  induction fuel with
  | zero => intro left lv s _ h; omega
  | succ fuel ih =>
      intro left lv s hm hf
      rw [additiveLoop]
      repeat' first
        | omega
        | refine Res.halts_of (match_halts _ _ (by decide)) (fun _ _ _ => ?_)
        | refine Res.halts_of (check_halts _ _) (fun _ _ _ => ?_)
        | refine Res.halts_of (hop _ _ (by omega)) (fun _ _ _ => ?_)
        | refine Res.halts_of (ih _ _ _ (by omega) (by omega)) (fun _ _ _ => ?_)
        | simp only [bind_apply, Res.halts_bind, getFront_apply, pure_apply, ite_apply,
            Res.halts_ok, halts_ite]
        | split

theorem additiveLoop_halts (operand : Bool → PM Front (Ty × Bool)) (fuel : Nat) (left : Ty)
    (lv : Bool) (s : Front)
    (hop : ∀ lv s1, s1.size < s.size → (operand lv s1).halts (fun _ s2 => s2.size < s1.size))
    (hf : s.size < fuel) :
    (additiveLoop operand fuel left lv s).halts (fun _ s1 => s1.size ≤ s.size) :=
  additiveLoop_halts_le operand s.size hop fuel left lv s (Nat.le_refl _) hf

theorem relationalLoop_halts_le (operand : Bool → PM Front (Ty × Bool)) (m : Nat)
    (hop : ∀ lv s, s.size < m → (operand lv s).halts (fun _ s1 => s1.size < s.size)) :
    ∀ (fuel : Nat) (left : Ty) (lv : Bool) (s : Front), s.size ≤ m → s.size < fuel →
      (relationalLoop operand fuel left lv s).halts (fun _ s1 => s1.size ≤ s.size) := by
  intro fuel
  induction fuel with
  | zero => intro left lv s _ h; omega
  | succ fuel ih =>
      intro left lv s hm hf
      rw [relationalLoop]
      repeat' first
        | omega
        | refine Res.halts_of (match_halts _ _ (by decide)) (fun _ _ _ => ?_)
        | refine Res.halts_of (check_halts _ _) (fun _ _ _ => ?_)
        | refine Res.halts_of (hop _ _ (by omega)) (fun _ _ _ => ?_)
        | refine Res.halts_of (ih _ _ _ (by omega) (by omega)) (fun _ _ _ => ?_)
        | simp only [bind_apply, Res.halts_bind, getFront_apply, pure_apply, ite_apply,
            Res.halts_ok, halts_ite]
        | split

theorem relationalLoop_halts (operand : Bool → PM Front (Ty × Bool)) (fuel : Nat) (left : Ty)
    (lv : Bool) (s : Front)
    (hop : ∀ lv s1, s1.size < s.size → (operand lv s1).halts (fun _ s2 => s2.size < s1.size))
    (hf : s.size < fuel) :
    (relationalLoop operand fuel left lv s).halts (fun _ s1 => s1.size ≤ s.size) :=
  relationalLoop_halts_le operand s.size hop fuel left lv s (Nat.le_refl _) hf

theorem equalityLoop_halts_le (operand : Bool → PM Front (Ty × Bool)) (m : Nat)
    (hop : ∀ lv s, s.size < m → (operand lv s).halts (fun _ s1 => s1.size < s.size)) :
    ∀ (fuel : Nat) (left : Ty) (lv : Bool) (s : Front), s.size ≤ m → s.size < fuel →
      (equalityLoop operand fuel left lv s).halts (fun _ s1 => s1.size ≤ s.size) := by
  intro fuel
  induction fuel with
  | zero => intro left lv s _ h; omega
  | succ fuel ih =>
      intro left lv s hm hf
      rw [equalityLoop]
      repeat' first
        | omega
        | refine Res.halts_of (match_halts _ _ (by decide)) (fun _ _ _ => ?_)
        | refine Res.halts_of (check_halts _ _) (fun _ _ _ => ?_)
        | refine Res.halts_of (hop _ _ (by omega)) (fun _ _ _ => ?_)
        | refine Res.halts_of (ih _ _ _ (by omega) (by omega)) (fun _ _ _ => ?_)
        | simp only [bind_apply, Res.halts_bind, getFront_apply, pure_apply, ite_apply,
            Res.halts_ok, halts_ite]
        | split

theorem equalityLoop_halts (operand : Bool → PM Front (Ty × Bool)) (fuel : Nat) (left : Ty)
    (lv : Bool) (s : Front)
    (hop : ∀ lv s1, s1.size < s.size → (operand lv s1).halts (fun _ s2 => s2.size < s1.size))
    (hf : s.size < fuel) :
    (equalityLoop operand fuel left lv s).halts (fun _ s1 => s1.size ≤ s.size) :=
  equalityLoop_halts_le operand s.size hop fuel left lv s (Nat.le_refl _) hf

theorem logicalAndLoop_halts_le (operand : Bool → PM Front (Ty × Bool)) (m : Nat)
    (hop : ∀ lv s, s.size < m → (operand lv s).halts (fun _ s1 => s1.size < s.size)) :
    ∀ (fuel : Nat) (left : Ty) (lv : Bool) (s : Front), s.size ≤ m → s.size < fuel →
      (logicalAndLoop operand fuel left lv s).halts (fun _ s1 => s1.size ≤ s.size) := by
  intro fuel
  induction fuel with
  | zero => intro left lv s _ h; omega
  | succ fuel ih =>
      intro left lv s hm hf
      rw [logicalAndLoop]
      repeat' first
        | omega
        | refine Res.halts_of (match_halts _ _ (by decide)) (fun _ _ _ => ?_)
        | refine Res.halts_of (check_halts _ _) (fun _ _ _ => ?_)
        | refine Res.halts_of (hop _ _ (by omega)) (fun _ _ _ => ?_)
        | refine Res.halts_of (ih _ _ _ (by omega) (by omega)) (fun _ _ _ => ?_)
        | simp only [bind_apply, Res.halts_bind, getFront_apply, pure_apply, ite_apply,
            Res.halts_ok, halts_ite]
        | split

theorem logicalAndLoop_halts (operand : Bool → PM Front (Ty × Bool)) (fuel : Nat) (left : Ty)
    (lv : Bool) (s : Front)
    (hop : ∀ lv s1, s1.size < s.size → (operand lv s1).halts (fun _ s2 => s2.size < s1.size))
    (hf : s.size < fuel) :
    (logicalAndLoop operand fuel left lv s).halts (fun _ s1 => s1.size ≤ s.size) :=
  logicalAndLoop_halts_le operand s.size hop fuel left lv s (Nat.le_refl _) hf

theorem expressionLoop_halts_le (operand : Bool → PM Front (Ty × Bool)) (m : Nat)
    (hop : ∀ lv s, s.size < m → (operand lv s).halts (fun _ s1 => s1.size < s.size)) :
    ∀ (fuel : Nat) (left : Ty) (lv : Bool) (s : Front), s.size ≤ m → s.size < fuel →
      (expressionLoop operand fuel left lv s).halts (fun _ s1 => s1.size ≤ s.size) := by
  intro fuel
  induction fuel with
  | zero => intro left lv s _ h; omega
  | succ fuel ih =>
      intro left lv s hm hf
      rw [expressionLoop]
      repeat' first
        | omega
        | refine Res.halts_of (match_halts _ _ (by decide)) (fun _ _ _ => ?_)
        | refine Res.halts_of (check_halts _ _) (fun _ _ _ => ?_)
        | refine Res.halts_of (hop _ _ (by omega)) (fun _ _ _ => ?_)
        | refine Res.halts_of (ih _ _ _ (by omega) (by omega)) (fun _ _ _ => ?_)
        | simp only [bind_apply, Res.halts_bind, getFront_apply, pure_apply, ite_apply,
            Res.halts_ok, halts_ite]
        | split

theorem expressionLoop_halts (operand : Bool → PM Front (Ty × Bool)) (fuel : Nat) (left : Ty)
    (lv : Bool) (s : Front)
    (hop : ∀ lv s1, s1.size < s.size → (operand lv s1).halts (fun _ s2 => s2.size < s1.size))
    (hf : s.size < fuel) :
    (expressionLoop operand fuel left lv s).halts (fun _ s1 => s1.size ≤ s.size) :=
  expressionLoop_halts_le operand s.size hop fuel left lv s (Nat.le_refl _) hf

theorem expressions_halt (fuel : Nat) :
      (∀ lv s, 9 * Front.size s + 1 ≤ fuel →
        (primaryExpression fuel lv s).halts (fun _ s1 => s1.size < s.size)) ∧
      (∀ lv s, 9 * Front.size s + 2 ≤ fuel →
        (postfixExpression fuel lv s).halts (fun _ s1 => s1.size < s.size)) ∧
      (∀ lv s, 9 * Front.size s + 3 ≤ fuel →
        (prefixExpression fuel lv s).halts (fun _ s1 => s1.size < s.size)) ∧
      (∀ lv s, 9 * Front.size s + 4 ≤ fuel →
        (multiplicativeExpression fuel lv s).halts (fun _ s1 => s1.size < s.size)) ∧
      (∀ lv s, 9 * Front.size s + 5 ≤ fuel →
        (additiveExpression fuel lv s).halts (fun _ s1 => s1.size < s.size)) ∧
      (∀ lv s, 9 * Front.size s + 6 ≤ fuel →
        (relationalExpression fuel lv s).halts (fun _ s1 => s1.size < s.size)) ∧
      (∀ lv s, 9 * Front.size s + 7 ≤ fuel →
        (equalityExpression fuel lv s).halts (fun _ s1 => s1.size < s.size)) ∧
      (∀ lv s, 9 * Front.size s + 8 ≤ fuel →
        (logicalAndExpression fuel lv s).halts (fun _ s1 => s1.size < s.size)) ∧
      (∀ lv s, 9 * Front.size s + 9 ≤ fuel →
        (expression fuel lv s).halts (fun _ s1 => s1.size < s.size)) := by
  induction fuel with
  | zero =>
      refine ⟨?_, ?_, ?_, ?_, ?_, ?_, ?_, ?_, ?_⟩ <;> intro lv s h <;> omega
  | succ fuel ih =>
    obtain ⟨ih1, ih2, ih3, ih4, ih5, ih6, ih7, ih8, ih9⟩ := ih
    refine ⟨?_, ?_, ?_, ?_, ?_, ?_, ?_, ?_, ?_⟩ <;> intro lv s hf
    · rw [primaryExpression]
      repeat' first
      | omega
      | refine Res.halts_of (match_halts _ _ (by decide)) (fun _ _ _ => ?_)
      | refine Res.halts_of (check_halts _ _) (fun _ _ _ => ?_)
      | refine Res.halts_of (call_halts _ _) (fun _ _ _ => ?_)
      | refine Res.halts_of (identifier_halts _) (fun _ _ _ => ?_)
      | refine Res.halts_of (ih9 _ _ (by omega)) (fun _ _ _ => ?_)
      | refine Res.halts_of (argumentsLoop_halts _ _ _ _ _ (fun _ _ _ => ih9 _ _ (by omega)) (by omega))
          (fun _ _ _ => ?_)
      | simp only [bind_apply, Res.halts_bind, getFront_apply, pure_apply, ite_apply,
          Res.halts_ok, halts_ite, error_halts, Res.halts_undefined]
      | split
    · rw [postfixExpression]
      repeat' first
      | omega
      | refine Res.halts_of (ih1 _ _ (by omega)) (fun _ _ _ => ?_)
      | refine Res.halts_of (postfixLoop_halts _ _ _ _ _ (fun _ _ _ => ih9 _ _ (by omega)) (by omega))
          (fun _ _ _ => ?_)
      | simp only [bind_apply, Res.halts_bind, getFront_apply, pure_apply, ite_apply,
          Res.halts_ok, halts_ite]
    · rw [prefixExpression]
      repeat' first
      | omega
      | refine Res.halts_of (match_halts _ _ (by decide)) (fun _ _ _ => ?_)
      | refine Res.halts_of (check_halts _ _) (fun _ _ _ => ?_)
      | refine Res.halts_of (startsTypeName_halts _) (fun _ _ _ => ?_)
      | refine Res.halts_of (specifier_halts _) (fun _ _ _ => ?_)
      | refine Res.halts_of (pointers_halts _ _ (by omega)) (fun _ _ _ => ?_)
      | refine Res.halts_of (ih3 _ _ (by omega)) (fun _ _ _ => ?_)
      | refine Res.halts_of (ih2 _ _ (by omega)) (fun _ _ _ => ?_)
      | simp only [bind_apply, Res.halts_bind, getFront_apply, pure_apply, ite_apply,
          Res.halts_ok, halts_ite]
      | split
    · rw [multiplicativeExpression]
      repeat' first
      | omega
      | refine Res.halts_of (ih3 _ _ (by omega)) (fun _ _ _ => ?_)
      | refine Res.halts_of (multiplicativeLoop_halts _ _ _ _ _ (fun _ _ _ => ih3 _ _ (by omega)) (by omega))
          (fun _ _ _ => ?_)
      | simp only [bind_apply, Res.halts_bind, getFront_apply, pure_apply, ite_apply,
          Res.halts_ok, halts_ite]
    · rw [additiveExpression]
      repeat' first
      | omega
      | refine Res.halts_of (ih4 _ _ (by omega)) (fun _ _ _ => ?_)
      | refine Res.halts_of (additiveLoop_halts _ _ _ _ _ (fun _ _ _ => ih4 _ _ (by omega)) (by omega))
          (fun _ _ _ => ?_)
      | simp only [bind_apply, Res.halts_bind, getFront_apply, pure_apply, ite_apply,
          Res.halts_ok, halts_ite]
    · rw [relationalExpression]
      repeat' first
      | omega
      | refine Res.halts_of (ih5 _ _ (by omega)) (fun _ _ _ => ?_)
      | refine Res.halts_of (relationalLoop_halts _ _ _ _ _ (fun _ _ _ => ih5 _ _ (by omega)) (by omega))
          (fun _ _ _ => ?_)
      | simp only [bind_apply, Res.halts_bind, getFront_apply, pure_apply, ite_apply,
          Res.halts_ok, halts_ite]
    · rw [equalityExpression]
      repeat' first
      | omega
      | refine Res.halts_of (ih6 _ _ (by omega)) (fun _ _ _ => ?_)
      | refine Res.halts_of (equalityLoop_halts _ _ _ _ _ (fun _ _ _ => ih6 _ _ (by omega)) (by omega))
          (fun _ _ _ => ?_)
      | simp only [bind_apply, Res.halts_bind, getFront_apply, pure_apply, ite_apply,
          Res.halts_ok, halts_ite]
    · rw [logicalAndExpression]
      repeat' first
      | omega
      | refine Res.halts_of (ih7 _ _ (by omega)) (fun _ _ _ => ?_)
      | refine Res.halts_of (logicalAndLoop_halts _ _ _ _ _ (fun _ _ _ => ih7 _ _ (by omega)) (by omega))
          (fun _ _ _ => ?_)
      | simp only [bind_apply, Res.halts_bind, getFront_apply, pure_apply, ite_apply,
          Res.halts_ok, halts_ite]
    · rw [expression]
      repeat' first
      | omega
      | refine Res.halts_of (ih8 _ _ (by omega)) (fun _ _ _ => ?_)
      | refine Res.halts_of (expressionLoop_halts _ _ _ _ _ (fun _ _ _ => ih8 _ _ (by omega)) (by omega))
          (fun _ _ _ => ?_)
      | simp only [bind_apply, Res.halts_bind, getFront_apply, pure_apply, ite_apply,
          Res.halts_ok, halts_ite]

theorem expression_halts (fuel : Nat) (lv : Bool) (s : Front) (hf : 9 * s.size + 9 ≤ fuel) :
    (expression fuel lv s).halts (fun _ s1 => s1.size < s.size) :=
  (expressions_halt fuel).2.2.2.2.2.2.2.2 lv s hf

end Phase4
namespace Phase4

theorem closeParamScope_halts (s : Front) :
    (closeParamScope s).halts (fun _ s1 => s1.size = s.size) := by
  unfold closeParamScope
  simp only [bind_apply, Res.halts_bind, pure_apply, Res.halts_ok]
  exact call_halts _ _

theorem assignment_halts (fuel : Nat) (lv : Bool) (s : Front) (hf : 9 * s.size + 9 ≤ fuel) :
    (assignment fuel lv s).halts (fun _ s1 => s1.size < s.size) := by
  unfold assignment
  repeat' first
    | omega
    | refine Res.halts_of (match_halts _ _ (by decide)) (fun _ _ _ => ?_)
    | refine Res.halts_of (check_halts _ _) (fun _ _ _ => ?_)
    | refine Res.halts_of (expression_halts _ _ _ (by omega)) (fun _ _ _ => ?_)
    | simp only [bind_apply, Res.halts_bind, getFront_apply, pure_apply, ite_apply,
        Res.halts_ok, halts_ite]
    | split

theorem declarator_halts (fuel : Nat) (typespec : Int) (s : Front) (hf : s.size + 1 ≤ fuel) :
    (declarator fuel typespec s).halts (fun _ s1 => s1.size < s.size) := by
  unfold declarator
  repeat' first
    | omega
    | refine Res.halts_of (match_halts _ _ (by decide)) (fun _ _ _ => ?_)
    | refine Res.halts_of (call_halts _ _) (fun _ _ _ => ?_)
    | refine Res.halts_of (pointers_halts _ _ (by omega)) (fun _ _ _ => ?_)
    | refine Res.halts_of (identifier_halts _) (fun _ _ _ => ?_)
    | refine Res.halts_of (integer_halts _) (fun _ _ _ => ?_)
    | simp only [bind_apply, Res.halts_bind, getFront_apply, pure_apply, ite_apply,
        Res.halts_ok, halts_ite]
    | split

theorem declarationLoop_halts (typespec : Int) :
    ∀ (fuel : Nat) (s : Front), s.size + 1 ≤ fuel →
      (declarationLoop typespec fuel s).halts (fun _ s1 => s1.size ≤ s.size) := by
  intro fuel
  induction fuel with
  | zero => intro s h; omega
  | succ fuel ih =>
      intro s hf
      rw [declarationLoop]
      repeat' first
        | omega
        | refine Res.halts_of (match_halts _ _ (by decide)) (fun _ _ _ => ?_)
        | refine Res.halts_of (declarator_halts _ _ _ (by omega)) (fun _ _ _ => ?_)
        | refine Res.halts_of (ih _ (by omega)) (fun _ _ _ => ?_)
        | simp only [bind_apply, Res.halts_bind, getFront_apply, pure_apply, ite_apply,
        Res.halts_ok, halts_ite]
        | split

theorem declaration_halts (fuel : Nat) (s : Front) (hf : s.size + 1 ≤ fuel) :
    (declaration fuel s).halts (fun _ s1 => s1.size < s.size) := by
  unfold declaration
  repeat' first
    | omega
    | refine Res.halts_of (match_halts _ _ (by decide)) (fun _ _ _ => ?_)
    | refine Res.halts_of (specifier_halts _) (fun _ _ _ => ?_)
    | refine Res.halts_of (declarator_halts _ _ _ (by omega)) (fun _ _ _ => ?_)
    | refine Res.halts_of (declarationLoop_halts _ _ _ (by omega)) (fun _ _ _ => ?_)
    | simp only [bind_apply, Res.halts_bind, getFront_apply, pure_apply, ite_apply,
        Res.halts_ok, halts_ite]

theorem declarations_halts :
    ∀ (fuel : Nat) (s : Front), s.size + 2 ≤ fuel →
      (declarations fuel s).halts (fun _ s1 => s1.size ≤ s.size) := by
  intro fuel
  induction fuel with
  | zero => intro s h; omega
  | succ fuel ih =>
      intro s hf
      rw [declarations]
      repeat' first
        | omega
        | refine Res.halts_of (declaration_halts _ _ (by omega)) (fun _ _ _ => ?_)
        | refine Res.halts_of (ih _ (by omega)) (fun _ _ _ => ?_)
        | simp only [bind_apply, Res.halts_bind, getFront_apply, pure_apply, ite_apply,
        Res.halts_ok, halts_ite]
        | split

theorem parameter_halts (fuel : Nat) (s : Front) (hf : s.size + 1 ≤ fuel) :
    (parameter fuel s).halts (fun _ s1 => s1.size < s.size) := by
  unfold parameter
  repeat' first
    | omega
    | refine Res.halts_of (call_halts _ _) (fun _ _ _ => ?_)
    | refine Res.halts_of (specifier_halts _) (fun _ _ _ => ?_)
    | refine Res.halts_of (pointers_halts _ _ (by omega)) (fun _ _ _ => ?_)
    | refine Res.halts_of (identifier_halts _) (fun _ _ _ => ?_)
    | simp only [bind_apply, Res.halts_bind, getFront_apply, pure_apply, ite_apply,
        Res.halts_ok, halts_ite]

theorem parametersLoop_halts :
    ∀ (fuel : Nat) (params : Parameters) (s : Front), s.size + 1 ≤ fuel →
      (parametersLoop fuel params s).halts (fun _ s1 => s1.size ≤ s.size) := by
  intro fuel
  induction fuel with
  | zero => intro params s h; omega
  | succ fuel ih =>
      intro params s hf
      rw [parametersLoop]
      repeat' first
        | omega
        | refine Res.halts_of (match_halts _ _ (by decide)) (fun _ _ _ => ?_)
        | refine Res.halts_of (parameter_halts _ _ (by omega)) (fun _ _ _ => ?_)
        | refine Res.halts_of (ih _ _ (by omega)) (fun _ _ _ => ?_)
        | simp only [bind_apply, Res.halts_bind, getFront_apply, pure_apply, ite_apply,
        Res.halts_ok, halts_ite]
        | split

theorem parameters_halts (fuel : Nat) (s : Front) (hf : s.size + 1 ≤ fuel) :
    (parameters fuel s).halts (fun _ s1 => s1.size < s.size) := by
  unfold parameters
  repeat' first
    | omega
    | refine Res.halts_of (match_halts _ _ (by decide)) (fun _ _ _ => ?_)
    | refine Res.halts_of (callTotal_halts _ _) (fun _ _ _ => ?_)
    | refine Res.halts_of (parameter_halts _ _ (by omega)) (fun _ _ _ => ?_)
    | refine Res.halts_of (parametersLoop_halts _ _ _ (by omega)) (fun _ _ _ => ?_)
    | simp only [bind_apply, Res.halts_bind, getFront_apply, pure_apply, ite_apply,
        Res.halts_ok, halts_ite]
    | split

theorem globalDeclarator_halts (fuel : Nat) (typespec : Int) (s : Front)
    (hf : s.size + 1 ≤ fuel) :
    (globalDeclarator fuel typespec s).halts (fun _ s1 => s1.size < s.size) := by
  unfold globalDeclarator
  repeat' first
    | omega
    | refine Res.halts_of (match_halts _ _ (by decide)) (fun _ _ _ => ?_)
    | refine Res.halts_of (call_halts _ _) (fun _ _ _ => ?_)
    | refine Res.halts_of (closeParamScope_halts _) (fun _ _ _ => ?_)
    | refine Res.halts_of (pointers_halts _ _ (by omega)) (fun _ _ _ => ?_)
    | refine Res.halts_of (identifier_halts _) (fun _ _ _ => ?_)
    | refine Res.halts_of (integer_halts _) (fun _ _ _ => ?_)
    | refine Res.halts_of (parameters_halts _ _ (by omega)) (fun _ _ _ => ?_)
    | simp only [bind_apply, Res.halts_bind, getFront_apply, pure_apply, ite_apply,
        Res.halts_ok, halts_ite]
    | split

theorem remainingDeclaratorsLoop_halts (typespec : Int) :
    ∀ (fuel : Nat) (s : Front), s.size + 1 ≤ fuel →
      (remainingDeclaratorsLoop typespec fuel s).halts (fun _ s1 => s1.size ≤ s.size) := by
  intro fuel
  induction fuel with
  | zero => intro s h; omega
  | succ fuel ih =>
      intro s hf
      rw [remainingDeclaratorsLoop]
      repeat' first
        | omega
        | refine Res.halts_of (match_halts _ _ (by decide)) (fun _ _ _ => ?_)
        | refine Res.halts_of (globalDeclarator_halts _ _ _ (by omega)) (fun _ _ _ => ?_)
        | refine Res.halts_of (ih _ (by omega)) (fun _ _ _ => ?_)
        | simp only [bind_apply, Res.halts_bind, getFront_apply, pure_apply, ite_apply,
        Res.halts_ok, halts_ite]
        | split

theorem remainingDeclarators_halts (fuel : Nat) (typespec : Int) (s : Front)
    (hf : s.size + 1 ≤ fuel) :
    (remainingDeclarators fuel typespec s).halts (fun _ s1 => s1.size < s.size) := by
  unfold remainingDeclarators
  repeat' first
    | omega
    | refine Res.halts_of (match_halts _ _ (by decide)) (fun _ _ _ => ?_)
    | refine Res.halts_of (remainingDeclaratorsLoop_halts _ _ _ (by omega)) (fun _ _ _ => ?_)
    | simp only [bind_apply, Res.halts_bind, getFront_apply, pure_apply, ite_apply,
        Res.halts_ok, halts_ite]

theorem statements_halt (fuel : Nat) :
    (∀ k s, 9 * Front.size s + 10 ≤ fuel →
      (Lexical.statementAt k fuel s).halts (fun _ s1 => s1.size < s.size)) ∧
    (∀ k s, 9 * Front.size s + 11 ≤ fuel →
      (Lexical.statementsAt k fuel s).halts (fun _ s1 => s1.size ≤ s.size)) := by
  induction fuel with
  | zero => refine ⟨?_, ?_⟩ <;> intro k s h <;> omega
  | succ fuel ih =>
    obtain ⟨ih1, ih2⟩ := ih
    refine ⟨?_, ?_⟩ <;> intro k s hf
    · rw [Lexical.statementAt]
      repeat' first
        | omega
        | refine Res.halts_of (match_halts _ _ (by decide)) (fun _ _ _ => ?_)
        | refine Res.halts_of (check_halts _ _) (fun _ _ _ => ?_)
        | refine Res.halts_of (checkOnly_halts _ _) (fun _ _ _ => ?_)
        | refine Res.halts_of (call_halts _ _) (fun _ _ _ => ?_)
        | refine Res.halts_of (callTotal_halts _ _) (fun _ _ _ => ?_)
        | refine Res.halts_of (declarations_halts _ _ (by omega)) (fun _ _ _ => ?_)
        | refine Res.halts_of (expression_halts _ _ _ (by omega)) (fun _ _ _ => ?_)
        | refine Res.halts_of (assignment_halts _ _ _ (by omega)) (fun _ _ _ => ?_)
        | refine Res.halts_of (ih1 _ _ (by omega)) (fun _ _ _ => ?_)
        | refine Res.halts_of (ih2 _ _ (by omega)) (fun _ _ _ => ?_)
        | simp only [bind_apply, Res.halts_bind, getFront_apply, pure_apply, ite_apply,
        Res.halts_ok, halts_ite]
        | split
    · rw [Lexical.statementsAt]
      repeat' first
        | omega
        | refine Res.halts_of (ih1 _ _ (by omega)) (fun _ _ _ => ?_)
        | refine Res.halts_of (ih2 _ _ (by omega)) (fun _ _ _ => ?_)
        | simp only [bind_apply, Res.halts_bind, getFront_apply, pure_apply, ite_apply,
        Res.halts_ok, halts_ite]
        | split

theorem statementsAt_halts (k fuel : Nat) (s : Front) (hf : 9 * s.size + 11 ≤ fuel) :
    (Lexical.statementsAt k fuel s).halts (fun _ s1 => s1.size ≤ s.size) :=
  (statements_halt fuel).2 k s hf

theorem topLevelDeclaration_halts (fuel : Nat) (s : Front) (hf : 9 * s.size + 11 ≤ fuel) :
    (Lexical.topLevelDeclaration fuel s).halts (fun _ s1 => s1.size < s.size) := by
  unfold Lexical.topLevelDeclaration
  repeat' first
    | omega
    | refine Res.halts_of (match_halts _ _ (by decide)) (fun _ _ _ => ?_)
    | refine Res.halts_of (call_halts _ _) (fun _ _ _ => ?_)
    | refine Res.halts_of (setReturnType_halts _ _) (fun _ _ _ => ?_)
    | refine Res.halts_of (closeParamScope_halts _) (fun _ _ _ => ?_)
    | refine Res.halts_of (specifier_halts _) (fun _ _ _ => ?_)
    | refine Res.halts_of (pointers_halts _ _ (by omega)) (fun _ _ _ => ?_)
    | refine Res.halts_of (identifier_halts _) (fun _ _ _ => ?_)
    | refine Res.halts_of (integer_halts _) (fun _ _ _ => ?_)
    | refine Res.halts_of (parameters_halts _ _ (by omega)) (fun _ _ _ => ?_)
    | refine Res.halts_of (declarations_halts _ _ (by omega)) (fun _ _ _ => ?_)
    | refine Res.halts_of (statementsAt_halts _ _ _ (by omega)) (fun _ _ _ => ?_)
    | refine Res.halts_of (remainingDeclarators_halts _ _ _ (by omega)) (fun _ _ _ => ?_)
    | simp only [bind_apply, Res.halts_bind, getFront_apply, pure_apply, ite_apply,
        Res.halts_ok, halts_ite]
    | split

theorem mainLoop_halts :
    ∀ (fuel : Nat) (s : Front), 9 * s.size + 12 ≤ fuel →
      (Lexical.mainLoop fuel s).halts (fun _ _ => True) := by
  intro fuel
  induction fuel with
  | zero => intro s h; omega
  | succ fuel ih =>
      intro s hf
      rw [Lexical.mainLoop]
      repeat' first
        | omega
        | refine Res.halts_of (topLevelDeclaration_halts _ _ (by omega)) (fun _ _ _ => ?_)
        | refine Res.halts_of (ih _ (by omega)) (fun _ _ _ => ?_)
        | simp only [bind_apply, Res.halts_bind, getFront_apply, pure_apply, ite_apply,
        Res.halts_ok, halts_ite]
        | split

end Phase4
namespace Phase4

theorem lexical_main_halts (fuel : Nat) (input : List Token) (hf : 9 * input.length + 12 ≤ fuel) :
    (Lexical.main fuel input).halts (fun _ _ => True) := by
  unfold Lexical.main
  have hs : ∀ s : Front, s.size ≤ input.length →
      ((do
        Lexical.mainLoop fuel
        let _ ← call closeScope
        exit EXIT_SUCCESS : PM Front Unit) s).halts (fun _ _ => True) := by
    intro s hs
    simp only [bind_apply, Res.halts_bind]
    refine Res.halts_of (mainLoop_halts fuel s (by omega)) (fun _ _ _ => ?_)
    refine Res.halts_of (call_halts _ _) (fun _ _ _ => ?_)
    trivial
  cases input with
  | nil => exact hs _ (by simp [Front.size, Front.init, DONE])
  | cons t rest =>
      refine hs _ ?_
      simp only [Front.size, Front.init, List.length_cons]
      split_ifs <;> simp

theorem lift_halts {α : Type} (x : PM Front α) (p : Parser) (Q : α → Parser → Prop) :
    (lift x p).halts Q ↔ (x p.front).halts (fun a f => Q a { p with front := f }) :=
  Res.halts_mapState _ _ _

end Phase4

/-! ## The operators that the parser of phase 3 prints -/

theorem Res.sat_of {σ α : Type} {r : Res σ α} {P Q : α → σ → Prop} (h : r.sat P)
    (hPQ : ∀ a s, P a s → Q a s) : r.sat Q := by
  cases r with
  | ok a s => exact hPQ a s h
  | exit status log => trivial
  | undefined => trivial
  | timeout => trivial

theorem Res.sat_ok {σ α : Type} (a : α) (s : σ) (Q : α → σ → Prop) :
    (Res.ok a s).sat Q ↔ Q a s := Iff.rfl

theorem Res.sat_bind {σ α β : Type} (r : Res σ α) (f : α → σ → Res σ β) (Q : β → σ → Prop) :
    (r.bind f).sat Q ↔ r.sat (fun a s => (f a s).sat Q) := by
  cases r <;> exact Iff.rfl

theorem Res.sat_ite {σ α : Type} (c : Prop) [Decidable c] (a b : Res σ α) (Q : α → σ → Prop) :
    (if c then a else b).sat Q ↔ if c then a.sat Q else b.sat Q := by
  split <;> exact Iff.rfl

theorem erase_apply {σ α : Type} (x : PM σ α) (s : σ) :
    erase x s = (x s).bind (fun _ s1 => Res.ok () s1) := rfl

theorem erase_unit {σ : Type} (x : PM σ Unit) (s : σ) : erase x s = x s := by
  rw [erase_apply]
  cases x s <;> rfl

theorem erase_pure {σ α : Type} (a : α) (s : σ) : (pure () : PM σ Unit) s = erase (pure a) s :=
  rfl

theorem erase_bind_same {σ α β : Type} (X : PM σ α) {g : α → PM σ Unit} {g' : α → PM σ β}
    (H : ∀ a s, g a s = erase (g' a) s) (s : σ) :
    (X >>= g) s = erase (X >>= g') s := by
  show (X s).bind g = ((X s).bind g').bind _
  cases X s with
  | ok a s1 => exact H a s1
  | exit status log => rfl
  | undefined => rfl
  | timeout => rfl

theorem erase_bind_drop {σ α β γ : Type} {X : PM σ α} {Y : PM σ γ} {g : α → PM σ Unit}
    {g' : γ → PM σ β} (H1 : ∀ s, erase X s = erase Y s)
    (H2 : ∀ a c s, g a s = erase (g' c) s) (s : σ) :
    (X >>= g) s = erase (Y >>= g') s := by
  have h := H1 s
  rw [erase_apply, erase_apply] at h
  show (X s).bind g = ((Y s).bind g').bind _
  cases hx : X s with
  | ok a s1 =>
      cases hy : Y s with
      | ok c s2 =>
          rw [hx, hy] at h
          cases h
          exact H2 a c s1
      | exit status log => rw [hx, hy] at h; cases h
      | undefined => rw [hx, hy] at h; cases h
      | timeout => rw [hx, hy] at h; cases h
  | exit status log =>
      cases hy : Y s with
      | ok c s2 => rw [hx, hy] at h; cases h
      | exit status2 log2 => rw [hx, hy] at h; cases h; rfl
      | undefined => rw [hx, hy] at h; cases h
      | timeout => rw [hx, hy] at h; cases h
  | undefined =>
      cases hy : Y s with
      | ok c s2 => rw [hx, hy] at h; cases h
      | exit status2 log2 => rw [hx, hy] at h; cases h
      | undefined => rfl
      | timeout => rw [hx, hy] at h; cases h
  | timeout =>
      cases hy : Y s with
      | ok c s2 => rw [hx, hy] at h; cases h
      | exit status2 log2 => rw [hx, hy] at h; cases h
      | undefined => rw [hx, hy] at h; cases h
      | timeout => rfl

theorem erase_bind_unit {σ β γ : Type} {X : PM σ Unit} {Y : PM σ γ} {g : Unit → PM σ Unit}
    {g' : γ → PM σ β} (H1 : ∀ s, X s = erase Y s)
    (H2 : ∀ c s, g () s = erase (g' c) s) (s : σ) :
    (X >>= g) s = erase (Y >>= g') s :=
  erase_bind_drop (fun s => (erase_unit X s).trans (H1 s)) (fun _ c s => H2 c s) s

theorem erase_last {σ β : Type} (X : PM σ Unit) (v : β) (s : σ) :
    X s = erase (X >>= fun _ => pure v) s := by
  show X s = ((X s).bind _).bind _
  cases X s <;> rfl

theorem erase_map {σ α β : Type} {X : PM σ Unit} {Y : PM σ α} (f : α → β)
    (H : ∀ s, X s = erase Y s) (s : σ) :
    X s = erase (Y >>= fun a => pure (f a)) s := by
  rw [H s]
  show (Y s).bind _ = ((Y s).bind _).bind _
  cases Y s <;> rfl

theorem pm_pure_bind {σ α β : Type} (a : α) (g : α → PM σ β) : (pure a >>= g) = g a := rfl

namespace Phase3

open Phase4 (bind_apply bind_ok pure_apply tokenAt)

theorem Step.refl (s : Parser) : Step s [] [] s :=
  fun h => ⟨h, rfl, (List.append_nil _).symm⟩

theorem Step.trans {s s1 s2 : Parser} {ks ks1 : List Int} {out out1 : List String}
    (h1 : Step s ks out s1) (h2 : Step s1 ks1 out1 s2) : Step s (ks ++ ks1) (out ++ out1) s2 := by
  intro hw
  obtain ⟨hw1, hr1, ho1⟩ := h1 hw
  obtain ⟨hw2, hr2, ho2⟩ := h2 hw1
  exact ⟨hw2, by rw [hr1, hr2, List.append_assoc], by rw [ho2, ho1, List.append_assoc]⟩

theorem Step.congr {s s1 : Parser} {ks ks1 : List Int} {out out1 : List String}
    (h : Step s ks out s1) (hk : ks = ks1) (ho : out = out1) : Step s ks1 out1 s1 := by
  subst hk; subst ho; exact h

theorem print_sat (line : String) (s : Parser) :
    (print line s).sat (fun _ s1 => Step s [] [line] s1) :=
  fun h => ⟨h, rfl, rfl⟩

theorem call_sat {α : Type} (f : Checker → Option (α × Checker)) (s : Parser) :
    (call f s).sat (fun _ s1 => Step s [] [] s1) := by
  unfold call
  split
  · trivial
  · exact fun h => ⟨h, rfl, (List.append_nil _).symm⟩

theorem match_sat (t : Int) (s : Parser) (ht : t ≠ 0) :
    (match_ t s).sat (fun _ s1 => Step s [t] [] s1) := by
  by_cases h : s.lookahead = t
  · have hl : s.lookahead ≠ 0 := by rw [h]; exact ht
    by_cases hn : s.nexttoken = 0
    · cases hi : s.input with
      | nil =>
          rw [match_nil3 t s h hn hi]
          intro hw
          simp [Parser.wf, Parser.rest, Parser.pending, hn, hi, hl, h, Phase4.DONE, ht]
      | cons tok rest =>
          rw [match_cons3 t s tok rest h hn hi]
          intro hw
          have hw1 := hw.1
          simp only [Parser.pending, hn, hi, bne_self_eq_false, Bool.false_eq_true, if_false,
            List.nil_append, List.mem_cons, forall_eq_or_imp] at hw1
          simp [Parser.wf, Parser.rest, Parser.pending, hn, hi, hl, h, hw1.1, hw1.2, ht]
          exact hw1.2
    · rw [match_peeked3 t s h hn]
      intro hw
      have hw1 := hw.1
      simp only [Parser.pending, bne_iff_ne, ne_eq, hn, not_false_eq_true, if_true,
        List.singleton_append, List.mem_cons, forall_eq_or_imp] at hw1
      simp [Parser.wf, Parser.rest, Parser.pending, hn, hl, h, hw1.2, ht]
      exact hw1.2
  · rw [match_fail3 t s h]
    trivial

theorem identifier_sat (s : Parser) :
    (identifier s).sat (fun _ s1 => Step s [Phase4.ID] [] s1) := by
  unfold identifier
  simp only [bind_apply, Res.sat_bind, getParser_apply, pure_apply, Res.sat_ok]
  exact match_sat _ _ (by decide)

theorem isSpecifier_ne_zero3 {k : Int} (h : isSpecifier k = true) : k ≠ 0 := by
  intro e; rw [e] at h; exact absurd h (by decide)

theorem specifier_sat (s : Parser) :
    (specifier s).sat (fun k s1 => isSpecifier k = true ∧ Step s [k] [] s1) := by
  unfold specifier
  simp only [bind_apply, Res.sat_bind, getParser_apply, pure_apply, Phase4.ite_apply, Res.sat_ok,
    Res.sat_ite]
  split
  · rename_i h
    exact Res.sat_of (match_sat _ _ (isSpecifier_ne_zero3 h)) (fun _ _ h1 => ⟨h, h1⟩)
  · trivial

theorem peek_sat (s : Parser) : (peek s).sat (fun _ s1 => Step s [] [] s1) := by
  by_cases hn : s.nexttoken = 0
  · cases hi : s.input with
    | nil =>
        rw [peek_nil3 s hn hi]
        intro hw
        simp [Parser.wf, Parser.rest, Parser.pending, hn, hi, Phase4.DONE]
    | cons tok rest =>
        rw [peek_cons3 s tok rest hn hi]
        intro hw
        have hw1 := hw.1
        have hw2 := hw.2
        simp only [Parser.pending, hn, hi, bne_self_eq_false, Bool.false_eq_true, if_false,
          List.nil_append, List.mem_cons, forall_eq_or_imp] at hw1 hw2
        simp [Parser.wf, Parser.rest, Parser.pending, hn, hi, hw1.1, hw1.2]
        refine ⟨hw1.2, ?_⟩
        intro h0
        exact absurd (hw2 h0) (by simp)
  · rw [peek_peeked3 s hn]
    exact Step.refl s

theorem startsTypeName_sat (s : Parser) :
    (startsTypeName s).sat (fun _ s1 => Step s [] [] s1) := by
  unfold startsTypeName
  simp only [bind_apply, Res.sat_bind, getParser_apply, pure_apply, Phase4.ite_apply, Res.sat_ok,
    Res.sat_ite]
  split
  · exact Res.sat_of (peek_sat s) (fun _ _ h1 => h1)
  · exact Step.refl s

theorem starsLoop_sat :
    ∀ (fuel count : Nat) (s : Parser),
      (starsLoop fuel count s).sat
        (fun n s1 => count ≤ n ∧ Step s (List.replicate (n - count) (chr '*')) [] s1) := by
  intro fuel
  induction fuel with
  | zero => intro count s; trivial
  | succ fuel ih =>
      intro count s
      rw [starsLoop]
      simp only [bind_apply, Res.sat_bind, getParser_apply, pure_apply, Phase4.ite_apply,
        Res.sat_ok, Res.sat_ite]
      split
      · refine Res.sat_of (match_sat _ _ (by decide)) (fun _ s1 h1 => ?_)
        refine Res.sat_of (ih _ _) (fun n s2 h2 => ?_)
        refine ⟨by omega, (h1.trans h2.2).congr ?_ rfl⟩
        rw [show n - count = (n - (count + 1)) + 1 by omega, List.replicate_succ]
        rfl
      · exact ⟨Nat.le_refl _, by simpa using Step.refl s⟩

theorem pointersLoop_erase :
    ∀ (fuel count count1 : Nat) (s : Parser),
      erase (pointersLoop fuel count) s = erase (starsLoop fuel count1) s := by
  intro fuel
  induction fuel with
  | zero => intro count count1 s; rfl
  | succ fuel ih =>
      intro count count1 s
      rw [pointersLoop, starsLoop]
      simp only [erase_apply, bind_apply, getParser_apply, bind_ok, Phase4.ite_apply]
      split
      · cases match_ (chr '*') s with
        | ok a s1 => exact ih _ _ s1
        | exit status log => rfl
        | undefined => rfl
        | timeout => rfl
      · rfl

theorem pointers_erase (fuel : Nat) (s : Parser) :
    erase (pointers fuel) s = erase (starsLoop fuel 0) s :=
  pointersLoop_erase fuel 0 0 s

end Phase3
namespace Phase3

open Phase4 (bind_apply bind_ok pure_apply tokenAt)

theorem argumentsLoop_erase (X : PM Parser Unit) (Y : PM Parser Tree) (H : ∀ s, X s = erase Y s) :
    ∀ (fuel : Nat) (first : Tree) (s : Parser),
      argumentsLoop X fuel s = erase (argumentsTreeLoop Y fuel first) s := by
  intro fuel
  induction fuel with
  | zero => intro first s; rfl
  | succ fuel ih =>
      intro first s
      rw [argumentsLoop, argumentsTreeLoop]
      repeat' first
        | exact ih _ _
        | exact erase_pure _ _
        | refine erase_bind_same _ (fun _ _ => ?_) _
        | refine erase_bind_unit H (fun _ _ => ?_) _
        | refine erase_map _ (fun s => ?_) _
        | split_ifs

theorem postfixLoop_erase (X : PM Parser Unit) (Y : PM Parser Tree) (H : ∀ s, X s = erase Y s) :
    ∀ (fuel : Nat) (left : Tree) (s : Parser),
      postfixLoop X fuel s = erase (postfixTreeLoop Y fuel left) s := by
  intro fuel
  induction fuel with
  | zero => intro left s; rfl
  | succ fuel ih =>
      intro left s
      rw [postfixLoop, postfixTreeLoop]
      repeat' first
        | exact ih _ _
        | exact erase_pure _ _
        | refine erase_bind_same _ (fun _ _ => ?_) _
        | refine erase_bind_unit H (fun _ _ => ?_) _
        | split_ifs

theorem multiplicativeLoop_erase (X : PM Parser Unit) (Y : PM Parser Tree) (H : ∀ s, X s = erase Y s) :
    ∀ (fuel : Nat) (left : Tree) (s : Parser),
      multiplicativeLoop X fuel s = erase (multiplicativeTreeLoop Y fuel left) s := by
  intro fuel
  induction fuel with
  | zero => intro left s; rfl
  | succ fuel ih =>
      intro left s
      rw [multiplicativeLoop, multiplicativeTreeLoop]
      repeat' first
        | exact ih _ _
        | exact erase_pure _ _
        | refine erase_bind_same _ (fun _ _ => ?_) _
        | refine erase_bind_unit H (fun _ _ => ?_) _
        | split_ifs

theorem additiveLoop_erase (X : PM Parser Unit) (Y : PM Parser Tree) (H : ∀ s, X s = erase Y s) :
    ∀ (fuel : Nat) (left : Tree) (s : Parser),
      additiveLoop X fuel s = erase (additiveTreeLoop Y fuel left) s := by
  intro fuel
  induction fuel with
  | zero => intro left s; rfl
  | succ fuel ih =>
      intro left s
      rw [additiveLoop, additiveTreeLoop]
      repeat' first
        | exact ih _ _
        | exact erase_pure _ _
        | refine erase_bind_same _ (fun _ _ => ?_) _
        | refine erase_bind_unit H (fun _ _ => ?_) _
        | split_ifs

theorem relationalLoop_erase (X : PM Parser Unit) (Y : PM Parser Tree) (H : ∀ s, X s = erase Y s) :
    ∀ (fuel : Nat) (left : Tree) (s : Parser),
      relationalLoop X fuel s = erase (relationalTreeLoop Y fuel left) s := by
  intro fuel
  induction fuel with
  | zero => intro left s; rfl
  | succ fuel ih =>
      intro left s
      rw [relationalLoop, relationalTreeLoop]
      repeat' first
        | exact ih _ _
        | exact erase_pure _ _
        | refine erase_bind_same _ (fun _ _ => ?_) _
        | refine erase_bind_unit H (fun _ _ => ?_) _
        | split_ifs

theorem equalityLoop_erase (X : PM Parser Unit) (Y : PM Parser Tree) (H : ∀ s, X s = erase Y s) :
    ∀ (fuel : Nat) (left : Tree) (s : Parser),
      equalityLoop X fuel s = erase (equalityTreeLoop Y fuel left) s := by
  intro fuel
  induction fuel with
  | zero => intro left s; rfl
  | succ fuel ih =>
      intro left s
      rw [equalityLoop, equalityTreeLoop]
      repeat' first
        | exact ih _ _
        | exact erase_pure _ _
        | refine erase_bind_same _ (fun _ _ => ?_) _
        | refine erase_bind_unit H (fun _ _ => ?_) _
        | split_ifs

theorem logicalAndLoop_erase (X : PM Parser Unit) (Y : PM Parser Tree) (H : ∀ s, X s = erase Y s) :
    ∀ (fuel : Nat) (left : Tree) (s : Parser),
      logicalAndLoop X fuel s = erase (logicalAndTreeLoop Y fuel left) s := by
  intro fuel
  induction fuel with
  | zero => intro left s; rfl
  | succ fuel ih =>
      intro left s
      rw [logicalAndLoop, logicalAndTreeLoop]
      repeat' first
        | exact ih _ _
        | exact erase_pure _ _
        | refine erase_bind_same _ (fun _ _ => ?_) _
        | refine erase_bind_unit H (fun _ _ => ?_) _
        | split_ifs

theorem expressionLoop_erase (X : PM Parser Unit) (Y : PM Parser Tree) (H : ∀ s, X s = erase Y s) :
    ∀ (fuel : Nat) (left : Tree) (s : Parser),
      expressionLoop X fuel s = erase (expressionTreeLoop Y fuel left) s := by
  intro fuel
  induction fuel with
  | zero => intro left s; rfl
  | succ fuel ih =>
      intro left s
      rw [expressionLoop, expressionTreeLoop]
      repeat' first
        | exact ih _ _
        | exact erase_pure _ _
        | refine erase_bind_same _ (fun _ _ => ?_) _
        | refine erase_bind_unit H (fun _ _ => ?_) _
        | split_ifs

theorem primary_erase_step (fuel : Nat) (ih9 : ∀ s, expression fuel s = erase (expressionTree fuel) s) (s : Parser) :
    primaryExpression (fuel + 1) s = erase (primaryTree (fuel + 1)) s := by
  rw [primaryExpression, primaryTree]
  simp only [pm_pure_bind]
  repeat' first
    | exact erase_pure _ _
    | exact erase_last _ _ _
    | refine erase_bind_same _ (fun _ _ => ?_) _
    | refine erase_bind_unit ih9 (fun _ _ => ?_) _
    | refine erase_bind_unit (argumentsLoop_erase _ _ ih9 fuel _) (fun _ _ => ?_) _
    | split_ifs
    | rfl

theorem postfix_erase_step (fuel : Nat) (ih1 : ∀ s, primaryExpression fuel s = erase (primaryTree fuel) s)
    (ih9 : ∀ s, expression fuel s = erase (expressionTree fuel) s) (s : Parser) :
    postfixExpression (fuel + 1) s = erase (postfixTree (fuel + 1)) s := by
  rw [postfixExpression, postfixTree]
  repeat' first
    | exact postfixLoop_erase _ _ ih9 fuel _ _
    | refine erase_bind_unit ih1 (fun _ _ => ?_) _

theorem prefix_erase_step (fuel : Nat) (ih2 : ∀ s, postfixExpression fuel s = erase (postfixTree fuel) s)
    (ih3 : ∀ s, prefixExpression fuel s = erase (prefixTree fuel) s) (s : Parser) :
    prefixExpression (fuel + 1) s = erase (prefixTree (fuel + 1)) s := by
  rw [prefixExpression, prefixTree]
  dsimp only
  repeat' first
    | exact ih2 _
    | exact erase_last _ _ _
    | refine erase_bind_same _ (fun _ _ => ?_) _
    | refine erase_bind_unit ih3 (fun _ _ => ?_) _
    | refine erase_bind_drop (pointers_erase fuel) (fun _ _ _ => ?_) _
    | split_ifs

theorem multiplicative_erase_step (fuel : Nat) (ih3 : ∀ s, prefixExpression fuel s = erase (prefixTree fuel) s) (s : Parser) :
    multiplicativeExpression (fuel + 1) s = erase (multiplicativeTree (fuel + 1)) s := by
  rw [multiplicativeExpression, multiplicativeTree]
  repeat' first
    | exact multiplicativeLoop_erase _ _ ih3 fuel _ _
    | refine erase_bind_unit ih3 (fun _ _ => ?_) _

theorem additive_erase_step (fuel : Nat) (ih4 : ∀ s, multiplicativeExpression fuel s = erase (multiplicativeTree fuel) s) (s : Parser) :
    additiveExpression (fuel + 1) s = erase (additiveTree (fuel + 1)) s := by
  rw [additiveExpression, additiveTree]
  repeat' first
    | exact additiveLoop_erase _ _ ih4 fuel _ _
    | refine erase_bind_unit ih4 (fun _ _ => ?_) _

theorem relational_erase_step (fuel : Nat) (ih5 : ∀ s, additiveExpression fuel s = erase (additiveTree fuel) s) (s : Parser) :
    relationalExpression (fuel + 1) s = erase (relationalTree (fuel + 1)) s := by
  rw [relationalExpression, relationalTree]
  repeat' first
    | exact relationalLoop_erase _ _ ih5 fuel _ _
    | refine erase_bind_unit ih5 (fun _ _ => ?_) _

theorem equality_erase_step (fuel : Nat) (ih6 : ∀ s, relationalExpression fuel s = erase (relationalTree fuel) s) (s : Parser) :
    equalityExpression (fuel + 1) s = erase (equalityTree (fuel + 1)) s := by
  rw [equalityExpression, equalityTree]
  repeat' first
    | exact equalityLoop_erase _ _ ih6 fuel _ _
    | refine erase_bind_unit ih6 (fun _ _ => ?_) _

theorem logicalAnd_erase_step (fuel : Nat) (ih7 : ∀ s, equalityExpression fuel s = erase (equalityTree fuel) s) (s : Parser) :
    logicalAndExpression (fuel + 1) s = erase (logicalAndTree (fuel + 1)) s := by
  rw [logicalAndExpression, logicalAndTree]
  repeat' first
    | exact logicalAndLoop_erase _ _ ih7 fuel _ _
    | refine erase_bind_unit ih7 (fun _ _ => ?_) _

theorem expression_erase_step (fuel : Nat) (ih8 : ∀ s, logicalAndExpression fuel s = erase (logicalAndTree fuel) s) (s : Parser) :
    expression (fuel + 1) s = erase (expressionTree (fuel + 1)) s := by
  rw [expression, expressionTree]
  repeat' first
    | exact expressionLoop_erase _ _ ih8 fuel _ _
    | refine erase_bind_unit ih8 (fun _ _ => ?_) _

theorem expressions_erase (fuel : Nat) :
    (∀ s, primaryExpression fuel s = erase (primaryTree fuel) s) ∧
    (∀ s, postfixExpression fuel s = erase (postfixTree fuel) s) ∧
    (∀ s, prefixExpression fuel s = erase (prefixTree fuel) s) ∧
    (∀ s, multiplicativeExpression fuel s = erase (multiplicativeTree fuel) s) ∧
    (∀ s, additiveExpression fuel s = erase (additiveTree fuel) s) ∧
    (∀ s, relationalExpression fuel s = erase (relationalTree fuel) s) ∧
    (∀ s, equalityExpression fuel s = erase (equalityTree fuel) s) ∧
    (∀ s, logicalAndExpression fuel s = erase (logicalAndTree fuel) s) ∧
    (∀ s, expression fuel s = erase (expressionTree fuel) s) := by
  induction fuel with
  | zero => exact ⟨fun _ => rfl, fun _ => rfl, fun _ => rfl, fun _ => rfl, fun _ => rfl,
      fun _ => rfl, fun _ => rfl, fun _ => rfl, fun _ => rfl⟩
  | succ fuel ih =>
    obtain ⟨ih1, ih2, ih3, ih4, ih5, ih6, ih7, ih8, ih9⟩ := ih
    exact ⟨primary_erase_step fuel ih9, postfix_erase_step fuel ih1 ih9,
      prefix_erase_step fuel ih2 ih3, multiplicative_erase_step fuel ih3,
      additive_erase_step fuel ih4, relational_erase_step fuel ih5,
      equality_erase_step fuel ih6, logicalAnd_erase_step fuel ih7,
      expression_erase_step fuel ih8⟩

theorem expression_erase (fuel : Nat) (s : Parser) :
    expression fuel s = erase (expressionTree fuel) s :=
  (expressions_erase fuel).2.2.2.2.2.2.2.2 s

end Phase3
namespace Phase3

open Phase4 (bind_apply bind_ok pure_apply tokenAt)

theorem error_sat {α : Type} (s : Parser) (Q : α → Parser → Prop) :
    ((error : PM Parser α) s).sat Q ↔ True := Iff.rfl

theorem Tree.derives_mono {n m : Nat} (t : Tree) (h : t.derives n = true) (hnm : n ≤ m) :
    t.derives m = true := by
  cases t <;> simp only [Tree.derives, Bool.and_eq_true, decide_eq_true_eq] at h ⊢ <;>
    first
      | exact h
      | exact ⟨Nat.le_trans h.1 hnm, h.2⟩
      | exact ⟨⟨Nat.le_trans h.1.1 hnm, h.1.2⟩, h.2⟩

theorem rest_cons {s : Parser} {k : Int} {r : List Int} (h : s.rest = k :: r) :
    s.lookahead = k ∧ k ≠ 0 ∧ s.pending.map Token.kind = r := by
  unfold Parser.rest at h
  split at h
  · cases h
  · rename_i h0
    simp only [List.cons.injEq] at h
    exact ⟨h.1, h.1 ▸ h0, h.2⟩

theorem rest_nil {s : Parser} (h : s.rest = []) : s.lookahead = 0 := by
  unfold Parser.rest at h
  split at h
  · assumption
  · cases h

theorem startsTypeName_run (s : Parser) (hw : s.wf) :
    ∃ s1 : Parser, startsTypeName s = Res.ok (typeAhead s.rest) s1 ∧ s1.wf ∧
      s1.rest = s.rest ∧ s1.output = s.output ∧ s1.checker = s.checker := by
  by_cases hl : s.lookahead = chr '('
  · obtain ⟨s1, e, h1, -, h3, h4, -⟩ := peek_pending3 s hw.1
    have ho : s1.output = s.output := by
      have hs := peek_sat s
      rw [e] at hs
      have := (hs hw).2.2
      simpa using this
    have hr : s1.rest = s.rest := by
      simp only [Parser.rest, h1, h3]
    have hw1 : s1.wf := by
      refine ⟨by rw [h3]; exact hw.1, ?_⟩
      intro h0
      rw [h1, hl] at h0
      exact absurd h0 (by decide)
    have ht : isSpecifier (tokenAt s.pending 0).kind = typeAhead s.rest := by
      have hrest : s.rest = chr '(' :: s.pending.map Token.kind := by
        unfold Parser.rest
        rw [hl, if_neg (by decide)]
      rw [hrest]
      cases hp : s.pending with
      | nil => decide
      | cons p ps => simp [typeAhead, tokenAt]
    refine ⟨s1, ?_, hw1, hr, ho, h4⟩
    simp only [startsTypeName, bind_apply, getParser_apply, bind_ok, Phase4.ite_apply, hl,
      beq_self_eq_true, if_true, e, pure_apply, ht]
  · have ht : typeAhead s.rest = false := by
      cases hr : s.rest with
      | nil => rfl
      | cons k r =>
          have hk := (rest_cons hr).1
          cases r with
          | nil => rfl
          | cons k2 r2 =>
              have : (k == chr '(') = false := by
                rw [beq_eq_false_iff_ne]
                rw [← hk]
                exact hl
              simp [typeAhead, this]
    refine ⟨s, ?_, hw, rfl, rfl, rfl⟩
    simp only [startsTypeName, bind_apply, getParser_apply, bind_ok, Phase4.ite_apply, beq_iff_eq,
      hl, if_false, pure_apply, ht]

theorem startsTypeName_ahead (s : Parser) (hw : s.wf) :
    (startsTypeName s).sat (fun b s1 => Step s [] [] s1 ∧ b = typeAhead s.rest) := by
  obtain ⟨s1, e, h⟩ := startsTypeName_run s hw
  rw [e]
  exact ⟨fun _ => ⟨h.1, by rw [h.2.1]; rfl, by rw [h.2.2.1]; simp⟩, rfl⟩

theorem isCast_of_ahead (e : Tree) (s1 s2 s3 : Parser) (hw : s1.wf) (h2 : Step s1 [] [] s2)
    (hd : e.derives 2 = true) (h3 : Step s2 e.kinds e.postorder s3)
    (hb : typeAhead s1.rest = false) : e.isCast = false := by
  cases e with
  | cast spec stars e1 =>
      exfalso
      obtain ⟨hw2, hr2, -⟩ := h2 hw
      obtain ⟨-, hr3, -⟩ := h3 hw2
      simp only [Tree.derives, Bool.and_eq_true, decide_eq_true_eq] at hd
      rw [hr2, List.nil_append, hr3] at hb
      simp [Tree.kinds, typeAhead, hd.1.2] at hb
  | _ => rfl

theorem multiplicativeTreeLoop_sat (operand : PM Parser Tree)
    (hop : ∀ s, s.wf → (operand s).sat (fun t s1 => Tree.derives 2 t = true ∧ Step s t.kinds t.postorder s1)) :
    ∀ (fuel : Nat) (left : Tree) (s : Parser), s.wf →
      (multiplicativeTreeLoop operand fuel left s).sat
        (fun t s1 => Tree.derives 3 left = true → Tree.derives 3 t = true ∧
          ∀ s0, Step s0 left.kinds left.postorder s → Step s0 t.kinds t.postorder s1) := by
  intro fuel
  induction fuel with
  | zero => intro left s _; trivial
  | succ fuel ih =>
      intro left s hw
      rw [multiplicativeTreeLoop]
      simp only [bind_apply, Res.sat_bind, getParser_apply, pure_apply, Phase4.ite_apply, Res.sat_ok,
        Res.sat_ite]
      split
      · refine Res.sat_of (match_sat _ _ (by decide)) (fun _ s1 h1 => ?_)
        refine Res.sat_of (hop s1 (h1 hw).1) (fun r s2 h2 => ?_)
        refine Res.sat_of (print_sat _ s2) (fun _ s3 h3 => ?_)
        refine Res.sat_of (ih _ s3 (((h1.trans h2.2).trans h3) hw).1) (fun t s4 h4 => ?_)
        intro hl
        obtain ⟨hd, hs⟩ := h4 (by simp [Tree.derives, BinOp.level, hl, h2.1])
        exact ⟨hd, fun s0 h0 => hs s0 ((((h0.trans h1).trans h2.2).trans h3).congr
          (by simp [Tree.kinds, BinOp.kind]) (by simp [Tree.postorder, BinOp.name]))⟩
      · split
        · refine Res.sat_of (match_sat _ _ (by decide)) (fun _ s1 h1 => ?_)
          refine Res.sat_of (hop s1 (h1 hw).1) (fun r s2 h2 => ?_)
          refine Res.sat_of (print_sat _ s2) (fun _ s3 h3 => ?_)
          refine Res.sat_of (ih _ s3 (((h1.trans h2.2).trans h3) hw).1) (fun t s4 h4 => ?_)
          intro hl
          obtain ⟨hd, hs⟩ := h4 (by simp [Tree.derives, BinOp.level, hl, h2.1])
          exact ⟨hd, fun s0 h0 => hs s0 ((((h0.trans h1).trans h2.2).trans h3).congr
            (by simp [Tree.kinds, BinOp.kind]) (by simp [Tree.postorder, BinOp.name]))⟩
        · split
          · refine Res.sat_of (match_sat _ _ (by decide)) (fun _ s1 h1 => ?_)
            refine Res.sat_of (hop s1 (h1 hw).1) (fun r s2 h2 => ?_)
            refine Res.sat_of (print_sat _ s2) (fun _ s3 h3 => ?_)
            refine Res.sat_of (ih _ s3 (((h1.trans h2.2).trans h3) hw).1) (fun t s4 h4 => ?_)
            intro hl
            obtain ⟨hd, hs⟩ := h4 (by simp [Tree.derives, BinOp.level, hl, h2.1])
            exact ⟨hd, fun s0 h0 => hs s0 ((((h0.trans h1).trans h2.2).trans h3).congr
              (by simp [Tree.kinds, BinOp.kind]) (by simp [Tree.postorder, BinOp.name]))⟩
          · exact fun hl => ⟨hl, fun s0 h0 => h0⟩

theorem additiveTreeLoop_sat (operand : PM Parser Tree)
    (hop : ∀ s, s.wf → (operand s).sat (fun t s1 => Tree.derives 3 t = true ∧ Step s t.kinds t.postorder s1)) :
    ∀ (fuel : Nat) (left : Tree) (s : Parser), s.wf →
      (additiveTreeLoop operand fuel left s).sat
        (fun t s1 => Tree.derives 4 left = true → Tree.derives 4 t = true ∧
          ∀ s0, Step s0 left.kinds left.postorder s → Step s0 t.kinds t.postorder s1) := by
  intro fuel
  induction fuel with
  | zero => intro left s _; trivial
  | succ fuel ih =>
      intro left s hw
      rw [additiveTreeLoop]
      simp only [bind_apply, Res.sat_bind, getParser_apply, pure_apply, Phase4.ite_apply, Res.sat_ok,
        Res.sat_ite]
      split
      · refine Res.sat_of (match_sat _ _ (by decide)) (fun _ s1 h1 => ?_)
        refine Res.sat_of (hop s1 (h1 hw).1) (fun r s2 h2 => ?_)
        refine Res.sat_of (print_sat _ s2) (fun _ s3 h3 => ?_)
        refine Res.sat_of (ih _ s3 (((h1.trans h2.2).trans h3) hw).1) (fun t s4 h4 => ?_)
        intro hl
        obtain ⟨hd, hs⟩ := h4 (by simp [Tree.derives, BinOp.level, hl, h2.1])
        exact ⟨hd, fun s0 h0 => hs s0 ((((h0.trans h1).trans h2.2).trans h3).congr
          (by simp [Tree.kinds, BinOp.kind]) (by simp [Tree.postorder, BinOp.name]))⟩
      · split
        · refine Res.sat_of (match_sat _ _ (by decide)) (fun _ s1 h1 => ?_)
          refine Res.sat_of (hop s1 (h1 hw).1) (fun r s2 h2 => ?_)
          refine Res.sat_of (print_sat _ s2) (fun _ s3 h3 => ?_)
          refine Res.sat_of (ih _ s3 (((h1.trans h2.2).trans h3) hw).1) (fun t s4 h4 => ?_)
          intro hl
          obtain ⟨hd, hs⟩ := h4 (by simp [Tree.derives, BinOp.level, hl, h2.1])
          exact ⟨hd, fun s0 h0 => hs s0 ((((h0.trans h1).trans h2.2).trans h3).congr
            (by simp [Tree.kinds, BinOp.kind]) (by simp [Tree.postorder, BinOp.name]))⟩
        · exact fun hl => ⟨hl, fun s0 h0 => h0⟩

theorem relationalTreeLoop_sat (operand : PM Parser Tree)
    (hop : ∀ s, s.wf → (operand s).sat (fun t s1 => Tree.derives 4 t = true ∧ Step s t.kinds t.postorder s1)) :
    ∀ (fuel : Nat) (left : Tree) (s : Parser), s.wf →
      (relationalTreeLoop operand fuel left s).sat
        (fun t s1 => Tree.derives 5 left = true → Tree.derives 5 t = true ∧
          ∀ s0, Step s0 left.kinds left.postorder s → Step s0 t.kinds t.postorder s1) := by
  intro fuel
  induction fuel with
  | zero => intro left s _; trivial
  | succ fuel ih =>
      intro left s hw
      rw [relationalTreeLoop]
      simp only [bind_apply, Res.sat_bind, getParser_apply, pure_apply, Phase4.ite_apply, Res.sat_ok,
        Res.sat_ite]
      split
      · refine Res.sat_of (match_sat _ _ (by decide)) (fun _ s1 h1 => ?_)
        refine Res.sat_of (hop s1 (h1 hw).1) (fun r s2 h2 => ?_)
        refine Res.sat_of (print_sat _ s2) (fun _ s3 h3 => ?_)
        refine Res.sat_of (ih _ s3 (((h1.trans h2.2).trans h3) hw).1) (fun t s4 h4 => ?_)
        intro hl
        obtain ⟨hd, hs⟩ := h4 (by simp [Tree.derives, BinOp.level, hl, h2.1])
        exact ⟨hd, fun s0 h0 => hs s0 ((((h0.trans h1).trans h2.2).trans h3).congr
          (by simp [Tree.kinds, BinOp.kind]) (by simp [Tree.postorder, BinOp.name]))⟩
      · split
        · refine Res.sat_of (match_sat _ _ (by decide)) (fun _ s1 h1 => ?_)
          refine Res.sat_of (hop s1 (h1 hw).1) (fun r s2 h2 => ?_)
          refine Res.sat_of (print_sat _ s2) (fun _ s3 h3 => ?_)
          refine Res.sat_of (ih _ s3 (((h1.trans h2.2).trans h3) hw).1) (fun t s4 h4 => ?_)
          intro hl
          obtain ⟨hd, hs⟩ := h4 (by simp [Tree.derives, BinOp.level, hl, h2.1])
          exact ⟨hd, fun s0 h0 => hs s0 ((((h0.trans h1).trans h2.2).trans h3).congr
            (by simp [Tree.kinds, BinOp.kind]) (by simp [Tree.postorder, BinOp.name]))⟩
        · split
          · refine Res.sat_of (match_sat _ _ (by decide)) (fun _ s1 h1 => ?_)
            refine Res.sat_of (hop s1 (h1 hw).1) (fun r s2 h2 => ?_)
            refine Res.sat_of (print_sat _ s2) (fun _ s3 h3 => ?_)
            refine Res.sat_of (ih _ s3 (((h1.trans h2.2).trans h3) hw).1) (fun t s4 h4 => ?_)
            intro hl
            obtain ⟨hd, hs⟩ := h4 (by simp [Tree.derives, BinOp.level, hl, h2.1])
            exact ⟨hd, fun s0 h0 => hs s0 ((((h0.trans h1).trans h2.2).trans h3).congr
              (by simp [Tree.kinds, BinOp.kind]) (by simp [Tree.postorder, BinOp.name]))⟩
          · split
            · refine Res.sat_of (match_sat _ _ (by decide)) (fun _ s1 h1 => ?_)
              refine Res.sat_of (hop s1 (h1 hw).1) (fun r s2 h2 => ?_)
              refine Res.sat_of (print_sat _ s2) (fun _ s3 h3 => ?_)
              refine Res.sat_of (ih _ s3 (((h1.trans h2.2).trans h3) hw).1) (fun t s4 h4 => ?_)
              intro hl
              obtain ⟨hd, hs⟩ := h4 (by simp [Tree.derives, BinOp.level, hl, h2.1])
              exact ⟨hd, fun s0 h0 => hs s0 ((((h0.trans h1).trans h2.2).trans h3).congr
                (by simp [Tree.kinds, BinOp.kind]) (by simp [Tree.postorder, BinOp.name]))⟩
            · exact fun hl => ⟨hl, fun s0 h0 => h0⟩

theorem equalityTreeLoop_sat (operand : PM Parser Tree)
    (hop : ∀ s, s.wf → (operand s).sat (fun t s1 => Tree.derives 5 t = true ∧ Step s t.kinds t.postorder s1)) :
    ∀ (fuel : Nat) (left : Tree) (s : Parser), s.wf →
      (equalityTreeLoop operand fuel left s).sat
        (fun t s1 => Tree.derives 6 left = true → Tree.derives 6 t = true ∧
          ∀ s0, Step s0 left.kinds left.postorder s → Step s0 t.kinds t.postorder s1) := by
  intro fuel
  induction fuel with
  | zero => intro left s _; trivial
  | succ fuel ih =>
      intro left s hw
      rw [equalityTreeLoop]
      simp only [bind_apply, Res.sat_bind, getParser_apply, pure_apply, Phase4.ite_apply, Res.sat_ok,
        Res.sat_ite]
      split
      · refine Res.sat_of (match_sat _ _ (by decide)) (fun _ s1 h1 => ?_)
        refine Res.sat_of (hop s1 (h1 hw).1) (fun r s2 h2 => ?_)
        refine Res.sat_of (print_sat _ s2) (fun _ s3 h3 => ?_)
        refine Res.sat_of (ih _ s3 (((h1.trans h2.2).trans h3) hw).1) (fun t s4 h4 => ?_)
        intro hl
        obtain ⟨hd, hs⟩ := h4 (by simp [Tree.derives, BinOp.level, hl, h2.1])
        exact ⟨hd, fun s0 h0 => hs s0 ((((h0.trans h1).trans h2.2).trans h3).congr
          (by simp [Tree.kinds, BinOp.kind]) (by simp [Tree.postorder, BinOp.name]))⟩
      · split
        · refine Res.sat_of (match_sat _ _ (by decide)) (fun _ s1 h1 => ?_)
          refine Res.sat_of (hop s1 (h1 hw).1) (fun r s2 h2 => ?_)
          refine Res.sat_of (print_sat _ s2) (fun _ s3 h3 => ?_)
          refine Res.sat_of (ih _ s3 (((h1.trans h2.2).trans h3) hw).1) (fun t s4 h4 => ?_)
          intro hl
          obtain ⟨hd, hs⟩ := h4 (by simp [Tree.derives, BinOp.level, hl, h2.1])
          exact ⟨hd, fun s0 h0 => hs s0 ((((h0.trans h1).trans h2.2).trans h3).congr
            (by simp [Tree.kinds, BinOp.kind]) (by simp [Tree.postorder, BinOp.name]))⟩
        · exact fun hl => ⟨hl, fun s0 h0 => h0⟩

theorem logicalAndTreeLoop_sat (operand : PM Parser Tree)
    (hop : ∀ s, s.wf → (operand s).sat (fun t s1 => Tree.derives 6 t = true ∧ Step s t.kinds t.postorder s1)) :
    ∀ (fuel : Nat) (left : Tree) (s : Parser), s.wf →
      (logicalAndTreeLoop operand fuel left s).sat
        (fun t s1 => Tree.derives 7 left = true → Tree.derives 7 t = true ∧
          ∀ s0, Step s0 left.kinds left.postorder s → Step s0 t.kinds t.postorder s1) := by
  intro fuel
  induction fuel with
  | zero => intro left s _; trivial
  | succ fuel ih =>
      intro left s hw
      rw [logicalAndTreeLoop]
      simp only [bind_apply, Res.sat_bind, getParser_apply, pure_apply, Phase4.ite_apply, Res.sat_ok,
        Res.sat_ite]
      split
      · refine Res.sat_of (match_sat _ _ (by decide)) (fun _ s1 h1 => ?_)
        refine Res.sat_of (hop s1 (h1 hw).1) (fun r s2 h2 => ?_)
        refine Res.sat_of (print_sat _ s2) (fun _ s3 h3 => ?_)
        refine Res.sat_of (ih _ s3 (((h1.trans h2.2).trans h3) hw).1) (fun t s4 h4 => ?_)
        intro hl
        obtain ⟨hd, hs⟩ := h4 (by simp [Tree.derives, BinOp.level, hl, h2.1])
        exact ⟨hd, fun s0 h0 => hs s0 ((((h0.trans h1).trans h2.2).trans h3).congr
          (by simp [Tree.kinds, BinOp.kind]) (by simp [Tree.postorder, BinOp.name]))⟩
      · exact fun hl => ⟨hl, fun s0 h0 => h0⟩

theorem expressionTreeLoop_sat (operand : PM Parser Tree)
    (hop : ∀ s, s.wf → (operand s).sat (fun t s1 => Tree.derives 7 t = true ∧ Step s t.kinds t.postorder s1)) :
    ∀ (fuel : Nat) (left : Tree) (s : Parser), s.wf →
      (expressionTreeLoop operand fuel left s).sat
        (fun t s1 => Tree.derives 8 left = true → Tree.derives 8 t = true ∧
          ∀ s0, Step s0 left.kinds left.postorder s → Step s0 t.kinds t.postorder s1) := by
  intro fuel
  induction fuel with
  | zero => intro left s _; trivial
  | succ fuel ih =>
      intro left s hw
      rw [expressionTreeLoop]
      simp only [bind_apply, Res.sat_bind, getParser_apply, pure_apply, Phase4.ite_apply, Res.sat_ok,
        Res.sat_ite]
      split
      · refine Res.sat_of (match_sat _ _ (by decide)) (fun _ s1 h1 => ?_)
        refine Res.sat_of (hop s1 (h1 hw).1) (fun r s2 h2 => ?_)
        refine Res.sat_of (print_sat _ s2) (fun _ s3 h3 => ?_)
        refine Res.sat_of (ih _ s3 (((h1.trans h2.2).trans h3) hw).1) (fun t s4 h4 => ?_)
        intro hl
        obtain ⟨hd, hs⟩ := h4 (by simp [Tree.derives, BinOp.level, hl, h2.1])
        exact ⟨hd, fun s0 h0 => hs s0 ((((h0.trans h1).trans h2.2).trans h3).congr
          (by simp [Tree.kinds, BinOp.kind]) (by simp [Tree.postorder, BinOp.name]))⟩
      · exact fun hl => ⟨hl, fun s0 h0 => h0⟩

theorem postfixTreeLoop_sat (operand : PM Parser Tree)
    (hop : ∀ s, s.wf → (operand s).sat (fun t s1 => Tree.derives 8 t = true ∧ Step s t.kinds t.postorder s1)) :
    ∀ (fuel : Nat) (left : Tree) (s : Parser), s.wf →
      (postfixTreeLoop operand fuel left s).sat
        (fun t s1 => Tree.derives 1 left = true → Tree.derives 1 t = true ∧
          ∀ s0, Step s0 left.kinds left.postorder s → Step s0 t.kinds t.postorder s1) := by
  intro fuel
  induction fuel with
  | zero => intro left s _; trivial
  | succ fuel ih =>
      intro left s hw
      rw [postfixTreeLoop]
      simp only [bind_apply, Res.sat_bind, getParser_apply, pure_apply, Phase4.ite_apply, Res.sat_ok,
        Res.sat_ite]
      split
      · refine Res.sat_of (match_sat _ _ (by decide)) (fun _ s1 h1 => ?_)
        refine Res.sat_of (hop s1 (h1 hw).1) (fun r s2 h2 => ?_)
        refine Res.sat_of (match_sat _ _ (by decide)) (fun _ s3 h3 => ?_)
        refine Res.sat_of (print_sat _ s3) (fun _ s4 h4 => ?_)
        refine Res.sat_of (ih _ s4 ((((h1.trans h2.2).trans h3).trans h4) hw).1) (fun t s5 h5 => ?_)
        intro hl
        obtain ⟨hd, hs⟩ := h5 (by simp [Tree.derives, hl, h2.1])
        exact ⟨hd, fun s0 h0 => hs s0 (((((h0.trans h1).trans h2.2).trans h3).trans h4).congr
          (by simp [Tree.kinds]) (by simp [Tree.postorder]))⟩
      · split
        · refine Res.sat_of (match_sat _ _ (by decide)) (fun _ s1 h1 => ?_)
          refine Res.sat_of (print_sat _ s1) (fun _ s2 h2 => ?_)
          refine Res.sat_of (ih _ s2 ((h1.trans h2) hw).1) (fun t s3 h3 => ?_)
          intro hl
          obtain ⟨hd, hs⟩ := h3 (by simp [Tree.derives, hl])
          exact ⟨hd, fun s0 h0 => hs s0 (((h0.trans h1).trans h2).congr
            (by simp [Tree.kinds, PostOp.kind]) (by simp [Tree.postorder, PostOp.name]))⟩
        · split
          · refine Res.sat_of (match_sat _ _ (by decide)) (fun _ s1 h1 => ?_)
            refine Res.sat_of (print_sat _ s1) (fun _ s2 h2 => ?_)
            refine Res.sat_of (ih _ s2 ((h1.trans h2) hw).1) (fun t s3 h3 => ?_)
            intro hl
            obtain ⟨hd, hs⟩ := h3 (by simp [Tree.derives, hl])
            exact ⟨hd, fun s0 h0 => hs s0 (((h0.trans h1).trans h2).congr
              (by simp [Tree.kinds, PostOp.kind]) (by simp [Tree.postorder, PostOp.name]))⟩
          · exact fun hl => ⟨hl, fun s0 h0 => h0⟩

theorem argumentsTreeLoop_sat (operand : PM Parser Tree)
    (hop : ∀ s, s.wf → (operand s).sat (fun t s1 => Tree.derives 8 t = true ∧ Step s t.kinds t.postorder s1)) :
    ∀ (fuel : Nat) (first : Tree) (s : Parser), s.wf →
      (argumentsTreeLoop operand fuel first s).sat
        (fun t s1 => Tree.derives 8 first = true → Tree.derives 9 t = true ∧
          ∀ s0, Step s0 first.kinds first.postorder s → Step s0 t.kinds t.postorder s1) := by
  intro fuel
  induction fuel with
  | zero => intro first s _; trivial
  | succ fuel ih =>
      intro first s hw
      rw [argumentsTreeLoop]
      simp only [bind_apply, Res.sat_bind, getParser_apply, pure_apply, Phase4.ite_apply, Res.sat_ok,
        Res.sat_ite]
      split
      · refine Res.sat_of (match_sat _ _ (by decide)) (fun _ s1 h1 => ?_)
        refine Res.sat_of (hop s1 (h1 hw).1) (fun e s2 h2 => ?_)
        refine Res.sat_of (ih e s2 ((h1.trans h2.2) hw).1) (fun r s3 h3 => ?_)
        intro hl
        obtain ⟨hd, hs⟩ := h3 h2.1
        exact ⟨by simp [Tree.derives, hl, hd], fun s0 h0 =>
          ((h0.trans h1).trans (hs s1 h2.2)).congr (by simp [Tree.kinds]) (by simp [Tree.postorder])⟩
      · exact fun hl => ⟨Tree.derives_mono _ hl (by decide), fun s0 h0 => h0⟩

theorem primary_sat_step (fuel : Nat)
    (ih9 : ∀ s, s.wf → (expressionTree fuel s).sat (fun t s1 => Tree.derives 8 t = true ∧ Step s t.kinds t.postorder s1)) (s : Parser) (hw : s.wf) :
    (primaryTree (fuel + 1) s).sat (fun t s1 => Tree.derives 0 t = true ∧ Step s t.kinds t.postorder s1) := by
  rw [primaryTree]
  simp only [bind_apply, Res.sat_bind, getParser_apply, pure_apply, Phase4.ite_apply, Res.sat_ok,
    Res.sat_ite]
  split
  · refine Res.sat_of (match_sat _ _ (by decide)) (fun _ s1 h1 => ?_)
    refine Res.sat_of (ih9 s1 (h1 hw).1) (fun e s2 h2 => ?_)
    refine Res.sat_of (match_sat _ _ (by decide)) (fun _ s3 h3 => ?_)
    exact ⟨by simp [Tree.derives, h2.1], ((h1.trans h2.2).trans h3).congr (by simp [Tree.kinds])
      (by simp [Tree.postorder])⟩
  · split
    · refine Res.sat_of (match_sat _ _ (by decide)) (fun _ s1 h1 => ?_)
      exact ⟨by decide, h1.congr (by simp [Tree.kinds]) (by simp [Tree.postorder])⟩
    · split
      · refine Res.sat_of (match_sat _ _ (by decide)) (fun _ s1 h1 => ?_)
        exact ⟨by decide, h1.congr (by simp [Tree.kinds]) (by simp [Tree.postorder])⟩
      · split
        · refine Res.sat_of (match_sat _ _ (by decide)) (fun _ s1 h1 => ?_)
          exact ⟨by decide, h1.congr (by simp [Tree.kinds]) (by simp [Tree.postorder])⟩
        · split
          · refine Res.sat_of (match_sat _ _ (by decide)) (fun _ s1 h1 => ?_)
            exact ⟨by decide, h1.congr (by simp [Tree.kinds]) (by simp [Tree.postorder])⟩
          · split
            · refine Res.sat_of (identifier_sat s) (fun _ s1 h1 => ?_)
              refine Res.sat_of (call_sat _ s1) (fun _ s2 h2 => ?_)
              split
              · refine Res.sat_of (match_sat _ _ (by decide)) (fun _ s3 h3 => ?_)
                split
                · refine Res.sat_of (ih9 s3 (((h1.trans h2).trans h3) hw).1) (fun e s4 h4 => ?_)
                  refine Res.sat_of (argumentsTreeLoop_sat _ ih9 fuel e s4
                    ((((h1.trans h2).trans h3).trans h4.2) hw).1) (fun a s5 h5 => ?_)
                  refine Res.sat_of (match_sat _ _ (by decide)) (fun _ s6 h6 => ?_)
                  obtain ⟨hd, hs⟩ := h5 h4.1
                  exact ⟨by simp [Tree.derives, hd],
                    ((((h1.trans h2).trans h3).trans (hs s3 h4.2)).trans h6).congr
                      (by simp [Tree.kinds]) (by simp [Tree.postorder])⟩
                · refine Res.sat_of (match_sat _ _ (by decide)) (fun _ s4 h4 => ?_)
                  exact ⟨by simp [Tree.derives], (((h1.trans h2).trans h3).trans h4).congr
                    (by simp [Tree.kinds]) (by simp [Tree.postorder])⟩
              · exact ⟨by decide, (h1.trans h2).congr (by simp [Tree.kinds])
                  (by simp [Tree.postorder])⟩
            · trivial

theorem postfix_sat_step (fuel : Nat)
    (ih1 : ∀ s, s.wf → (primaryTree fuel s).sat (fun t s1 => Tree.derives 0 t = true ∧ Step s t.kinds t.postorder s1))
    (ih9 : ∀ s, s.wf → (expressionTree fuel s).sat (fun t s1 => Tree.derives 8 t = true ∧ Step s t.kinds t.postorder s1)) (s : Parser) (hw : s.wf) :
    (postfixTree (fuel + 1) s).sat (fun t s1 => Tree.derives 1 t = true ∧ Step s t.kinds t.postorder s1) := by
  rw [postfixTree]
  simp only [bind_apply, Res.sat_bind]
  refine Res.sat_of (ih1 s hw) (fun left s1 h1 => ?_)
  refine Res.sat_of (postfixTreeLoop_sat _ ih9 fuel left s1 (h1.2 hw).1) (fun t s2 h2 => ?_)
  obtain ⟨hd, hs⟩ := h2 (Tree.derives_mono _ h1.1 (by decide))
  exact ⟨hd, hs s h1.2⟩

theorem prefix_sat_step (fuel : Nat)
    (ih2 : ∀ s, s.wf → (postfixTree fuel s).sat (fun t s1 => Tree.derives 1 t = true ∧ Step s t.kinds t.postorder s1))
    (ih3 : ∀ s, s.wf → (prefixTree fuel s).sat (fun t s1 => Tree.derives 2 t = true ∧ Step s t.kinds t.postorder s1)) (s : Parser) (hw : s.wf) :
    (prefixTree (fuel + 1) s).sat (fun t s1 => Tree.derives 2 t = true ∧ Step s t.kinds t.postorder s1) := by
  rw [prefixTree]
  simp only [bind_apply, Res.sat_bind, getParser_apply, pure_apply, Phase4.ite_apply, Res.sat_ok,
    Res.sat_ite]
  split
  · refine Res.sat_of (match_sat _ _ (by decide)) (fun _ s1 h1 => ?_)
    refine Res.sat_of (ih3 s1 (h1 hw).1) (fun e s2 h2 => ?_)
    refine Res.sat_of (print_sat _ s2) (fun _ s3 h3 => ?_)
    exact ⟨by simp [Tree.derives, h2.1], ((h1.trans h2.2).trans h3).congr
      (by simp [Tree.kinds, PreOp.kind]) (by simp [Tree.postorder, PreOp.name])⟩
  · split
    · refine Res.sat_of (match_sat _ _ (by decide)) (fun _ s1 h1 => ?_)
      refine Res.sat_of (ih3 s1 (h1 hw).1) (fun e s2 h2 => ?_)
      refine Res.sat_of (print_sat _ s2) (fun _ s3 h3 => ?_)
      exact ⟨by simp [Tree.derives, h2.1], ((h1.trans h2.2).trans h3).congr
        (by simp [Tree.kinds, PreOp.kind]) (by simp [Tree.postorder, PreOp.name])⟩
    · split
      · refine Res.sat_of (match_sat _ _ (by decide)) (fun _ s1 h1 => ?_)
        refine Res.sat_of (ih3 s1 (h1 hw).1) (fun e s2 h2 => ?_)
        refine Res.sat_of (print_sat _ s2) (fun _ s3 h3 => ?_)
        exact ⟨by simp [Tree.derives, h2.1], ((h1.trans h2.2).trans h3).congr
          (by simp [Tree.kinds, PreOp.kind]) (by simp [Tree.postorder, PreOp.name])⟩
      · split
        · refine Res.sat_of (match_sat _ _ (by decide)) (fun _ s1 h1 => ?_)
          refine Res.sat_of (ih3 s1 (h1 hw).1) (fun e s2 h2 => ?_)
          refine Res.sat_of (print_sat _ s2) (fun _ s3 h3 => ?_)
          exact ⟨by simp [Tree.derives, h2.1], ((h1.trans h2.2).trans h3).congr
            (by simp [Tree.kinds, PreOp.kind]) (by simp [Tree.postorder, PreOp.name])⟩
        · split
          · refine Res.sat_of (match_sat _ _ (by decide)) (fun _ s1 h1 => ?_)
            refine Res.sat_of (startsTypeName_ahead s1 (h1 hw).1) (fun b s2 hb => ?_)
            have h2 := hb.1
            split
            · refine Res.sat_of (match_sat _ _ (by decide)) (fun _ s3 h3 => ?_)
              refine Res.sat_of (specifier_sat s3) (fun k s4 h4 => ?_)
              refine Res.sat_of (starsLoop_sat fuel 0 s4) (fun n s5 h5 => ?_)
              refine Res.sat_of (match_sat _ _ (by decide)) (fun _ s6 h6 => ?_)
              refine Res.sat_of (print_sat _ s6) (fun _ s7 h7 => ?_)
              exact ⟨by simp [Tree.derives, h4.1],
                ((((((h1.trans h2).trans h3).trans h4.2).trans h5.2).trans h6).trans h7).congr
                  (by simp [Tree.kinds]) (by simp [Tree.postorder])⟩
            · rename_i hbt
              refine Res.sat_of (ih3 s2 ((h1.trans h2) hw).1) (fun e s3 h3 => ?_)
              refine Res.sat_of (print_sat _ s3) (fun _ s4 h4 => ?_)
              have hc : e.isCast = false :=
                isCast_of_ahead e s1 s2 s3 (h1 hw).1 h2 h3.1 h3.2 (by rw [← hb.2]; simpa using hbt)
              exact ⟨by simp [Tree.derives, h3.1, hc],
                (((h1.trans h2).trans h3.2).trans h4).congr
                  (by simp [Tree.kinds]) (by simp [Tree.postorder])⟩
          · refine Res.sat_of (startsTypeName_sat s) (fun b s1 h1 => ?_)
            split
            · refine Res.sat_of (match_sat _ _ (by decide)) (fun _ s2 h2 => ?_)
              refine Res.sat_of (specifier_sat s2) (fun k s3 h3 => ?_)
              refine Res.sat_of (starsLoop_sat fuel 0 s3) (fun n s4 h4 => ?_)
              refine Res.sat_of (match_sat _ _ (by decide)) (fun _ s5 h5 => ?_)
              refine Res.sat_of (ih3 s5 ((((h1.trans h2).trans h3.2).trans h4.2).trans h5 hw).1)
                (fun e s6 h6 => ?_)
              refine Res.sat_of (print_sat _ s6) (fun _ s7 h7 => ?_)
              exact ⟨by simp [Tree.derives, h3.1, h6.1],
                ((((((h1.trans h2).trans h3.2).trans h4.2).trans h5).trans h6.2).trans h7).congr
                  (by simp [Tree.kinds]) (by simp [Tree.postorder])⟩
            · refine Res.sat_of (ih2 s1 (h1 hw).1) (fun e s2 h2 => ?_)
              exact ⟨Tree.derives_mono _ h2.1 (by decide), (h1.trans h2.2).congr (by simp)
                (by simp)⟩

theorem multiplicative_sat_step (fuel : Nat)
    (ih3 : ∀ s, s.wf → (prefixTree fuel s).sat (fun t s1 => Tree.derives 2 t = true ∧ Step s t.kinds t.postorder s1)) (s : Parser) (hw : s.wf) :
    (multiplicativeTree (fuel + 1) s).sat (fun t s1 => Tree.derives 3 t = true ∧ Step s t.kinds t.postorder s1) := by
  rw [multiplicativeTree]
  simp only [bind_apply, Res.sat_bind]
  refine Res.sat_of (ih3 s hw) (fun left s1 h1 => ?_)
  refine Res.sat_of (multiplicativeTreeLoop_sat _ ih3 fuel left s1 (h1.2 hw).1) (fun t s2 h2 => ?_)
  obtain ⟨hd, hs⟩ := h2 (Tree.derives_mono _ h1.1 (by decide))
  exact ⟨hd, hs s h1.2⟩

theorem additive_sat_step (fuel : Nat)
    (ih4 : ∀ s, s.wf → (multiplicativeTree fuel s).sat (fun t s1 => Tree.derives 3 t = true ∧ Step s t.kinds t.postorder s1)) (s : Parser) (hw : s.wf) :
    (additiveTree (fuel + 1) s).sat (fun t s1 => Tree.derives 4 t = true ∧ Step s t.kinds t.postorder s1) := by
  rw [additiveTree]
  simp only [bind_apply, Res.sat_bind]
  refine Res.sat_of (ih4 s hw) (fun left s1 h1 => ?_)
  refine Res.sat_of (additiveTreeLoop_sat _ ih4 fuel left s1 (h1.2 hw).1) (fun t s2 h2 => ?_)
  obtain ⟨hd, hs⟩ := h2 (Tree.derives_mono _ h1.1 (by decide))
  exact ⟨hd, hs s h1.2⟩

theorem relational_sat_step (fuel : Nat)
    (ih5 : ∀ s, s.wf → (additiveTree fuel s).sat (fun t s1 => Tree.derives 4 t = true ∧ Step s t.kinds t.postorder s1)) (s : Parser) (hw : s.wf) :
    (relationalTree (fuel + 1) s).sat (fun t s1 => Tree.derives 5 t = true ∧ Step s t.kinds t.postorder s1) := by
  rw [relationalTree]
  simp only [bind_apply, Res.sat_bind]
  refine Res.sat_of (ih5 s hw) (fun left s1 h1 => ?_)
  refine Res.sat_of (relationalTreeLoop_sat _ ih5 fuel left s1 (h1.2 hw).1) (fun t s2 h2 => ?_)
  obtain ⟨hd, hs⟩ := h2 (Tree.derives_mono _ h1.1 (by decide))
  exact ⟨hd, hs s h1.2⟩

theorem equality_sat_step (fuel : Nat)
    (ih6 : ∀ s, s.wf → (relationalTree fuel s).sat (fun t s1 => Tree.derives 5 t = true ∧ Step s t.kinds t.postorder s1)) (s : Parser) (hw : s.wf) :
    (equalityTree (fuel + 1) s).sat (fun t s1 => Tree.derives 6 t = true ∧ Step s t.kinds t.postorder s1) := by
  rw [equalityTree]
  simp only [bind_apply, Res.sat_bind]
  refine Res.sat_of (ih6 s hw) (fun left s1 h1 => ?_)
  refine Res.sat_of (equalityTreeLoop_sat _ ih6 fuel left s1 (h1.2 hw).1) (fun t s2 h2 => ?_)
  obtain ⟨hd, hs⟩ := h2 (Tree.derives_mono _ h1.1 (by decide))
  exact ⟨hd, hs s h1.2⟩

theorem logicalAnd_sat_step (fuel : Nat)
    (ih7 : ∀ s, s.wf → (equalityTree fuel s).sat (fun t s1 => Tree.derives 6 t = true ∧ Step s t.kinds t.postorder s1)) (s : Parser) (hw : s.wf) :
    (logicalAndTree (fuel + 1) s).sat (fun t s1 => Tree.derives 7 t = true ∧ Step s t.kinds t.postorder s1) := by
  rw [logicalAndTree]
  simp only [bind_apply, Res.sat_bind]
  refine Res.sat_of (ih7 s hw) (fun left s1 h1 => ?_)
  refine Res.sat_of (logicalAndTreeLoop_sat _ ih7 fuel left s1 (h1.2 hw).1) (fun t s2 h2 => ?_)
  obtain ⟨hd, hs⟩ := h2 (Tree.derives_mono _ h1.1 (by decide))
  exact ⟨hd, hs s h1.2⟩

theorem expression_sat_step (fuel : Nat)
    (ih8 : ∀ s, s.wf → (logicalAndTree fuel s).sat (fun t s1 => Tree.derives 7 t = true ∧ Step s t.kinds t.postorder s1)) (s : Parser) (hw : s.wf) :
    (expressionTree (fuel + 1) s).sat (fun t s1 => Tree.derives 8 t = true ∧ Step s t.kinds t.postorder s1) := by
  rw [expressionTree]
  simp only [bind_apply, Res.sat_bind]
  refine Res.sat_of (ih8 s hw) (fun left s1 h1 => ?_)
  refine Res.sat_of (expressionTreeLoop_sat _ ih8 fuel left s1 (h1.2 hw).1) (fun t s2 h2 => ?_)
  obtain ⟨hd, hs⟩ := h2 (Tree.derives_mono _ h1.1 (by decide))
  exact ⟨hd, hs s h1.2⟩

theorem expressionTrees_sat (fuel : Nat) :
    (∀ s, s.wf → (primaryTree fuel s).sat (fun t s1 => Tree.derives 0 t = true ∧ Step s t.kinds t.postorder s1)) ∧
    (∀ s, s.wf → (postfixTree fuel s).sat (fun t s1 => Tree.derives 1 t = true ∧ Step s t.kinds t.postorder s1)) ∧
    (∀ s, s.wf → (prefixTree fuel s).sat (fun t s1 => Tree.derives 2 t = true ∧ Step s t.kinds t.postorder s1)) ∧
    (∀ s, s.wf → (multiplicativeTree fuel s).sat (fun t s1 => Tree.derives 3 t = true ∧ Step s t.kinds t.postorder s1)) ∧
    (∀ s, s.wf → (additiveTree fuel s).sat (fun t s1 => Tree.derives 4 t = true ∧ Step s t.kinds t.postorder s1)) ∧
    (∀ s, s.wf → (relationalTree fuel s).sat (fun t s1 => Tree.derives 5 t = true ∧ Step s t.kinds t.postorder s1)) ∧
    (∀ s, s.wf → (equalityTree fuel s).sat (fun t s1 => Tree.derives 6 t = true ∧ Step s t.kinds t.postorder s1)) ∧
    (∀ s, s.wf → (logicalAndTree fuel s).sat (fun t s1 => Tree.derives 7 t = true ∧ Step s t.kinds t.postorder s1)) ∧
    (∀ s, s.wf → (expressionTree fuel s).sat (fun t s1 => Tree.derives 8 t = true ∧ Step s t.kinds t.postorder s1)) := by
  induction fuel with
  | zero => exact ⟨fun _ _ => trivial, fun _ _ => trivial, fun _ _ => trivial, fun _ _ => trivial,
      fun _ _ => trivial, fun _ _ => trivial, fun _ _ => trivial, fun _ _ => trivial,
      fun _ _ => trivial⟩
  | succ fuel ih =>
    obtain ⟨ih1, ih2, ih3, ih4, ih5, ih6, ih7, ih8, ih9⟩ := ih
    exact ⟨primary_sat_step fuel ih9, postfix_sat_step fuel ih1 ih9,
      prefix_sat_step fuel ih2 ih3, multiplicative_sat_step fuel ih3,
      additive_sat_step fuel ih4, relational_sat_step fuel ih5,
      equality_sat_step fuel ih6, logicalAnd_sat_step fuel ih7,
      expression_sat_step fuel ih8⟩

theorem expressionTree_sat (fuel : Nat) (s : Parser) (hw : s.wf) :
    (expressionTree fuel s).sat (fun t s1 => Tree.derives 8 t = true ∧ Step s t.kinds t.postorder s1) :=
  (expressionTrees_sat fuel).2.2.2.2.2.2.2.2 s hw

end Phase3
/-! ## Every parse tree is parsed -/

theorem Res.returns_of {σ α : Type} {r : Res σ α} {P Q : α → σ → Prop} (h : r.returns P)
    (hPQ : ∀ a s, P a s → Q a s) : r.returns Q := by
  cases r with
  | ok a s => exact hPQ a s h
  | exit status log => exact h
  | undefined => exact h
  | timeout => exact h

theorem Res.returns_ok {σ α : Type} (a : α) (s : σ) (Q : α → σ → Prop) :
    (Res.ok a s).returns Q ↔ Q a s := Iff.rfl

theorem Res.returns_bind {σ α β : Type} (r : Res σ α) (f : α → σ → Res σ β)
    (Q : β → σ → Prop) :
    (r.bind f).returns Q ↔ r.returns (fun a s => (f a s).returns Q) := by
  cases r <;> exact Iff.rfl

theorem Res.returns_eq {σ α : Type} {r : Res σ α} {Q : α → σ → Prop} (h : r.returns Q) :
    ∃ a s, r = Res.ok a s ∧ Q a s := by
  cases r with
  | ok a s => exact ⟨a, s, rfl, h⟩
  | exit status log => exact h.elim
  | undefined => exact h.elim
  | timeout => exact h.elim

namespace Phase3

open Phase4 (bind_apply bind_ok pure_apply tokenAt)

theorem poised_cons {s : Parser} {k : Int} {r : List Int} {out : List String}
    (h : s.poised (k :: r) out) : s.lookahead = k ∧ k ≠ 0 :=
  ⟨(rest_cons h.2.1).1, (rest_cons h.2.1).2.1⟩

theorem poised_ne {s : Parser} {n : Nat} {r : List Int} {out : List String}
    (h : s.poised r out) (hs : stops n r = true) (k : Int) (hk : k ≠ 0) (hl : opLevel k ≤ n) :
    s.lookahead ≠ k := by
  cases r with
  | nil =>
      rw [rest_nil h.2.1]
      exact fun e => hk e.symm
  | cons k1 r1 =>
      rw [(poised_cons h).1]
      intro e
      subst e
      simp only [stops, decide_eq_true_eq] at hs
      omega

theorem stops_mono {n m : Nat} {r : List Int} (h : stops n r = true) (hm : m ≤ n) :
    stops m r = true := by
  cases r with
  | nil => rfl
  | cons k r =>
      simp only [stops, decide_eq_true_eq] at h ⊢
      omega

theorem match_returns (k : Int) (s : Parser) (r : List Int) (out : List String)
    (h : s.poised (k :: r) out) :
    (match_ k s).returns (fun _ s1 => s1.poised r out) := by
  obtain ⟨hk, hk0⟩ := poised_cons h
  obtain ⟨s1, e, -, -, hc⟩ := match_advance3 k s hk
  have hs := match_sat k s hk0
  rw [e] at hs ⊢
  obtain ⟨hw1, hr1, ho1⟩ := hs h.1
  refine ⟨hw1, ?_, ?_, by rw [hc]; exact h.2.2.2.1, by rw [hc]; exact h.2.2.2.2⟩
  · rw [h.2.1] at hr1
    simpa using hr1.symm
  · rw [ho1, h.2.2.1, List.append_nil]

theorem print_returns (line : String) (s : Parser) (r : List Int) (out : List String)
    (h : s.poised r out) :
    (print line s).returns (fun _ s1 => s1.poised r (out ++ [line])) := by
  obtain ⟨hw, hr, ho, hi, ht⟩ := h
  exact ⟨hw, hr, by show s.output ++ [line] = _; rw [ho], hi, ht⟩

theorem identifier_returns (s : Parser) (r : List Int) (out : List String)
    (h : s.poised (Phase4.ID :: r) out) :
    (identifier s).returns (fun _ s1 => s1.poised r out) := by
  unfold identifier
  simp only [bind_apply, Res.returns_bind, getParser_apply, pure_apply, Res.returns_ok]
  exact match_returns _ s r out h

theorem checkIdentifier_eq (name : String) (c : Checker) :
    checkIdentifier name c = SimpleC.checkIdentifier name c := by
  obtain ⟨scopes, symbols, defined, outermost, toplevel, log⟩ := c
  cases toplevel with
  | none => rfl
  | some i =>
      simp only [checkIdentifier, SimpleC.checkIdentifier, Checker.scope]
      cases scopes[i]? with
      | none => rfl
      | some sc =>
          simp only
          cases sc.lookup scopes name with
          | none => rfl
          | some found =>
              cases found with
              | none => rfl
              | some sym => rfl

theorem checkIdentifier_returns (name : String) (s : Parser) (r : List Int) (out : List String)
    (h : s.poised r out) :
    (call (checkIdentifier name) s).returns (fun _ s1 => s1.poised r out) := by
  obtain ⟨hw, hr, ho, hi, ht⟩ := h
  obtain ⟨i, hti⟩ := Option.ne_none_iff_exists'.mp ht
  have hlt := hi.top_valid i hti
  obtain ⟨sc, hsc⟩ : ∃ sc, s.checker.scopes[i]? = some sc :=
    ⟨_, List.getElem?_eq_getElem hlt⟩
  have hl := hi.lookup_isSome hsc name
  cases hc : SimpleC.checkIdentifier name s.checker with
  | none =>
      exfalso
      simp only [SimpleC.checkIdentifier, Checker.scope, hti, hsc] at hc
      cases hlk : sc.lookup s.checker.scopes name with
      | none => rw [hlk] at hl; cases hl
      | some found =>
          rw [hlk] at hc
          cases found <;> simp at hc
  | some rc =>
      obtain ⟨res, c1⟩ := rc
      have hi1 := hi.checkIdentifier hc
      have ht1 : c1.toplevel = s.checker.toplevel := by
        simp only [SimpleC.checkIdentifier, Checker.scope, hti, hsc] at hc
        cases hlk : sc.lookup s.checker.scopes name with
        | none => rw [hlk] at hl; cases hl
        | some found =>
            rw [hlk] at hc
            cases found with
            | none =>
                simp only [Option.some.injEq, Prod.mk.injEq] at hc
                rw [← hc.2]
                simp [Checker.setScope, hti]
            | some sym =>
                simp only [Option.some.injEq, Prod.mk.injEq] at hc
                rw [← hc.2]
      simp only [call, checkIdentifier_eq, hc]
      exact ⟨hw, hr, ho, hi1, by rw [ht1]; exact ht⟩

theorem startsTypeName_returns (s : Parser) (r : List Int) (out : List String)
    (h : s.poised r out) :
    (startsTypeName s).returns (fun b s1 => b = typeAhead r ∧ s1.poised r out) := by
  obtain ⟨s1, e, hw1, hr1, ho1, hc1⟩ := startsTypeName_run s h.1
  rw [e]
  exact ⟨by rw [h.2.1], hw1, hr1.trans h.2.1, ho1.trans h.2.2.1, by rw [hc1]; exact h.2.2.2.1,
    by rw [hc1]; exact h.2.2.2.2⟩

theorem specifier_returns (k : Int) (s : Parser) (r : List Int) (out : List String)
    (h : s.poised (k :: r) out) (hk : isSpecifier k = true) :
    (specifier s).returns (fun v s1 => v = k ∧ s1.poised r out) := by
  obtain ⟨hl, -⟩ := poised_cons h
  unfold specifier
  simp only [bind_apply, Res.returns_bind, getParser_apply, pure_apply, Phase4.ite_apply,
    Res.returns_ok, hl, hk, if_true]
  exact Res.returns_of (match_returns k s r out h) (fun _ _ h1 => ⟨trivial, h1⟩)

theorem starsLoop_returns (n : Nat) :
    ∀ (fuel count : Nat) (s : Parser) (r : List Int) (out : List String),
      n < fuel → s.poised (List.replicate n (chr '*') ++ r) out → stops 3 r = true →
      (starsLoop fuel count s).returns (fun m s1 => m = count + n ∧ s1.poised r out) := by
  induction n with
  | zero =>
      intro fuel count s r out hf h hs
      obtain ⟨fuel, rfl⟩ : ∃ m, fuel = m + 1 := ⟨fuel - 1, by omega⟩
      have hne := poised_ne h hs (chr '*') (by decide) (by decide)
      rw [starsLoop]
      simp only [bind_apply, Res.returns_bind, getParser_apply, pure_apply, Phase4.ite_apply,
        Res.returns_ok, beq_iff_eq, hne, if_false]
      exact ⟨rfl, h⟩
  | succ n ih =>
      intro fuel count s r out hf h hs
      obtain ⟨fuel, rfl⟩ : ∃ m, fuel = m + 1 := ⟨fuel - 1, by omega⟩
      rw [List.replicate_succ, List.cons_append] at h
      have hl := (poised_cons h).1
      rw [starsLoop]
      simp only [bind_apply, Res.returns_bind, getParser_apply, pure_apply, Phase4.ite_apply,
        Res.returns_ok, hl, beq_self_eq_true, if_true]
      refine Res.returns_of (match_returns _ s _ out h) (fun _ s1 h1 => ?_)
      refine Res.returns_of (ih fuel (count + 1) s1 r out (by omega) h1 hs) (fun m s2 h2 => ?_)
      exact ⟨by omega, h2.2⟩

end Phase3

namespace Phase3

open Phase4 (bind_apply bind_ok pure_apply tokenAt)
open Phase4 (DONE SIZEOF OR AND EQL NEQ LEQ GEQ INC DEC ID INTEGER REAL STRING CHARACTER)

theorem stops_cons (n : Nat) (k : Int) (r : List Int) (h : n < opLevel k) :
    stops n (k :: r) = true := by
  simp [stops, h]

theorem opLevel_kind (op : BinOp) : opLevel op.kind = op.level := by
  cases op <;> decide

theorem BinOp.kind_ne_zero (op : BinOp) : op.kind ≠ 0 := by
  cases op <;> decide

theorem BinaryLevel.continues_of_parses {n : Nat} {F whole : Nat → PM Parser Tree}
    {loop : PM Parser Tree → Nat → Tree → PM Parser Tree} (B : BinaryLevel n F whole loop)
    (t : Tree) (h : Parses F (n - 1) t) : Continues F loop n t := by
  intro f G s r out Post hf hp hs hk g hg
  have hn := B.level
  simp only [bind_apply, Res.returns_bind]
  refine Res.returns_of (h f s r out (by omega) hp hs) (fun t1 s1 h1 => ?_)
  obtain ⟨e, h1⟩ := h1
  subst e
  exact hk g s1 (by omega) h1

theorem BinaryLevel.continues_binary {n : Nat} {F whole : Nat → PM Parser Tree}
    {loop : PM Parser Tree → Nat → Tree → PM Parser Tree} (B : BinaryLevel n F whole loop)
    (op : BinOp) (l x : Tree) (hop : op.level = n) (hl : Continues F loop n l)
    (hx : Parses F (n - 1) x) : Continues F loop n (Tree.binary op l x) := by
  intro f G s r out Post hf hp hs hk g hg
  have hn := B.level
  simp only [Tree.weight] at hf hg
  have hp1 : s.poised (l.kinds ++ (op.kind :: (x.kinds ++ r))) out := by
    simpa [Tree.kinds] using hp
  have hs1 : stops (n - 1) (op.kind :: (x.kinds ++ r)) = true := by
    simp only [stops, decide_eq_true_eq, opLevel_kind, hop]
    omega
  refine hl f (G + 1) s _ out Post (by omega) hp1 hs1 ?_ g (by omega)
  intro g1 s1 hg1 h1
  obtain ⟨g2, rfl⟩ : ∃ m, g1 = m + 1 := ⟨g1 - 1, by omega⟩
  rw [B.round _ g2 l s1 op hop (poised_cons h1).1]
  simp only [bind_apply, Res.returns_bind]
  refine Res.returns_of (match_returns _ s1 _ _ h1) (fun _ s2 h2 => ?_)
  refine Res.returns_of (hx f s2 r _ (by omega) h2 hs) (fun t1 s3 h3 => ?_)
  obtain ⟨e, h3⟩ := h3
  subst e
  refine Res.returns_of (print_returns op.name s3 r _ h3) (fun _ s4 h4 => ?_)
  exact hk g2 s4 (by omega) (by simpa [Tree.postorder] using h4)

theorem BinaryLevel.parses_of_continues {n : Nat} {F whole : Nat → PM Parser Tree}
    {loop : PM Parser Tree → Nat → Tree → PM Parser Tree} (B : BinaryLevel n F whole loop)
    (t : Tree) (h : Continues F loop n t) : Parses whole n t := by
  intro f s r out hf hp hs
  have hn := B.level
  obtain ⟨f1, rfl⟩ : ∃ m, f = m + 1 := ⟨f - 1, by omega⟩
  rw [B.whole_eq]
  refine h f1 1 s r out _ (by omega) hp (stops_mono hs (by omega)) ?_ f1 (by omega)
  intro g s1 hg h1
  obtain ⟨g1, rfl⟩ : ∃ m, g = m + 1 := ⟨g - 1, by omega⟩
  rw [B.done _ g1 t s1 (fun op hop =>
    poised_ne h1 hs op.kind op.kind_ne_zero (by rw [opLevel_kind, hop]))]
  exact ⟨rfl, h1⟩

theorem multiplicative_round (operand : PM Parser Tree) (g : Nat) (left : Tree) (s : Parser) (op : BinOp)
    (hop : op.level = 3) (hk : s.lookahead = op.kind) :
    multiplicativeTreeLoop operand (g + 1) left s =
      (do
        match_ op.kind
        let right ← operand
        print op.name
        multiplicativeTreeLoop operand g (Tree.binary op left right) : PM Parser Tree) s := by
  cases op with
  | mul =>
      simp only [BinOp.kind] at hk
      rw [multiplicativeTreeLoop]
      simp only [bind_apply, getParser_apply, bind_ok, Phase4.ite_apply, hk, beq_self_eq_true, if_true, BinOp.kind,
        BinOp.name]
  | div =>
      simp only [BinOp.kind] at hk
      have e0 : (chr '/' == chr '*') = false := by decide
      rw [multiplicativeTreeLoop]
      simp only [bind_apply, getParser_apply, bind_ok, Phase4.ite_apply, hk, beq_self_eq_true, if_true, BinOp.kind,
        BinOp.name, e0, Bool.false_eq_true, if_false]
  | rem =>
      simp only [BinOp.kind] at hk
      have e0 : (chr '%' == chr '*') = false := by decide
      have e1 : (chr '%' == chr '/') = false := by decide
      rw [multiplicativeTreeLoop]
      simp only [bind_apply, getParser_apply, bind_ok, Phase4.ite_apply, hk, beq_self_eq_true, if_true, BinOp.kind,
        BinOp.name, e0, e1, Bool.false_eq_true, if_false]
  | _ => exact absurd hop (by decide)

theorem multiplicative_done (operand : PM Parser Tree) (g : Nat) (left : Tree) (s : Parser)
    (hne : ∀ op : BinOp, op.level = 3 → s.lookahead ≠ op.kind) :
    multiplicativeTreeLoop operand (g + 1) left s = Res.ok left s := by
  have h0 : s.lookahead ≠ chr '*' := hne BinOp.mul rfl
  have h1 : s.lookahead ≠ chr '/' := hne BinOp.div rfl
  have h2 : s.lookahead ≠ chr '%' := hne BinOp.rem rfl
  rw [multiplicativeTreeLoop]
  simp only [bind_apply, getParser_apply, bind_ok, Phase4.ite_apply, beq_iff_eq, h0, h1, h2, if_false, pure_apply]

theorem multiplicative_level : BinaryLevel 3 prefixTree multiplicativeTree multiplicativeTreeLoop where
  level := by decide
  whole_eq := fun f s => by rw [multiplicativeTree]
  round := multiplicative_round
  done := multiplicative_done

theorem additive_round (operand : PM Parser Tree) (g : Nat) (left : Tree) (s : Parser) (op : BinOp)
    (hop : op.level = 4) (hk : s.lookahead = op.kind) :
    additiveTreeLoop operand (g + 1) left s =
      (do
        match_ op.kind
        let right ← operand
        print op.name
        additiveTreeLoop operand g (Tree.binary op left right) : PM Parser Tree) s := by
  cases op with
  | add =>
      simp only [BinOp.kind] at hk
      rw [additiveTreeLoop]
      simp only [bind_apply, getParser_apply, bind_ok, Phase4.ite_apply, hk, beq_self_eq_true, if_true, BinOp.kind,
        BinOp.name]
  | sub =>
      simp only [BinOp.kind] at hk
      have e0 : (chr '-' == chr '+') = false := by decide
      rw [additiveTreeLoop]
      simp only [bind_apply, getParser_apply, bind_ok, Phase4.ite_apply, hk, beq_self_eq_true, if_true, BinOp.kind,
        BinOp.name, e0, Bool.false_eq_true, if_false]
  | _ => exact absurd hop (by decide)

theorem additive_done (operand : PM Parser Tree) (g : Nat) (left : Tree) (s : Parser)
    (hne : ∀ op : BinOp, op.level = 4 → s.lookahead ≠ op.kind) :
    additiveTreeLoop operand (g + 1) left s = Res.ok left s := by
  have h0 : s.lookahead ≠ chr '+' := hne BinOp.add rfl
  have h1 : s.lookahead ≠ chr '-' := hne BinOp.sub rfl
  rw [additiveTreeLoop]
  simp only [bind_apply, getParser_apply, bind_ok, Phase4.ite_apply, beq_iff_eq, h0, h1, if_false, pure_apply]

theorem additive_level : BinaryLevel 4 multiplicativeTree additiveTree additiveTreeLoop where
  level := by decide
  whole_eq := fun f s => by rw [additiveTree]
  round := additive_round
  done := additive_done

theorem relational_round (operand : PM Parser Tree) (g : Nat) (left : Tree) (s : Parser) (op : BinOp)
    (hop : op.level = 5) (hk : s.lookahead = op.kind) :
    relationalTreeLoop operand (g + 1) left s =
      (do
        match_ op.kind
        let right ← operand
        print op.name
        relationalTreeLoop operand g (Tree.binary op left right) : PM Parser Tree) s := by
  cases op with
  | ltn =>
      simp only [BinOp.kind] at hk
      rw [relationalTreeLoop]
      simp only [bind_apply, getParser_apply, bind_ok, Phase4.ite_apply, hk, beq_self_eq_true, if_true, BinOp.kind,
        BinOp.name]
  | gtn =>
      simp only [BinOp.kind] at hk
      have e0 : (chr '>' == chr '<') = false := by decide
      rw [relationalTreeLoop]
      simp only [bind_apply, getParser_apply, bind_ok, Phase4.ite_apply, hk, beq_self_eq_true, if_true, BinOp.kind,
        BinOp.name, e0, Bool.false_eq_true, if_false]
  | leq =>
      simp only [BinOp.kind] at hk
      have e0 : (LEQ == chr '<') = false := by decide
      have e1 : (LEQ == chr '>') = false := by decide
      rw [relationalTreeLoop]
      simp only [bind_apply, getParser_apply, bind_ok, Phase4.ite_apply, hk, beq_self_eq_true, if_true, BinOp.kind,
        BinOp.name, e0, e1, Bool.false_eq_true, if_false]
  | geq =>
      simp only [BinOp.kind] at hk
      have e0 : (GEQ == chr '<') = false := by decide
      have e1 : (GEQ == chr '>') = false := by decide
      have e2 : (GEQ == LEQ) = false := by decide
      rw [relationalTreeLoop]
      simp only [bind_apply, getParser_apply, bind_ok, Phase4.ite_apply, hk, beq_self_eq_true, if_true, BinOp.kind,
        BinOp.name, e0, e1, e2, Bool.false_eq_true, if_false]
  | _ => exact absurd hop (by decide)

theorem relational_done (operand : PM Parser Tree) (g : Nat) (left : Tree) (s : Parser)
    (hne : ∀ op : BinOp, op.level = 5 → s.lookahead ≠ op.kind) :
    relationalTreeLoop operand (g + 1) left s = Res.ok left s := by
  have h0 : s.lookahead ≠ chr '<' := hne BinOp.ltn rfl
  have h1 : s.lookahead ≠ chr '>' := hne BinOp.gtn rfl
  have h2 : s.lookahead ≠ LEQ := hne BinOp.leq rfl
  have h3 : s.lookahead ≠ GEQ := hne BinOp.geq rfl
  rw [relationalTreeLoop]
  simp only [bind_apply, getParser_apply, bind_ok, Phase4.ite_apply, beq_iff_eq, h0, h1, h2, h3, if_false, pure_apply]

theorem relational_level : BinaryLevel 5 additiveTree relationalTree relationalTreeLoop where
  level := by decide
  whole_eq := fun f s => by rw [relationalTree]
  round := relational_round
  done := relational_done

theorem equality_round (operand : PM Parser Tree) (g : Nat) (left : Tree) (s : Parser) (op : BinOp)
    (hop : op.level = 6) (hk : s.lookahead = op.kind) :
    equalityTreeLoop operand (g + 1) left s =
      (do
        match_ op.kind
        let right ← operand
        print op.name
        equalityTreeLoop operand g (Tree.binary op left right) : PM Parser Tree) s := by
  cases op with
  | eql =>
      simp only [BinOp.kind] at hk
      rw [equalityTreeLoop]
      simp only [bind_apply, getParser_apply, bind_ok, Phase4.ite_apply, hk, beq_self_eq_true, if_true, BinOp.kind,
        BinOp.name]
  | neq =>
      simp only [BinOp.kind] at hk
      have e0 : (NEQ == EQL) = false := by decide
      rw [equalityTreeLoop]
      simp only [bind_apply, getParser_apply, bind_ok, Phase4.ite_apply, hk, beq_self_eq_true, if_true, BinOp.kind,
        BinOp.name, e0, Bool.false_eq_true, if_false]
  | _ => exact absurd hop (by decide)

theorem equality_done (operand : PM Parser Tree) (g : Nat) (left : Tree) (s : Parser)
    (hne : ∀ op : BinOp, op.level = 6 → s.lookahead ≠ op.kind) :
    equalityTreeLoop operand (g + 1) left s = Res.ok left s := by
  have h0 : s.lookahead ≠ EQL := hne BinOp.eql rfl
  have h1 : s.lookahead ≠ NEQ := hne BinOp.neq rfl
  rw [equalityTreeLoop]
  simp only [bind_apply, getParser_apply, bind_ok, Phase4.ite_apply, beq_iff_eq, h0, h1, if_false, pure_apply]

theorem equality_level : BinaryLevel 6 relationalTree equalityTree equalityTreeLoop where
  level := by decide
  whole_eq := fun f s => by rw [equalityTree]
  round := equality_round
  done := equality_done

theorem logicalAnd_round (operand : PM Parser Tree) (g : Nat) (left : Tree) (s : Parser) (op : BinOp)
    (hop : op.level = 7) (hk : s.lookahead = op.kind) :
    logicalAndTreeLoop operand (g + 1) left s =
      (do
        match_ op.kind
        let right ← operand
        print op.name
        logicalAndTreeLoop operand g (Tree.binary op left right) : PM Parser Tree) s := by
  cases op with
  | and =>
      simp only [BinOp.kind] at hk
      rw [logicalAndTreeLoop]
      simp only [bind_apply, getParser_apply, bind_ok, Phase4.ite_apply, hk, beq_self_eq_true, if_true, BinOp.kind,
        BinOp.name]
  | _ => exact absurd hop (by decide)

theorem logicalAnd_done (operand : PM Parser Tree) (g : Nat) (left : Tree) (s : Parser)
    (hne : ∀ op : BinOp, op.level = 7 → s.lookahead ≠ op.kind) :
    logicalAndTreeLoop operand (g + 1) left s = Res.ok left s := by
  have h0 : s.lookahead ≠ AND := hne BinOp.and rfl
  rw [logicalAndTreeLoop]
  simp only [bind_apply, getParser_apply, bind_ok, Phase4.ite_apply, beq_iff_eq, h0, if_false, pure_apply]

theorem logicalAnd_level : BinaryLevel 7 equalityTree logicalAndTree logicalAndTreeLoop where
  level := by decide
  whole_eq := fun f s => by rw [logicalAndTree]
  round := logicalAnd_round
  done := logicalAnd_done

theorem expression_round (operand : PM Parser Tree) (g : Nat) (left : Tree) (s : Parser) (op : BinOp)
    (hop : op.level = 8) (hk : s.lookahead = op.kind) :
    expressionTreeLoop operand (g + 1) left s =
      (do
        match_ op.kind
        let right ← operand
        print op.name
        expressionTreeLoop operand g (Tree.binary op left right) : PM Parser Tree) s := by
  cases op with
  | or =>
      simp only [BinOp.kind] at hk
      rw [expressionTreeLoop]
      simp only [bind_apply, getParser_apply, bind_ok, Phase4.ite_apply, hk, beq_self_eq_true, if_true, BinOp.kind,
        BinOp.name]
  | _ => exact absurd hop (by decide)

theorem expression_done (operand : PM Parser Tree) (g : Nat) (left : Tree) (s : Parser)
    (hne : ∀ op : BinOp, op.level = 8 → s.lookahead ≠ op.kind) :
    expressionTreeLoop operand (g + 1) left s = Res.ok left s := by
  have h0 : s.lookahead ≠ OR := hne BinOp.or rfl
  rw [expressionTreeLoop]
  simp only [bind_apply, getParser_apply, bind_ok, Phase4.ite_apply, beq_iff_eq, h0, if_false, pure_apply]

theorem expression_level : BinaryLevel 8 logicalAndTree expressionTree expressionTreeLoop where
  level := by decide
  whole_eq := fun f s => by rw [expressionTree]
  round := expression_round
  done := expression_done

theorem postfix_round_index (X : PM Parser Tree) (g : Nat) (left : Tree) (s : Parser)
    (hk : s.lookahead = chr '[') :
    postfixTreeLoop X (g + 1) left s =
      (do
        match_ (chr '[')
        let i ← X
        match_ (chr ']')
        print "index"
        postfixTreeLoop X g (Tree.index left i) : PM Parser Tree) s := by
  rw [postfixTreeLoop]
  simp only [bind_apply, getParser_apply, bind_ok, Phase4.ite_apply, hk, beq_self_eq_true, if_true]

theorem postfix_round_post (X : PM Parser Tree) (g : Nat) (left : Tree) (s : Parser) (op : PostOp)
    (hk : s.lookahead = op.kind) :
    postfixTreeLoop X (g + 1) left s =
      (do
        match_ op.kind
        print op.name
        postfixTreeLoop X g (Tree.post op left) : PM Parser Tree) s := by
  have e0 : (INC == chr '[') = false := by decide
  have e1 : (DEC == chr '[') = false := by decide
  have e2 : (DEC == INC) = false := by decide
  cases op with
  | inc =>
      simp only [PostOp.kind] at hk
      rw [postfixTreeLoop]
      simp only [bind_apply, getParser_apply, bind_ok, Phase4.ite_apply, hk, beq_self_eq_true,
        if_true, e0, Bool.false_eq_true, if_false, PostOp.kind, PostOp.name]
  | dec =>
      simp only [PostOp.kind] at hk
      rw [postfixTreeLoop]
      simp only [bind_apply, getParser_apply, bind_ok, Phase4.ite_apply, hk, beq_self_eq_true,
        if_true, e1, e2, Bool.false_eq_true, if_false, PostOp.kind, PostOp.name]

theorem postfix_done (X : PM Parser Tree) (g : Nat) (left : Tree) (s : Parser)
    (h0 : s.lookahead ≠ chr '[') (h1 : s.lookahead ≠ INC) (h2 : s.lookahead ≠ DEC) :
    postfixTreeLoop X (g + 1) left s = Res.ok left s := by
  rw [postfixTreeLoop]
  simp only [bind_apply, getParser_apply, bind_ok, Phase4.ite_apply, beq_iff_eq, h0, h1, h2,
    if_false, pure_apply]

theorem postfixContinues_of_primary (t : Tree) (h : Parses primaryTree 0 t) :
    PostfixContinues t := by
  intro f G s r out Post hf hp hs hk g hg
  simp only [bind_apply, Res.returns_bind]
  refine Res.returns_of (h f s r out (by omega) hp hs) (fun t1 s1 h1 => ?_)
  obtain ⟨e, h1⟩ := h1
  subst e
  exact hk g s1 (by omega) h1

theorem postfixContinues_index (e i : Tree) (he : PostfixContinues e)
    (hi : Parses expressionTree 8 i) : PostfixContinues (Tree.index e i) := by
  intro f G s r out Post hf hp hs hk g hg
  simp only [Tree.weight] at hf hg
  have hp1 : s.poised (e.kinds ++ (chr '[' :: (i.kinds ++ (chr ']' :: r)))) out := by
    simpa [Tree.kinds] using hp
  refine he f (G + 1) s _ out Post (by omega) hp1 (stops_cons _ _ _ (by decide)) ?_ g (by omega)
  intro g1 s1 hg1 h1
  obtain ⟨g2, rfl⟩ : ∃ m, g1 = m + 1 := ⟨g1 - 1, by omega⟩
  rw [postfix_round_index _ g2 e s1 (poised_cons h1).1]
  simp only [bind_apply, Res.returns_bind]
  refine Res.returns_of (match_returns _ s1 _ _ h1) (fun _ s2 h2 => ?_)
  refine Res.returns_of (hi f s2 (chr ']' :: r) _ (by omega) h2
    (stops_cons _ _ _ (by decide))) (fun t1 s3 h3 => ?_)
  obtain ⟨e1, h3⟩ := h3
  subst e1
  refine Res.returns_of (match_returns _ s3 _ _ h3) (fun _ s4 h4 => ?_)
  refine Res.returns_of (print_returns "index" s4 r _ h4) (fun _ s5 h5 => ?_)
  exact hk g2 s5 (by omega) (by simpa [Tree.postorder] using h5)

theorem postfixContinues_post (op : PostOp) (e : Tree) (he : PostfixContinues e) :
    PostfixContinues (Tree.post op e) := by
  intro f G s r out Post hf hp hs hk g hg
  simp only [Tree.weight] at hf hg
  have hp1 : s.poised (e.kinds ++ (op.kind :: r)) out := by
    simpa [Tree.kinds] using hp
  have hs1 : stops 0 (op.kind :: r) = true := by
    cases op <;> exact stops_cons _ _ _ (by decide)
  refine he f (G + 1) s _ out Post (by omega) hp1 hs1 ?_ g (by omega)
  intro g1 s1 hg1 h1
  obtain ⟨g2, rfl⟩ : ∃ m, g1 = m + 1 := ⟨g1 - 1, by omega⟩
  rw [postfix_round_post _ g2 e s1 op (poised_cons h1).1]
  simp only [bind_apply, Res.returns_bind]
  refine Res.returns_of (match_returns _ s1 _ _ h1) (fun _ s2 h2 => ?_)
  refine Res.returns_of (print_returns op.name s2 r _ h2) (fun _ s3 h3 => ?_)
  exact hk g2 s3 (by omega) (by simpa [Tree.postorder] using h3)

theorem postfix_parses (t : Tree) (h : PostfixContinues t) : Parses postfixTree 1 t := by
  intro f s r out hf hp hs
  obtain ⟨f1, rfl⟩ : ∃ m, f = m + 1 := ⟨f - 1, by omega⟩
  rw [postfixTree]
  refine h f1 1 s r out _ (by omega) hp (stops_mono hs (by omega)) ?_ f1 (by omega)
  intro g s1 hg h1
  obtain ⟨g1, rfl⟩ : ∃ m, g = m + 1 := ⟨g - 1, by omega⟩
  rw [postfix_done _ g1 t s1 (poised_ne h1 hs _ (by decide) (by decide))
    (poised_ne h1 hs _ (by decide) (by decide)) (poised_ne h1 hs _ (by decide) (by decide))]
  exact ⟨rfl, h1⟩

end Phase3

namespace Phase3

open Phase4 (bind_apply bind_ok pure_apply tokenAt)
open Phase4 (DONE SIZEOF OR AND EQL NEQ LEQ GEQ INC DEC ID INTEGER REAL STRING CHARACTER)

/-- The first token of an expression or of a list of arguments is no type
specifier and no closing parenthesis. -/
theorem kinds_head (t : Tree) :
    ∀ n : Nat, t.derives n = true →
      ∃ k ks, t.kinds = k :: ks ∧ isSpecifier k = false ∧ k ≠ chr ')' := by
  induction t with
  | leaf kind =>
      intro n h
      simp only [Tree.derives, Bool.or_eq_true, beq_iff_eq] at h
      refine ⟨kind, [], rfl, ?_⟩
      rcases h with (((h | h) | h) | h) | h <;> subst h <;> exact ⟨by decide, by decide⟩
  | paren e _ => intro n _; exact ⟨_, _, rfl, by decide, by decide⟩
  | call0 => intro n _; exact ⟨_, _, rfl, by decide, by decide⟩
  | call args _ => intro n _; exact ⟨_, _, rfl, by decide, by decide⟩
  | comma first rest ih1 _ =>
      intro n h
      simp only [Tree.derives, Bool.and_eq_true] at h
      obtain ⟨k, ks, e, hk⟩ := ih1 8 h.1.2
      exact ⟨k, _, by rw [Tree.kinds, e]; rfl, hk⟩
  | index e i ih1 _ =>
      intro n h
      simp only [Tree.derives, Bool.and_eq_true] at h
      obtain ⟨k, ks, e1, hk⟩ := ih1 1 h.1.2
      exact ⟨k, _, by rw [Tree.kinds, e1]; rfl, hk⟩
  | post op e ih1 =>
      intro n h
      simp only [Tree.derives, Bool.and_eq_true] at h
      obtain ⟨k, ks, e1, hk⟩ := ih1 1 h.2
      exact ⟨k, _, by rw [Tree.kinds, e1]; rfl, hk⟩
  | pre op e _ =>
      intro n _
      refine ⟨_, _, rfl, ?_⟩
      cases op <;> exact ⟨by decide, by decide⟩
  | sizeofExpr e _ => intro n _; exact ⟨_, _, rfl, by decide, by decide⟩
  | sizeofType spec stars => intro n _; exact ⟨_, _, rfl, by decide, by decide⟩
  | cast spec stars e _ => intro n _; exact ⟨_, _, rfl, by decide, by decide⟩
  | binary op left right ih1 _ =>
      intro n h
      simp only [Tree.derives, Bool.and_eq_true] at h
      obtain ⟨k, ks, e1, hk⟩ := ih1 _ h.1.2
      exact ⟨k, _, by rw [Tree.kinds, e1]; rfl, hk⟩

/-- A postfix expression starts with no prefix operator and with no type in
parentheses. -/
theorem postfix_kinds_head (t : Tree) :
    t.derives 1 = true →
      ∃ k ks, t.kinds = k :: ks ∧ k ≠ 0 ∧ k ≠ chr '!' ∧ k ≠ chr '-' ∧ k ≠ chr '*' ∧
        k ≠ chr '&' ∧ k ≠ SIZEOF ∧ ∀ r, typeAhead (t.kinds ++ r) = false := by
  induction t with
  | leaf kind =>
      intro h
      simp only [Tree.derives, Bool.or_eq_true, beq_iff_eq] at h
      refine ⟨kind, [], rfl, ?_⟩
      rcases h with (((h | h) | h) | h) | h <;> subst h <;>
        refine ⟨by decide, by decide, by decide, by decide, by decide, by decide, fun r => ?_⟩ <;>
        cases r <;> rfl
  | paren e _ =>
      intro h
      simp only [Tree.derives] at h
      obtain ⟨k, ks, e1, hk, -⟩ := kinds_head e 8 h
      refine ⟨_, _, rfl, by decide, by decide, by decide, by decide, by decide, by decide,
        fun r => ?_⟩
      simp [Tree.kinds, e1, typeAhead, hk]
  | call0 =>
      intro _
      exact ⟨_, _, rfl, by decide, by decide, by decide, by decide, by decide, by decide,
        fun r => rfl⟩
  | call args _ =>
      intro _
      exact ⟨_, _, rfl, by decide, by decide, by decide, by decide, by decide, by decide,
        fun r => rfl⟩
  | comma first rest _ _ => intro h; simp [Tree.derives] at h
  | index e i ih1 _ =>
      intro h
      simp only [Tree.derives, Bool.and_eq_true] at h
      obtain ⟨k, ks, e1, hk⟩ := ih1 h.1.2
      refine ⟨k, _, by rw [Tree.kinds, e1]; rfl, hk.1, hk.2.1, hk.2.2.1, hk.2.2.2.1,
        hk.2.2.2.2.1, hk.2.2.2.2.2.1, fun r => ?_⟩
      have := hk.2.2.2.2.2.2 (chr '[' :: (i.kinds ++ [chr ']']) ++ r)
      simpa [Tree.kinds, List.append_assoc] using this
  | post op e ih1 =>
      intro h
      simp only [Tree.derives, Bool.and_eq_true] at h
      obtain ⟨k, ks, e1, hk⟩ := ih1 h.2
      refine ⟨k, _, by rw [Tree.kinds, e1]; rfl, hk.1, hk.2.1, hk.2.2.1, hk.2.2.2.1,
        hk.2.2.2.2.1, hk.2.2.2.2.2.1, fun r => ?_⟩
      have := hk.2.2.2.2.2.2 ([op.kind] ++ r)
      simpa [Tree.kinds, List.append_assoc] using this
  | pre op e _ => intro h; simp [Tree.derives] at h
  | sizeofExpr e _ => intro h; simp [Tree.derives] at h
  | sizeofType spec stars => intro h; simp [Tree.derives] at h
  | cast spec stars e _ => intro h; simp [Tree.derives] at h
  | binary op left right _ _ =>
      intro h
      simp only [Tree.derives, Bool.and_eq_true, decide_eq_true_eq] at h
      cases op <;> simp [BinOp.level] at h

theorem typeAhead_cons_ne (k : Int) (r : List Int) (h : k ≠ chr '(') :
    typeAhead (k :: r) = false := by
  cases r with
  | nil => rfl
  | cons k2 r2 => simp [typeAhead, h]

theorem typeAhead_cons_cons (k : Int) (r : List Int) (h : isSpecifier k = true) :
    typeAhead (chr '(' :: k :: r) = true := by
  simp [typeAhead, h]

/-- A prefix expression that is no cast starts with no type in parentheses. -/
theorem prefix_typeAhead (t : Tree) (h : t.derives 2 = true) (hc : t.isCast = false)
    (r : List Int) : typeAhead (t.kinds ++ r) = false := by
  have hp : t.derives 1 = true → typeAhead (t.kinds ++ r) = false := fun h1 => by
    obtain ⟨k, ks, -, -, -, -, -, -, -, hk⟩ := postfix_kinds_head t h1
    exact hk r
  cases t with
  | pre op e => cases op <;> exact typeAhead_cons_ne _ _ (by decide)
  | sizeofExpr e => exact typeAhead_cons_ne _ _ (by decide)
  | sizeofType spec stars => exact typeAhead_cons_ne _ _ (by decide)
  | cast spec stars e => cases hc
  | binary op left right =>
      simp only [Tree.derives, Bool.and_eq_true, decide_eq_true_eq] at h
      cases op <;> simp [BinOp.level] at h
  | comma first rest => simp [Tree.derives] at h
  | leaf kind => exact hp (by simpa [Tree.derives] using h)
  | paren e => exact hp (by simpa [Tree.derives] using h)
  | call0 => exact hp (by simp [Tree.derives])
  | call args => exact hp (by simpa [Tree.derives] using h)
  | index e i => exact hp (by simpa [Tree.derives] using h)
  | post op e => exact hp (by simpa [Tree.derives] using h)

end Phase3

namespace Phase3

open Phase4 (bind_apply bind_ok pure_apply tokenAt)
open Phase4 (DONE SIZEOF OR AND EQL NEQ LEQ GEQ INC DEC ID INTEGER REAL STRING CHARACTER)

theorem parses_leaf (kind : Int) (hd : (Tree.leaf kind).derives 0 = true) :
    Parses primaryTree 0 (Tree.leaf kind) := by
  intro f s r out hf hp hs
  obtain ⟨f1, rfl⟩ : ∃ m, f = m + 1 := ⟨f - 1, by omega⟩
  have hp1 : s.poised (kind :: r) out := hp
  have hl := (poised_cons hp1).1
  have c1 : (CHARACTER == chr '(') = false := by decide
  have s1 : (STRING == chr '(') = false := by decide
  have s2 : (STRING == CHARACTER) = false := by decide
  have i1 : (INTEGER == chr '(') = false := by decide
  have i2 : (INTEGER == CHARACTER) = false := by decide
  have i3 : (INTEGER == STRING) = false := by decide
  have r1 : (REAL == chr '(') = false := by decide
  have r2 : (REAL == CHARACTER) = false := by decide
  have r3 : (REAL == STRING) = false := by decide
  have r4 : (REAL == INTEGER) = false := by decide
  have d1 : (ID == chr '(') = false := by decide
  have d2 : (ID == CHARACTER) = false := by decide
  have d3 : (ID == STRING) = false := by decide
  have d4 : (ID == INTEGER) = false := by decide
  have d5 : (ID == REAL) = false := by decide
  simp only [Tree.derives, Bool.or_eq_true, beq_iff_eq] at hd
  rw [primaryTree]
  rcases hd with (((h | h) | h) | h) | h <;> subst h
  · simp only [bind_apply, Res.returns_bind, getParser_apply, bind_ok, pure_apply,
      Phase4.ite_apply, hl, c1, beq_self_eq_true, if_true, Bool.false_eq_true, if_false]
    exact Res.returns_of (match_returns _ s r out hp1)
      (fun _ _ h1 => ⟨rfl, by simpa [Tree.postorder] using h1⟩)
  · simp only [bind_apply, Res.returns_bind, getParser_apply, bind_ok, pure_apply,
      Phase4.ite_apply, hl, s1, s2, beq_self_eq_true, if_true, Bool.false_eq_true, if_false]
    exact Res.returns_of (match_returns _ s r out hp1)
      (fun _ _ h1 => ⟨rfl, by simpa [Tree.postorder] using h1⟩)
  · simp only [bind_apply, Res.returns_bind, getParser_apply, bind_ok, pure_apply,
      Phase4.ite_apply, hl, i1, i2, i3, beq_self_eq_true, if_true, Bool.false_eq_true, if_false]
    exact Res.returns_of (match_returns _ s r out hp1)
      (fun _ _ h1 => ⟨rfl, by simpa [Tree.postorder] using h1⟩)
  · simp only [bind_apply, Res.returns_bind, getParser_apply, bind_ok, pure_apply,
      Phase4.ite_apply, hl, r1, r2, r3, r4, beq_self_eq_true, if_true, Bool.false_eq_true,
      if_false]
    exact Res.returns_of (match_returns _ s r out hp1)
      (fun _ _ h1 => ⟨rfl, by simpa [Tree.postorder] using h1⟩)
  · simp only [bind_apply, Res.returns_bind, getParser_apply, bind_ok, pure_apply,
      Phase4.ite_apply, hl, d1, d2, d3, d4, d5, beq_self_eq_true, if_true, Bool.false_eq_true,
      if_false]
    refine Res.returns_of (identifier_returns s r out hp1) (fun name s1 h1 => ?_)
    refine Res.returns_of (checkIdentifier_returns name s1 r out h1) (fun _ s2 h2 => ?_)
    have hne := poised_ne h2 hs (chr '(') (by decide) (by decide)
    simp only [bind_apply, Res.returns_bind, getParser_apply, bind_ok, pure_apply,
      Phase4.ite_apply, beq_iff_eq, hne, if_false]
    exact ⟨rfl, by simpa [Tree.postorder] using h2⟩

theorem parses_paren (e : Tree) (he : Parses expressionTree 8 e) :
    Parses primaryTree 0 (Tree.paren e) := by
  intro f s r out hf hp hs
  obtain ⟨f1, rfl⟩ : ∃ m, f = m + 1 := ⟨f - 1, by omega⟩
  simp only [Tree.weight] at hf
  have hp1 : s.poised (chr '(' :: (e.kinds ++ (chr ')' :: r))) out := by
    simpa [Tree.kinds] using hp
  have hl := (poised_cons hp1).1
  rw [primaryTree]
  simp only [bind_apply, Res.returns_bind, getParser_apply, bind_ok, pure_apply,
    Phase4.ite_apply, hl, beq_self_eq_true, if_true]
  refine Res.returns_of (match_returns _ s _ out hp1) (fun _ s1 h1 => ?_)
  refine Res.returns_of (he f1 s1 _ out (by omega) h1 (stops_cons _ _ _ (by decide)))
    (fun t1 s2 h2 => ?_)
  obtain ⟨e1, h2⟩ := h2
  subst e1
  refine Res.returns_of (match_returns _ s2 _ _ h2) (fun _ s3 h3 => ?_)
  exact ⟨rfl, by simpa [Tree.postorder] using h3⟩

theorem parses_call0 : Parses primaryTree 0 Tree.call0 := by
  intro f s r out hf hp hs
  obtain ⟨f1, rfl⟩ : ∃ m, f = m + 1 := ⟨f - 1, by omega⟩
  have hp1 : s.poised (ID :: chr '(' :: chr ')' :: r) out := hp
  have hl := (poised_cons hp1).1
  have d1 : (ID == chr '(') = false := by decide
  have d2 : (ID == CHARACTER) = false := by decide
  have d3 : (ID == STRING) = false := by decide
  have d4 : (ID == INTEGER) = false := by decide
  have d5 : (ID == REAL) = false := by decide
  rw [primaryTree]
  simp only [bind_apply, Res.returns_bind, getParser_apply, bind_ok, pure_apply,
    Phase4.ite_apply, hl, d1, d2, d3, d4, d5, beq_self_eq_true, if_true, Bool.false_eq_true,
    if_false]
  refine Res.returns_of (identifier_returns s _ out hp1) (fun name s1 h1 => ?_)
  refine Res.returns_of (checkIdentifier_returns name s1 _ out h1) (fun _ s2 h2 => ?_)
  have hl2 := (poised_cons h2).1
  simp only [bind_apply, Res.returns_bind, getParser_apply, bind_ok, pure_apply,
    Phase4.ite_apply, hl2, beq_self_eq_true, if_true]
  refine Res.returns_of (match_returns _ s2 _ out h2) (fun _ s3 h3 => ?_)
  have hl3 := (poised_cons h3).1
  simp only [bind_apply, Res.returns_bind, getParser_apply, bind_ok, pure_apply,
    Phase4.ite_apply, hl3, bne_self_eq_false, Bool.false_eq_true, if_false]
  refine Res.returns_of (match_returns _ s3 _ out h3) (fun _ s4 h4 => ?_)
  exact ⟨rfl, by simpa [Tree.postorder] using h4⟩

theorem parses_call (args : Tree) (hd : args.derives 9 = true) (ha : ParsesArguments args) :
    Parses primaryTree 0 (Tree.call args) := by
  intro f s r out hf hp hs
  obtain ⟨f1, rfl⟩ : ∃ m, f = m + 1 := ⟨f - 1, by omega⟩
  simp only [Tree.weight] at hf
  obtain ⟨k, ks, ek, -, hk⟩ := kinds_head args 9 hd
  have hp1 : s.poised (ID :: chr '(' :: (args.kinds ++ (chr ')' :: r))) out := by
    simpa [Tree.kinds] using hp
  have hl := (poised_cons hp1).1
  have d1 : (ID == chr '(') = false := by decide
  have d2 : (ID == CHARACTER) = false := by decide
  have d3 : (ID == STRING) = false := by decide
  have d4 : (ID == INTEGER) = false := by decide
  have d5 : (ID == REAL) = false := by decide
  rw [primaryTree]
  simp only [bind_apply, Res.returns_bind, getParser_apply, bind_ok, pure_apply,
    Phase4.ite_apply, hl, d1, d2, d3, d4, d5, beq_self_eq_true, if_true, Bool.false_eq_true,
    if_false]
  refine Res.returns_of (identifier_returns s _ out hp1) (fun name s1 h1 => ?_)
  refine Res.returns_of (checkIdentifier_returns name s1 _ out h1) (fun _ s2 h2 => ?_)
  have hl2 := (poised_cons h2).1
  simp only [bind_apply, Res.returns_bind, getParser_apply, bind_ok, pure_apply,
    Phase4.ite_apply, hl2, beq_self_eq_true, if_true]
  refine Res.returns_of (match_returns _ s2 _ out h2) (fun _ s3 h3 => ?_)
  have hl3 : s3.lookahead = k := by
    have h3' := h3
    rw [ek] at h3'
    exact (poised_cons h3').1
  simp only [bind_apply, Res.returns_bind, getParser_apply, bind_ok, pure_apply,
    Phase4.ite_apply, hl3, bne_iff_ne, ne_eq, hk, not_false_eq_true, if_true]
  have h4 := ha f1 f1 s3 (chr ')' :: r) out (by omega) (by omega) h3
    (stops_cons _ _ _ (by decide))
  simp only [bind_apply, Res.returns_bind] at h4
  refine Res.returns_of h4 (fun e s4 h5 => ?_)
  refine Res.returns_of h5 (fun t1 s5 h6 => ?_)
  obtain ⟨e1, h6⟩ := h6
  subst e1
  refine Res.returns_of (match_returns _ s5 _ _ h6) (fun _ s6 h7 => ?_)
  exact ⟨rfl, by simpa [Tree.postorder] using h7⟩

end Phase3

namespace Phase3

open Phase4 (bind_apply bind_ok pure_apply tokenAt)
open Phase4 (DONE SIZEOF OR AND EQL NEQ LEQ GEQ INC DEC ID INTEGER REAL STRING CHARACTER)

theorem parses_pre (op : PreOp) (e : Tree) (he : Parses prefixTree 2 e) :
    Parses prefixTree 2 (Tree.pre op e) := by
  intro f s r out hf hp hs
  obtain ⟨f1, rfl⟩ : ∃ m, f = m + 1 := ⟨f - 1, by omega⟩
  simp only [Tree.weight] at hf
  have hp1 : s.poised (op.kind :: (e.kinds ++ r)) out := hp
  have hl := (poised_cons hp1).1
  have n1 : (chr '-' == chr '!') = false := by decide
  have n2 : (chr '*' == chr '!') = false := by decide
  have n3 : (chr '*' == chr '-') = false := by decide
  have n4 : (chr '&' == chr '!') = false := by decide
  have n5 : (chr '&' == chr '-') = false := by decide
  have n6 : (chr '&' == chr '*') = false := by decide
  rw [prefixTree]
  cases op <;>
  · simp only [PreOp.kind] at hl hp1
    simp only [bind_apply, Res.returns_bind, getParser_apply, bind_ok, pure_apply,
      Phase4.ite_apply, hl, n1, n2, n3, n4, n5, n6, beq_self_eq_true, if_true,
      Bool.false_eq_true, if_false]
    refine Res.returns_of (match_returns _ s _ out hp1) (fun _ s1 h1 => ?_)
    refine Res.returns_of (he f1 s1 r out (by omega) h1 hs) (fun t1 s2 h2 => ?_)
    obtain ⟨e1, h2⟩ := h2
    subst e1
    refine Res.returns_of (print_returns _ s2 r _ h2) (fun _ s3 h3 => ?_)
    exact ⟨rfl, by simpa [Tree.postorder, PreOp.name] using h3⟩

theorem parses_sizeofExpr (e : Tree) (hd : e.derives 2 = true) (hc : e.isCast = false)
    (he : Parses prefixTree 2 e) : Parses prefixTree 2 (Tree.sizeofExpr e) := by
  intro f s r out hf hp hs
  obtain ⟨f1, rfl⟩ : ∃ m, f = m + 1 := ⟨f - 1, by omega⟩
  simp only [Tree.weight] at hf
  have hp1 : s.poised (SIZEOF :: (e.kinds ++ r)) out := hp
  have hl := (poised_cons hp1).1
  have n1 : (SIZEOF == chr '!') = false := by decide
  have n2 : (SIZEOF == chr '-') = false := by decide
  have n3 : (SIZEOF == chr '*') = false := by decide
  have n4 : (SIZEOF == chr '&') = false := by decide
  rw [prefixTree]
  simp only [bind_apply, Res.returns_bind, getParser_apply, bind_ok, pure_apply,
    Phase4.ite_apply, hl, n1, n2, n3, n4, beq_self_eq_true, if_true, Bool.false_eq_true,
    if_false]
  refine Res.returns_of (match_returns _ s _ out hp1) (fun _ s1 h1 => ?_)
  refine Res.returns_of (startsTypeName_returns s1 _ out h1) (fun b s2 h2 => ?_)
  obtain ⟨hb, h2⟩ := h2
  rw [prefix_typeAhead e hd hc r] at hb
  subst hb
  simp only [bind_apply, Res.returns_bind, getParser_apply, bind_ok, pure_apply,
    Phase4.ite_apply, Bool.false_eq_true, if_false]
  refine Res.returns_of (he f1 s2 r out (by omega) h2 hs) (fun t1 s3 h3 => ?_)
  obtain ⟨e1, h3⟩ := h3
  subst e1
  refine Res.returns_of (print_returns _ s3 r _ h3) (fun _ s4 h4 => ?_)
  exact ⟨rfl, by simpa [Tree.postorder] using h4⟩

theorem parses_sizeofType (spec : Int) (stars : Nat) (hk : isSpecifier spec = true) :
    Parses prefixTree 2 (Tree.sizeofType spec stars) := by
  intro f s r out hf hp hs
  obtain ⟨f1, rfl⟩ : ∃ m, f = m + 1 := ⟨f - 1, by omega⟩
  simp only [Tree.weight] at hf
  have hp1 : s.poised (SIZEOF :: chr '(' :: spec ::
      (List.replicate stars (chr '*') ++ (chr ')' :: r))) out := by
    simpa [Tree.kinds] using hp
  have hl := (poised_cons hp1).1
  have n1 : (SIZEOF == chr '!') = false := by decide
  have n2 : (SIZEOF == chr '-') = false := by decide
  have n3 : (SIZEOF == chr '*') = false := by decide
  have n4 : (SIZEOF == chr '&') = false := by decide
  rw [prefixTree]
  simp only [bind_apply, Res.returns_bind, getParser_apply, bind_ok, pure_apply,
    Phase4.ite_apply, hl, n1, n2, n3, n4, beq_self_eq_true, if_true, Bool.false_eq_true,
    if_false]
  refine Res.returns_of (match_returns _ s _ out hp1) (fun _ s1 h1 => ?_)
  refine Res.returns_of (startsTypeName_returns s1 _ out h1) (fun b s2 h2 => ?_)
  obtain ⟨hb, h2⟩ := h2
  rw [typeAhead_cons_cons _ _ hk] at hb
  subst hb
  simp only [bind_apply, Res.returns_bind, getParser_apply, bind_ok, pure_apply,
    Phase4.ite_apply, if_true]
  refine Res.returns_of (match_returns _ s2 _ out h2) (fun _ s3 h3 => ?_)
  refine Res.returns_of (specifier_returns spec s3 _ out h3 hk) (fun v s4 h4 => ?_)
  obtain ⟨hv, h4⟩ := h4
  subst hv
  refine Res.returns_of (starsLoop_returns stars f1 0 s4 _ out (by omega) h4
    (stops_cons _ _ _ (by decide))) (fun m s5 h5 => ?_)
  obtain ⟨hm, h5⟩ := h5
  refine Res.returns_of (match_returns _ s5 _ out h5) (fun _ s6 h6 => ?_)
  refine Res.returns_of (print_returns _ s6 r _ h6) (fun _ s7 h7 => ?_)
  exact ⟨by rw [hm, Nat.zero_add], by simpa [Tree.postorder] using h7⟩

theorem parses_cast (spec : Int) (stars : Nat) (e : Tree) (hk : isSpecifier spec = true)
    (he : Parses prefixTree 2 e) : Parses prefixTree 2 (Tree.cast spec stars e) := by
  intro f s r out hf hp hs
  obtain ⟨f1, rfl⟩ : ∃ m, f = m + 1 := ⟨f - 1, by omega⟩
  simp only [Tree.weight] at hf
  have hp1 : s.poised (chr '(' :: spec ::
      (List.replicate stars (chr '*') ++ (chr ')' :: (e.kinds ++ r)))) out := by
    simpa [Tree.kinds] using hp
  have hl := (poised_cons hp1).1
  have n1 : (chr '(' == chr '!') = false := by decide
  have n2 : (chr '(' == chr '-') = false := by decide
  have n3 : (chr '(' == chr '*') = false := by decide
  have n4 : (chr '(' == chr '&') = false := by decide
  have n5 : (chr '(' == SIZEOF) = false := by decide
  rw [prefixTree]
  simp only [bind_apply, Res.returns_bind, getParser_apply, bind_ok, pure_apply,
    Phase4.ite_apply, hl, n1, n2, n3, n4, n5, Bool.false_eq_true, if_false]
  refine Res.returns_of (startsTypeName_returns s _ out hp1) (fun b s2 h2 => ?_)
  obtain ⟨hb, h2⟩ := h2
  rw [typeAhead_cons_cons _ _ hk] at hb
  subst hb
  simp only [bind_apply, Res.returns_bind, getParser_apply, bind_ok, pure_apply,
    Phase4.ite_apply, if_true]
  refine Res.returns_of (match_returns _ s2 _ out h2) (fun _ s3 h3 => ?_)
  refine Res.returns_of (specifier_returns spec s3 _ out h3 hk) (fun v s4 h4 => ?_)
  obtain ⟨hv, h4⟩ := h4
  subst hv
  refine Res.returns_of (starsLoop_returns stars f1 0 s4 _ out (by omega) h4
    (stops_cons _ _ _ (by decide))) (fun m s5 h5 => ?_)
  obtain ⟨hm, h5⟩ := h5
  refine Res.returns_of (match_returns _ s5 _ out h5) (fun _ s6 h6 => ?_)
  refine Res.returns_of (he f1 s6 r out (by omega) h6 hs) (fun t1 s7 h7 => ?_)
  obtain ⟨e1, h7⟩ := h7
  subst e1
  refine Res.returns_of (print_returns _ s7 r _ h7) (fun _ s8 h8 => ?_)
  exact ⟨by rw [hm, Nat.zero_add], by simpa [Tree.postorder] using h8⟩

theorem prefixTree_passes (t : Tree) (hd : t.derives 1 = true)
    (h : Parses postfixTree 1 t) : Parses prefixTree 2 t := by
  intro f s r out hf hp hs
  obtain ⟨f1, rfl⟩ : ∃ m, f = m + 1 := ⟨f - 1, by omega⟩
  obtain ⟨k, ks, ek, -, k1, k2, k3, k4, k5, ha⟩ := postfix_kinds_head t hd
  have hl : s.lookahead = k := by
    have hp1 := hp
    rw [ek] at hp1
    exact (poised_cons hp1).1
  rw [prefixTree]
  simp only [bind_apply, Res.returns_bind, getParser_apply, bind_ok, pure_apply,
    Phase4.ite_apply, hl, beq_iff_eq, k1, k2, k3, k4, k5, if_false]
  refine Res.returns_of (startsTypeName_returns s _ out hp) (fun b s2 h2 => ?_)
  obtain ⟨hb, h2⟩ := h2
  rw [ha r] at hb
  subst hb
  simp only [bind_apply, Res.returns_bind, getParser_apply, bind_ok, pure_apply,
    Phase4.ite_apply, Bool.false_eq_true, if_false]
  exact h f1 s2 r out (by omega) h2 (stops_mono hs (by omega))

theorem parsesArguments_of_expression (t : Tree) (h : Parses expressionTree 8 t) :
    ParsesArguments t := by
  intro f g s r out hf hg hp hs
  obtain ⟨g1, rfl⟩ : ∃ m, g = m + 1 := ⟨g - 1, by omega⟩
  simp only [bind_apply, Res.returns_bind]
  refine Res.returns_of (h f s r out (by omega) hp (stops_mono hs (by omega)))
    (fun t1 s1 h1 => ?_)
  obtain ⟨e1, h1⟩ := h1
  subst e1
  have hne := poised_ne h1 hs (chr ',') (by decide) (by decide)
  rw [argumentsTreeLoop]
  simp only [bind_apply, Res.returns_bind, getParser_apply, bind_ok, pure_apply,
    Phase4.ite_apply, beq_iff_eq, hne, if_false]
  exact ⟨rfl, h1⟩

theorem parsesArguments_comma (a rest : Tree) (ha : Parses expressionTree 8 a)
    (hr : ParsesArguments rest) : ParsesArguments (Tree.comma a rest) := by
  intro f g s r out hf hg hp hs
  obtain ⟨g1, rfl⟩ : ∃ m, g = m + 1 := ⟨g - 1, by omega⟩
  simp only [Tree.weight] at hf hg
  have hp1 : s.poised (a.kinds ++ (chr ',' :: (rest.kinds ++ r))) out := by
    simpa [Tree.kinds] using hp
  simp only [bind_apply, Res.returns_bind]
  refine Res.returns_of (ha f s _ out (by omega) hp1 (stops_cons _ _ _ (by decide)))
    (fun t1 s1 h1 => ?_)
  obtain ⟨e1, h1⟩ := h1
  subst e1
  have hl := (poised_cons h1).1
  rw [argumentsTreeLoop]
  simp only [bind_apply, Res.returns_bind, getParser_apply, bind_ok, pure_apply,
    Phase4.ite_apply, hl, beq_self_eq_true, if_true]
  refine Res.returns_of (match_returns _ s1 _ _ h1) (fun _ s2 h2 => ?_)
  have h3 := hr f g1 s2 r _ (by omega) (by omega) h2 hs
  simp only [bind_apply, Res.returns_bind] at h3
  refine Res.returns_of h3 (fun e s3 h4 => ?_)
  refine Res.returns_of h4 (fun t1 s4 h5 => ?_)
  obtain ⟨e1, h5⟩ := h5
  subst e1
  exact ⟨rfl, by simpa [Tree.postorder] using h5⟩

end Phase3

namespace Phase3

open Phase4 (bind_apply bind_ok pure_apply tokenAt)
open Phase4 (DONE SIZEOF OR AND EQL NEQ LEQ GEQ INC DEC ID INTEGER REAL STRING CHARACTER)

theorem BinOp.level_le (op : BinOp) : op.level ≤ 8 := by
  cases op <;> decide

theorem BinOp.level_ge (op : BinOp) : 3 ≤ op.level := by
  cases op <;> decide

/-- A tree of a binary level is an operator of that level applied to two
operands, or a tree of the level below. -/
theorem derives_pred (t : Tree) (n : Nat) (h3 : 3 ≤ n) (h8 : n ≤ 8) (h : t.derives n = true) :
    (∃ op l x, t = Tree.binary op l x ∧ op.level = n) ∨ t.derives (n - 1) = true := by
  cases t with
  | binary op l x =>
      simp only [Tree.derives, Bool.and_eq_true, decide_eq_true_eq] at h ⊢
      by_cases e : op.level = n
      · exact Or.inl ⟨op, l, x, rfl, e⟩
      · exact Or.inr ⟨⟨by omega, h.1.2⟩, h.2⟩
  | comma first rest =>
      simp only [Tree.derives, Bool.and_eq_true, decide_eq_true_eq] at h
      omega
  | leaf kind => exact Or.inr (by simpa [Tree.derives] using h)
  | paren e => exact Or.inr (by simpa [Tree.derives] using h)
  | call0 => exact Or.inr (by simp [Tree.derives])
  | call args => exact Or.inr (by simpa [Tree.derives] using h)
  | index e i =>
      simp only [Tree.derives, Bool.and_eq_true, decide_eq_true_eq] at h ⊢
      exact Or.inr ⟨⟨by omega, h.1.2⟩, h.2⟩
  | post op e =>
      simp only [Tree.derives, Bool.and_eq_true, decide_eq_true_eq] at h ⊢
      exact Or.inr ⟨by omega, h.2⟩
  | pre op e =>
      simp only [Tree.derives, Bool.and_eq_true, decide_eq_true_eq] at h ⊢
      exact Or.inr ⟨by omega, h.2⟩
  | sizeofExpr e =>
      simp only [Tree.derives, Bool.and_eq_true, decide_eq_true_eq] at h ⊢
      exact Or.inr ⟨⟨by omega, h.1.2⟩, h.2⟩
  | sizeofType spec stars =>
      simp only [Tree.derives, Bool.and_eq_true, decide_eq_true_eq] at h ⊢
      exact Or.inr ⟨by omega, h.2⟩
  | cast spec stars e =>
      simp only [Tree.derives, Bool.and_eq_true, decide_eq_true_eq] at h ⊢
      exact Or.inr ⟨⟨by omega, h.1.2⟩, h.2⟩

/-- A list of arguments is an argument, a comma and a list, or one argument. -/
theorem derives_pred_arguments (t : Tree) (h : t.derives 9 = true) :
    (∃ a b, t = Tree.comma a b) ∨ t.derives 8 = true := by
  cases t with
  | comma first rest => exact Or.inl ⟨first, rest, rfl⟩
  | binary op l x =>
      simp only [Tree.derives, Bool.and_eq_true, decide_eq_true_eq] at h ⊢
      exact Or.inr ⟨⟨op.level_le, h.1.2⟩, h.2⟩
  | leaf kind => exact Or.inr (by simpa [Tree.derives] using h)
  | paren e => exact Or.inr (by simpa [Tree.derives] using h)
  | call0 => exact Or.inr (by simp [Tree.derives])
  | call args => exact Or.inr (by simpa [Tree.derives] using h)
  | index e i => exact Or.inr (by simpa [Tree.derives] using h)
  | post op e => exact Or.inr (by simpa [Tree.derives] using h)
  | pre op e => exact Or.inr (by simpa [Tree.derives] using h)
  | sizeofExpr e => exact Or.inr (by simpa [Tree.derives] using h)
  | sizeofType spec stars => exact Or.inr (by simpa [Tree.derives] using h)
  | cast spec stars e => exact Or.inr (by simpa [Tree.derives] using h)

theorem Parsed.parses1 {t : Tree} (h : Parsed t) (hd : t.derives 1 = true) :
    Parses postfixTree 1 t :=
  postfix_parses t (h.level1 hd)

theorem Parsed.parses3 {t : Tree} (h : Parsed t) (hd : t.derives 3 = true) :
    Parses multiplicativeTree 3 t :=
  multiplicative_level.parses_of_continues t (h.level3 hd)

theorem Parsed.parses4 {t : Tree} (h : Parsed t) (hd : t.derives 4 = true) :
    Parses additiveTree 4 t :=
  additive_level.parses_of_continues t (h.level4 hd)

theorem Parsed.parses5 {t : Tree} (h : Parsed t) (hd : t.derives 5 = true) :
    Parses relationalTree 5 t :=
  relational_level.parses_of_continues t (h.level5 hd)

theorem Parsed.parses6 {t : Tree} (h : Parsed t) (hd : t.derives 6 = true) :
    Parses equalityTree 6 t :=
  equality_level.parses_of_continues t (h.level6 hd)

theorem Parsed.parses7 {t : Tree} (h : Parsed t) (hd : t.derives 7 = true) :
    Parses logicalAndTree 7 t :=
  logicalAnd_level.parses_of_continues t (h.level7 hd)

theorem Parsed.parses8 {t : Tree} (h : Parsed t) (hd : t.derives 8 = true) :
    Parses expressionTree 8 t :=
  expression_level.parses_of_continues t (h.level8 hd)

/-- The tree `t` is parsed at every level, given how it is parsed at the level
of its root. -/
theorem Parsed.build (t : Tree)
    (h0 : t.derives 0 = true → Parses primaryTree 0 t)
    (h1 : t.derives 1 = true → t.derives 0 = false → PostfixContinues t)
    (h2 : t.derives 2 = true → t.derives 1 = false → Parses prefixTree 2 t)
    (hb3 : ∀ op l x, t = Tree.binary op l x → op.level = 3 → t.derives 3 = true →
      Continues prefixTree multiplicativeTreeLoop 3 t)
    (hb4 : ∀ op l x, t = Tree.binary op l x → op.level = 4 → t.derives 4 = true →
      Continues multiplicativeTree additiveTreeLoop 4 t)
    (hb5 : ∀ op l x, t = Tree.binary op l x → op.level = 5 → t.derives 5 = true →
      Continues additiveTree relationalTreeLoop 5 t)
    (hb6 : ∀ op l x, t = Tree.binary op l x → op.level = 6 → t.derives 6 = true →
      Continues relationalTree equalityTreeLoop 6 t)
    (hb7 : ∀ op l x, t = Tree.binary op l x → op.level = 7 → t.derives 7 = true →
      Continues equalityTree logicalAndTreeLoop 7 t)
    (hb8 : ∀ op l x, t = Tree.binary op l x → op.level = 8 → t.derives 8 = true →
      Continues logicalAndTree expressionTreeLoop 8 t)
    (h9 : ∀ a b, t = Tree.comma a b → t.derives 9 = true → ParsesArguments t) : Parsed t := by
  have l1 : t.derives 1 = true → PostfixContinues t := fun hd => by
    cases e : t.derives 0 with
    | true => exact postfixContinues_of_primary t (h0 e)
    | false => exact h1 hd e
  have p2 : t.derives 2 = true → Parses prefixTree 2 t := fun hd => by
    cases e : t.derives 1 with
    | true => exact prefixTree_passes t e (postfix_parses t (l1 e))
    | false => exact h2 hd e
  have l3 : t.derives 3 = true → Continues prefixTree multiplicativeTreeLoop 3 t := fun hd => by
    rcases derives_pred t 3 (by decide) (by decide) hd with ⟨op, l, x, e, hop⟩ | hd1
    · exact hb3 op l x e hop hd
    · exact multiplicative_level.continues_of_parses t (p2 hd1)
  have p3 : t.derives 3 = true → Parses multiplicativeTree 3 t := fun hd =>
    multiplicative_level.parses_of_continues t (l3 hd)
  have l4 : t.derives 4 = true → Continues multiplicativeTree additiveTreeLoop 4 t := fun hd => by
    rcases derives_pred t 4 (by decide) (by decide) hd with ⟨op, l, x, e, hop⟩ | hd1
    · exact hb4 op l x e hop hd
    · exact additive_level.continues_of_parses t (p3 hd1)
  have p4 : t.derives 4 = true → Parses additiveTree 4 t := fun hd =>
    additive_level.parses_of_continues t (l4 hd)
  have l5 : t.derives 5 = true → Continues additiveTree relationalTreeLoop 5 t := fun hd => by
    rcases derives_pred t 5 (by decide) (by decide) hd with ⟨op, l, x, e, hop⟩ | hd1
    · exact hb5 op l x e hop hd
    · exact relational_level.continues_of_parses t (p4 hd1)
  have p5 : t.derives 5 = true → Parses relationalTree 5 t := fun hd =>
    relational_level.parses_of_continues t (l5 hd)
  have l6 : t.derives 6 = true → Continues relationalTree equalityTreeLoop 6 t := fun hd => by
    rcases derives_pred t 6 (by decide) (by decide) hd with ⟨op, l, x, e, hop⟩ | hd1
    · exact hb6 op l x e hop hd
    · exact equality_level.continues_of_parses t (p5 hd1)
  have p6 : t.derives 6 = true → Parses equalityTree 6 t := fun hd =>
    equality_level.parses_of_continues t (l6 hd)
  have l7 : t.derives 7 = true → Continues equalityTree logicalAndTreeLoop 7 t := fun hd => by
    rcases derives_pred t 7 (by decide) (by decide) hd with ⟨op, l, x, e, hop⟩ | hd1
    · exact hb7 op l x e hop hd
    · exact logicalAnd_level.continues_of_parses t (p6 hd1)
  have p7 : t.derives 7 = true → Parses logicalAndTree 7 t := fun hd =>
    logicalAnd_level.parses_of_continues t (l7 hd)
  have l8 : t.derives 8 = true → Continues logicalAndTree expressionTreeLoop 8 t := fun hd => by
    rcases derives_pred t 8 (by decide) (by decide) hd with ⟨op, l, x, e, hop⟩ | hd1
    · exact hb8 op l x e hop hd
    · exact expression_level.continues_of_parses t (p7 hd1)
  have p8 : t.derives 8 = true → Parses expressionTree 8 t := fun hd =>
    expression_level.parses_of_continues t (l8 hd)
  refine ⟨h0, l1, p2, l3, l4, l5, l6, l7, l8, ?_⟩
  intro hd
  rcases derives_pred_arguments t hd with ⟨a, b, e⟩ | hd1
  · exact h9 a b e hd
  · exact parsesArguments_of_expression t (p8 hd1)

/-- Every tree is parsed at every level at which the grammar derives it. -/
theorem parsed_all (t : Tree) : Parsed t := by
  induction t with
  | leaf kind =>
      exact Parsed.build _ (parses_leaf kind)
        (fun hd h0 => by
          rw [show Tree.derives 0 (Tree.leaf kind) = Tree.derives 1 (Tree.leaf kind) from by simp [Tree.derives], hd] at h0
          cases h0)
        (fun hd h1 => by
          rw [show Tree.derives 1 (Tree.leaf kind) = Tree.derives 2 (Tree.leaf kind) from by simp [Tree.derives], hd] at h1
          cases h1)
        (fun _ _ _ e => nomatch e) (fun _ _ _ e => nomatch e) (fun _ _ _ e => nomatch e) (fun _ _ _ e => nomatch e) (fun _ _ _ e => nomatch e) (fun _ _ _ e => nomatch e)
        (fun _ _ e => nomatch e)
  | paren e ih =>
      exact Parsed.build _
        (fun hd => parses_paren e (ih.parses8 (by simpa [Tree.derives] using hd)))
        (fun hd h0 => by
          rw [show Tree.derives 0 (Tree.paren e) = Tree.derives 1 (Tree.paren e) from by simp [Tree.derives], hd] at h0
          cases h0)
        (fun hd h1 => by
          rw [show Tree.derives 1 (Tree.paren e) = Tree.derives 2 (Tree.paren e) from by simp [Tree.derives], hd] at h1
          cases h1)
        (fun _ _ _ e => nomatch e) (fun _ _ _ e => nomatch e) (fun _ _ _ e => nomatch e) (fun _ _ _ e => nomatch e) (fun _ _ _ e => nomatch e) (fun _ _ _ e => nomatch e)
        (fun _ _ e => nomatch e)
  | call0 =>
      exact Parsed.build _ (fun _ => parses_call0)
        (fun _ h0 => by simp [Tree.derives] at h0)
        (fun _ h1 => by simp [Tree.derives] at h1)
        (fun _ _ _ e => nomatch e) (fun _ _ _ e => nomatch e) (fun _ _ _ e => nomatch e) (fun _ _ _ e => nomatch e) (fun _ _ _ e => nomatch e) (fun _ _ _ e => nomatch e)
        (fun _ _ e => nomatch e)
  | call args ih =>
      exact Parsed.build _
        (fun hd => parses_call args (by simpa [Tree.derives] using hd)
          (ih.level9 (by simpa [Tree.derives] using hd)))
        (fun hd h0 => by
          rw [show Tree.derives 0 (Tree.call args) = Tree.derives 1 (Tree.call args) from by simp [Tree.derives], hd] at h0
          cases h0)
        (fun hd h1 => by
          rw [show Tree.derives 1 (Tree.call args) = Tree.derives 2 (Tree.call args) from by simp [Tree.derives], hd] at h1
          cases h1)
        (fun _ _ _ e => nomatch e) (fun _ _ _ e => nomatch e) (fun _ _ _ e => nomatch e) (fun _ _ _ e => nomatch e) (fun _ _ _ e => nomatch e) (fun _ _ _ e => nomatch e)
        (fun _ _ e => nomatch e)
  | comma first rest ih1 ih2 =>
      refine Parsed.build _ (fun hd => by simp [Tree.derives] at hd) (fun hd _ => by simp [Tree.derives] at hd)
        (fun hd _ => by simp [Tree.derives] at hd)
        (fun _ _ _ e => nomatch e) (fun _ _ _ e => nomatch e) (fun _ _ _ e => nomatch e) (fun _ _ _ e => nomatch e) (fun _ _ _ e => nomatch e) (fun _ _ _ e => nomatch e) ?_
      intro a b e hd
      simp only [Tree.derives, Bool.and_eq_true] at hd
      exact parsesArguments_comma first rest (ih1.parses8 hd.1.2) (ih2.level9 hd.2)
  | index e i ih1 ih2 =>
      refine Parsed.build _ (fun hd => by simp [Tree.derives] at hd) ?_
        (fun hd h1 => by
          rw [show Tree.derives 1 (Tree.index e i) = Tree.derives 2 (Tree.index e i) from by simp [Tree.derives], hd] at h1
          cases h1)
        (fun _ _ _ e => nomatch e) (fun _ _ _ e => nomatch e) (fun _ _ _ e => nomatch e) (fun _ _ _ e => nomatch e) (fun _ _ _ e => nomatch e) (fun _ _ _ e => nomatch e)
        (fun _ _ e => nomatch e)
      intro hd _
      simp only [Tree.derives, Bool.and_eq_true] at hd
      exact postfixContinues_index e i (ih1.level1 hd.1.2) (ih2.parses8 hd.2)
  | post op e ih =>
      refine Parsed.build _ (fun hd => by simp [Tree.derives] at hd) ?_
        (fun hd h1 => by
          rw [show Tree.derives 1 (Tree.post op e) = Tree.derives 2 (Tree.post op e) from by simp [Tree.derives], hd] at h1
          cases h1)
        (fun _ _ _ e => nomatch e) (fun _ _ _ e => nomatch e) (fun _ _ _ e => nomatch e) (fun _ _ _ e => nomatch e) (fun _ _ _ e => nomatch e) (fun _ _ _ e => nomatch e)
        (fun _ _ e => nomatch e)
      intro hd _
      simp only [Tree.derives, Bool.and_eq_true] at hd
      exact postfixContinues_post op e (ih.level1 hd.2)
  | pre op e ih =>
      refine Parsed.build _ (fun hd => by simp [Tree.derives] at hd) (fun hd _ => by simp [Tree.derives] at hd) ?_
        (fun _ _ _ e => nomatch e) (fun _ _ _ e => nomatch e) (fun _ _ _ e => nomatch e) (fun _ _ _ e => nomatch e) (fun _ _ _ e => nomatch e) (fun _ _ _ e => nomatch e)
        (fun _ _ e => nomatch e)
      intro hd _
      simp only [Tree.derives, Bool.and_eq_true] at hd
      exact parses_pre op e (ih.level2 hd.2)
  | sizeofExpr e ih =>
      refine Parsed.build _ (fun hd => by simp [Tree.derives] at hd) (fun hd _ => by simp [Tree.derives] at hd) ?_
        (fun _ _ _ e => nomatch e) (fun _ _ _ e => nomatch e) (fun _ _ _ e => nomatch e) (fun _ _ _ e => nomatch e) (fun _ _ _ e => nomatch e) (fun _ _ _ e => nomatch e)
        (fun _ _ e => nomatch e)
      intro hd _
      simp only [Tree.derives, Bool.and_eq_true, Bool.not_eq_true'] at hd
      exact parses_sizeofExpr e hd.1.2 hd.2 (ih.level2 hd.1.2)
  | sizeofType spec stars =>
      refine Parsed.build _ (fun hd => by simp [Tree.derives] at hd) (fun hd _ => by simp [Tree.derives] at hd) ?_
        (fun _ _ _ e => nomatch e) (fun _ _ _ e => nomatch e) (fun _ _ _ e => nomatch e) (fun _ _ _ e => nomatch e) (fun _ _ _ e => nomatch e) (fun _ _ _ e => nomatch e)
        (fun _ _ e => nomatch e)
      intro hd _
      simp only [Tree.derives, Bool.and_eq_true] at hd
      exact parses_sizeofType spec stars hd.2
  | cast spec stars e ih =>
      refine Parsed.build _ (fun hd => by simp [Tree.derives] at hd) (fun hd _ => by simp [Tree.derives] at hd) ?_
        (fun _ _ _ e => nomatch e) (fun _ _ _ e => nomatch e) (fun _ _ _ e => nomatch e) (fun _ _ _ e => nomatch e) (fun _ _ _ e => nomatch e) (fun _ _ _ e => nomatch e)
        (fun _ _ e => nomatch e)
      intro hd _
      simp only [Tree.derives, Bool.and_eq_true] at hd
      exact parses_cast spec stars e hd.1.2 (ih.level2 hd.2)
  | binary op left right ihl ihx =>
      have hl3 := op.level_ge
      refine Parsed.build _
        (fun hd => by
          simp only [Tree.derives, Bool.and_eq_true, decide_eq_true_eq] at hd; omega)
        (fun hd _ => by
          simp only [Tree.derives, Bool.and_eq_true, decide_eq_true_eq] at hd; omega)
        (fun hd _ => by
          simp only [Tree.derives, Bool.and_eq_true, decide_eq_true_eq] at hd; omega)
        ?_ ?_ ?_ ?_ ?_ ?_ (fun _ _ e => nomatch e)
      · intro op1 l1 x1 e hop hd
        cases e
        simp only [Tree.derives, hop, Bool.and_eq_true, decide_eq_true_eq] at hd
        exact multiplicative_level.continues_binary op left right hop (ihl.level3 hd.1.2)
          (ihx.level2 hd.2)
      · intro op1 l1 x1 e hop hd
        cases e
        simp only [Tree.derives, hop, Bool.and_eq_true, decide_eq_true_eq] at hd
        exact additive_level.continues_binary op left right hop (ihl.level4 hd.1.2)
          (ihx.parses3 hd.2)
      · intro op1 l1 x1 e hop hd
        cases e
        simp only [Tree.derives, hop, Bool.and_eq_true, decide_eq_true_eq] at hd
        exact relational_level.continues_binary op left right hop (ihl.level5 hd.1.2)
          (ihx.parses4 hd.2)
      · intro op1 l1 x1 e hop hd
        cases e
        simp only [Tree.derives, hop, Bool.and_eq_true, decide_eq_true_eq] at hd
        exact equality_level.continues_binary op left right hop (ihl.level6 hd.1.2)
          (ihx.parses5 hd.2)
      · intro op1 l1 x1 e hop hd
        cases e
        simp only [Tree.derives, hop, Bool.and_eq_true, decide_eq_true_eq] at hd
        exact logicalAnd_level.continues_binary op left right hop (ihl.level7 hd.1.2)
          (ihx.parses6 hd.2)
      · intro op1 l1 x1 e hop hd
        cases e
        simp only [Tree.derives, hop, Bool.and_eq_true, decide_eq_true_eq] at hd
        exact expression_level.continues_binary op left right hop (ihl.level8 hd.1.2)
          (ihx.parses7 hd.2)

theorem expressionTree_parses (t : Tree) (hd : t.derives 8 = true) :
    Parses expressionTree 8 t :=
  (parsed_all t).parses8 hd

end Phase3

namespace Phase3

open Phase4 (bind_apply bind_ok pure_apply tokenAt)
open Phase4 (DONE SIZEOF OR AND EQL NEQ LEQ GEQ INC DEC ID INTEGER REAL STRING CHARACTER)

theorem kinds_ne_zero (t : Tree) :
    ∀ n : Nat, t.derives n = true → ∀ k ∈ t.kinds, k ≠ 0 := by
  induction t with
  | leaf kind =>
      intro n h k hk
      simp only [Tree.derives, Bool.or_eq_true, beq_iff_eq] at h
      simp only [Tree.kinds, List.mem_singleton] at hk
      subst hk
      rcases h with (((h | h) | h) | h) | h <;> subst h <;> decide
  | paren e ih =>
      intro n h k hk
      simp only [Tree.derives] at h
      simp only [Tree.kinds, List.mem_cons, List.mem_append, List.mem_singleton,
        List.not_mem_nil, or_false] at hk
      rcases hk with rfl | hk | rfl
      · decide
      · exact ih 8 h k hk
      · decide
  | call0 =>
      intro n _ k hk
      simp only [Tree.kinds, List.mem_cons, List.mem_singleton, List.not_mem_nil,
        or_false] at hk
      rcases hk with rfl | rfl | rfl <;> decide
  | call args ih =>
      intro n h k hk
      simp only [Tree.derives] at h
      simp only [Tree.kinds, List.mem_cons, List.mem_append, List.mem_singleton,
        List.not_mem_nil, or_false] at hk
      rcases hk with rfl | rfl | hk | rfl
      · decide
      · decide
      · exact ih 9 h k hk
      · decide
  | comma first rest ih1 ih2 =>
      intro n h k hk
      simp only [Tree.derives, Bool.and_eq_true] at h
      simp only [Tree.kinds, List.mem_cons, List.mem_append] at hk
      rcases hk with hk | rfl | hk
      · exact ih1 8 h.1.2 k hk
      · decide
      · exact ih2 9 h.2 k hk
  | index e i ih1 ih2 =>
      intro n h k hk
      simp only [Tree.derives, Bool.and_eq_true] at h
      simp only [Tree.kinds, List.mem_cons, List.mem_append, List.mem_singleton,
        List.not_mem_nil, or_false] at hk
      rcases hk with hk | rfl | hk | rfl
      · exact ih1 1 h.1.2 k hk
      · decide
      · exact ih2 8 h.2 k hk
      · decide
  | post op e ih =>
      intro n h k hk
      simp only [Tree.derives, Bool.and_eq_true] at h
      simp only [Tree.kinds, List.mem_append, List.mem_singleton] at hk
      rcases hk with hk | rfl
      · exact ih 1 h.2 k hk
      · cases op <;> decide
  | pre op e ih =>
      intro n h k hk
      simp only [Tree.derives, Bool.and_eq_true] at h
      simp only [Tree.kinds, List.mem_cons] at hk
      rcases hk with rfl | hk
      · cases op <;> decide
      · exact ih 2 h.2 k hk
  | sizeofExpr e ih =>
      intro n h k hk
      simp only [Tree.derives, Bool.and_eq_true] at h
      simp only [Tree.kinds, List.mem_cons] at hk
      rcases hk with rfl | hk
      · decide
      · exact ih 2 h.1.2 k hk
  | sizeofType spec stars =>
      intro n h k hk
      simp only [Tree.derives, Bool.and_eq_true] at h
      simp only [Tree.kinds, List.mem_cons, List.mem_append, List.mem_replicate,
        List.mem_singleton, List.not_mem_nil, or_false] at hk
      rcases hk with rfl | rfl | rfl | hk | rfl
      · decide
      · decide
      · exact isSpecifier_ne_zero3 h.2
      · rw [hk.2]; decide
      · decide
  | cast spec stars e ih =>
      intro n h k hk
      simp only [Tree.derives, Bool.and_eq_true] at h
      simp only [Tree.kinds, List.mem_cons, List.mem_append, List.mem_replicate] at hk
      rcases hk with rfl | rfl | hk | rfl | hk
      · decide
      · exact isSpecifier_ne_zero3 h.1.2
      · rw [hk.2]; decide
      · decide
      · exact ih 2 h.2 k hk
  | binary op left right ih1 ih2 =>
      intro n h k hk
      simp only [Tree.derives, Bool.and_eq_true] at h
      simp only [Tree.kinds, List.mem_cons, List.mem_append] at hk
      rcases hk with hk | rfl | hk
      · exact ih1 _ h.1.2 k hk
      · exact op.kind_ne_zero
      · exact ih2 _ h.2 k hk

theorem on_poised (ks : List Int) (hks : ∀ k ∈ ks, k ≠ 0) (c : Checker) (hc : c.Inv)
    (ht : c.toplevel ≠ none) :
    (Parser.on (ks.map (fun k => (⟨k, ""⟩ : Token))) "" c []).poised ks [] := by
  cases ks with
  | nil =>
      refine ⟨⟨?_, ?_⟩, ?_, rfl, hc, ht⟩
      · intro t h
        simp [Parser.on, Parser.pending] at h
      · intro _
        simp [Parser.on, Parser.pending]
      · rfl
  | cons k ks =>
      have hk : k ≠ 0 := hks k (List.mem_cons_self _ _)
      refine ⟨⟨?_, ?_⟩, ?_, rfl, hc, ht⟩
      · intro t h
        simp only [Parser.on, Parser.pending, List.map_cons, List.tail_cons, bne_self_eq_false,
          Bool.false_eq_true, if_false, List.nil_append, List.mem_map] at h
        obtain ⟨a, ha, rfl⟩ := h
        exact hks a (List.mem_cons_of_mem _ ha)
      · intro h0
        simp only [Parser.on, List.map_cons, tokenAt, List.getD_cons_zero] at h0
        exact absurd h0 hk
      · simp only [Parser.rest, Parser.on, Parser.pending, tokenAt, List.map_cons,
          List.getD_cons_zero, hk, if_false, List.tail_cons, bne_self_eq_false,
          Bool.false_eq_true, List.nil_append, List.map_map]
        congr 1
        exact List.map_id _

/-- No two parse trees of an expression have the same tokens. -/
theorem tree_unique (t1 t2 : Tree) (h1 : t1.derives 8 = true) (h2 : t2.derives 8 = true)
    (e : t1.kinds = t2.kinds) : t1 = t2 := by
  have hc : (SimpleC.openScope Checker.init).2.Inv := Checker.inv_init.openScope
  have ht : (SimpleC.openScope Checker.init).2.toplevel ≠ none := by decide
  obtain ⟨s0, hp⟩ : ∃ s0 : Parser, s0.poised t1.kinds [] :=
    ⟨_, on_poised t1.kinds (kinds_ne_zero t1 8 h1) _ hc ht⟩
  have hp1 : s0.poised (t1.kinds ++ []) [] := by rw [List.append_nil]; exact hp
  have hp2 : s0.poised (t2.kinds ++ []) [] := by rw [List.append_nil, ← e]; exact hp
  obtain ⟨a1, s1, e1, ha1, -⟩ := Res.returns_eq
    (expressionTree_parses t1 h1 (t1.weight + t2.weight + 9) s0 [] [] (by omega) hp1 rfl)
  obtain ⟨a2, s2, e2, ha2, -⟩ := Res.returns_eq
    (expressionTree_parses t2 h2 (t1.weight + t2.weight + 9) s0 [] [] (by omega) hp2 rfl)
  rw [e1] at e2
  cases e2
  exact ha1.symm.trans ha2

theorem sampleChecker_inv : sampleChecker.Inv :=
  Checker.Inv.runCalls
    [Call.openScope, Call.declareVariable "a" (Ty.scalar INT 0),
      Call.declareVariable "b" (Ty.scalar INT 0), Call.declareVariable "c" (Ty.scalar INT 0),
      Call.declareVariable "d" (Ty.scalar INT 0)] Checker.inv_init (by decide)

end Phase3

/-- C31: the operator names that `expression` of the parser of phase 3 prints
are the post-order listing of the operators of the parse tree of the tokens
it consumes, under the grammar whose levels from loosest to tightest are
logical or, logical and, equality, relational, additive, multiplicative,
prefix, postfix, primary; the left operand of a binary operator is of the
level of the operator and the right operand of the level below, so every
binary level is left-associative, and the operand of `sizeof` is no cast,
which is how the comment of `prefixExpression` reads `sizeof (type) ...`.
The scanner is assumed to return `DONE` only at the end of the input.
First, when `expression` returns, the tokens it has consumed are the tokens
of a parse tree of the nonterminal `expression`, and it has printed the
post-order listing of the operators of that tree, which is the tree that the
same functions return when each is made to return what it has parsed.  Second, for every parse
tree of the nonterminal `expression`: before the tokens of the tree, followed
by no token or by a token that continues no expression (none of `(`, `[`,
`++`, `--` and the binary operators), with a scope open in the checker and
with fuel of the weight of the tree plus nine, `expression` returns, has
consumed exactly the tokens of the tree and has printed exactly the
post-order listing of its operators.  Third, no two parse trees of the
nonterminal `expression` have the same tokens, so the parse tree of an
accepted sequence of tokens is the only one. -/
theorem expression_prints_postorder (fuel : Nat) (s : Phase3.Parser) (hw : s.wf) :
    (∀ s1 : Phase3.Parser, Phase3.expression fuel s = Res.ok () s1 →
      ∃ t : Phase3.Tree, t.derives 8 = true ∧ Phase3.expressionTree fuel s = Res.ok t s1 ∧
        s.rest = t.kinds ++ s1.rest ∧ s1.output = s.output ++ t.postorder) ∧
    (∀ (t : Phase3.Tree) (r : List Int), t.derives 8 = true → s.rest = t.kinds ++ r →
      Phase3.stops 8 r = true → s.checker.Inv → s.checker.toplevel ≠ none →
      t.weight + 9 ≤ fuel →
      ∃ s1 : Phase3.Parser, Phase3.expression fuel s = Res.ok () s1 ∧
        Phase3.expressionTree fuel s = Res.ok t s1 ∧ s1.wf ∧ s1.rest = r ∧
        s1.output = s.output ++ t.postorder) ∧
    (∀ t1 t2 : Phase3.Tree, t1.derives 8 = true → t2.derives 8 = true →
      t1.kinds = t2.kinds → t1 = t2) := by
  refine ⟨?_, ?_, Phase3.tree_unique⟩
  · intro s1 h
    have he := Phase3.expression_erase fuel s
    have hs := Phase3.expressionTree_sat fuel s hw
    rw [h, erase_apply] at he
    cases hr : Phase3.expressionTree fuel s with
    | ok t s2 =>
        rw [hr] at he hs
        have e : s1 = s2 := by
          have := he
          simp only [Res.bind, Res.ok.injEq, true_and] at this
          exact this
        subst e
        obtain ⟨hd, hstep⟩ := hs
        obtain ⟨-, hr1, ho1⟩ := hstep hw
        exact ⟨t, hd, rfl, hr1, ho1⟩
    | exit status log => rw [hr] at he; cases he
    | undefined => rw [hr] at he; cases he
    | timeout => rw [hr] at he; cases he
  · intro t r hd hrest hstop hinv htop hf
    have hp : s.poised (t.kinds ++ r) s.output := ⟨hw, hrest, rfl, hinv, htop⟩
    obtain ⟨t1, s1, e, ht, h1⟩ := Res.returns_eq
      (Phase3.expressionTree_parses t hd fuel s r s.output (by omega) hp hstop)
    subst ht
    refine ⟨s1, ?_, e, h1.1, h1.2.1, h1.2.2.1⟩
    rw [Phase3.expression_erase, erase_apply, e]
    rfl

theorem expression_prints_postorder_witness :
    (∃ s1 : Phase3.Parser,
      Phase3.expression 16
          (Phase3.Parser.on Phase3.sampleExpression "" Phase3.sampleChecker []) =
        Res.ok () s1 ∧
      Phase3.expressionTree 16
          (Phase3.Parser.on Phase3.sampleExpression "" Phase3.sampleChecker []) =
        Res.ok Phase3.sampleTree s1 ∧
      s1.wf ∧ s1.rest = [chr ';'] ∧ s1.output = ["sub", "mul", "add"]) ∧
    (∃ s1 : Phase3.Parser,
      Phase3.expression 22
          (Phase3.Parser.on Phase3.samplePostfix "" Phase3.sampleChecker []) =
        Res.ok () s1 ∧
      Phase3.expressionTree 22
          (Phase3.Parser.on Phase3.samplePostfix "" Phase3.sampleChecker []) =
        Res.ok (Phase3.Tree.post Phase3.PostOp.inc
          (Phase3.Tree.index (Phase3.Tree.leaf Phase4.ID) (Phase3.Tree.leaf Phase4.ID))) s1 ∧
      s1.wf ∧ s1.rest = [chr ';'] ∧ s1.output = ["index", "inc"]) :=
  ⟨(expression_prints_postorder 16
      (Phase3.Parser.on Phase3.sampleExpression "" Phase3.sampleChecker []) (by decide)).2.1
      Phase3.sampleTree [chr ';'] (by decide) (by decide) (by decide) Phase3.sampleChecker_inv
      (by decide) (by decide),
    (expression_prints_postorder 22
      (Phase3.Parser.on Phase3.samplePostfix "" Phase3.sampleChecker []) (by decide)).2.1
      (Phase3.Tree.post Phase3.PostOp.inc
        (Phase3.Tree.index (Phase3.Tree.leaf Phase4.ID) (Phase3.Tree.leaf Phase4.ID)))
      [chr ';'] (by decide) (by decide) (by decide) Phase3.sampleChecker_inv
      (by decide) (by decide)⟩

theorem Res.extends_refl {σ α : Type} (r : Res σ α) : r.extends r := Or.inr rfl

theorem Res.extends_timeout {σ α : Type} (r : Res σ α) : (Res.timeout : Res σ α).extends r :=
  Or.inl rfl

theorem Res.extends_bind {σ α β : Type} {r r1 : Res σ α} {f f1 : α → σ → Res σ β}
    (h : r.extends r1) (hf : ∀ a s, (f a s).extends (f1 a s)) :
    (r.bind f).extends (r1.bind f1) := by
  rcases h with h | h
  · rw [h]; exact Or.inl rfl
  · rw [h]
    cases r with
    | ok a s => exact hf a s
    | exit status log => exact Or.inr rfl
    | undefined => exact Or.inr rfl
    | timeout => exact Or.inl rfl

namespace Phase4

theorem extends_bind_apply {σ α β : Type} {X X1 : PM σ α} {g g1 : α → PM σ β} (s : σ)
    (h : (X s).extends (X1 s)) (hg : ∀ a s1, (g a s1).extends (g1 a s1)) :
    ((X >>= g) s).extends ((X1 >>= g1) s) :=
  Res.extends_bind h hg

theorem pointersLoop_extends :
    ∀ (fuel count : Nat) (s : Front),
      (pointersLoop fuel count s).extends (pointersLoop (fuel + 1) count s) := by
  intro fuel
  induction fuel with
  | zero => intro count s; exact Res.extends_timeout _
  | succ fuel ih =>
      intro count s
      conv_lhs => rw [pointersLoop]
      conv_rhs => rw [pointersLoop]
      repeat' first
        | exact ih _ _
        | exact Res.extends_refl _
        | refine extends_bind_apply _ ?_ (fun _ _ => ?_)
        | split_ifs

theorem pointers_extends (fuel : Nat) (s : Front) :
    (pointers fuel s).extends (pointers (fuel + 1) s) :=
  pointersLoop_extends fuel 0 s

theorem argumentsLoop_extends (operand operand1 : Bool → PM Front (Ty × Bool))
    (hop : ∀ lv s, (operand lv s).extends (operand1 lv s)) :
    ∀ (fuel : Nat) (types : List Ty) (lv : Bool) (s : Front),
      (argumentsLoop operand fuel types lv s).extends (argumentsLoop operand1 (fuel + 1) types lv s) := by
  intro fuel
  induction fuel with
  | zero => intro types lv s; exact Res.extends_timeout _
  | succ fuel ih =>
      intro types lv s
      conv_lhs => rw [argumentsLoop]
      conv_rhs => rw [argumentsLoop]
      repeat' first
        | with_reducible exact ih _ _ _
        | with_reducible exact hop _ _
        | with_reducible exact Res.extends_refl _
        | with_reducible refine extends_bind_apply _ ?_ (fun _ _ => ?_)
        | split_ifs

theorem postfixLoop_extends (operand operand1 : Bool → PM Front (Ty × Bool))
    (hop : ∀ lv s, (operand lv s).extends (operand1 lv s)) :
    ∀ (fuel : Nat) (left : Ty) (lv : Bool) (s : Front),
      (postfixLoop operand fuel left lv s).extends (postfixLoop operand1 (fuel + 1) left lv s) := by
  intro fuel
  induction fuel with
  | zero => intro left lv s; exact Res.extends_timeout _
  | succ fuel ih =>
      intro left lv s
      conv_lhs => rw [postfixLoop]
      conv_rhs => rw [postfixLoop]
      repeat' first
        | with_reducible exact ih _ _ _
        | with_reducible exact hop _ _
        | with_reducible exact Res.extends_refl _
        | with_reducible refine extends_bind_apply _ ?_ (fun _ _ => ?_)
        | split_ifs

theorem multiplicativeLoop_extends (operand operand1 : Bool → PM Front (Ty × Bool))
    (hop : ∀ lv s, (operand lv s).extends (operand1 lv s)) :
    ∀ (fuel : Nat) (left : Ty) (lv : Bool) (s : Front),
      (multiplicativeLoop operand fuel left lv s).extends (multiplicativeLoop operand1 (fuel + 1) left lv s) := by
  intro fuel
  induction fuel with
  | zero => intro left lv s; exact Res.extends_timeout _
  | succ fuel ih =>
      intro left lv s
      conv_lhs => rw [multiplicativeLoop]
      conv_rhs => rw [multiplicativeLoop]
      repeat' first
        | with_reducible exact ih _ _ _
        | with_reducible exact hop _ _
        | with_reducible exact Res.extends_refl _
        | with_reducible refine extends_bind_apply _ ?_ (fun _ _ => ?_)
        | split_ifs

theorem additiveLoop_extends (operand operand1 : Bool → PM Front (Ty × Bool))
    (hop : ∀ lv s, (operand lv s).extends (operand1 lv s)) :
    ∀ (fuel : Nat) (left : Ty) (lv : Bool) (s : Front),
      (additiveLoop operand fuel left lv s).extends (additiveLoop operand1 (fuel + 1) left lv s) := by
  intro fuel
  induction fuel with
  | zero => intro left lv s; exact Res.extends_timeout _
  | succ fuel ih =>
      intro left lv s
      conv_lhs => rw [additiveLoop]
      conv_rhs => rw [additiveLoop]
      repeat' first
        | with_reducible exact ih _ _ _
        | with_reducible exact hop _ _
        | with_reducible exact Res.extends_refl _
        | with_reducible refine extends_bind_apply _ ?_ (fun _ _ => ?_)
        | split_ifs

theorem relationalLoop_extends (operand operand1 : Bool → PM Front (Ty × Bool))
    (hop : ∀ lv s, (operand lv s).extends (operand1 lv s)) :
    ∀ (fuel : Nat) (left : Ty) (lv : Bool) (s : Front),
      (relationalLoop operand fuel left lv s).extends (relationalLoop operand1 (fuel + 1) left lv s) := by
  intro fuel
  induction fuel with
  | zero => intro left lv s; exact Res.extends_timeout _
  | succ fuel ih =>
      intro left lv s
      conv_lhs => rw [relationalLoop]
      conv_rhs => rw [relationalLoop]
      repeat' first
        | with_reducible exact ih _ _ _
        | with_reducible exact hop _ _
        | with_reducible exact Res.extends_refl _
        | with_reducible refine extends_bind_apply _ ?_ (fun _ _ => ?_)
        | split_ifs

theorem equalityLoop_extends (operand operand1 : Bool → PM Front (Ty × Bool))
    (hop : ∀ lv s, (operand lv s).extends (operand1 lv s)) :
    ∀ (fuel : Nat) (left : Ty) (lv : Bool) (s : Front),
      (equalityLoop operand fuel left lv s).extends (equalityLoop operand1 (fuel + 1) left lv s) := by
  intro fuel
  induction fuel with
  | zero => intro left lv s; exact Res.extends_timeout _
  | succ fuel ih =>
      intro left lv s
      conv_lhs => rw [equalityLoop]
      conv_rhs => rw [equalityLoop]
      repeat' first
        | with_reducible exact ih _ _ _
        | with_reducible exact hop _ _
        | with_reducible exact Res.extends_refl _
        | with_reducible refine extends_bind_apply _ ?_ (fun _ _ => ?_)
        | split_ifs

theorem logicalAndLoop_extends (operand operand1 : Bool → PM Front (Ty × Bool))
    (hop : ∀ lv s, (operand lv s).extends (operand1 lv s)) :
    ∀ (fuel : Nat) (left : Ty) (lv : Bool) (s : Front),
      (logicalAndLoop operand fuel left lv s).extends (logicalAndLoop operand1 (fuel + 1) left lv s) := by
  intro fuel
  induction fuel with
  | zero => intro left lv s; exact Res.extends_timeout _
  | succ fuel ih =>
      intro left lv s
      conv_lhs => rw [logicalAndLoop]
      conv_rhs => rw [logicalAndLoop]
      repeat' first
        | with_reducible exact ih _ _ _
        | with_reducible exact hop _ _
        | with_reducible exact Res.extends_refl _
        | with_reducible refine extends_bind_apply _ ?_ (fun _ _ => ?_)
        | split_ifs

theorem expressionLoop_extends (operand operand1 : Bool → PM Front (Ty × Bool))
    (hop : ∀ lv s, (operand lv s).extends (operand1 lv s)) :
    ∀ (fuel : Nat) (left : Ty) (lv : Bool) (s : Front),
      (expressionLoop operand fuel left lv s).extends (expressionLoop operand1 (fuel + 1) left lv s) := by
  intro fuel
  induction fuel with
  | zero => intro left lv s; exact Res.extends_timeout _
  | succ fuel ih =>
      intro left lv s
      conv_lhs => rw [expressionLoop]
      conv_rhs => rw [expressionLoop]
      repeat' first
        | with_reducible exact ih _ _ _
        | with_reducible exact hop _ _
        | with_reducible exact Res.extends_refl _
        | with_reducible refine extends_bind_apply _ ?_ (fun _ _ => ?_)
        | split_ifs

theorem primaryExpression_extends_step (fuel : Nat)
    (ih9 : ∀ lv s, (expression fuel lv s).extends (expression (fuel + 1) lv s)) (lv : Bool) (s : Front) :
    (primaryExpression (fuel + 1) lv s).extends (primaryExpression (fuel + 1 + 1) lv s) := by
  conv_lhs => rw [primaryExpression]
  conv_rhs => rw [primaryExpression]
  repeat' first
    | with_reducible exact ih9 _ _
    | with_reducible exact argumentsLoop_extends _ _ ih9 _ _ _ _
    | with_reducible exact Res.extends_refl _
    | with_reducible refine extends_bind_apply _ ?_ (fun _ _ => ?_)
    | split_ifs
    | split

theorem postfixExpression_extends_step (fuel : Nat)
    (ih1 : ∀ lv s, (primaryExpression fuel lv s).extends (primaryExpression (fuel + 1) lv s))
    (ih9 : ∀ lv s, (expression fuel lv s).extends (expression (fuel + 1) lv s)) (lv : Bool) (s : Front) :
    (postfixExpression (fuel + 1) lv s).extends (postfixExpression (fuel + 1 + 1) lv s) := by
  conv_lhs => rw [postfixExpression]
  conv_rhs => rw [postfixExpression]
  repeat' first
    | with_reducible exact ih1 _ _
    | with_reducible exact postfixLoop_extends _ _ ih9 _ _ _ _
    | with_reducible refine extends_bind_apply _ ?_ (fun _ _ => ?_)

theorem prefixExpression_extends_step (fuel : Nat)
    (ih2 : ∀ lv s, (postfixExpression fuel lv s).extends (postfixExpression (fuel + 1) lv s))
    (ih3 : ∀ lv s, (prefixExpression fuel lv s).extends (prefixExpression (fuel + 1) lv s)) (lv : Bool) (s : Front) :
    (prefixExpression (fuel + 1) lv s).extends (prefixExpression (fuel + 1 + 1) lv s) := by
  conv_lhs => rw [prefixExpression]
  conv_rhs => rw [prefixExpression]
  repeat' first
    | with_reducible exact ih2 _ _
    | with_reducible exact ih3 _ _
    | with_reducible exact pointers_extends _ _
    | with_reducible exact Res.extends_refl _
    | with_reducible refine extends_bind_apply _ ?_ (fun _ _ => ?_)
    | split_ifs

theorem multiplicativeExpression_extends_step (fuel : Nat)
    (ih3 : ∀ lv s, (prefixExpression fuel lv s).extends (prefixExpression (fuel + 1) lv s)) (lv : Bool) (s : Front) :
    (multiplicativeExpression (fuel + 1) lv s).extends (multiplicativeExpression (fuel + 1 + 1) lv s) := by
  conv_lhs => rw [multiplicativeExpression]
  conv_rhs => rw [multiplicativeExpression]
  repeat' first
    | with_reducible exact ih3 _ _
    | with_reducible exact multiplicativeLoop_extends _ _ ih3 _ _ _ _
    | with_reducible refine extends_bind_apply _ ?_ (fun _ _ => ?_)

theorem additiveExpression_extends_step (fuel : Nat)
    (ih4 : ∀ lv s, (multiplicativeExpression fuel lv s).extends (multiplicativeExpression (fuel + 1) lv s)) (lv : Bool) (s : Front) :
    (additiveExpression (fuel + 1) lv s).extends (additiveExpression (fuel + 1 + 1) lv s) := by
  conv_lhs => rw [additiveExpression]
  conv_rhs => rw [additiveExpression]
  repeat' first
    | with_reducible exact ih4 _ _
    | with_reducible exact additiveLoop_extends _ _ ih4 _ _ _ _
    | with_reducible refine extends_bind_apply _ ?_ (fun _ _ => ?_)

theorem relationalExpression_extends_step (fuel : Nat)
    (ih5 : ∀ lv s, (additiveExpression fuel lv s).extends (additiveExpression (fuel + 1) lv s)) (lv : Bool) (s : Front) :
    (relationalExpression (fuel + 1) lv s).extends (relationalExpression (fuel + 1 + 1) lv s) := by
  conv_lhs => rw [relationalExpression]
  conv_rhs => rw [relationalExpression]
  repeat' first
    | with_reducible exact ih5 _ _
    | with_reducible exact relationalLoop_extends _ _ ih5 _ _ _ _
    | with_reducible refine extends_bind_apply _ ?_ (fun _ _ => ?_)

theorem equalityExpression_extends_step (fuel : Nat)
    (ih6 : ∀ lv s, (relationalExpression fuel lv s).extends (relationalExpression (fuel + 1) lv s)) (lv : Bool) (s : Front) :
    (equalityExpression (fuel + 1) lv s).extends (equalityExpression (fuel + 1 + 1) lv s) := by
  conv_lhs => rw [equalityExpression]
  conv_rhs => rw [equalityExpression]
  repeat' first
    | with_reducible exact ih6 _ _
    | with_reducible exact equalityLoop_extends _ _ ih6 _ _ _ _
    | with_reducible refine extends_bind_apply _ ?_ (fun _ _ => ?_)

theorem logicalAndExpression_extends_step (fuel : Nat)
    (ih7 : ∀ lv s, (equalityExpression fuel lv s).extends (equalityExpression (fuel + 1) lv s)) (lv : Bool) (s : Front) :
    (logicalAndExpression (fuel + 1) lv s).extends (logicalAndExpression (fuel + 1 + 1) lv s) := by
  conv_lhs => rw [logicalAndExpression]
  conv_rhs => rw [logicalAndExpression]
  repeat' first
    | with_reducible exact ih7 _ _
    | with_reducible exact logicalAndLoop_extends _ _ ih7 _ _ _ _
    | with_reducible refine extends_bind_apply _ ?_ (fun _ _ => ?_)

theorem expression_extends_step (fuel : Nat)
    (ih8 : ∀ lv s, (logicalAndExpression fuel lv s).extends (logicalAndExpression (fuel + 1) lv s)) (lv : Bool) (s : Front) :
    (expression (fuel + 1) lv s).extends (expression (fuel + 1 + 1) lv s) := by
  conv_lhs => rw [expression]
  conv_rhs => rw [expression]
  repeat' first
    | with_reducible exact ih8 _ _
    | with_reducible exact expressionLoop_extends _ _ ih8 _ _ _ _
    | with_reducible refine extends_bind_apply _ ?_ (fun _ _ => ?_)

theorem expressions_extend (fuel : Nat) :
    (∀ lv s, (primaryExpression fuel lv s).extends (primaryExpression (fuel + 1) lv s)) ∧
    (∀ lv s, (postfixExpression fuel lv s).extends (postfixExpression (fuel + 1) lv s)) ∧
    (∀ lv s, (prefixExpression fuel lv s).extends (prefixExpression (fuel + 1) lv s)) ∧
    (∀ lv s, (multiplicativeExpression fuel lv s).extends (multiplicativeExpression (fuel + 1) lv s)) ∧
    (∀ lv s, (additiveExpression fuel lv s).extends (additiveExpression (fuel + 1) lv s)) ∧
    (∀ lv s, (relationalExpression fuel lv s).extends (relationalExpression (fuel + 1) lv s)) ∧
    (∀ lv s, (equalityExpression fuel lv s).extends (equalityExpression (fuel + 1) lv s)) ∧
    (∀ lv s, (logicalAndExpression fuel lv s).extends (logicalAndExpression (fuel + 1) lv s)) ∧
    (∀ lv s, (expression fuel lv s).extends (expression (fuel + 1) lv s)) := by
  induction fuel with
  | zero =>
      exact ⟨fun _ _ => Res.extends_timeout _, fun _ _ => Res.extends_timeout _,
        fun _ _ => Res.extends_timeout _, fun _ _ => Res.extends_timeout _,
        fun _ _ => Res.extends_timeout _, fun _ _ => Res.extends_timeout _,
        fun _ _ => Res.extends_timeout _, fun _ _ => Res.extends_timeout _,
        fun _ _ => Res.extends_timeout _⟩
  | succ fuel ih =>
    obtain ⟨ih1, ih2, ih3, ih4, ih5, ih6, ih7, ih8, ih9⟩ := ih
    exact ⟨primaryExpression_extends_step fuel ih9, postfixExpression_extends_step fuel ih1 ih9,
      prefixExpression_extends_step fuel ih2 ih3, multiplicativeExpression_extends_step fuel ih3,
      additiveExpression_extends_step fuel ih4, relationalExpression_extends_step fuel ih5,
      equalityExpression_extends_step fuel ih6, logicalAndExpression_extends_step fuel ih7,
      expression_extends_step fuel ih8⟩

theorem expression_extends (fuel : Nat) (lv : Bool) (s : Front) :
    (expression fuel lv s).extends (expression (fuel + 1) lv s) :=
  (expressions_extend fuel).2.2.2.2.2.2.2.2 lv s

theorem assignment_extends (fuel : Nat) (lv : Bool) (s : Front) :
    (assignment fuel lv s).extends (assignment (fuel + 1) lv s) := by
  unfold assignment
  repeat' first
    | with_reducible exact expression_extends _ _ _
    | with_reducible exact Res.extends_refl _
    | with_reducible refine extends_bind_apply _ ?_ (fun _ _ => ?_)
    | split_ifs

theorem declarator_extends (fuel : Nat) (typespec : Int) (s : Front) :
    (declarator fuel typespec s).extends (declarator (fuel + 1) typespec s) := by
  unfold declarator pointers
  repeat' first
    | with_reducible exact pointersLoop_extends _ _ _
    | with_reducible exact Res.extends_refl _
    | with_reducible refine extends_bind_apply _ ?_ (fun _ _ => ?_)

theorem declarationLoop_extends (typespec : Int) :
    ∀ (fuel : Nat) (s : Front),
      (declarationLoop typespec fuel s).extends (declarationLoop typespec (fuel + 1) s) := by
  intro fuel
  induction fuel with
  | zero => intro s; exact Res.extends_timeout _
  | succ fuel ih =>
      intro s
      conv_lhs => rw [declarationLoop]
      conv_rhs => rw [declarationLoop]
      repeat' first
        | with_reducible exact ih _
        | with_reducible exact declarator_extends _ _ _
        | with_reducible exact Res.extends_refl _
        | with_reducible refine extends_bind_apply _ ?_ (fun _ _ => ?_)
        | split_ifs

theorem declaration_extends (fuel : Nat) (s : Front) :
    (declaration fuel s).extends (declaration (fuel + 1) s) := by
  unfold declaration
  repeat' first
    | with_reducible exact declarator_extends _ _ _
    | with_reducible exact declarationLoop_extends _ _ _
    | with_reducible exact Res.extends_refl _
    | with_reducible refine extends_bind_apply _ ?_ (fun _ _ => ?_)

theorem declarations_extends :
    ∀ (fuel : Nat) (s : Front), (declarations fuel s).extends (declarations (fuel + 1) s) := by
  intro fuel
  induction fuel with
  | zero => intro s; exact Res.extends_timeout _
  | succ fuel ih =>
      intro s
      conv_lhs => rw [declarations]
      conv_rhs => rw [declarations]
      repeat' first
        | with_reducible exact ih _
        | with_reducible exact declaration_extends _ _
        | with_reducible exact Res.extends_refl _
        | with_reducible refine extends_bind_apply _ ?_ (fun _ _ => ?_)
        | split_ifs

theorem parameter_extends (fuel : Nat) (s : Front) :
    (parameter fuel s).extends (parameter (fuel + 1) s) := by
  unfold parameter pointers
  repeat' first
    | with_reducible exact pointersLoop_extends _ _ _
    | with_reducible exact Res.extends_refl _
    | with_reducible refine extends_bind_apply _ ?_ (fun _ _ => ?_)

theorem parametersLoop_extends :
    ∀ (fuel : Nat) (params : Parameters) (s : Front),
      (parametersLoop fuel params s).extends (parametersLoop (fuel + 1) params s) := by
  intro fuel
  induction fuel with
  | zero => intro params s; exact Res.extends_timeout _
  | succ fuel ih =>
      intro params s
      conv_lhs => rw [parametersLoop]
      conv_rhs => rw [parametersLoop]
      repeat' first
        | with_reducible exact ih _ _
        | with_reducible exact parameter_extends _ _
        | with_reducible exact Res.extends_refl _
        | with_reducible refine extends_bind_apply _ ?_ (fun _ _ => ?_)
        | split_ifs

theorem parameters_extends (fuel : Nat) (s : Front) :
    (parameters fuel s).extends (parameters (fuel + 1) s) := by
  unfold parameters
  repeat' first
    | with_reducible exact parameter_extends _ _
    | with_reducible exact parametersLoop_extends _ _ _
    | with_reducible exact Res.extends_refl _
    | with_reducible refine extends_bind_apply _ ?_ (fun _ _ => ?_)
    | split_ifs

theorem globalDeclarator_extends (fuel : Nat) (typespec : Int) (s : Front) :
    (globalDeclarator fuel typespec s).extends (globalDeclarator (fuel + 1) typespec s) := by
  unfold globalDeclarator pointers
  repeat' first
    | with_reducible exact pointersLoop_extends _ _ _
    | with_reducible exact parameters_extends _ _
    | with_reducible exact Res.extends_refl _
    | with_reducible refine extends_bind_apply _ ?_ (fun _ _ => ?_)
    | split_ifs

theorem remainingDeclaratorsLoop_extends (typespec : Int) :
    ∀ (fuel : Nat) (s : Front),
      (remainingDeclaratorsLoop typespec fuel s).extends
        (remainingDeclaratorsLoop typespec (fuel + 1) s) := by
  intro fuel
  induction fuel with
  | zero => intro s; exact Res.extends_timeout _
  | succ fuel ih =>
      intro s
      conv_lhs => rw [remainingDeclaratorsLoop]
      conv_rhs => rw [remainingDeclaratorsLoop]
      repeat' first
        | with_reducible exact ih _
        | with_reducible exact globalDeclarator_extends _ _ _
        | with_reducible exact Res.extends_refl _
        | with_reducible refine extends_bind_apply _ ?_ (fun _ _ => ?_)
        | split_ifs

theorem remainingDeclarators_extends (fuel : Nat) (typespec : Int) (s : Front) :
    (remainingDeclarators fuel typespec s).extends
      (remainingDeclarators (fuel + 1) typespec s) := by
  unfold remainingDeclarators
  repeat' first
    | with_reducible exact remainingDeclaratorsLoop_extends _ _ _
    | with_reducible exact Res.extends_refl _
    | with_reducible refine extends_bind_apply _ ?_ (fun _ _ => ?_)

theorem statements_extend (fuel : Nat) :
    (∀ k s, (Lexical.statementAt k fuel s).extends (Lexical.statementAt k (fuel + 1) s)) ∧
    (∀ k s, (Lexical.statementsAt k fuel s).extends (Lexical.statementsAt k (fuel + 1) s)) := by
  induction fuel with
  | zero => exact ⟨fun _ _ => Res.extends_timeout _, fun _ _ => Res.extends_timeout _⟩
  | succ fuel ih =>
    obtain ⟨ih1, ih2⟩ := ih
    refine ⟨?_, ?_⟩ <;> intro k s
    · conv_lhs => rw [Lexical.statementAt]
      conv_rhs => rw [Lexical.statementAt]
      repeat' first
        | with_reducible exact ih1 _ _
        | with_reducible exact ih2 _ _
        | with_reducible exact declarations_extends _ _
        | with_reducible exact expression_extends _ _ _
        | with_reducible exact assignment_extends _ _ _
        | with_reducible exact Res.extends_refl _
        | with_reducible refine extends_bind_apply _ ?_ (fun _ _ => ?_)
        | split_ifs
    · conv_lhs => rw [Lexical.statementsAt]
      conv_rhs => rw [Lexical.statementsAt]
      repeat' first
        | with_reducible exact ih1 _ _
        | with_reducible exact ih2 _ _
        | with_reducible exact Res.extends_refl _
        | with_reducible refine extends_bind_apply _ ?_ (fun _ _ => ?_)
        | split_ifs

theorem topLevelDeclaration_extends (fuel : Nat) (s : Front) :
    (Lexical.topLevelDeclaration fuel s).extends (Lexical.topLevelDeclaration (fuel + 1) s) := by
  unfold Lexical.topLevelDeclaration pointers
  repeat' first
    | with_reducible exact pointersLoop_extends _ _ _
    | with_reducible exact parameters_extends _ _
    | with_reducible exact declarations_extends _ _
    | with_reducible exact (statements_extend _).2 _ _
    | with_reducible exact remainingDeclarators_extends _ _ _
    | with_reducible exact Res.extends_refl _
    | with_reducible refine extends_bind_apply _ ?_ (fun _ _ => ?_)
    | split_ifs

theorem mainLoop_extends :
    ∀ (fuel : Nat) (s : Front),
      (Lexical.mainLoop fuel s).extends (Lexical.mainLoop (fuel + 1) s) := by
  intro fuel
  induction fuel with
  | zero => intro s; exact Res.extends_timeout _
  | succ fuel ih =>
      intro s
      conv_lhs => rw [Lexical.mainLoop]
      conv_rhs => rw [Lexical.mainLoop]
      repeat' first
        | with_reducible exact ih _
        | with_reducible exact topLevelDeclaration_extends _ _
        | with_reducible exact Res.extends_refl _
        | with_reducible refine extends_bind_apply _ ?_ (fun _ _ => ?_)
        | split_ifs

theorem lexical_main_extends (fuel : Nat) (input : List Token) :
    (Lexical.main fuel input).extends (Lexical.main (fuel + 1) input) := by
  unfold Lexical.main
  repeat' first
    | with_reducible exact mainLoop_extends _ _
    | with_reducible exact Res.extends_refl _
    | with_reducible refine extends_bind_apply _ ?_ (fun _ _ => ?_)

theorem lexical_main_stable (input : List Token) (fuel : Nat)
    (hf : 9 * input.length + 12 ≤ fuel) :
    ∀ extra : Nat, Lexical.main (fuel + extra) input = Lexical.main fuel input := by
  intro extra
  induction extra with
  | zero => rfl
  | succ extra ih =>
      rcases lexical_main_extends (fuel + extra) input with h | h
      · exact absurd h (Res.halts_ne_timeout (lexical_main_halts (fuel + extra) input (by omega)))
      · rw [← Nat.add_assoc, h, ih]

end Phase4
/-- C40: the parser of phase 4 terminates on every finite sequence of tokens
(after which the scanner returns `DONE` for ever).  With fuel
`9 * n + 12` or more for an input of `n` tokens the run of `main` does not stop
for lack of fuel, and its outcome is the same for every larger amount of fuel.
For every state of the parser with at most `n` tokens left, each iteration of a
loop ends and, unless it leaves the parser by `exit` or by a crash, has
consumed at least one token: a top-level declaration, a declaration, a
statement, a global declarator, a parameter, the star of `pointers`, and an
expression of each of the nine levels, which is the operand of the loop of the
level above. -/
theorem parser_terminates (input : List Token) (fuel : Nat)
    (hf : 9 * input.length + 12 ≤ fuel) :
    Phase4.main fuel input ≠ Res.timeout ∧
    (∀ extra : Nat, Phase4.main (fuel + extra) input = Phase4.main fuel input) ∧
    (∀ s : Phase4.Front, s.size ≤ input.length →
      (Phase4.topLevelDeclaration fuel ⟨s, 0⟩).halts (fun _ p => p.front.size < s.size) ∧
      (∀ k : Nat, (Phase4.statement fuel ⟨s, (k : Int)⟩).halts
        (fun _ p => p.front.size < s.size)) ∧
      (Phase4.declaration fuel s).halts (fun _ s1 => s1.size < s.size) ∧
      (∀ typespec, (Phase4.globalDeclarator fuel typespec s).halts
        (fun _ s1 => s1.size < s.size)) ∧
      (Phase4.parameter fuel s).halts (fun _ s1 => s1.size < s.size) ∧
      (Phase4.match_ (chr '*') s).halts (fun _ s1 => s1.size < s.size) ∧
      (∀ lv, (Phase4.expression fuel lv s).halts (fun _ s1 => s1.size < s.size)) ∧
      (∀ lv, (Phase4.logicalAndExpression fuel lv s).halts (fun _ s1 => s1.size < s.size)) ∧
      (∀ lv, (Phase4.equalityExpression fuel lv s).halts (fun _ s1 => s1.size < s.size)) ∧
      (∀ lv, (Phase4.relationalExpression fuel lv s).halts (fun _ s1 => s1.size < s.size)) ∧
      (∀ lv, (Phase4.additiveExpression fuel lv s).halts (fun _ s1 => s1.size < s.size)) ∧
      (∀ lv, (Phase4.multiplicativeExpression fuel lv s).halts
        (fun _ s1 => s1.size < s.size)) ∧
      (∀ lv, (Phase4.prefixExpression fuel lv s).halts (fun _ s1 => s1.size < s.size)) ∧
      (∀ lv, (Phase4.postfixExpression fuel lv s).halts (fun _ s1 => s1.size < s.size)) ∧
      (∀ lv, (Phase4.primaryExpression fuel lv s).halts (fun _ s1 => s1.size < s.size))) := by
  refine ⟨?_, ?_, ?_⟩
  · rw [Phase4.main_refines]
    have h := Phase4.lexical_main_halts fuel input hf
    intro e
    cases hr : Phase4.Lexical.main fuel input with
    | ok a s => rw [hr] at e; cases e
    | exit status log => rw [hr] at e; cases e
    | undefined => rw [hr] at e; cases e
    | timeout => rw [hr] at h; exact h
  · intro extra
    rw [Phase4.main_refines, Phase4.main_refines, Phase4.lexical_main_stable input fuel hf extra]
  · intro s hs
    obtain ⟨e1, e2, e3, e4, e5, e6, e7, e8, e9⟩ := Phase4.expressions_halt fuel
    refine ⟨?_, ?_, Phase4.declaration_halts fuel s (by omega),
      fun typespec => Phase4.globalDeclarator_halts fuel typespec s (by omega),
      Phase4.parameter_halts fuel s (by omega), Phase4.match_halts _ s (by decide),
      fun lv => e9 lv s (by omega), fun lv => e8 lv s (by omega), fun lv => e7 lv s (by omega),
      fun lv => e6 lv s (by omega), fun lv => e5 lv s (by omega), fun lv => e4 lv s (by omega),
      fun lv => e3 lv s (by omega), fun lv => e2 lv s (by omega), fun lv => e1 lv s (by omega)⟩
    · rw [Phase4.topLevelDeclaration_refines, Phase4.lift_halts]
      exact Phase4.topLevelDeclaration_halts fuel s (by omega)
    · intro k
      rw [(Phase4.statement_refines fuel).1 k s, Phase4.lift_halts]
      exact (Phase4.statements_halt fuel).1 k s (by omega)

theorem parser_terminates_witness :
    Phase4.main 39 [⟨INT, "int"⟩, ⟨Phase4.ID, "x"⟩, ⟨chr ';', ";"⟩] ≠ Res.timeout ∧
    (∀ extra : Nat, Phase4.main (39 + extra) [⟨INT, "int"⟩, ⟨Phase4.ID, "x"⟩, ⟨chr ';', ";"⟩] =
      Phase4.main 39 [⟨INT, "int"⟩, ⟨Phase4.ID, "x"⟩, ⟨chr ';', ";"⟩]) :=
  ⟨(parser_terminates [⟨INT, "int"⟩, ⟨Phase4.ID, "x"⟩, ⟨chr ';', ";"⟩] 39 (by decide)).1,
    (parser_terminates [⟨INT, "int"⟩, ⟨Phase4.ID, "x"⟩, ⟨chr ';', ";"⟩] 39 (by decide)).2.1⟩

end SimpleC
